import Mathlib

/-!
# The graph builder of `mjolnir/graphbuilder.cc`

A shallow embedding of the graph construction pipeline: the node-usage bitmap
(`NodeIdTable`), the way and node callbacks of the two parsing passes, the edge
constructor (`ConstructEdges`), the tile partitioner (`TileNodes`) and the tile writer
(`BuildTileSet` with `GetOpposingIndex` and `ComputeNodePair`).

Conventions of the embedding.

* A C++ exception and an undefined access are explicit results: every operation
  that can throw, index past the end of a `std::vector` or dereference the `end()`
  iterator that a failed `find` returns, returns `Except Failure _`.  The use of a
  `std::vector` iterator after the vector has grown beyond its reserved capacity
  (`TileNodes`) is such an undefined access.
* What a read through a dangling reference comes to is not fixed by the source.  The
  key of `edge_offset_map` is a pair of such references; the outcome of every lookup
  of it is a parameter of the embedding (`TileEnv.find_key`), and one of the outcomes
  is the undefined access.
* `uint64_t` node ids and bitmap words are natural numbers.  The only arithmetic
  on them is `/ 64`, `% 64`, `1 << (id % 64)` and a bitwise or of two words, none
  of which can leave the 64-bit range, so no reduction modulo `2^64` appears.
  The `uint32_t` counters `edgeindex` and `wayindex` of `ConstructEdges` are
  reduced modulo `2^32` where they are incremented.
* Latitudes and longitudes are `double`s that the builder only stores and copies;
  they are carried as values of the type `Coord`.
-/

namespace valhalla.mjolnir

/-- The ways in which the modelled code can stop without a result. -/
inductive Failure where
  /-- A thrown `std::runtime_error` with its message. -/
  | runtime_error (what : String)
  /-- The exception thrown by `std::stoi` or `std::stof` on an unusable string. -/
  | invalid_argument (what : String)
  /-- A `std::vector` subscript past the end of the vector, or a dereference of the
  `end()` iterator that a failed `find` returns (undefined behaviour). -/
  | out_of_bounds
deriving DecidableEq, Repr

deriving instance DecidableEq for Except

/-- The constant `const uint64_t kMaxOSMNodeId = 4000000000;`. -/
def kMaxOSMNodeId : Nat := 4000000000

/-- A `std::vector<uint64_t>` made by `resize(n, 0)`: its size, and the words that were
assigned afterwards as pairs of index and value.  A word that was never assigned is `0`.
(The builder's bitmaps have 62,500,001 words; listing only the assigned ones keeps the
model executable.) -/
structure WordVector where
  size : Nat
  assigned : List (Nat × Nat)
deriving DecidableEq, Repr

namespace WordVector

/-- The vector after `resize(n, 0)` on an empty vector. -/
def zeros (n : Nat) : WordVector := { size := n, assigned := [] }

/-- The value recorded for index `i` in a list of assignments, `0` if there is none. -/
def lookup (l : List (Nat × Nat)) (i : Nat) : Nat :=
  match l with
  | [] => 0
  | (k, v) :: rest => if k = i then v else lookup rest i

/-- The list of assignments after assigning `v` to index `i`. -/
def store (l : List (Nat × Nat)) (i v : Nat) : List (Nat × Nat) :=
  match l with
  | [] => [(i, v)]
  | (k, x) :: rest => if k = i then (k, v) :: rest else (k, x) :: store rest i v

/-- The read `v[i]`; `none` when `i` is past the end. -/
def get? (v : WordVector) (i : Nat) : Option Nat :=
  if i < v.size then some (lookup v.assigned i) else none

/-- The write `v[i] = w` for an index within the vector. -/
def set (v : WordVector) (i w : Nat) : WordVector :=
  { v with assigned := store v.assigned i w }

end WordVector

/-- The class `NodeIdTable`: the largest id and the vector of 64-bit words. -/
structure NodeIdTable where
  maxosmid_ : Nat
  bitmarkers_ : WordVector
deriving DecidableEq, Repr

namespace NodeIdTable

/-- The constructor `NodeIdTable::NodeIdTable(maxosmid)`:
`bitmarkers_.resize((maxosmid / 64) + 1, 0)`. -/
def new (maxosmid : Nat) : NodeIdTable :=
  { maxosmid_ := maxosmid, bitmarkers_ := WordVector.zeros (maxosmid / 64 + 1) }

/-- The method `NodeIdTable::set(id)`: throws when `id > maxosmid_`, otherwise
`bitmarkers_[id / 64] |= 1 << (id % 64)`. -/
def set (t : NodeIdTable) (id : Nat) : Except Failure NodeIdTable :=
  if id > t.maxosmid_ then
    .error (.runtime_error "NodeIDTable - OSM Id exceeds max specified")
  else
    match t.bitmarkers_.get? (id / 64) with
    | none => .error .out_of_bounds
    | some w =>
      .ok { t with bitmarkers_ := t.bitmarkers_.set (id / 64) (w ||| (1 <<< (id % 64))) }

/-- The method `NodeIdTable::IsUsed(id)`: `bitmarkers_[id / 64] & (1 << (id % 64))`,
converted to `bool`.  There is no comparison with `maxosmid_`; the subscript is
unchecked. -/
def IsUsed (t : NodeIdTable) (id : Nat) : Except Failure Bool :=
  match t.bitmarkers_.get? (id / 64) with
  | none => .error .out_of_bounds
  | some w => .ok ((w &&& (1 <<< (id % 64))) != 0)

/-- Bit `b` of word `w` of the table (`false` past the end of the vector). -/
def bit (t : NodeIdTable) (w b : Nat) : Bool :=
  ((t.bitmarkers_.get? w).getD 0).testBit b

/-- The vector has the size the constructor gave it. -/
def WellSized (t : NodeIdTable) : Prop :=
  t.bitmarkers_.size = t.maxosmid_ / 64 + 1

/-- The id is marked: `IsUsed` returns `true`. -/
def Marked (t : NodeIdTable) (id : Nat) : Prop :=
  t.IsUsed id = .ok true

instance decMarked (t : NodeIdTable) (id : Nat) : Decidable (t.Marked id) :=
  inferInstanceAs (Decidable (t.IsUsed id = .ok true))

/-- A sequence of `set` calls, in order, stopping at the first one that throws. -/
def setAll (t : NodeIdTable) : List Nat → Except Failure NodeIdTable
  | [] => .ok t
  | id :: ids =>
    match t.set id with
    | .error e => .error e
    | .ok t1 => setAll t1 ids

end NodeIdTable

/-! ## The intermediate model

`OSMNode`, `OSMWay`, `Edge`, `GraphId` and `PointLL` are declared in headers that
are not part of the sources at hand; their fields are the ones `graphbuilder.cc`
reads and writes through accessors and setters. -/

/-- A `double` or `float` that is stored and copied, never computed with. -/
abbrev Coord := Int

/-- The tag set `Tags` (a `std::map<std::string, std::string>`), in iteration order. -/
abbrev Tags := List (String × String)

/-- A latitude, longitude pair (`midgard::PointLL`). -/
structure PointLL where
  lat : Coord
  lng : Coord
deriving DecidableEq, Repr

/-- Modelled from the spec: `GraphId` is the composite `(tile_id, level, local_index)`;
its bit layout is declared in `baldr/graphid.h`, which is absent. -/
structure GraphId where
  tileid : Nat
  level : Nat
  id : Nat
deriving DecidableEq, Repr

/-- Modelled from the spec: `OSMNode` holds the position, the flag bits, the mode mask,
the list of incident edge indices and the assigned `GraphId`; `graphid_` is `none`
while the node carries the default-constructed (not valid) id. -/
structure OSMNode where
  latlng_ : PointLL
  edges_ : List Nat
  graphid_ : Option GraphId
  exit_to_ : Bool
  ref_ : Bool
  gate_ : Bool
  bollard_ : Bool
  modes_mask_ : Int
deriving DecidableEq, Repr

namespace OSMNode

/-- Modelled from the spec: the position of a default-constructed `PointLL`. -/
def defaultLL : PointLL := { lat := 0, lng := 0 }

/-- The constructor `OSMNode n(lat, lng)`. -/
def new (lat lng : Coord) : OSMNode :=
  { latlng_ := { lat := lat, lng := lng }, edges_ := [], graphid_ := none,
    exit_to_ := false, ref_ := false, gate_ := false, bollard_ := false, modes_mask_ := 0 }

/-- The node that `nodes_[id]` creates for an id that is not in the table. -/
def default : OSMNode :=
  { latlng_ := defaultLL, edges_ := [], graphid_ := none,
    exit_to_ := false, ref_ := false, gate_ := false, bollard_ := false, modes_mask_ := 0 }

/-- Modelled from the spec: `AddEdge(idx)` appends to the incident-edge list. -/
def AddEdge (n : OSMNode) (edgeindex : Nat) : OSMNode :=
  { n with edges_ := n.edges_ ++ [edgeindex] }

/-- Modelled from the spec: `edge_count()` is the length of the incident-edge list. -/
def edge_count (n : OSMNode) : Nat := n.edges_.length

/-- The setter `set_graphid`. -/
def set_graphid (n : OSMNode) (id : GraphId) : OSMNode :=
  { n with graphid_ := some id }

end OSMNode

/-- The enumeration `RoadClass`, with the enumerators `way_callback` names. -/
inductive RoadClass where
  | kMotorway | kTrunk | kPrimary | kTertiaryUnclassified
  | kResidential | kService | kTrack | kOther
deriving DecidableEq, Repr

/-- The enumeration `Use`, with the enumerators `way_callback` names. -/
inductive Use where
  | kNone | kCycleway | kParkingAisle | kDriveway | kAlley
  | kEmergencyAccess | kDriveThru | kSteps | kOther
deriving DecidableEq, Repr

/-- Modelled from the spec: `OSMWay` holds the way id, the node sequence and the
routing attributes derived from the tags. -/
structure OSMWay where
  osmwayid_ : Nat
  nodes_ : List Nat
  road_class_ : RoadClass
  use_ : Use
  auto_forward_ : Bool
  bike_forward_ : Bool
  auto_backward_ : Bool
  bike_backward_ : Bool
  pedestrian_ : Bool
  destination_only_ : Bool
  no_thru_traffic_ : Bool
  oneway_ : Bool
  roundabout_ : Bool
  link_ : Bool
  ferry_ : Bool
  rail_ : Bool
  surface_ : Bool
  tunnel_ : Bool
  toll_ : Bool
  bridge_ : Bool
  name_ : String
  name_en_ : String
  alt_name_ : String
  official_name_ : String
  ref_ : String
  int_ref_ : String
  speed_ : Coord
  lanes_ : Int
  bike_network_ : Int
  bike_national_ref_ : String
  bike_regional_ref_ : String
  bike_local_ref_ : String
  destination_ : String
  destination_ref_ : String
  destination_ref_to_ : String
  junction_ref_ : String
deriving DecidableEq, Repr

namespace OSMWay

/-- The constructor `OSMWay w(osmid)`. -/
def new (osmid : Nat) : OSMWay :=
  { osmwayid_ := osmid, nodes_ := [], road_class_ := .kOther, use_ := .kNone,
    auto_forward_ := false, bike_forward_ := false, auto_backward_ := false,
    bike_backward_ := false, pedestrian_ := false, destination_only_ := false,
    no_thru_traffic_ := false, oneway_ := false, roundabout_ := false, link_ := false,
    ferry_ := false, rail_ := false, surface_ := false, tunnel_ := false, toll_ := false,
    bridge_ := false, name_ := "", name_en_ := "", alt_name_ := "", official_name_ := "",
    ref_ := "", int_ref_ := "", speed_ := 0, lanes_ := 0, bike_network_ := 0,
    bike_national_ref_ := "", bike_regional_ref_ := "", bike_local_ref_ := "",
    destination_ := "", destination_ref_ := "", destination_ref_to_ := "",
    junction_ref_ := "" }

/-- The accessor `node_count()`. -/
def node_count (w : OSMWay) : Nat := w.nodes_.length

end OSMWay

/-- The struct `Edge`: source and target node ids, the index of the way, the shape. -/
structure Edge where
  sourcenode_ : Nat
  targetnode_ : Nat
  wayindex_ : Nat
  latlngs_ : List PointLL
deriving DecidableEq, Repr

namespace Edge

/-- The constructor `Edge(sourcenode, wayindex, ll)`: an open edge whose shape is the single point `ll`.
The target is assigned when the edge is closed; no open edge reaches the edge table. -/
def new (sourcenode wayindex : Nat) (ll : PointLL) : Edge :=
  { sourcenode_ := sourcenode, targetnode_ := 0, wayindex_ := wayindex, latlngs_ := [ll] }

/-- The method `AddLL(ll)`. -/
def AddLL (e : Edge) (ll : PointLL) : Edge :=
  { e with latlngs_ := e.latlngs_ ++ [ll] }

end Edge

/-- The node table `std::unordered_map<uint64_t, OSMNode>`: an association list with
at most one entry per key. -/
abbrev NodeMap := List (Nat × OSMNode)

namespace NodeMap

/-- The lookup `nodes.find(id)`. -/
def find (m : NodeMap) (id : Nat) : Option OSMNode :=
  match m with
  | [] => none
  | (k, n) :: rest => if k = id then some n else find rest id

/-- The insertion `nodes_.emplace(id, n)`: inserts only when the key is not in the table. -/
def emplace (m : NodeMap) (id : Nat) (n : OSMNode) : NodeMap :=
  match m.find id with
  | some _ => m
  | none => m ++ [(id, n)]

/-- The table after evaluating `nodes_[id]`: a default node is inserted for a new key. -/
def touch (m : NodeMap) (id : Nat) : NodeMap :=
  emplace m id OSMNode.default

/-- The node that the reference `nodes_[id]` denotes. -/
def get (m : NodeMap) (id : Nat) : OSMNode :=
  (m.find id).getD OSMNode.default

/-- A write through a reference to the entry of `id`. -/
def modify (m : NodeMap) (id : Nat) (f : OSMNode → OSMNode) : NodeMap :=
  match m with
  | [] => []
  | (k, n) :: rest => if k = id then (k, f n) :: rest else (k, n) :: modify rest id f

/-- The keys of the table. -/
def keys (m : NodeMap) : List Nat := m.map Prod.fst

end NodeMap

/-- What the builder takes from its collaborators and from absent declarations. -/
structure Env where
  /-- The scripted tag filter `lua_.TransformInLua(isWay, tags)`. -/
  TransformInLua : Bool → Tags → Tags
  /-- The conversion `std::stoi`; `none` when it throws. -/
  stoi : String → Option Int
  /-- The conversion `std::stof`; `none` when it throws. -/
  stof : String → Option Coord
  /-- The `RoadClass` enumerator with a given numeric value, if there is one. -/
  toRoadClass : Int → Option RoadClass
  /-- The `Use` enumerator with a given numeric value, if there is one. -/
  toUse : Int → Option Use
  /-- The grid tile of a position at a level (`Tiles::TileId`). -/
  TileId : PointLL → Nat → Nat
  /-- The value of `std::thread::hardware_concurrency()`. -/
  hardware_concurrency : Nat
  /-- The capacity `tiles_per_task` that `TileNodes` reserves for every task list when it
  runs for a level.  The source computes it in `float`, as
  `((world.TileCount() * .3f) / thread_count) + 1`, from the tile count of the grid with
  the tile size of the level; the class `Tiles` is declared in an absent header. -/
  tiles_per_task : Nat → Nat
  /-- The order in which a range-for visits the entries of the node table; the
  standard leaves it unspecified. -/
  traversal : NodeMap → NodeMap

/-- The members of `GraphBuilder` that the pipeline reads and writes. -/
structure GraphBuilder where
  node_count_ : Nat
  edge_count_ : Nat
  shape_ : NodeIdTable
  intersection_ : NodeIdTable
  ways_ : List OSMWay
  nodes_ : NodeMap
  edges_ : List Edge
  map_exit_to_ : List (Nat × String)
  map_ref_ : List (Nat × String)
  tasks_ : List (List (List Nat))
deriving Repr

/-! ## The two parsing passes -/

/-- The side maps `map_exit_to_` and `map_ref_`: the assignment `map[id] = v`. -/
def assign (m : List (Nat × String)) (id : Nat) (v : String) : List (Nat × String) :=
  match m with
  | [] => [(id, v)]
  | (k, x) :: rest => if k = id then (k, v) :: rest else (k, x) :: assign rest id v

namespace GraphBuilder

/-- The constructor `GraphBuilder::GraphBuilder`: counters at zero, both bitmaps sized for
`kMaxOSMNodeId`, all tables empty. -/
def init : GraphBuilder :=
  { node_count_ := 0, edge_count_ := 0,
    shape_ := NodeIdTable.new kMaxOSMNodeId,
    intersection_ := NodeIdTable.new kMaxOSMNodeId,
    ways_ := [], nodes_ := [], edges_ := [], map_exit_to_ := [], map_ref_ := [],
    tasks_ := [] }

/-- What the tag loop of `node_callback` writes: the new node and the two side maps. -/
structure NodeAcc where
  n : OSMNode
  map_exit_to_ : List (Nat × String)
  map_ref_ : List (Nat × String)

/-- One iteration of `for (const auto& tag : results)` in `node_callback`. -/
def node_tag (env : Env) (osmid : Nat) (acc : NodeAcc) (tag : String × String) :
    Except Failure NodeAcc :=
  if tag.1 = "exit_to" then
    let hasTag := tag.2.length != 0
    .ok { acc with
      n := { acc.n with exit_to_ := hasTag },
      map_exit_to_ := if hasTag then assign acc.map_exit_to_ osmid tag.2 else acc.map_exit_to_ }
  else if tag.1 = "ref" then
    let hasTag := tag.2.length != 0
    .ok { acc with
      n := { acc.n with ref_ := hasTag },
      map_ref_ := if hasTag then assign acc.map_ref_ osmid tag.2 else acc.map_ref_ }
  else if tag.1 = "gate" then
    .ok { acc with n := { acc.n with gate_ := tag.2 == "true" } }
  else if tag.1 = "bollard" then
    .ok { acc with n := { acc.n with bollard_ := tag.2 == "true" } }
  else if tag.1 = "modes_mask" then
    match env.stoi tag.2 with
    | none => .error (.invalid_argument "stoi")
    | some v => .ok { acc with n := { acc.n with modes_mask_ := v } }
  else
    .ok acc

/-- The tag loop of `node_callback`. -/
def node_tags (env : Env) (osmid : Nat) (acc : NodeAcc) : Tags → Except Failure NodeAcc
  | [] => .ok acc
  | tag :: rest =>
    match node_tag env osmid acc tag with
    | .error e => .error e
    | .ok acc1 => node_tags env osmid acc1 rest

/-- The callback `GraphBuilder::node_callback(osmid, lng, lat, tags)`. -/
def node_callback (env : Env) (g : GraphBuilder) (osmid : Nat) (lng lat : Coord)
    (tags : Tags) : Except Failure GraphBuilder :=
  match g.shape_.IsUsed osmid with
  | .error e => .error e
  | .ok false => .ok g
  | .ok true =>
    let results := env.TransformInLua false tags
    if results.length = 0 then .ok g
    else
      match node_tags env osmid
          { n := OSMNode.new lat lng, map_exit_to_ := g.map_exit_to_, map_ref_ := g.map_ref_ }
          results with
      | .error e => .error e
      | .ok acc =>
        .ok { g with
          nodes_ := g.nodes_.emplace osmid acc.n,
          map_exit_to_ := acc.map_exit_to_,
          map_ref_ := acc.map_ref_ }

/-- The loop `for (const auto ref : refs)` of `way_callback`. -/
def mark_refs (g : GraphBuilder) : List Nat → Except Failure GraphBuilder
  | [] => .ok g
  | ref :: rest =>
    match g.shape_.IsUsed ref with
    | .error e => .error e
    | .ok true =>
      match g.intersection_.set ref with
      | .error e => .error e
      | .ok i1 =>
        match g.shape_.set ref with
        | .error e => .error e
        | .ok s1 =>
          mark_refs { g with intersection_ := i1, edge_count_ := g.edge_count_ + 1,
                             shape_ := s1 } rest
    | .ok false =>
      match g.shape_.set ref with
      | .error e => .error e
      | .ok s1 => mark_refs { g with node_count_ := g.node_count_ + 1, shape_ := s1 } rest

/-- One iteration of `for (const auto& tag : results)` in `way_callback`. -/
def way_tag (env : Env) (w : OSMWay) (tag : String × String) : Except Failure OSMWay :=
  if tag.1 = "road_class" then
    match env.stoi tag.2 with
    | none => .error (.invalid_argument "stoi")
    | some v =>
      match env.toRoadClass v with
      | some .kMotorway => .ok { w with road_class_ := .kMotorway }
      | some .kTrunk => .ok { w with road_class_ := .kTrunk }
      | some .kPrimary => .ok { w with road_class_ := .kPrimary }
      | some .kTertiaryUnclassified => .ok { w with road_class_ := .kTertiaryUnclassified }
      | some .kResidential => .ok { w with road_class_ := .kResidential }
      | some .kService => .ok { w with road_class_ := .kService }
      | some .kTrack => .ok { w with road_class_ := .kTrack }
      | _ => .ok { w with road_class_ := .kOther }
  else if tag.1 = "auto_forward" then .ok { w with auto_forward_ := tag.2 == "true" }
  else if tag.1 = "bike_forward" then .ok { w with bike_forward_ := tag.2 == "true" }
  else if tag.1 = "auto_backward" then .ok { w with auto_backward_ := tag.2 == "true" }
  else if tag.1 = "bike_backward" then .ok { w with bike_backward_ := tag.2 == "true" }
  else if tag.1 = "pedestrian" then .ok { w with pedestrian_ := tag.2 == "true" }
  else if tag.1 = "private" then .ok { w with destination_only_ := tag.2 == "true" }
  else if tag.1 = "use" then
    match env.stoi tag.2 with
    | none => .error (.invalid_argument "stoi")
    | some v =>
      match env.toUse v with
      | some .kNone => .ok { w with use_ := .kNone }
      | some .kCycleway => .ok { w with use_ := .kCycleway }
      | some .kParkingAisle => .ok { w with use_ := .kParkingAisle }
      | some .kDriveway => .ok { w with use_ := .kDriveway }
      | some .kAlley => .ok { w with use_ := .kAlley }
      | some .kEmergencyAccess => .ok { w with use_ := .kEmergencyAccess }
      | some .kDriveThru => .ok { w with use_ := .kDriveThru }
      | some .kSteps => .ok { w with use_ := .kSteps }
      | some .kOther => .ok { w with use_ := .kOther }
      | none => .ok { w with use_ := .kNone }
  else if tag.1 = "no_thru_traffic_" then .ok { w with no_thru_traffic_ := tag.2 == "true" }
  else if tag.1 = "oneway" then .ok { w with oneway_ := tag.2 == "true" }
  else if tag.1 = "roundabout" then .ok { w with roundabout_ := tag.2 == "true" }
  else if tag.1 = "link" then .ok { w with link_ := tag.2 == "true" }
  else if tag.1 = "ferry" then .ok { w with ferry_ := tag.2 == "true" }
  else if tag.1 = "rail" then .ok { w with rail_ := tag.2 == "true" }
  else if tag.1 = "name" then .ok { w with name_ := tag.2 }
  else if tag.1 = "name:en" then .ok { w with name_en_ := tag.2 }
  else if tag.1 = "alt_name" then .ok { w with alt_name_ := tag.2 }
  else if tag.1 = "official_name" then .ok { w with official_name_ := tag.2 }
  else if tag.1 = "speed" then
    match env.stof tag.2 with
    | none => .error (.invalid_argument "stof")
    | some v => .ok { w with speed_ := v }
  else if tag.1 = "ref" then .ok { w with ref_ := tag.2 }
  else if tag.1 = "int_ref" then .ok { w with int_ref_ := tag.2 }
  else if tag.1 = "surface" then .ok { w with surface_ := tag.2 == "true" }
  else if tag.1 = "lanes" then
    match env.stoi tag.2 with
    | none => .error (.invalid_argument "stoi")
    | some v => .ok { w with lanes_ := v }
  else if tag.1 = "tunnel" then .ok { w with tunnel_ := tag.2 == "true" }
  else if tag.1 = "toll" then .ok { w with toll_ := tag.2 == "true" }
  else if tag.1 = "bridge" then .ok { w with bridge_ := tag.2 == "true" }
  else if tag.1 = "bike_network_mask" then
    match env.stoi tag.2 with
    | none => .error (.invalid_argument "stoi")
    | some v => .ok { w with bike_network_ := v }
  else if tag.1 = "bike_national_ref" then .ok { w with bike_national_ref_ := tag.2 }
  else if tag.1 = "bike_regional_ref" then .ok { w with bike_regional_ref_ := tag.2 }
  else if tag.1 = "bike_local_ref" then .ok { w with bike_local_ref_ := tag.2 }
  else if tag.1 = "destination" then .ok { w with destination_ := tag.2 }
  else if tag.1 = "destination:ref" then .ok { w with destination_ref_ := tag.2 }
  else if tag.1 = "destination:ref:to" then .ok { w with destination_ref_to_ := tag.2 }
  else if tag.1 = "junction_ref" then .ok { w with junction_ref_ := tag.2 }
  else .ok w

/-- The tag loop of `way_callback`. -/
def way_tags (env : Env) (w : OSMWay) : Tags → Except Failure OSMWay
  | [] => .ok w
  | tag :: rest =>
    match way_tag env w tag with
    | .error e => .error e
    | .ok w1 => way_tags env w1 rest

/-- The callback `GraphBuilder::way_callback(osmid, tags, refs)`. -/
def way_callback (env : Env) (g : GraphBuilder) (osmid : Nat) (tags : Tags)
    (refs : List Nat) : Except Failure GraphBuilder :=
  if refs.length < 2 then .ok g
  else
    let results := env.TransformInLua true tags
    if results.length = 0 then .ok g
    else
      let w : OSMWay := { OSMWay.new osmid with nodes_ := refs }
      match mark_refs g refs with
      | .error e => .error e
      | .ok g1 =>
        match g1.intersection_.set (refs.headD 0) with
        | .error e => .error e
        | .ok i1 =>
          match i1.set (refs.getLastD 0) with
          | .error e => .error e
          | .ok i2 =>
            match way_tags env w results with
            | .error e => .error e
            | .ok w1 =>
              .ok { g1 with intersection_ := i2, edge_count_ := g1.edge_count_ + 2,
                            ways_ := g1.ways_ ++ [w1] }

end GraphBuilder

/-- A way of the input dump: id, tags, node references. -/
structure WayInput where
  osmid : Nat
  tags : Tags
  refs : List Nat
deriving DecidableEq, Repr

/-- A node of the input dump: id, longitude, latitude, tags. -/
structure NodeInput where
  osmid : Nat
  lng : Coord
  lat : Coord
  tags : Tags
deriving DecidableEq, Repr

namespace GraphBuilder

/-- Pass 1: `read_osm_pbf(input_file_, *this, Interest::WAYS)` calls `way_callback` on
every way of the dump in order; an exception ends the pass. -/
def read_ways (env : Env) (g : GraphBuilder) : List WayInput → Except Failure GraphBuilder
  | [] => .ok g
  | w :: rest =>
    match way_callback env g w.osmid w.tags w.refs with
    | .error e => .error e
    | .ok g1 => read_ways env g1 rest

/-- Pass 2: `read_osm_pbf(input_file_, *this, Interest::NODES)` calls `node_callback` on
every node of the dump in order. -/
def read_nodes (env : Env) (g : GraphBuilder) : List NodeInput → Except Failure GraphBuilder
  | [] => .ok g
  | n :: rest =>
    match node_callback env g n.osmid n.lng n.lat n.tags with
    | .error e => .error e
    | .ok g1 => read_nodes env g1 rest

end GraphBuilder

/-! ## The edge constructor -/

namespace GraphBuilder

/-- The variables that the loops of `ConstructEdges` update: the node table, the edge
table, the counter `edgeindex` and the edge under construction. -/
structure EdgeLoop where
  nodes_ : NodeMap
  edges_ : List Edge
  edgeindex : Nat
  edge : Edge

/-- The inner loop `for (size_t i = 1, n = way.node_count(); i < n; i++)` of
`ConstructEdges`, over the nodes of the way from position `i` on; `first` is the id that
the reference `node` was bound to (the first node of the way), and `i < n-1` holds exactly
when nodes remain after the current one. -/
def way_loop (intersection : NodeIdTable) (wayindex first : Nat) (s : EdgeLoop) :
    List Nat → Except Failure EdgeLoop
  | [] => .ok s
  | currentid :: rest =>
    let nodes1 := s.nodes_.touch currentid
    let edge1 := s.edge.AddLL (nodes1.get currentid).latlng_
    match intersection.IsUsed currentid with
    | .error e => .error e
    | .ok false => way_loop intersection wayindex first { s with nodes_ := nodes1, edge := edge1 } rest
    | .ok true =>
      let edge2 := { edge1 with targetnode_ := currentid }
      let nodes2 := nodes1.modify currentid (fun nd => nd.AddEdge s.edgeindex)
      let edges2 := s.edges_ ++ [edge2]
      let edgeindex2 := (s.edgeindex + 1) % 2 ^ 32
      if rest.length = 0 then
        way_loop intersection wayindex first
          { nodes_ := nodes2, edges_ := edges2, edgeindex := edgeindex2, edge := edge2 } rest
      else
        let edge3 := Edge.new currentid wayindex (nodes2.get first).latlng_
        let nodes3 := nodes2.modify currentid (fun nd => nd.AddEdge edgeindex2)
        way_loop intersection wayindex first
          { nodes_ := nodes3, edges_ := edges2, edgeindex := edgeindex2, edge := edge3 } rest

/-- The body of `for (const auto& way : ways_)` in `ConstructEdges`, for one way. -/
def construct_way (intersection : NodeIdTable) (wayindex : Nat) (nodes : NodeMap)
    (edges : List Edge) (edgeindex : Nat) (way : OSMWay) : Except Failure EdgeLoop :=
  match way.nodes_ with
  | [] => .error .out_of_bounds
  | currentid :: rest =>
    let nodes1 := nodes.touch currentid
    let edge := Edge.new currentid wayindex (nodes1.get currentid).latlng_
    let nodes2 := nodes1.modify currentid (fun nd => nd.AddEdge edgeindex)
    way_loop intersection wayindex currentid
      { nodes_ := nodes2, edges_ := edges, edgeindex := edgeindex, edge := edge } rest

/-- The outer loop of `ConstructEdges` over the remaining ways. -/
def construct_ways (intersection : NodeIdTable) (wayindex : Nat) (nodes : NodeMap)
    (edges : List Edge) (edgeindex : Nat) :
    List OSMWay → Except Failure (NodeMap × List Edge)
  | [] => .ok (nodes, edges)
  | way :: rest =>
    match construct_way intersection wayindex nodes edges edgeindex way with
    | .error e => .error e
    | .ok s =>
      construct_ways intersection ((wayindex + 1) % 2 ^ 32) s.nodes_ s.edges_ s.edgeindex rest

/-- The method `GraphBuilder::ConstructEdges()`. -/
def ConstructEdges (g : GraphBuilder) : Except Failure GraphBuilder :=
  match construct_ways g.intersection_ 0 g.nodes_ g.edges_ 0 g.ways_ with
  | .error e => .error e
  | .ok (nodes, edges) => .ok { g with nodes_ := nodes, edges_ := edges }

/-! ## The tile partitioner -/

/-- Modelled from the spec: `tile_hierarchy_.GetGraphId(latlng, level)` is the id
`(grid tile of latlng, level, 0)`; `TileHierarchy` is declared in an absent header. -/
def GetGraphId (env : Env) (ll : PointLL) (level : Nat) : GraphId :=
  { tileid := env.TileId ll level, level := level, id := 0 }

/-- The variables that the loop of `TileNodes` updates.  A bucket handle (the
`task_t::iterator` stored in `tiles`) is the pair of the worker and the position of the
bucket in that worker's task list. -/
structure TileLoop where
  nodes_ : NodeMap
  tasks_ : List (List (List Nat))
  tiles : List (GraphId × (Nat × Nat))
  current_thread : Nat

/-- The lookup `tiles.find(id)`. -/
def find_tile (tiles : List (GraphId × (Nat × Nat))) (id : GraphId) : Option (Nat × Nat) :=
  match tiles with
  | [] => none
  | (k, h) :: rest => if k = id then some h else find_tile rest id

/-- The bucket that a handle denotes. -/
def bucket (tasks : List (List (List Nat))) (h : Nat × Nat) : List Nat :=
  (tasks.getD h.1 []).getD h.2 []

/-- The body of `for (auto& node : nodes_)` in `TileNodes`.  For a tile that was started
before, `tile->push_back` and `tile->size()` go through the `task_t::iterator` that `tiles`
holds.  A `std::vector` keeps its iterators valid while it grows only as long as the new
size stays within its capacity, and `reserve(tiles_per_task)` guarantees no more capacity
than `tiles_per_task`: an iterator whose task list has grown beyond `tiles_per_task` after
the iterator was made counts as invalidated, and its use is undefined. -/
def tile_node (env : Env) (level : Nat) (s : TileLoop) (node : Nat × OSMNode) :
    Except Failure TileLoop :=
  if node.2.edge_count = 0 then .ok s
  else
    let id := GetGraphId env node.2.latlng_ level
    match find_tile s.tiles id with
    | some h =>
      if (s.tasks_.getD h.1 []).length ≤ max (env.tiles_per_task level) (h.2 + 1) then
        let tasks1 :=
          s.tasks_.set h.1 ((s.tasks_.getD h.1 []).set h.2 (bucket s.tasks_ h ++ [node.1]))
        .ok { s with
          tasks_ := tasks1,
          nodes_ := s.nodes_.modify node.1 (fun nd =>
            nd.set_graphid { tileid := id.tileid, level := id.level,
                             id := (bucket tasks1 h).length - 1 }) }
      else .error .out_of_bounds
    | none =>
      let tasks1 := s.tasks_.set s.current_thread (s.tasks_.getD s.current_thread [] ++ [[node.1]])
      let h := (s.current_thread, (tasks1.getD s.current_thread []).length - 1)
      .ok { nodes_ := s.nodes_.modify node.1 (fun nd =>
              nd.set_graphid { tileid := id.tileid, level := id.level,
                               id := (bucket tasks1 h).length - 1 }),
            tasks_ := tasks1,
            tiles := s.tiles ++ [(id, h)],
            current_thread := (s.current_thread + 1) % tasks1.length }

/-- The loop `for (auto& node : nodes_)` of `TileNodes` over the entries still to visit. -/
def tile_nodes (env : Env) (level : Nat) (s : TileLoop) :
    List (Nat × OSMNode) → Except Failure TileLoop
  | [] => .ok s
  | node :: rest =>
    match tile_node env level s node with
    | .error e => .error e
    | .ok s1 => tile_nodes env level s1 rest

/-- What the body of the loop of `TileNodes` does to the variables when the iterator that
it uses is valid. -/
def place_node (env : Env) (level : Nat) (s : TileLoop) (node : Nat × OSMNode) : TileLoop :=
  if node.2.edge_count = 0 then s
  else
    let id := GetGraphId env node.2.latlng_ level
    match find_tile s.tiles id with
    | some h =>
      let tasks1 := s.tasks_.set h.1 ((s.tasks_.getD h.1 []).set h.2 (bucket s.tasks_ h ++ [node.1]))
      { s with
        tasks_ := tasks1,
        nodes_ := s.nodes_.modify node.1 (fun nd =>
          nd.set_graphid { tileid := id.tileid, level := id.level,
                           id := (bucket tasks1 h).length - 1 }) }
    | none =>
      let tasks1 := s.tasks_.set s.current_thread (s.tasks_.getD s.current_thread [] ++ [[node.1]])
      let h := (s.current_thread, (tasks1.getD s.current_thread []).length - 1)
      { nodes_ := s.nodes_.modify node.1 (fun nd =>
          nd.set_graphid { tileid := id.tileid, level := id.level,
                           id := (bucket tasks1 h).length - 1 }),
        tasks_ := tasks1,
        tiles := s.tiles ++ [(id, h)],
        current_thread := (s.current_thread + 1) % tasks1.length }

/-- What the loop of `TileNodes` does to the variables over the entries still to visit
when every iterator that it uses is valid. -/
def place_nodes (env : Env) (level : Nat) (s : TileLoop) : List (Nat × OSMNode) → TileLoop
  | [] => s
  | node :: rest => place_nodes env level (place_node env level s node) rest

/-- The call `tasks_.resize(thread_count)`. -/
def resize_tasks (tasks : List (List (List Nat))) (thread_count : Nat) :
    List (List (List Nat)) :=
  tasks.take thread_count ++ List.replicate (thread_count - tasks.length) []

/-- The method `GraphBuilder::TileNodes(tilesize, level)`.  The tile size only enters the
capacity `env.tiles_per_task level` that is reserved for every task list (and the bucket
count of `tiles`).  The loop visits every entry of the node table once and writes only the
`GraphId` of the entry it visits, so the entry it reads at a visit is the one the table
held when the loop began. -/
def TileNodes (env : Env) (g : GraphBuilder) (level : Nat) : Except Failure GraphBuilder :=
  let thread_count := max 1 env.hardware_concurrency
  match tile_nodes env level
      { nodes_ := g.nodes_, tasks_ := resize_tasks g.tasks_ thread_count, tiles := [],
        current_thread := 0 }
      (env.traversal g.nodes_) with
  | .error e => .error e
  | .ok s => .ok { g with nodes_ := s.nodes_, tasks_ := s.tasks_ }

/-- The builder that `TileNodes` leaves when every iterator that its loop uses is
valid. -/
def tiled (env : Env) (g : GraphBuilder) (level : Nat) : GraphBuilder :=
  let thread_count := max 1 env.hardware_concurrency
  let s := place_nodes env level
    { nodes_ := g.nodes_, tasks_ := resize_tasks g.tasks_ thread_count, tiles := [],
      current_thread := 0 }
    (env.traversal g.nodes_)
  { g with nodes_ := s.nodes_, tasks_ := s.tasks_ }

/-- The method `GraphBuilder::Build()` up to and including `TileNodes`: the ways pass, the
relations pass (whose callback is empty), the nodes pass, `ConstructEdges`, `TileNodes`. -/
def Build (env : Env) (ways : List WayInput) (nodes : List NodeInput) (level : Nat) :
    Except Failure GraphBuilder :=
  match read_ways env init ways with
  | .error e => .error e
  | .ok g1 =>
    match read_nodes env g1 nodes with
    | .error e => .error e
    | .ok g2 =>
      match ConstructEdges g2 with
      | .error e => .error e
      | .ok g3 => TileNodes env g3 level

end GraphBuilder

/-! ## Vocabulary of the properties -/

/-- A way of the dump is routable: at least two refs and a non-empty transform result. -/
def WayInput.routable (env : Env) (w : WayInput) : Bool :=
  decide (2 ≤ w.refs.length) && decide ((env.TransformInLua true w.tags).length ≠ 0)

/-- The id is the first or the last element of one of the node sequences. -/
def IsEndpoint (seqs : List (List Nat)) (j : Nat) : Prop :=
  ∃ refs ∈ seqs, refs.head? = some j ∨ refs.getLast? = some j

namespace GraphBuilder

/-- The node sequences of the recorded ways, in way-table order. -/
def way_nodes (g : GraphBuilder) : List (List Nat) := g.ways_.map (fun w => w.nodes_)

/-- The members that neither `mark_refs` nor the tag loops touch agree in two states. -/
def SameTables (g g1 : GraphBuilder) : Prop :=
  g1.nodes_ = g.nodes_ ∧ g1.edges_ = g.edges_ ∧ g1.tasks_ = g.tasks_ ∧
  g1.map_exit_to_ = g.map_exit_to_ ∧ g1.map_ref_ = g.map_ref_

/-- The state of the bitmaps and of the way table that pass 1 maintains: both vectors have
their constructor's size for one common maximum, every recorded way has at least two
nodes, all of them at most the maximum, `shape_` marks exactly the nodes that recorded
ways reference, and `intersection_` marks exactly the first and last nodes of recorded
ways together with the nodes that are referenced at least twice. -/
structure WaysMarked (g : GraphBuilder) : Prop where
  shape_sized : g.shape_.WellSized
  inter_sized : g.intersection_.WellSized
  same_max : g.intersection_.maxosmid_ = g.shape_.maxosmid_
  two_nodes : ∀ refs ∈ g.way_nodes, 2 ≤ refs.length
  refs_le : ∀ refs ∈ g.way_nodes, ∀ v ∈ refs, v ≤ g.shape_.maxosmid_
  shape_marked : ∀ j, g.shape_.Marked j ↔ j ∈ g.way_nodes.flatten
  inter_marked : ∀ j, g.intersection_.Marked j ↔
    IsEndpoint g.way_nodes j ∨ 2 ≤ g.way_nodes.flatten.count j

end GraphBuilder

/-- The tag loop of `way_callback` runs to its end on the way: no conversion throws. -/
def WayInput.tags_convert (env : Env) (w : WayInput) : Bool :=
  match GraphBuilder.way_tags env { OSMWay.new w.osmid with nodes_ := w.refs }
      (env.TransformInLua true w.tags) with
  | .ok _ => true
  | .error _ => false

/-- The way is one that `way_callback` handles without an exception on a builder whose
bitmaps have maximum `m`: it is not routable, or all its refs are at most `m` and its
tags convert. -/
def WayInput.accepted (env : Env) (m : Nat) (w : WayInput) : Bool :=
  !w.routable env || (w.refs.all (fun v => decide (v ≤ m)) && w.tags_convert env)

/-- The node sequences that pass 1 records for a dump: the refs of its routable ways. -/
def routable_refs (env : Env) (ways : List WayInput) : List (List Nat) :=
  (ways.filter (fun w => w.routable env)).map (fun w => w.refs)

/-- The node with further indices appended to its incident-edge list. -/
def OSMNode.withEdges (n : OSMNode) (extra : List Nat) : OSMNode :=
  { n with edges_ := n.edges_ ++ extra }

/-- The edge indices that a list of registrations `(node id, edge index)` holds for `v`. -/
def registered (events : List (Nat × Nat)) (v : Nat) : List Nat :=
  (events.filter (fun p => decide (p.1 = v))).map (fun p => p.2)

namespace GraphBuilder

/-- The edges that the inner loop of `ConstructEdges` appends while it visits `nodes`, as
a function of the marks and of the positions alone; `edge` is the edge under
construction. -/
def split_way (marked : Nat → Bool) (pos : Nat → PointLL) (wayindex first : Nat) (edge : Edge) :
    List Nat → List Edge
  | [] => []
  | v :: rest =>
    if marked v then
      { edge.AddLL (pos v) with targetnode_ := v } ::
        split_way marked pos wayindex first (Edge.new v wayindex (pos first)) rest
    else split_way marked pos wayindex first (edge.AddLL (pos v)) rest

/-- The `AddEdge` calls of the inner loop of `ConstructEdges` while it visits `nodes`, in
order, as pairs of node id and edge index. -/
def split_events (marked : Nat → Bool) (edgeindex : Nat) : List Nat → List (Nat × Nat)
  | [] => []
  | v :: rest =>
    if marked v then
      if rest.length = 0 then [(v, edgeindex)]
      else (v, edgeindex) :: (v, (edgeindex + 1) % 2 ^ 32) ::
        split_events marked ((edgeindex + 1) % 2 ^ 32) rest
    else split_events marked edgeindex rest

/-- The edges that `ConstructEdges` makes of one node sequence. -/
def way_edges (marked : Nat → Bool) (pos : Nat → PointLL) (wayindex : Nat) : List Nat → List Edge
  | [] => []
  | first :: rest =>
    split_way marked pos wayindex first (Edge.new first wayindex (pos first)) rest

/-- The `AddEdge` calls that `ConstructEdges` makes for one node sequence. -/
def way_events (marked : Nat → Bool) (edgeindex : Nat) : List Nat → List (Nat × Nat)
  | [] => []
  | first :: rest => (first, edgeindex) :: split_events marked edgeindex rest

/-- The number of marked ids in a list. -/
def marked_count (marked : Nat → Bool) (nodes : List Nat) : Nat := (nodes.filter marked).length

/-- The edges that `ConstructEdges` makes of a list of node sequences, the first of which
has way index `wayindex`. -/
def all_edges (marked : Nat → Bool) (pos : Nat → PointLL) (wayindex : Nat) :
    List (List Nat) → List Edge
  | [] => []
  | nodes :: rest =>
    way_edges marked pos wayindex nodes ++ all_edges marked pos ((wayindex + 1) % 2 ^ 32) rest

/-- The `AddEdge` calls that `ConstructEdges` makes for a list of node sequences, when
the next edge gets the index `edgeindex`. -/
def all_events (marked : Nat → Bool) (edgeindex : Nat) : List (List Nat) → List (Nat × Nat)
  | [] => []
  | nodes :: rest =>
    way_events marked edgeindex nodes ++
      all_events marked ((edgeindex + marked_count marked nodes.tail) % 2 ^ 32) rest

end GraphBuilder

/-- The state of the node table before `ConstructEdges`: one entry per key, every key
marked in `shape_`, no incident edges and no `GraphId` yet. -/
structure GraphBuilder.FreshNodes (g : GraphBuilder) : Prop where
  nodup : (g.nodes_.keys).Nodup
  seen : ∀ k ∈ g.nodes_.keys, g.shape_.Marked k
  no_edges : ∀ p ∈ g.nodes_, p.2.edges_ = [] ∧ p.2.graphid_ = none

/-- The node ids of all buckets of all task lists, in order. -/
def placed (tasks : List (List (List Nat))) : List Nat := tasks.flatten.flatten

namespace GraphBuilder

/-- The handles of the loop of `TileNodes` denote buckets: the next worker exists, and
every handle stored in `tiles` points at a bucket of a task list. -/
def TileLoop.Valid (s : TileLoop) : Prop :=
  s.current_thread < s.tasks_.length ∧
  ∀ id h, find_tile s.tiles id = some h →
    h.1 < s.tasks_.length ∧ h.2 < (s.tasks_.getD h.1 []).length

end GraphBuilder

/-! ## Examples -/

/-- The number that a list of decimal digits denotes, after the digits read so far. -/
def read_digits (acc : Nat) : List Char → Option Nat
  | [] => some acc
  | c :: rest =>
    if c.isDigit then read_digits (acc * 10 + (c.toNat - 48)) rest else none

/-- A decimal reader for the examples: an optional minus sign, then digits only. -/
def read_int (s : String) : Option Int :=
  match s.data with
  | [] => none
  | '-' :: [] => none
  | '-' :: rest => (read_digits 0 rest).map (fun n => - (n : Int))
  | digits => (read_digits 0 digits).map (fun n => (n : Int))

/-- A collaborator set for the examples: the tag filter keeps every tag, numbers are
read with `read_int`, enumerators are numbered from 0 in declaration order, every
position lies in tile 0, two hardware threads, room for one bucket reserved in every task
list (the grid has one tile), the node table is visited in the order of the association
list. -/
def sampleEnv : Env :=
  { TransformInLua := fun _ tags => tags,
    stoi := read_int,
    stof := read_int,
    toRoadClass := fun v =>
      [RoadClass.kMotorway, .kTrunk, .kPrimary, .kTertiaryUnclassified, .kResidential,
        .kService, .kTrack, .kOther][v.toNat]?,
    toUse := fun v =>
      [Use.kNone, .kCycleway, .kParkingAisle, .kDriveway, .kAlley, .kEmergencyAccess,
        .kDriveThru, .kSteps, .kOther][v.toNat]?,
    TileId := fun _ _ => 0,
    hardware_concurrency := 2,
    tiles_per_task := fun _ => 1,
    traversal := fun m => m }

/-- A dump with one way that passes through node 2 twice. -/
def selfCrossingDump : List WayInput :=
  [{ osmid := 1, tags := [("highway", "residential")], refs := [1, 2, 3, 2, 4] }]

/-- A dump with the two ways `[1, 2, 3]` and `[3, 4, 5]`. -/
def twoWaysDump : List WayInput :=
  [{ osmid := 1, tags := [("highway", "residential")], refs := [1, 2, 3] },
   { osmid := 2, tags := [("highway", "residential")], refs := [3, 4, 5] }]

/-- The builder after the ways pass and the nodes pass over a dump (the empty builder
when a callback throws). -/
def GraphBuilder.after_passes (env : Env) (ways : List WayInput) (nodes : List NodeInput) :
    GraphBuilder :=
  match GraphBuilder.read_ways env GraphBuilder.init ways with
  | .error _ => GraphBuilder.init
  | .ok g1 =>
    match GraphBuilder.read_nodes env g1 nodes with
    | .error _ => GraphBuilder.init
    | .ok g2 => g2

/-- A dump with the single way `[1, 2, 3, 4]`. -/
def oneWayDump : List WayInput :=
  [{ osmid := 1, tags := [("highway", "residential")], refs := [1, 2, 3, 4] }]

/-- A dump with the way `[1, 2, 3, 4]` and the way `[3, 5]` that leaves it at node 3. -/
def forkDump : List WayInput :=
  [{ osmid := 1, tags := [("highway", "residential")], refs := [1, 2, 3, 4] },
   { osmid := 2, tags := [("highway", "residential")], refs := [3, 5] }]

/-- The nodes 1 to 5 on the parallel of latitude 50, at longitudes 10 to 14. -/
def fiveNodes : List NodeInput :=
  [{ osmid := 1, lng := 10, lat := 50, tags := [("highway", "crossing")] },
   { osmid := 2, lng := 11, lat := 50, tags := [("highway", "crossing")] },
   { osmid := 3, lng := 12, lat := 50, tags := [("highway", "crossing")] },
   { osmid := 4, lng := 13, lat := 50, tags := [("highway", "crossing")] },
   { osmid := 5, lng := 14, lat := 50, tags := [("highway", "crossing")] }]

/-- The dump of scenario S2: the ways `[10, 11, 12]` and `[20, 11, 22]`. -/
def crossingDump : List WayInput :=
  [{ osmid := 1, tags := [("highway", "residential")], refs := [10, 11, 12] },
   { osmid := 2, tags := [("highway", "residential")], refs := [20, 11, 22] }]

/-- The nodes of scenario S2, with 11 at the crossing. -/
def crossingNodes : List NodeInput :=
  [{ osmid := 10, lng := 0, lat := 0, tags := [("highway", "crossing")] },
   { osmid := 11, lng := 1, lat := 0, tags := [("highway", "crossing")] },
   { osmid := 12, lng := 2, lat := 0, tags := [("highway", "crossing")] },
   { osmid := 20, lng := 1, lat := 1, tags := [("highway", "crossing")] },
   { osmid := 22, lng := 1, lat := 5, tags := [("highway", "crossing")] }]

/-- The builder after the two passes and `ConstructEdges` over a dump (the empty builder
when a step throws). -/
def GraphBuilder.after_edges (env : Env) (ways : List WayInput) (nodes : List NodeInput) :
    GraphBuilder :=
  match GraphBuilder.ConstructEdges (GraphBuilder.after_passes env ways nodes) with
  | .error _ => GraphBuilder.init
  | .ok g => g

/-- The dump of scenario S1: the single way `[10, 11, 12]` with `road_class` 5. -/
def singleWayDump : List WayInput :=
  [{ osmid := 1, tags := [("road_class", "5")], refs := [10, 11, 12] }]

/-- The nodes of scenario S1, on the equator at longitudes 0, 1 and 2 (in thousandths of
a degree). -/
def singleWayNodes : List NodeInput :=
  [{ osmid := 10, lng := 0, lat := 0, tags := [("highway", "crossing")] },
   { osmid := 11, lng := 1, lat := 0, tags := [("highway", "crossing")] },
   { osmid := 12, lng := 2, lat := 0, tags := [("highway", "crossing")] }]

/-! ## Vocabulary of the tile partitioner -/

namespace GraphBuilder

/-- The variables of the loop of `TileNodes` when the loop has visited the whole node
table with valid iterators.  The model keeps `tiles` in insertion order, so its `k`-th
entry belongs to the `k`-th bucket that the loop created. -/
def tile_state (env : Env) (g : GraphBuilder) (level : Nat) : TileLoop :=
  place_nodes env level
    { nodes_ := g.nodes_,
      tasks_ := resize_tasks g.tasks_ (max 1 env.hardware_concurrency),
      tiles := [],
      current_thread := 0 }
    (env.traversal g.nodes_)

/-- The loop invariant of `TileNodes` for `W` workers, after the loop has visited the
nodes `seen`: bucket `k` in creation order is bucket `k / W` of worker `k % W`, the keys
of `tiles` are pairwise different tile-base ids of the level, and the node at position
`i` of a bucket carries the tile id of the bucket's key and the local index `i`. -/
structure TileLoop.Sound (W level : Nat) (seen : List Nat) (s : TileLoop) : Prop where
  valid : s.Valid
  workers : s.tasks_.length = W
  cur : s.current_thread = s.tiles.length % W
  handle : ∀ (k : Nat) (p : GraphId × (Nat × Nat)), s.tiles[k]? = some p →
    p.2 = (k % W, k / W)
  lens : ∀ t, t < W → (s.tasks_.getD t []).length = (s.tiles.length + W - 1 - t) / W
  key_form : ∀ p ∈ s.tiles, p.1.level = level ∧ p.1.id = 0
  keys_nodup : (s.tiles.map Prod.fst).Nodup
  indexed : ∀ (k : Nat) (p : GraphId × (Nat × Nat)), s.tiles[k]? = some p →
    bucket s.tasks_ p.2 ≠ [] ∧
    ∀ (i n : Nat), (bucket s.tasks_ p.2)[i]? = some n →
      (s.nodes_.get n).graphid_ = some { tileid := p.1.tileid, level := p.1.level, id := i }
  ordered : ∀ h, (bucket s.tasks_ h).Sublist seen

end GraphBuilder

/-- A collaborator set whose grid has one tile per unit of longitude, 360 tiles, so that
room for 55 buckets is reserved in each of the two task lists; everything else is as in
`sampleEnv`. -/
def tiledEnv : Env :=
  { sampleEnv with TileId := fun ll _ => ll.lng.toNat, tiles_per_task := fun _ => 55 }

/-- Modelled from the spec: the record `EdgeInfo { node_a, node_b, shape,
street_name_offsets }` that an `EdgeInfoBuilder` collects; the class is declared in an
absent header.  An end node that carries the default-constructed `GraphId` is `none`. -/
structure EdgeInfo where
  nodea : Option GraphId
  nodeb : Option GraphId
  shape : List PointLL
  street_name_offset_list : List Nat
deriving DecidableEq, Repr

/-- Modelled from the spec: the record `NodeInfo { latlng, edge_index, edge_count }` that
a `NodeInfoBuilder` collects. -/
structure NodeInfo where
  latlng : PointLL
  edge_index : Nat
  edge_count : Nat
deriving DecidableEq, Repr

/-- Modelled from the spec: the fields of a `DirectedEdgeBuilder` that `BuildTileSet`
sets; the class is declared in an absent header. -/
structure DirectedEdge where
  length : Coord
  importance : RoadClass
  use : Use
  link : Bool
  speed : Coord
  ferry : Bool
  railferry : Bool
  toll : Bool
  dest_only : Bool
  unpaved : Bool
  tunnel : Bool
  roundabout : Bool
  bridge : Bool
  bikenetwork : Int
  caraccess_forward : Bool
  caraccess_reverse : Bool
  pedestrianaccess_forward : Bool
  pedestrianaccess_reverse : Bool
  bicycleaccess_forward : Bool
  bicycleaccess_reverse : Bool
  endnode : Option GraphId
  opp_index : Nat
  edgedataoffset : Nat
deriving DecidableEq, Repr

namespace DirectedEdge

/-- Modelled from the spec: a default-constructed `DirectedEdgeBuilder`, with no access in
either direction, no end node and every attribute cleared. -/
def new : DirectedEdge :=
  { length := 0, importance := .kOther, use := .kNone, link := false, speed := 0,
    ferry := false, railferry := false, toll := false, dest_only := false,
    unpaved := false, tunnel := false, roundabout := false, bridge := false,
    bikenetwork := 0, caraccess_forward := false, caraccess_reverse := false,
    pedestrianaccess_forward := false, pedestrianaccess_reverse := false,
    bicycleaccess_forward := false, bicycleaccess_reverse := false, endnode := none,
    opp_index := 0, edgedataoffset := 0 }

/-- Modelled from the spec: `set_caraccess(forward, reverse, car)` stores `car` as the car
access of the forward direction when `forward` is set and as that of the reverse
direction when `reverse` is set. -/
def set_caraccess (d : DirectedEdge) (forward reverse car : Bool) : DirectedEdge :=
  { d with
    caraccess_forward := if forward then car else d.caraccess_forward,
    caraccess_reverse := if reverse then car else d.caraccess_reverse }

/-- Modelled from the spec: `set_pedestrianaccess(forward, reverse, pedestrian)`, as
`set_caraccess`. -/
def set_pedestrianaccess (d : DirectedEdge) (forward reverse pedestrian : Bool) :
    DirectedEdge :=
  { d with
    pedestrianaccess_forward := if forward then pedestrian else d.pedestrianaccess_forward,
    pedestrianaccess_reverse := if reverse then pedestrian else d.pedestrianaccess_reverse }

/-- Modelled from the spec: `set_bicycleaccess(forward, reverse, bicycle)`, as
`set_caraccess`. -/
def set_bicycleaccess (d : DirectedEdge) (forward reverse bicycle : Bool) : DirectedEdge :=
  { d with
    bicycleaccess_forward := if forward then bicycle else d.bicycleaccess_forward,
    bicycleaccess_reverse := if reverse then bicycle else d.bicycleaccess_reverse }

/-- The setter `set_endnode`. -/
def set_endnode (d : DirectedEdge) (endnode : Option GraphId) : DirectedEdge :=
  { d with endnode := endnode }

/-- Modelled from the spec: the opposing index is kept in a 5-bit storage field, whose
largest value 31 is the sentinel of `GetOpposingIndex`; `set_opp_index` stores the five
low bits of the `uint32_t` that it is given. -/
def set_opp_index (d : DirectedEdge) (opp_index : Nat) : DirectedEdge :=
  { d with opp_index := opp_index % 32 }

/-- The setter `set_edgedataoffset`. -/
def set_edgedataoffset (d : DirectedEdge) (offset : Nat) : DirectedEdge :=
  { d with edgedataoffset := offset }

end DirectedEdge

/-- The three locals of `BuildTileSet` that make the text pool of a tile: `text_list`,
`text_offset_map` and `text_list_offset`.  A `size_t` byte count of strings that the
process holds in memory stays below `2^64`, so it is a natural number here. -/
structure TextPool where
  text_list_offset : Nat
  text_offset_map : List (String × Nat)
  text_list : List String
deriving DecidableEq, Repr

/-- The locals of `BuildTileSet` that hold the edge data of a tile: `edge_info_offset`,
`edge_offset_map` and `edgeinfo_list`, with the text pool.  The offset is a `size_t`
byte count of records that the process holds in memory, a natural number here. -/
structure EdgeData where
  edge_info_offset : Nat
  edge_offset_map : List ((Option GraphId × Option GraphId) × Nat)
  edgeinfo_list : List EdgeInfo
  text : TextPool
deriving DecidableEq, Repr

/-- The locals of `BuildTileSet` for the tile under construction, with the content that
the calls `AddNodeAndDirectedEdges` have handed to `graphtile`.  The counter
`directededgecount` is a `uint32_t`. -/
structure TileBuild where
  graphtile : List (NodeInfo × List DirectedEdge)
  directededgecount : Nat
  data : EdgeData
deriving DecidableEq, Repr

/-- The locals of `BuildTileSet` when the `try` block of a tile begins. -/
def TileBuild.new : TileBuild :=
  { graphtile := [], directededgecount := 0,
    data := { edge_info_offset := 0, edge_offset_map := [], edgeinfo_list := [],
              text := { text_list_offset := 0, text_offset_map := [], text_list := [] } } }

/-- What a lookup in `edge_offset_map` comes to.  The key of the lookup is the `node_pair`
that `ComputeNodePair` returned, two references into an object that no longer exists, so
the source does not define what the hash and the comparison read. -/
inductive KeyFind where
  /-- A read through the references, in the lookup or in the `insert` that follows a
  lookup without result, ends the run (an undefined access). -/
  | fault
  /-- The lookup comes back with `end()`. -/
  | absent
  /-- The lookup comes back with an entry that holds `offset`. -/
  | found (offset : Nat)
deriving DecidableEq, Repr

/-- The operations that `BuildTileSet` calls and whose definitions lie in absent headers
or outside the program, and the outcome of the reads that the source leaves undefined. -/
structure TileEnv where
  /-- The order `GraphId::operator<`, on the ids that nodes carry. -/
  less : Option GraphId → Option GraphId → Bool
  /-- The length `PointLL::Length(shape)` of a polyline. -/
  Length : PointLL → List PointLL → Coord
  /-- The names `OSMWay::GetNames()` of a way. -/
  GetNames : OSMWay → List String
  /-- The serialized size `EdgeInfoBuilder::SizeOf()`. -/
  SizeOf : EdgeInfo → Nat
  /-- The call `StoreTileData(outdir, tile_id)`: `some what` when it throws. -/
  StoreTileData : Option GraphId → TileBuild → Option String
  /-- The byte count `graphtile.size()` of a stored tile. -/
  size : TileBuild → Nat
  /-- The outcome of `edge_offset_map.find(node_pair_item)` at the node `osmnodeid` for the
  incident edge `edgeindex`, given the entries that were inserted before (each with the
  pair of ids that its key was made from) and the pair of ids that the key of the lookup
  was made from.  Every key is a pair of dangling references, see `ComputeNodePair`, and
  the map stores its keys as such references too; the source fixes none of these
  outcomes. -/
  find_key : Nat → Nat → List ((Option GraphId × Option GraphId) × Nat) →
    Option GraphId × Option GraphId → KeyFind

/-- The function `ComputeNodePair(nodea, nodeb)`: the pair of ids that `std::make_pair`
makes, smaller id first.  The source declares the result as `node_pair`, a pair of
references, and binds the two references to the members of that `std::pair<GraphId,
GraphId>`, a temporary that is destroyed when the function returns.  The key that the
caller holds therefore dangles: the value here is what the temporary held, and no read
of the key by the caller is defined (`TileEnv.find_key`). -/
def ComputeNodePair (tenv : TileEnv) (nodea nodeb : Option GraphId) :
    Option GraphId × Option GraphId :=
  if tenv.less nodea nodeb then (nodea, nodeb) else (nodeb, nodea)

/-- The loop of `GetOpposingIndex` over the incident edges still to inspect; `n` is the
`uint32_t` counter. -/
def opposing_loop (endnode startnode : Nat) (edges : List Edge) (n : Nat) :
    List Nat → Except Failure Nat
  | [] => .ok 31
  | edgeindex :: rest =>
    match edges[edgeindex]? with
    | none => .error .out_of_bounds
    | some e =>
      if (e.sourcenode_ = endnode ∧ e.targetnode_ = startnode) ∨
          (e.targetnode_ = endnode ∧ e.sourcenode_ = startnode) then .ok n
      else opposing_loop endnode startnode edges ((n + 1) % 2 ^ 32) rest

/-- The function `GetOpposingIndex(endnode, startnode, nodes, edges)`. -/
def GetOpposingIndex (endnode startnode : Nat) (nodes : NodeMap) (edges : List Edge) :
    Except Failure Nat :=
  match nodes.find endnode with
  | some node => opposing_loop endnode startnode edges 0 node.edges_
  | none => .ok 31

/-- The lookup `map.find(key)` of the two offset maps of `BuildTileSet`. -/
def find_offset {κ : Type} [DecidableEq κ] (m : List (κ × Nat)) (key : κ) : Option Nat :=
  match m with
  | [] => none
  | (k, v) :: rest => if k = key then some v else find_offset rest key

/-- The attribute setters of `BuildTileSet` from `set_length` to `set_bikenetwork`, on a
fresh `DirectedEdgeBuilder`. -/
def set_attributes (tenv : TileEnv) (node : OSMNode) (edge : Edge) (w : OSMWay) :
    DirectedEdge :=
  { DirectedEdge.new with
    length := tenv.Length node.latlng_ edge.latlngs_,
    importance := w.road_class_,
    use := w.use_,
    link := w.link_,
    speed := w.speed_,
    ferry := w.ferry_,
    railferry := w.rail_,
    toll := w.toll_,
    dest_only := w.destination_only_,
    unpaved := w.surface_,
    tunnel := w.tunnel_,
    roundabout := w.roundabout_,
    bridge := w.bridge_,
    bikenetwork := w.bike_network_ }

/-- The orientation branch of `BuildTileSet`: `if (edge.sourcenode_ == osmnodeid)`,
`else if (edge.targetnode_ == osmnodeid)`, `else` (the error message only). -/
def orient (nodes : NodeMap) (edges : List Edge) (d : DirectedEdge) (w : OSMWay)
    (edge : Edge) (osmnodeid : Nat) (nodea nodeb : Option GraphId) :
    Except Failure DirectedEdge :=
  if edge.sourcenode_ = osmnodeid then
    match GetOpposingIndex edge.targetnode_ edge.sourcenode_ nodes edges with
    | .error e => .error e
    | .ok n =>
      let d1 := d.set_caraccess true false w.auto_forward_
      let d2 := d1.set_pedestrianaccess true false w.pedestrian_
      let d3 := d2.set_bicycleaccess true false w.bike_forward_
      let d4 := d3.set_caraccess false true w.auto_backward_
      let d5 := d4.set_pedestrianaccess false true w.pedestrian_
      let d6 := d5.set_bicycleaccess false true w.bike_backward_
      .ok ((d6.set_endnode nodeb).set_opp_index n)
  else if edge.targetnode_ = osmnodeid then
    match GetOpposingIndex edge.sourcenode_ edge.targetnode_ nodes edges with
    | .error e => .error e
    | .ok n =>
      let d1 := d.set_caraccess true false w.auto_backward_
      let d2 := d1.set_pedestrianaccess true false w.pedestrian_
      let d3 := d2.set_bicycleaccess true false w.bike_backward_
      let d4 := d3.set_caraccess false true w.auto_forward_
      let d5 := d4.set_pedestrianaccess false true w.pedestrian_
      let d6 := d5.set_bicycleaccess false true w.bike_forward_
      .ok ((d6.set_endnode nodea).set_opp_index n)
  else .ok d

/-- The body of `for (const auto& name : names)`: `offsets` is
`street_name_offset_list`.  The length of a `std::string` is its number of bytes. -/
def write_name (pool : TextPool) (offsets : List Nat) (name : String) :
    TextPool × List Nat :=
  if name = "" then (pool, offsets)
  else
    match find_offset pool.text_offset_map name with
    | none =>
      ({ text_list := pool.text_list ++ [name],
         text_offset_map := pool.text_offset_map ++ [(name, pool.text_list_offset)],
         text_list_offset := pool.text_list_offset + (name.utf8ByteSize + 1) },
       offsets ++ [pool.text_list_offset])
    | some offset => (pool, offsets ++ [offset])

/-- The loop `for (const auto& name : names)` over the names still to place. -/
def write_names (pool : TextPool) (offsets : List Nat) : List String → TextPool × List Nat
  | [] => (pool, offsets)
  | name :: rest =>
    write_names (write_name pool offsets name).1 (write_name pool offsets name).2 rest

/-- What the loop body of `BuildTileSet` reads for an incident edge: the edge, its way,
and the `GraphId`s of the source node (`nodea`) and of the target node (`nodeb`). -/
structure EdgeParts where
  edge : Edge
  w : OSMWay
  nodea : Option GraphId
  nodeb : Option GraphId
deriving DecidableEq, Repr

/-- The reads `edges[edgeindex]`, `ways[edge.wayindex_]`,
`nodes.find(edge.sourcenode_)->second.graphid()` and
`nodes.find(edge.targetnode_)->second.graphid()` of the loop body of `BuildTileSet`.  The
subscripts are unchecked and the iterators are dereferenced without a check. -/
def edge_parts (nodes : NodeMap) (ways : List OSMWay) (edges : List Edge) (edgeindex : Nat) :
    Except Failure EdgeParts :=
  match edges[edgeindex]? with
  | none => .error .out_of_bounds
  | some edge =>
    match ways[edge.wayindex_]? with
    | none => .error .out_of_bounds
    | some w =>
      match nodes.find edge.sourcenode_ with
      | none => .error .out_of_bounds
      | some a =>
        match nodes.find edge.targetnode_ with
        | none => .error .out_of_bounds
        | some b => .ok { edge := edge, w := w, nodea := a.graphid_, nodeb := b.graphid_ }

/-- The part of the loop body of `BuildTileSet` from `ComputeNodePair` to
`set_edgedataoffset`, at the node `osmnodeid` for the incident edge `edgeindex`: the edge
data afterwards and the offset given to the directed edge.  The member `edge_offset_map`
records the calls of `insert`, each with the pair of ids that its key was made from; what
a lookup finds among them is `tenv.find_key`. -/
def edge_data (tenv : TileEnv) (osmnodeid edgeindex : Nat) (data : EdgeData) (p : EdgeParts) :
    Except Failure (EdgeData × Nat) :=
  let node_pair_item := ComputeNodePair tenv p.nodea p.nodeb
  match tenv.find_key osmnodeid edgeindex data.edge_offset_map node_pair_item with
  | .fault => .error .out_of_bounds
  | .absent =>
    let r := write_names data.text [] (tenv.GetNames p.w)
    let edgeinfo : EdgeInfo :=
      { nodea := p.nodea, nodeb := p.nodeb, shape := p.edge.latlngs_,
        street_name_offset_list := r.2 }
    .ok ({ text := r.1,
           edge_offset_map := data.edge_offset_map ++ [(node_pair_item, data.edge_info_offset)],
           edgeinfo_list := data.edgeinfo_list ++ [edgeinfo],
           edge_info_offset := data.edge_info_offset + tenv.SizeOf edgeinfo },
         data.edge_info_offset)
  | .found offset => .ok (data, offset)

/-- The body of `for (auto edgeindex : node.edges())` in `BuildTileSet`. -/
def write_edge (tenv : TileEnv) (nodes : NodeMap) (ways : List OSMWay) (edges : List Edge)
    (osmnodeid : Nat) (node : OSMNode) (st : TileBuild) (directededges : List DirectedEdge)
    (edgeindex : Nat) : Except Failure (TileBuild × List DirectedEdge) :=
  match edge_parts nodes ways edges edgeindex with
  | .error e => .error e
  | .ok p =>
    match orient nodes edges (set_attributes tenv node p.edge p.w) p.w p.edge osmnodeid
        p.nodea p.nodeb with
    | .error e => .error e
    | .ok d =>
      match edge_data tenv osmnodeid edgeindex st.data p with
      | .error e => .error e
      | .ok r => .ok ({ st with data := r.1 }, directededges ++ [d.set_edgedataoffset r.2])

/-- The loop `for (auto edgeindex : node.edges())` over the incident edges still to
visit. -/
def write_edges (tenv : TileEnv) (nodes : NodeMap) (ways : List OSMWay) (edges : List Edge)
    (osmnodeid : Nat) (node : OSMNode) (st : TileBuild) (directededges : List DirectedEdge) :
    List Nat → Except Failure (TileBuild × List DirectedEdge)
  | [] => .ok (st, directededges)
  | edgeindex :: rest =>
    match write_edge tenv nodes ways edges osmnodeid node st directededges edgeindex with
    | .error e => .error e
    | .ok r => write_edges tenv nodes ways edges osmnodeid node r.1 r.2 rest

/-- The body of `for (const auto& osmnodeid : tile)` in `BuildTileSet`. -/
def write_node (tenv : TileEnv) (nodes : NodeMap) (ways : List OSMWay) (edges : List Edge)
    (st : TileBuild) (osmnodeid : Nat) : Except Failure TileBuild :=
  match nodes.find osmnodeid with
  | none => .error .out_of_bounds
  | some node =>
    let nodebuilder : NodeInfo :=
      { latlng := node.latlng_, edge_index := st.directededgecount,
        edge_count := node.edge_count }
    match write_edges tenv nodes ways edges osmnodeid node
        { st with directededgecount := (st.directededgecount + node.edge_count) % 2 ^ 32 }
        [] node.edges_ with
    | .error e => .error e
    | .ok r => .ok { r.1 with graphtile := r.1.graphtile ++ [(nodebuilder, r.2)] }

/-- The loop `for (const auto& osmnodeid : tile)` over the nodes still to visit. -/
def write_nodes (tenv : TileEnv) (nodes : NodeMap) (ways : List OSMWay) (edges : List Edge)
    (st : TileBuild) : List Nat → Except Failure TileBuild
  | [] => .ok st
  | osmnodeid :: rest =>
    match write_node tenv nodes ways edges st osmnodeid with
    | .error e => .error e
    | .ok st1 => write_nodes tenv nodes ways edges st1 rest

/-- The `try` block of `BuildTileSet` for one tile, up to the calls `SetEdgeInfoAndSize`
and `SetTextListAndSize`, which hand `edgeinfo_list` with `edge_info_offset` and
`text_list` with `text_list_offset` to the tile. -/
def build_tile (tenv : TileEnv) (nodes : NodeMap) (ways : List OSMWay) (edges : List Edge)
    (tile : List Nat) : Except Failure TileBuild :=
  write_nodes tenv nodes ways edges TileBuild.new tile

/-- Modelled from the spec: `Tile_Base()` is the id of the tile itself, with local
index 0. -/
def Tile_Base (id : Option GraphId) : Option GraphId :=
  id.map (fun g => { g with id := 0 })

/-- The loop `for (const auto& tile : task)` of `BuildTileSet` over the tiles still to
build; `written` is a `size_t`.  An exception leaves the loop at once. -/
def build_tiles (tenv : TileEnv) (nodes : NodeMap) (ways : List OSMWay) (edges : List Edge)
    (written : Nat) : List (List Nat) → Except Failure Nat
  | [] => .ok written
  | tile :: rest =>
    match tile with
    | [] => build_tiles tenv nodes ways edges written rest
    | front :: _ =>
      match nodes.find front with
      | none => .error .out_of_bounds
      | some first =>
        match build_tile tenv nodes ways edges tile with
        | .error e => .error e
        | .ok st =>
          match tenv.StoreTileData (Tile_Base first.graphid_) st with
          | some what => .error (.runtime_error what)
          | none => build_tiles tenv nodes ways edges ((written + tenv.size st) % 2 ^ 64) rest

/-- The function `BuildTileSet(task, nodes, ways, edges, outdir, result)`: the value or
the exception that it stores in `result`. -/
def BuildTileSet (tenv : TileEnv) (task : List (List Nat)) (nodes : NodeMap)
    (ways : List OSMWay) (edges : List Edge) : Except Failure Nat :=
  build_tiles tenv nodes ways edges 0 task
/-! ## Vocabulary of the tile writer -/

/-- The lookup key `ComputeNodePair(nodea, nodeb)` of an incident edge. -/
def EdgeParts.pair (tenv : TileEnv) (p : EdgeParts) : Option GraphId × Option GraphId :=
  ComputeNodePair tenv p.nodea p.nodeb

/-- The directed edge that the loop body of `BuildTileSet` builds at the node `osmnodeid`
from the entry `edgeindex` of its incident-edge list, as it is before
`set_edgedataoffset`. -/
def directed_edge (tenv : TileEnv) (nodes : NodeMap) (ways : List OSMWay) (edges : List Edge)
    (osmnodeid edgeindex : Nat) : Except Failure DirectedEdge :=
  match nodes.find osmnodeid with
  | none => .error .out_of_bounds
  | some node =>
    match edge_parts nodes ways edges edgeindex with
    | .error e => .error e
    | .ok p =>
      orient nodes edges (set_attributes tenv node p.edge p.w) p.w p.edge osmnodeid
        p.nodea p.nodeb

/-- The `EdgeInfo` of an incident edge whose non-empty way names have the offsets that a
text pool records for them. -/
def info_of (tenv : TileEnv) (pool : TextPool) (p : EdgeParts) : EdgeInfo :=
  { nodea := p.nodea, nodeb := p.nodeb, shape := p.edge.latlngs_,
    street_name_offset_list :=
      ((tenv.GetNames p.w).filter (fun s => decide (s ≠ ""))).map
        (fun s => (find_offset pool.text_offset_map s).getD 0) }

/-- The incident edge indices that `BuildTileSet` visits for a bucket, in order. -/
def visits (nodes : NodeMap) (tile : List Nat) : List Nat :=
  tile.flatMap (fun u => (nodes.get u).edges_)

/-- The directed edges of a built tile, each with the node at which and the incident edge
index from which it was built: the entry at position `j` of the node at position `i` of
the tile belongs to the entry `j` of the incident-edge list of the node `i` of the
bucket. -/
def emitted (nodes : NodeMap) (tile : List Nat) (st : TileBuild) :
    List (Nat × Nat × DirectedEdge) :=
  (tile.zip st.graphtile).flatMap (fun x =>
    ((nodes.get x.1).edges_.zip x.2.2).map (fun y => (x.1, y.1, y.2)))

/-- The number of bytes that a list of names takes in the text pool, each name with its
terminating NUL. -/
def pool_size (names : List String) : Nat :=
  (names.map (fun s => s.utf8ByteSize + 1)).sum

/-- The state of the text pool that the name loop maintains: no name twice, no empty
name, the map holds the names of the list in order, each with the number of bytes of the
names before it, and `text_list_offset` is the number of bytes of all names. -/
structure TextPool.Sound (pool : TextPool) : Prop where
  nodup : pool.text_list.Nodup
  nonempty : "" ∉ pool.text_list
  names : pool.text_offset_map.map Prod.fst = pool.text_list
  offsets : pool.text_offset_map.map Prod.snd =
    (List.range pool.text_list.length).map (fun i => pool_size (pool.text_list.take i))
  size : pool.text_list_offset = pool_size pool.text_list

/-- The unordered pair of two node ids, smaller id first. -/
def unordered (a b : Nat) : Nat × Nat := (min a b, max a b)

/-- The state of the edge data that the loop body of `BuildTileSet` maintains, for the
incident edges `made` for which it has built an `EdgeInfo`, in order: the text pool is
sound, the records are those of `made`, each with the offsets that the pool records for
the non-empty names of the way of its edge, and the pool records an offset for every one
of these names. -/
structure EdgeData.Sound (tenv : TileEnv) (made : List EdgeParts) (data : EdgeData) :
    Prop where
  text : data.text.Sound
  records : data.edgeinfo_list = made.map (info_of tenv data.text)
  named : ∀ p ∈ made, ∀ s ∈ tenv.GetNames p.w, ¬ s = "" →
    ∃ x, find_offset data.text.text_offset_map s = some x

/-! ## Examples for the tile writer -/

/-- A collaborator set for the examples: ids are ordered by level, then tile, then local
index, with the default-constructed id last; the length of a shape is its number of
points; the names of a way are its `ref`, `name`, `name:en`, `alt_name` and
`official_name`; an `EdgeInfo` takes 16 bytes and 8 for each point and each name; no
write fails; a key lookup finds the first entry that was inserted for the same pair of
ids, as it would with a key that held the ids themselves. -/
def sampleTileEnv : TileEnv :=
  { less := fun a b =>
      match a, b with
      | some x, some y =>
        decide (x.level < y.level ∨ (x.level = y.level ∧
          (x.tileid < y.tileid ∨ (x.tileid = y.tileid ∧ x.id < y.id))))
      | some _, none => true
      | none, _ => false,
    Length := fun _ shape => shape.length,
    GetNames := fun w => [w.ref_, w.name_, w.name_en_, w.alt_name_, w.official_name_],
    SizeOf := fun e => 16 + 8 * e.shape.length + 8 * e.street_name_offset_list.length,
    StoreTileData := fun _ _ => none,
    size := fun st => st.data.edge_info_offset + st.data.text.text_list_offset,
    find_key := fun _ _ m key =>
      match find_offset m key with
      | none => .absent
      | some offset => .found offset }

/-- The builder after `Build` over a dump (the empty builder when a step throws). -/
def GraphBuilder.built (env : Env) (ways : List WayInput) (nodes : List NodeInput)
    (level : Nat) : GraphBuilder :=
  match GraphBuilder.Build env ways nodes level with
  | .error _ => GraphBuilder.init
  | .ok g => g

/-- The nodes 1, 2 and 3 on the equator at longitudes 0, 1 and 2. -/
def threeNodes : List NodeInput :=
  [{ osmid := 1, lng := 0, lat := 0, tags := [("highway", "crossing")] },
   { osmid := 2, lng := 1, lat := 0, tags := [("highway", "crossing")] },
   { osmid := 3, lng := 2, lat := 0, tags := [("highway", "crossing")] }]

/-- The dump of scenario S3: the ways `[1, 2]` and `[2, 3]`, both named `Main St`. -/
def namedDump : List WayInput :=
  [{ osmid := 1, tags := [("name", "Main St")], refs := [1, 2] },
   { osmid := 2, tags := [("name", "Main St")], refs := [2, 3] }]

/-- The dump of scenario S4: the one-way street `[1, 2]`, open to cars in the forward
direction only and to pedestrians. -/
def onewayDump : List WayInput :=
  [{ osmid := 1,
     tags := [("oneway", "true"), ("auto_forward", "true"), ("auto_backward", "false"),
              ("pedestrian", "true")],
     refs := [1, 2] }]

/-- A dump with two ways that both connect node 1 and node 2: `[1, 2]` and `[1, 3, 2]`. -/
def parallelDump : List WayInput :=
  [{ osmid := 1, tags := [("highway", "residential")], refs := [1, 2] },
   { osmid := 2, tags := [("highway", "residential")], refs := [1, 3, 2] }]

/-- The directed edge `d` of a tile answers to the node `u` and the incident edge index
`ei`: it is the directed edge that the loop body builds at `u` from `ei`, with some edge
data offset. -/
def Answers (tenv : TileEnv) (nodes : NodeMap) (ways : List OSMWay) (edges : List Edge)
    (u ei : Nat) (d : DirectedEdge) : Prop :=
  ∃ p d0 offset, edge_parts nodes ways edges ei = .ok p ∧
    directed_edge tenv nodes ways edges u ei = .ok d0 ∧
    d = d0.set_edgedataoffset offset

/-- The tile that `BuildTileSet` builds for a bucket of a builder (the empty tile when the
construction fails). -/
def built_tile (tenv : TileEnv) (g : GraphBuilder) (tile : List Nat) : TileBuild :=
  match build_tile tenv g.nodes_ g.ways_ g.edges_ tile with
  | .error _ => TileBuild.new
  | .ok st => st

/-- The builder of scenario S4 after `Build`. -/
def onewayBuilder : GraphBuilder := GraphBuilder.built sampleEnv onewayDump threeNodes 2

/-- The directed edge that scenario S4 gives at node 1: along the way, to node 2. -/
def onewayForward : DirectedEdge :=
  { DirectedEdge.new with
    length := 2,
    caraccess_forward := true,
    pedestrianaccess_forward := true,
    pedestrianaccess_reverse := true,
    endnode := some { tileid := 0, level := 2, id := 1 } }

/-- The order `GraphId::operator<` is a strict total order on the ids that nodes carry. -/
structure TileEnv.Ordered (tenv : TileEnv) : Prop where
  irrefl : ∀ a, tenv.less a a = false
  asymm : ∀ a b, tenv.less a b = true → tenv.less b a = false
  total : ∀ a b, a ≠ b → tenv.less a b = true ∨ tenv.less b a = true

/-- The builder of scenario S3 after `Build`. -/
def namedBuilder : GraphBuilder := GraphBuilder.built sampleEnv namedDump threeNodes 2

/-- The directed edge that scenario S4 gives at node 2: against the way, to node 1. -/
def onewayBackward : DirectedEdge :=
  { DirectedEdge.new with
    length := 2,
    caraccess_reverse := true,
    pedestrianaccess_forward := true,
    pedestrianaccess_reverse := true,
    endnode := some { tileid := 0, level := 2, id := 0 } }

/-- The edge of scenario S4, from node 1 to node 2. -/
def onewayEdge : Edge :=
  { sourcenode_ := 1, targetnode_ := 2, wayindex_ := 0,
    latlngs_ := [{ lat := 0, lng := 0 }, { lat := 0, lng := 1 }] }

/-- The `AddEdge` calls that belong to a list of edges of the edge table, the first of
which has the index `i`: every edge is registered at its source node and at its target
node. -/
def edge_events (i : Nat) : List Edge → List (Nat × Nat)
  | [] => []
  | e :: rest => (e.sourcenode_, i) :: (e.targetnode_, i) :: edge_events (i + 1) rest

/-- The node table, the way table and the edge table fit together: the incident-edge list
of a node holds, in ascending order, the index of every edge that starts at the node and
of every edge that ends at it, both end nodes of an edge are in the node table, and the
way index of an edge is an index of the way table. -/
structure Linked (nodes : NodeMap) (ways : List OSMWay) (edges : List Edge) : Prop where
  incident : ∀ v, (nodes.get v).edges_ = registered (edge_events 0 edges) v
  ends : ∀ e ∈ edges, (∃ a, nodes.find e.sourcenode_ = some a) ∧
    ∃ b, nodes.find e.targetnode_ = some b
  way : ∀ e ∈ edges, e.wayindex_ < ways.length

/-- The edge connects the nodes `a` and `b`: the condition that the loop of
`GetOpposingIndex` tests, `(source == a && target == b) || (target == a && source == b)`. -/
def Edge.joins (e : Edge) (a b : Nat) : Prop :=
  (e.sourcenode_ = a ∧ e.targetnode_ = b) ∨ (e.targetnode_ = a ∧ e.sourcenode_ = b)

instance Edge.decJoins (e : Edge) (a b : Nat) : Decidable (e.joins a b) :=
  inferInstanceAs (Decidable ((e.sourcenode_ = a ∧ e.targetnode_ = b) ∨
    (e.targetnode_ = a ∧ e.sourcenode_ = b)))

/-- The builder after `Build` over the dump with two ways between node 1 and node 2. -/
def parallelBuilder : GraphBuilder := GraphBuilder.built sampleEnv parallelDump threeNodes 2

/-- The builder of scenario S2 after `Build` on the grid of `tiledEnv`: node 10 lies in
tile 0, the nodes 11, 20 and 22 in tile 1, node 12 in tile 2. -/
def crossingTiled : GraphBuilder := GraphBuilder.built tiledEnv crossingDump crossingNodes 2

/-- The directed edge that scenario S2 gives at node 10 on the grid of `tiledEnv`: to
node 11, which lies in tile 1. -/
def crossingWest : DirectedEdge :=
  { DirectedEdge.new with
    length := 2,
    endnode := some { tileid := 1, level := 2, id := 0 } }

/-- The directed edges of all tiles that the `try` block of `BuildTileSet` builds for the
buckets of all workers, each with the node at which and the incident edge index from which
it was built. -/
def all_emitted (tenv : TileEnv) (g : GraphBuilder) : List (Nat × Nat × DirectedEdge) :=
  g.tasks_.flatten.flatMap (fun tile => emitted g.nodes_ tile (built_tile tenv g tile))

/-- The builder of scenario S2 after `Build`, with all nodes in one tile. -/
def crossingBuilder : GraphBuilder := GraphBuilder.built sampleEnv crossingDump crossingNodes 2

/-- The loop `for (auto& result : results)` of `BuildLocalTiles`: `result.get_future().get()`
inside `try`, with the handler `catch (std::exception& e)` whose body is a comment.  A
stored exception is caught and dropped; a worker that ran into undefined behaviour has no
defined outcome. -/
def check_results : List (Except Failure Nat) → Except Failure Unit
  | [] => .ok ()
  | .ok _ :: rest => check_results rest
  | .error .out_of_bounds :: _ => .error .out_of_bounds
  | .error (.runtime_error _) :: rest => check_results rest
  | .error (.invalid_argument _) :: rest => check_results rest

/-- The method `GraphBuilder::BuildLocalTiles(level)`: one thread for each task list runs
`BuildTileSet` and stores its outcome in its promise, all threads are joined, then the
outcomes are inspected in order.  The threads only read the shared tables, so the
outcome of each is that of a call of `BuildTileSet` on its own task list. -/
def GraphBuilder.BuildLocalTiles (tenv : TileEnv) (g : GraphBuilder) : Except Failure Unit :=
  check_results (g.tasks_.map (fun task => BuildTileSet tenv task g.nodes_ g.ways_ g.edges_))

/-- A collaborator set whose key lookups all come back with `end()`: no read through the
dangling references of a key meets the ids that an inserted key was made from. -/
def unsharedTileEnv : TileEnv :=
  { sampleTileEnv with find_key := fun _ _ _ _ => .absent }

/-- A collaborator set whose tile writes all fail: `StoreTileData` throws. -/
def failingTileEnv : TileEnv :=
  { sampleTileEnv with StoreTileData := fun _ _ => some "cannot write tile" }

/-- The counters of pass 1 count what the recorded ways hold: `node_count_` is the number
of different node ids in their node sequences, and every ref counts once, in
`node_count_` or in `edge_count_`, besides the two that `edge_count_` gets for a way. -/
structure GraphBuilder.Counted (g : GraphBuilder) : Prop where
  node : g.node_count_ = g.way_nodes.flatten.dedup.length
  total : g.edge_count_ + g.node_count_ = g.way_nodes.flatten.length + 2 * g.ways_.length

/-- A dump with two ways that share their three inner nodes: `[1, 2, 3, 4, 5]` and
`[6, 2, 3, 4, 7]`. -/
def sharedDump : List WayInput :=
  [{ osmid := 1, tags := [("highway", "residential")], refs := [1, 2, 3, 4, 5] },
   { osmid := 2, tags := [("highway", "residential")], refs := [6, 2, 3, 4, 7] }]

/-- The loop `for (const auto& tile : task)` of `BuildTileSet` as in `build_tiles`,
together with the tiles that `StoreTileData` has stored so far, each with its tile id, in
the order of the calls. -/
def build_tiles_log (tenv : TileEnv) (nodes : NodeMap) (ways : List OSMWay)
    (edges : List Edge) (written : Nat) (log : List (Option GraphId × TileBuild)) :
    List (List Nat) → List (Option GraphId × TileBuild) × Except Failure Nat
  | [] => (log, .ok written)
  | tile :: rest =>
    match tile with
    | [] => build_tiles_log tenv nodes ways edges written log rest
    | front :: _ =>
      match nodes.find front with
      | none => (log, .error .out_of_bounds)
      | some first =>
        match build_tile tenv nodes ways edges tile with
        | .error e => (log, .error e)
        | .ok st =>
          match tenv.StoreTileData (Tile_Base first.graphid_) st with
          | some what => (log, .error (.runtime_error what))
          | none =>
            build_tiles_log tenv nodes ways edges ((written + tenv.size st) % 2 ^ 64)
              (log ++ [(Tile_Base first.graphid_, st)]) rest

/-- A collaborator set that stores the tiles of tile 0 and fails on every other tile. -/
def partialTileEnv : TileEnv :=
  { sampleTileEnv with
    StoreTileData := fun id _ =>
      match id with
      | some g => if g.tileid = 0 then none else some "cannot write tile"
      | none => some "cannot write tile" }

/-! ## The attribute filter of `thor_worker_t` (`src/thor/trace_attributes_action.cc`) -/

/-- The exceptions that `filter_attributes` lets through: `std::out_of_range` of
`attributes.at(key)` for a key that the map does not hold, and `ptree_bad_path` of
`request.get_child(path)` for a path that the request does not hold. -/
inductive FilterFailure where
  | out_of_range (key : String)
  | ptree_bad_path (path : String)
deriving DecidableEq, Repr

/-- The part of the request that `filter_attributes` reads: the value at `filters.action`
when the request holds one, and the string values of the children of `filters.attributes`,
in order, when the request holds that child. -/
structure FilterRequest where
  action : Option String
  attributes : Option (List String)
deriving DecidableEq, Repr

/-- The member of `TripPathController` that `filter_attributes` accesses: the map
`attributes` from attribute key to enabled flag, as an association list. -/
structure TripPathController where
  attributes : List (String × Bool)
deriving DecidableEq, Repr

namespace TripPathController

/-- The lookup of a key in `attributes`: its flag, or `none` when the key is absent. -/
def find : List (String × Bool) → String → Option Bool
  | [], _ => none
  | (k, v) :: rest, key => if k = key then some v else find rest key

/-- The statement `controller.attributes.at(key) = value`: `at` throws `std::out_of_range`
for an absent key and never inserts one. -/
def at_assign : List (String × Bool) → String → Bool →
    Except FilterFailure (List (String × Bool))
  | [], key, _ => .error (.out_of_range key)
  | (k, v) :: rest, key, value =>
    if k = key then .ok ((k, value) :: rest)
    else
      match at_assign rest key value with
      | .error e => .error e
      | .ok r => .ok ((k, v) :: r)

/-- The loop `for (const auto& kv : request.get_child("filters.attributes"))` with the body
`controller.attributes.at(kv.second.get_value<std::string>()) = value`, over the names
still to visit. -/
def assign_all (value : Bool) : List (String × Bool) → List String →
    Except FilterFailure (List (String × Bool))
  | attrs, [] => .ok attrs
  | attrs, key :: rest =>
    match at_assign attrs key value with
    | .error e => .error e
    | .ok attrs1 => assign_all value attrs1 rest

/-- The attribute is enabled: the map holds its key with the flag `true`. -/
def enabled (c : TripPathController) (key : String) : Prop := find c.attributes key = some true

/-- The attribute is disabled: the map holds its key with the flag `false`. -/
def disabled (c : TripPathController) (key : String) : Prop :=
  find c.attributes key = some false

/-- The key is one of the attribute keys of the controller. -/
def known (c : TripPathController) (key : String) : Prop := find c.attributes key ≠ none

instance decEnabled (c : TripPathController) (key : String) : Decidable (c.enabled key) :=
  inferInstanceAs (Decidable (find c.attributes key = some true))

instance decDisabled (c : TripPathController) (key : String) : Decidable (c.disabled key) :=
  inferInstanceAs (Decidable (find c.attributes key = some false))

instance decKnown (c : TripPathController) (key : String) : Decidable (c.known key) :=
  inferInstanceAs (Decidable (find c.attributes key ≠ none))

end TripPathController

/-- The function `thor_worker_t::filter_attributes(request, controller)`: the controller
after the call, or the exception that leaves it.  The methods `enable_all` and
`disable_all` of `TripPathController` are declared in `thor/trip_path_controller.h`; what
they do to a controller is a parameter. -/
def thor_worker_t.filter_attributes (enable_all disable_all : TripPathController → TripPathController)
    (request : FilterRequest) (controller : TripPathController) :
    Except FilterFailure TripPathController :=
  let filter_action := request.action.getD ""
  if filter_action.length ≠ 0 ∧ filter_action = "include" then
    let c1 := disable_all controller
    match request.attributes with
    | none => .error (.ptree_bad_path "filters.attributes")
    | some names =>
      match TripPathController.assign_all true c1.attributes names with
      | .error e => .error e
      | .ok attrs => .ok { c1 with attributes := attrs }
  else if filter_action.length ≠ 0 ∧ filter_action = "exclude" then
    let c1 := enable_all controller
    match request.attributes with
    | none => .error (.ptree_bad_path "filters.attributes")
    | some names =>
      match TripPathController.assign_all false c1.attributes names with
      | .error e => .error e
      | .ok attrs => .ok { c1 with attributes := attrs }
  else
    .ok (enable_all controller)

/-- The flags of all keys set to one value, the keys kept: what the examples take for
`enable_all` (with `true`) and `disable_all` (with `false`). -/
def TripPathController.set_all (value : Bool) (c : TripPathController) : TripPathController :=
  { c with attributes := c.attributes.map (fun p => (p.1, value)) }

/-- A controller with three attribute keys for the examples. -/
def sampleController : TripPathController :=
  { attributes := [("edge.names", true), ("edge.length", false), ("node.elapsed_time", true)] }

/-! # Theorems -/

/-! ## The node-usage bitmap -/

namespace WordVector

theorem lookup_store (l : List (Nat × Nat)) (i v j : Nat) :
    lookup (store l i v) j = if i = j then v else lookup l j := by
  induction l with
  | nil => simp [store, lookup]
  | cons p rest ih =>
    obtain ⟨k, x⟩ := p
    by_cases hk : k = i
    · subst hk
      by_cases hj : k = j <;> simp [store, lookup, hj]
    · by_cases hj : k = j
      · subst hj
        have : ¬ i = k := fun e => hk e.symm
        simp [store, lookup, hk, this]
      · simp [store, lookup, hk, hj, ih]

theorem get?_set (v : WordVector) (i w j : Nat) :
    (v.set i w).get? j = if j < v.size then some (if i = j then w else lookup v.assigned j)
      else none := by
  simp [get?, set, lookup_store]

end WordVector

namespace NodeIdTable

theorem and_shift_ne_zero (w k : Nat) : ((w &&& (1 <<< k)) != 0) = w.testBit k := by
  rw [Nat.one_shiftLeft, Nat.and_two_pow]
  cases h : w.testBit k <;> simp

theorem testBit_or_shift (w k b : Nat) :
    (w ||| (1 <<< k)).testBit b = (w.testBit b || decide (b = k)) := by
  rw [Nat.testBit_or, Nat.one_shiftLeft, Nat.testBit_two_pow]
  simp [eq_comm]

theorem id_eq_of_word_bit {i j : Nat} (hw : i / 64 = j / 64) (hb : i % 64 = j % 64) : i = j := by
  omega

theorem wellSized_new (m : Nat) : (new m).WellSized := rfl

theorem bit_new (m w b : Nat) : (new m).bit w b = false := by
  simp only [bit, new, WordVector.zeros, WordVector.get?, WordVector.lookup]
  split <;> simp

theorem isUsed_eq_bit {t : NodeIdTable} {id : Nat} (h : id / 64 < t.bitmarkers_.size) :
    t.IsUsed id = .ok (t.bit (id / 64) (id % 64)) := by
  simp [IsUsed, bit, WordVector.get?, h, and_shift_ne_zero]

theorem isUsed_out_of_bounds {t : NodeIdTable} {id : Nat} (h : t.bitmarkers_.size ≤ id / 64) :
    t.IsUsed id = .error .out_of_bounds := by
  simp [IsUsed, WordVector.get?, Nat.not_lt.mpr h]

theorem marked_iff_bit (t : NodeIdTable) (id : Nat) :
    t.Marked id ↔ t.bit (id / 64) (id % 64) = true := by
  unfold Marked
  by_cases h : id / 64 < t.bitmarkers_.size
  · rw [isUsed_eq_bit h]; simp
  · have h1 : t.bitmarkers_.size ≤ id / 64 := Nat.le_of_not_lt h
    rw [isUsed_out_of_bounds h1]
    simp [bit, WordVector.get?, h]

theorem word_lt_size {t : NodeIdTable} (hs : t.WellSized) {id : Nat} (h : id ≤ t.maxosmid_) :
    id / 64 < t.bitmarkers_.size := by
  rw [hs]
  exact Nat.lt_succ_of_le (Nat.div_le_div_right h)

theorem isUsed_of_le {t : NodeIdTable} (hs : t.WellSized) {id : Nat} (h : id ≤ t.maxosmid_) :
    t.IsUsed id = .ok (t.bit (id / 64) (id % 64)) :=
  isUsed_eq_bit (word_lt_size hs h)

theorem set_throws {t : NodeIdTable} {id : Nat} (h : t.maxosmid_ < id) :
    t.set id = .error (.runtime_error "NodeIDTable - OSM Id exceeds max specified") := by
  simp [set, h]

theorem set_ok {t : NodeIdTable} (hs : t.WellSized) {id : Nat} (h : id ≤ t.maxosmid_) :
    ∃ t1, t.set id = .ok t1 ∧ t1.maxosmid_ = t.maxosmid_ ∧ t1.WellSized ∧
      ∀ w b, t1.bit w b = (t.bit w b || (decide (w = id / 64) && decide (b = id % 64))) := by
  have hlt : id / 64 < t.bitmarkers_.size := word_lt_size hs h
  have hset : t.set id = .ok ⟨t.maxosmid_, t.bitmarkers_.set (id / 64)
      (WordVector.lookup t.bitmarkers_.assigned (id / 64) ||| (1 <<< (id % 64)))⟩ := by
    simp [set, Nat.not_lt.mpr h, WordVector.get?, hlt]
  refine ⟨_, hset, rfl, ?_, ?_⟩
  · simpa [WellSized, WordVector.set] using hs
  · intro w b
    simp only [bit, WordVector.get?_set]
    by_cases hw : id / 64 = w
    · subst hw
      simp only [if_pos hlt, if_true, Option.getD_some, testBit_or_shift, WordVector.get?]
      simp
    · have hw2 : ¬ w = id / 64 := fun e => hw e.symm
      by_cases hsz : w < t.bitmarkers_.size <;> simp [hw, hw2, hsz, WordVector.get?]

theorem le_of_set_ok {t t1 : NodeIdTable} {id : Nat} (h : t.set id = .ok t1) :
    id ≤ t.maxosmid_ := by
  by_contra hc
  rw [set_throws (Nat.lt_of_not_le hc)] at h
  cases h

theorem marked_of_set {t t1 : NodeIdTable} (hs : t.WellSized) {id : Nat}
    (h : t.set id = .ok t1) :
    t1.maxosmid_ = t.maxosmid_ ∧ t1.WellSized ∧ ∀ j, (t1.Marked j ↔ j = id ∨ t.Marked j) := by
  obtain ⟨t2, h2, hm, hs2, hb⟩ := set_ok hs (le_of_set_ok h)
  rw [h2] at h
  cases h
  refine ⟨hm, hs2, fun j => ?_⟩
  rw [marked_iff_bit, marked_iff_bit, hb]
  simp only [Bool.or_eq_true, Bool.and_eq_true, decide_eq_true_eq]
  constructor
  · rintro (h1 | ⟨h1, h2⟩)
    · exact Or.inr h1
    · exact Or.inl (id_eq_of_word_bit h1 h2)
  · rintro (h1 | h1)
    · subst h1; exact Or.inr ⟨rfl, rfl⟩
    · exact Or.inl h1

theorem not_marked_new (m j : Nat) : ¬ (new m).Marked j := by
  rw [marked_iff_bit, bit_new]; simp

theorem isUsed_ok_iff_marked {t : NodeIdTable} {id : Nat} {b : Bool} (h : t.IsUsed id = .ok b) :
    (b = true ↔ t.Marked id) := by
  unfold Marked
  rw [h]
  constructor
  · intro e; rw [e]
  · intro e; cases e; rfl

theorem setAll_ok {t : NodeIdTable} (hs : t.WellSized) (ids : List Nat)
    (h : ∀ i ∈ ids, i ≤ t.maxosmid_) :
    ∃ t1, t.setAll ids = .ok t1 ∧ t1.maxosmid_ = t.maxosmid_ ∧ t1.WellSized ∧
      ∀ j, t1.Marked j ↔ j ∈ ids ∨ t.Marked j := by
  induction ids generalizing t with
  | nil => exact ⟨t, rfl, rfl, hs, fun j => by simp⟩
  | cons id ids ih =>
    obtain ⟨t1, h1, hm1, hs1, -⟩ := set_ok hs (h id (List.mem_cons_self _ _))
    have hstep := (marked_of_set hs h1).2.2
    obtain ⟨t2, h2, hm2, hs2, hmk⟩ := ih hs1 (fun i hi => by
      rw [hm1]; exact h i (List.mem_cons_of_mem _ hi))
    refine ⟨t2, ?_, hm2.trans hm1, hs2, ?_⟩
    · simp [setAll, h1, h2]
    · intro j
      rw [hmk j, hstep j, List.mem_cons]
      tauto

end NodeIdTable

/-- C1 fails on the code, by the defect of C3: on a table created with maximum `m`, after
`set` has been applied in order to ids that are all at most `m`, `IsUsed j` returns
`j ∈ ids` for every `j` whose word `j / 64` lies in the vector, which covers every
`j ≤ m` and gives `false` for the ids above `m` in the last word; for every other `j` the
subscript of `IsUsed` is past the end of the vector, where the claim expects `false`. -/
theorem NodeIdTable.isUsed_after_sets (m : Nat) (ids : List Nat) (h : ∀ i ∈ ids, i ≤ m) :
    ∃ t, (NodeIdTable.new m).setAll ids = .ok t ∧
      ∀ j, (j / 64 ≤ m / 64 → t.IsUsed j = .ok (decide (j ∈ ids))) ∧
        (m < j → j / 64 ≤ m / 64 → t.IsUsed j = .ok false) ∧
        (m / 64 < j / 64 → t.IsUsed j = .error .out_of_bounds) := by
  obtain ⟨t, ht, hm, hs, hmk⟩ := NodeIdTable.setAll_ok (NodeIdTable.wellSized_new m) ids h
  have hsize : t.bitmarkers_.size = m / 64 + 1 := by
    rw [hs, hm]; rfl
  have hin : ∀ j, j / 64 ≤ m / 64 → t.IsUsed j = .ok (decide (j ∈ ids)) := by
    intro j hj
    rw [NodeIdTable.isUsed_eq_bit (by rw [hsize]; exact Nat.lt_succ_of_le hj)]
    have h3 := hmk j
    rw [NodeIdTable.marked_iff_bit] at h3
    congr 1
    cases hb : t.bit (j / 64) (j % 64)
    · rw [hb] at h3
      have : ¬ j ∈ ids := fun hc => by
        have := h3.mpr (Or.inl hc)
        cases this
      simp [this]
    · rw [hb] at h3
      have : j ∈ ids := by
        rcases h3.mp rfl with h4 | h4
        · exact h4
        · exact absurd h4 (NodeIdTable.not_marked_new m j)
      simp [this]
  refine ⟨t, ht, fun j => ⟨hin j, ?_, ?_⟩⟩
  · intro hj hw
    rw [hin j hw]
    have : ¬ j ∈ ids := fun hc => absurd (h j hc) (Nat.not_le.mpr hj)
    simp [this]
  · intro hj
    exact NodeIdTable.isUsed_out_of_bounds (by rw [hsize]; exact hj)

/-- The table for maximum 100 after `set(3)` and `set(70)`: `IsUsed(70)` is `true`,
`IsUsed(101)` is `false`, and `IsUsed(128)` reads word 2 of a vector of two words. -/
theorem NodeIdTable.isUsed_after_sets_witness :
    (∀ i ∈ [3, 70], i ≤ 100) ∧
    (∃ t, (NodeIdTable.new 100).setAll [3, 70] = .ok t ∧
      ∀ j, (j / 64 ≤ 100 / 64 → t.IsUsed j = .ok (decide (j ∈ [3, 70]))) ∧
        (100 < j → j / 64 ≤ 100 / 64 → t.IsUsed j = .ok false) ∧
        (100 / 64 < j / 64 → t.IsUsed j = .error .out_of_bounds)) ∧
    ((NodeIdTable.new 100).setAll [3, 70]).map
      (fun t => (t.IsUsed 70, t.IsUsed 101, t.IsUsed 128)) =
      .ok (.ok true, .ok false, .error .out_of_bounds) :=
  ⟨by decide, NodeIdTable.isUsed_after_sets 100 [3, 70] (by decide), by decide⟩

/-- C2: on a table whose vector has the size the constructor gave it, `set id` throws
exactly when `id > maxosmid_` (and then yields no new table: the table stays as it was);
when `id ≤ maxosmid_` it returns a table with the same maximum in which bit `id % 64` of
word `id / 64` is set and every other bit is as before, so that no bit is cleared. -/
theorem NodeIdTable.set_effect (t : NodeIdTable) (hs : t.WellSized) (id : Nat) :
    ((∃ e, t.set id = .error e) ↔ t.maxosmid_ < id) ∧
    (t.maxosmid_ < id →
      t.set id = .error (.runtime_error "NodeIDTable - OSM Id exceeds max specified")) ∧
    (id ≤ t.maxosmid_ → ∃ t1, t.set id = .ok t1 ∧
      t1.maxosmid_ = t.maxosmid_ ∧ t1.bitmarkers_.size = t.bitmarkers_.size ∧
      t1.bit (id / 64) (id % 64) = true ∧
      (∀ w b, ¬ (w = id / 64 ∧ b = id % 64) → t1.bit w b = t.bit w b) ∧
      (∀ w b, t.bit w b = true → t1.bit w b = true)) := by
  refine ⟨⟨?_, ?_⟩, fun h => NodeIdTable.set_throws h, ?_⟩
  · rintro ⟨e, he⟩
    by_contra hc
    obtain ⟨t1, h1, -⟩ := NodeIdTable.set_ok hs (Nat.le_of_not_lt hc)
    rw [h1] at he
    cases he
  · intro h
    exact ⟨_, NodeIdTable.set_throws h⟩
  · intro h
    obtain ⟨t1, h1, hm, hs1, hb⟩ := NodeIdTable.set_ok hs h
    refine ⟨t1, h1, hm, ?_, ?_, ?_, ?_⟩
    · rw [hs1, hs, hm]
    · rw [hb]; simp
    · intro w b hne
      rw [hb]
      have : (decide (w = id / 64) && decide (b = id % 64)) = false := by
        simpa using fun hw => (fun hb2 => hne ⟨hw, hb2⟩)
      rw [this]; simp
    · intro w b hwb
      rw [hb, hwb]; simp

/-- Witness for C2: the table for maximum 100 and the id 70. -/
theorem NodeIdTable.set_effect_witness :
    (NodeIdTable.new 100).WellSized ∧
    ((∃ e, (NodeIdTable.new 100).set 70 = .error e) ↔ (NodeIdTable.new 100).maxosmid_ < 70) ∧
    ((NodeIdTable.new 100).maxosmid_ < 70 → (NodeIdTable.new 100).set 70 =
      .error (.runtime_error "NodeIDTable - OSM Id exceeds max specified")) ∧
    (70 ≤ (NodeIdTable.new 100).maxosmid_ → ∃ t1, (NodeIdTable.new 100).set 70 = .ok t1 ∧
      t1.maxosmid_ = (NodeIdTable.new 100).maxosmid_ ∧
      t1.bitmarkers_.size = (NodeIdTable.new 100).bitmarkers_.size ∧
      t1.bit (70 / 64) (70 % 64) = true ∧
      (∀ w b, ¬ (w = 70 / 64 ∧ b = 70 % 64) → t1.bit w b = (NodeIdTable.new 100).bit w b) ∧
      (∀ w b, (NodeIdTable.new 100).bit w b = true → t1.bit w b = true)) :=
  ⟨rfl, NodeIdTable.set_effect (NodeIdTable.new 100) rfl 70⟩

/-- C3 fails on the code: `IsUsed` subscripts the vector without comparing the id with
the maximum.  On the table for maximum 100 (two words) the id 128 reads word 2, and on a
table of the builder's size (maximum 4000000000, words 0 to 62500000) the id 4000000064
reads word 62500001: both reads are past the end of the vector. -/
theorem NodeIdTable.isUsed_reads_past_end :
    (NodeIdTable.new 100).IsUsed 128 = .error .out_of_bounds ∧
    (NodeIdTable.new kMaxOSMNodeId).IsUsed 4000000064 = .error .out_of_bounds := by
  decide

/-! ## Pass 1 -/

namespace GraphBuilder

theorem sameTables_refl (g : GraphBuilder) : SameTables g g := ⟨rfl, rfl, rfl, rfl, rfl⟩

theorem sameTables_trans {g g1 g2 : GraphBuilder} (h1 : SameTables g g1)
    (h2 : SameTables g1 g2) : SameTables g g2 := by
  obtain ⟨a1, a2, a3, a4, a5⟩ := h1
  obtain ⟨b1, b2, b3, b4, b5⟩ := h2
  exact ⟨b1.trans a1, b2.trans a2, b3.trans a3, b4.trans a4, b5.trans a5⟩

theorem two_le_count_append_singleton (R : List Nat) (r j : Nat) :
    2 ≤ (R ++ [r]).count j ↔ (j = r ∧ j ∈ R) ∨ 2 ≤ R.count j := by
  rw [List.count_append, List.count_cons, List.count_nil]
  by_cases hj : j = r
  · subst hj
    have := @List.one_le_count_iff _ _ _ j R
    simp only [beq_self_eq_true, if_true, Nat.zero_add, true_and]
    rw [← this]
    omega
  · have : ¬ (r == j) = true := by simpa using fun e => hj e.symm
    simp [this, hj]

theorem mark_refs_spec (refs : List Nat) : ∀ (g g1 : GraphBuilder) (R : List Nat) (P : Nat → Prop),
    g.shape_.WellSized → g.intersection_.WellSized →
    g.intersection_.maxosmid_ = g.shape_.maxosmid_ →
    (∀ j, g.shape_.Marked j ↔ j ∈ R) →
    (∀ j, g.intersection_.Marked j ↔ P j ∨ 2 ≤ R.count j) →
    mark_refs g refs = .ok g1 →
    g1.shape_.WellSized ∧ g1.intersection_.WellSized ∧
    g1.shape_.maxosmid_ = g.shape_.maxosmid_ ∧
    g1.intersection_.maxosmid_ = g.intersection_.maxosmid_ ∧
    (∀ v ∈ refs, v ≤ g.shape_.maxosmid_) ∧
    (∀ j, g1.shape_.Marked j ↔ j ∈ R ++ refs) ∧
    (∀ j, g1.intersection_.Marked j ↔ P j ∨ 2 ≤ (R ++ refs).count j) ∧
    g1.ways_ = g.ways_ ∧ SameTables g g1 := by
  induction refs with
  | nil =>
    intro g g1 R P hs hi hmax hsh hin h
    simp only [mark_refs] at h
    cases h
    simpa using ⟨hs, hi, hsh, hin, sameTables_refl g⟩
  | cons ref rest ih =>
    intro g g1 R P hs hi hmax hsh hin h
    simp only [mark_refs] at h
    cases hu : g.shape_.IsUsed ref with
    | error e => rw [hu] at h; cases h
    | ok b =>
      rw [hu] at h
      have hb := NodeIdTable.isUsed_ok_iff_marked hu
      cases b with
      | true =>
        simp only at h
        cases hi1 : g.intersection_.set ref with
        | error e => rw [hi1] at h; cases h
        | ok i1 =>
          rw [hi1] at h
          simp only at h
          cases hs1 : g.shape_.set ref with
          | error e => rw [hs1] at h; cases h
          | ok s1 =>
            rw [hs1] at h
            simp only at h
            obtain ⟨hm1, hsz1, hmk1⟩ := NodeIdTable.marked_of_set hs hs1
            obtain ⟨hm2, hsz2, hmk2⟩ := NodeIdTable.marked_of_set hi hi1
            have hrefR : ref ∈ R := (hsh ref).mp (hb.mp rfl)
            have := ih { g with intersection_ := i1, edge_count_ := g.edge_count_ + 1, shape_ := s1 }
              g1 (R ++ [ref]) P hsz1 hsz2 (by simpa [hm1, hm2] using hmax)
              (fun j => by
                simp only []
                rw [hmk1 j, hsh j, List.mem_append, List.mem_singleton]
                tauto)
              (fun j => by
                simp only []
                rw [hmk2 j, hin j, two_le_count_append_singleton]
                constructor
                · rintro (h1 | h1 | h1)
                  · exact Or.inr (Or.inl ⟨h1, h1 ▸ hrefR⟩)
                  · exact Or.inl h1
                  · exact Or.inr (Or.inr h1)
                · rintro (h1 | ⟨h1, -⟩ | h1)
                  · exact Or.inr (Or.inl h1)
                  · exact Or.inl h1
                  · exact Or.inr (Or.inr h1)) h
            obtain ⟨a1, a2, a3, a4, a5, a6, a7, a8, a9⟩ := this
            simp only [List.append_assoc, List.singleton_append] at a6 a7
            refine ⟨a1, a2, a3.trans hm1, a4.trans hm2, ?_, a6, a7, a8, a9⟩
            intro v hv
            rcases List.mem_cons.mp hv with h1 | h1
            · rw [h1]; exact NodeIdTable.le_of_set_ok hs1
            · have := a5 v h1
              simpa [hm1] using this
      | false =>
        simp only at h
        cases hs1 : g.shape_.set ref with
        | error e => rw [hs1] at h; cases h
        | ok s1 =>
          rw [hs1] at h
          simp only at h
          obtain ⟨hm1, hsz1, hmk1⟩ := NodeIdTable.marked_of_set hs hs1
          have hrefR : ¬ ref ∈ R := fun hc => by
            have := hb.mpr ((hsh ref).mpr hc)
            cases this
          have := ih { g with node_count_ := g.node_count_ + 1, shape_ := s1 }
            g1 (R ++ [ref]) P hsz1 hi (by simpa [hm1] using hmax)
            (fun j => by
              simp only []
              rw [hmk1 j, hsh j, List.mem_append, List.mem_singleton]
              tauto)
            (fun j => by
              simp only []
              rw [hin j, two_le_count_append_singleton]
              constructor
              · rintro (h1 | h1)
                · exact Or.inl h1
                · exact Or.inr (Or.inr h1)
              · rintro (h1 | ⟨h1, h2⟩ | h1)
                · exact Or.inl h1
                · exact absurd (h1 ▸ h2) hrefR
                · exact Or.inr h1) h
          obtain ⟨a1, a2, a3, a4, a5, a6, a7, a8, a9⟩ := this
          simp only [List.append_assoc, List.singleton_append] at a6 a7
          refine ⟨a1, a2, a3.trans hm1, a4, ?_, a6, a7, a8, a9⟩
          intro v hv
          rcases List.mem_cons.mp hv with h1 | h1
          · rw [h1]; exact NodeIdTable.le_of_set_ok hs1
          · have := a5 v h1
            simpa [hm1] using this

theorem way_tag_keeps {env : Env} {w w1 : OSMWay} {tag : String × String}
    (h : way_tag env w tag = .ok w1) : w1.nodes_ = w.nodes_ ∧ w1.osmwayid_ = w.osmwayid_ := by
  unfold way_tag at h
  by_cases c : tag.1 = "road_class"
  · rw [if_pos c] at h
    split at h
    · cases h
    · split at h <;> (cases h; exact ⟨rfl, rfl⟩)
  rw [if_neg c] at h
  clear c
  by_cases c : tag.1 = "auto_forward"
  · rw [if_pos c] at h
    cases h; exact ⟨rfl, rfl⟩
  rw [if_neg c] at h
  clear c
  by_cases c : tag.1 = "bike_forward"
  · rw [if_pos c] at h
    cases h; exact ⟨rfl, rfl⟩
  rw [if_neg c] at h
  clear c
  by_cases c : tag.1 = "auto_backward"
  · rw [if_pos c] at h
    cases h; exact ⟨rfl, rfl⟩
  rw [if_neg c] at h
  clear c
  by_cases c : tag.1 = "bike_backward"
  · rw [if_pos c] at h
    cases h; exact ⟨rfl, rfl⟩
  rw [if_neg c] at h
  clear c
  by_cases c : tag.1 = "pedestrian"
  · rw [if_pos c] at h
    cases h; exact ⟨rfl, rfl⟩
  rw [if_neg c] at h
  clear c
  by_cases c : tag.1 = "private"
  · rw [if_pos c] at h
    cases h; exact ⟨rfl, rfl⟩
  rw [if_neg c] at h
  clear c
  by_cases c : tag.1 = "use"
  · rw [if_pos c] at h
    split at h
    · cases h
    · split at h <;> (cases h; exact ⟨rfl, rfl⟩)
  rw [if_neg c] at h
  clear c
  by_cases c : tag.1 = "no_thru_traffic_"
  · rw [if_pos c] at h
    cases h; exact ⟨rfl, rfl⟩
  rw [if_neg c] at h
  clear c
  by_cases c : tag.1 = "oneway"
  · rw [if_pos c] at h
    cases h; exact ⟨rfl, rfl⟩
  rw [if_neg c] at h
  clear c
  by_cases c : tag.1 = "roundabout"
  · rw [if_pos c] at h
    cases h; exact ⟨rfl, rfl⟩
  rw [if_neg c] at h
  clear c
  by_cases c : tag.1 = "link"
  · rw [if_pos c] at h
    cases h; exact ⟨rfl, rfl⟩
  rw [if_neg c] at h
  clear c
  by_cases c : tag.1 = "ferry"
  · rw [if_pos c] at h
    cases h; exact ⟨rfl, rfl⟩
  rw [if_neg c] at h
  clear c
  by_cases c : tag.1 = "rail"
  · rw [if_pos c] at h
    cases h; exact ⟨rfl, rfl⟩
  rw [if_neg c] at h
  clear c
  by_cases c : tag.1 = "name"
  · rw [if_pos c] at h
    cases h; exact ⟨rfl, rfl⟩
  rw [if_neg c] at h
  clear c
  by_cases c : tag.1 = "name:en"
  · rw [if_pos c] at h
    cases h; exact ⟨rfl, rfl⟩
  rw [if_neg c] at h
  clear c
  by_cases c : tag.1 = "alt_name"
  · rw [if_pos c] at h
    cases h; exact ⟨rfl, rfl⟩
  rw [if_neg c] at h
  clear c
  by_cases c : tag.1 = "official_name"
  · rw [if_pos c] at h
    cases h; exact ⟨rfl, rfl⟩
  rw [if_neg c] at h
  clear c
  by_cases c : tag.1 = "speed"
  · rw [if_pos c] at h
    split at h
    · cases h
    · cases h; exact ⟨rfl, rfl⟩
  rw [if_neg c] at h
  clear c
  by_cases c : tag.1 = "ref"
  · rw [if_pos c] at h
    cases h; exact ⟨rfl, rfl⟩
  rw [if_neg c] at h
  clear c
  by_cases c : tag.1 = "int_ref"
  · rw [if_pos c] at h
    cases h; exact ⟨rfl, rfl⟩
  rw [if_neg c] at h
  clear c
  by_cases c : tag.1 = "surface"
  · rw [if_pos c] at h
    cases h; exact ⟨rfl, rfl⟩
  rw [if_neg c] at h
  clear c
  by_cases c : tag.1 = "lanes"
  · rw [if_pos c] at h
    split at h
    · cases h
    · cases h; exact ⟨rfl, rfl⟩
  rw [if_neg c] at h
  clear c
  by_cases c : tag.1 = "tunnel"
  · rw [if_pos c] at h
    cases h; exact ⟨rfl, rfl⟩
  rw [if_neg c] at h
  clear c
  by_cases c : tag.1 = "toll"
  · rw [if_pos c] at h
    cases h; exact ⟨rfl, rfl⟩
  rw [if_neg c] at h
  clear c
  by_cases c : tag.1 = "bridge"
  · rw [if_pos c] at h
    cases h; exact ⟨rfl, rfl⟩
  rw [if_neg c] at h
  clear c
  by_cases c : tag.1 = "bike_network_mask"
  · rw [if_pos c] at h
    split at h
    · cases h
    · cases h; exact ⟨rfl, rfl⟩
  rw [if_neg c] at h
  clear c
  by_cases c : tag.1 = "bike_national_ref"
  · rw [if_pos c] at h
    cases h; exact ⟨rfl, rfl⟩
  rw [if_neg c] at h
  clear c
  by_cases c : tag.1 = "bike_regional_ref"
  · rw [if_pos c] at h
    cases h; exact ⟨rfl, rfl⟩
  rw [if_neg c] at h
  clear c
  by_cases c : tag.1 = "bike_local_ref"
  · rw [if_pos c] at h
    cases h; exact ⟨rfl, rfl⟩
  rw [if_neg c] at h
  clear c
  by_cases c : tag.1 = "destination"
  · rw [if_pos c] at h
    cases h; exact ⟨rfl, rfl⟩
  rw [if_neg c] at h
  clear c
  by_cases c : tag.1 = "destination:ref"
  · rw [if_pos c] at h
    cases h; exact ⟨rfl, rfl⟩
  rw [if_neg c] at h
  clear c
  by_cases c : tag.1 = "destination:ref:to"
  · rw [if_pos c] at h
    cases h; exact ⟨rfl, rfl⟩
  rw [if_neg c] at h
  clear c
  by_cases c : tag.1 = "junction_ref"
  · rw [if_pos c] at h
    cases h; exact ⟨rfl, rfl⟩
  rw [if_neg c] at h
  clear c
  cases h; exact ⟨rfl, rfl⟩

theorem way_tags_keeps {env : Env} (tags : Tags) : ∀ {w w1 : OSMWay},
    way_tags env w tags = .ok w1 → w1.nodes_ = w.nodes_ ∧ w1.osmwayid_ = w.osmwayid_ := by
  induction tags with
  | nil =>
    intro w w1 h
    simp only [way_tags] at h
    cases h
    exact ⟨rfl, rfl⟩
  | cons tag rest ih =>
    intro w w1 h
    simp only [way_tags] at h
    cases ht : way_tag env w tag with
    | error e => rw [ht] at h; cases h
    | ok w2 =>
      rw [ht] at h
      obtain ⟨a1, a2⟩ := way_tag_keeps ht
      obtain ⟨b1, b2⟩ := ih h
      exact ⟨b1.trans a1, b2.trans a2⟩

theorem eq_headD_iff {refs : List Nat} (h : refs ≠ []) (j : Nat) :
    j = refs.headD 0 ↔ refs.head? = some j := by
  cases refs with
  | nil => exact absurd rfl h
  | cons a l => simp [eq_comm]

theorem eq_getLastD_iff {refs : List Nat} (h : refs ≠ []) (j : Nat) :
    j = refs.getLastD 0 ↔ refs.getLast? = some j := by
  rw [List.getLastD_eq_getLast?, List.getLast?_eq_getLast refs h]
  simp [eq_comm]

theorem isEndpoint_append_singleton (seqs : List (List Nat)) (refs : List Nat) (j : Nat) :
    IsEndpoint (seqs ++ [refs]) j ↔
      IsEndpoint seqs j ∨ refs.head? = some j ∨ refs.getLast? = some j := by
  unfold IsEndpoint
  constructor
  · rintro ⟨r, hr, h⟩
    rcases List.mem_append.mp hr with h1 | h1
    · exact Or.inl ⟨r, h1, h⟩
    · rw [List.mem_singleton.mp h1] at h
      exact Or.inr h
  · rintro (⟨r, hr, h⟩ | h)
    · exact ⟨r, List.mem_append_left _ hr, h⟩
    · exact ⟨refs, by simp, h⟩

theorem way_callback_spec {env : Env} {g g1 : GraphBuilder} {osmid : Nat} {tags : Tags}
    {refs : List Nat} (hg : WaysMarked g) (h : way_callback env g osmid tags refs = .ok g1) :
    WaysMarked g1 ∧ SameTables g g1 ∧ g1.shape_.maxosmid_ = g.shape_.maxosmid_ ∧
    ∃ added, g1.ways_ = g.ways_ ++ added ∧
      added.map (fun w => w.nodes_) =
        (if WayInput.routable env ⟨osmid, tags, refs⟩ then [refs] else []) ∧
      added.map (fun w => w.osmwayid_) =
        (if WayInput.routable env ⟨osmid, tags, refs⟩ then [osmid] else []) := by
  unfold way_callback at h
  by_cases hlen : refs.length < 2
  · rw [if_pos hlen] at h
    cases h
    refine ⟨hg, sameTables_refl g, rfl, [], by simp, ?_, ?_⟩ <;>
      simp [WayInput.routable, Nat.not_le.mpr hlen]
  rw [if_neg hlen] at h
  simp only at h
  by_cases hres : (env.TransformInLua true tags).length = 0
  · rw [if_pos hres] at h
    cases h
    refine ⟨hg, sameTables_refl g, rfl, [], by simp, ?_, ?_⟩ <;>
      simp [WayInput.routable, hres]
  rw [if_neg hres] at h
  have hrout : WayInput.routable env ⟨osmid, tags, refs⟩ = true := by
    simp [WayInput.routable, Nat.le_of_not_lt hlen, hres]
  have hne : refs ≠ [] := by
    intro e; rw [e] at hlen; simp at hlen
  cases hm : mark_refs g refs with
  | error e => rw [hm] at h; cases h
  | ok g2 =>
    rw [hm] at h
    simp only at h
    obtain ⟨a1, a2, a3, a4, a5, a6, a7, a8, a9⟩ := mark_refs_spec refs g g2 g.way_nodes.flatten
      (IsEndpoint g.way_nodes) hg.shape_sized hg.inter_sized hg.same_max hg.shape_marked
      hg.inter_marked hm
    cases hi1 : g2.intersection_.set (refs.headD 0) with
    | error e => rw [hi1] at h; cases h
    | ok i1 =>
      rw [hi1] at h
      simp only at h
      obtain ⟨b1, b2, b3⟩ := NodeIdTable.marked_of_set a2 hi1
      cases hi2 : i1.set (refs.getLastD 0) with
      | error e => rw [hi2] at h; cases h
      | ok i2 =>
        rw [hi2] at h
        simp only at h
        obtain ⟨c1, c2, c3⟩ := NodeIdTable.marked_of_set b2 hi2
        cases ht : way_tags env { OSMWay.new osmid with nodes_ := refs }
            (env.TransformInLua true tags) with
        | error e => rw [ht] at h; cases h
        | ok w1 =>
          rw [ht] at h
          simp only at h
          cases h
          obtain ⟨d1, d2⟩ := way_tags_keeps _ ht
          have hwn : ∀ gx : GraphBuilder, gx.ways_ = g2.ways_ ++ [w1] →
              gx.way_nodes = g.way_nodes ++ [refs] := by
            intro gx hx
            simp [way_nodes, hx, a8, d1]
          have hwn := hwn { g2 with intersection_ := i2, edge_count_ := g2.edge_count_ + 2, ways_ := g2.ways_ ++ [w1] } rfl
          refine ⟨⟨a1, c2, ?_, ?_, ?_, ?_, ?_⟩, ?_, a3, [w1], ?_, ?_, ?_⟩
          · simp only []
            rw [c1, b1, a4, a3]; exact hg.same_max
          · intro r hr
            rw [hwn] at hr
            rcases List.mem_append.mp hr with h1 | h1
            · exact hg.two_nodes r h1
            · rw [List.mem_singleton.mp h1]; exact Nat.le_of_not_lt hlen
          · intro r hr v hv
            rw [hwn] at hr
            simp only []
            rw [a3]
            rcases List.mem_append.mp hr with h1 | h1
            · exact hg.refs_le r h1 v hv
            · rw [List.mem_singleton.mp h1] at hv; exact a5 v hv
          · intro j
            rw [hwn]
            simp only [List.flatten_append, List.flatten_cons, List.flatten_nil,
              List.append_nil]
            exact a6 j
          · intro j
            rw [hwn]
            simp only [List.flatten_append, List.flatten_cons, List.flatten_nil,
              List.append_nil]
            rw [c3 j, b3 j, a7 j, isEndpoint_append_singleton, eq_headD_iff hne,
              eq_getLastD_iff hne]
            tauto
          · exact a9
          · simp [a8]
          · simp [hrout, d1]
          · simp [hrout, d2, OSMWay.new]

theorem waysMarked_init : WaysMarked init := by
  refine ⟨rfl, rfl, rfl, ?_, ?_, ?_, ?_⟩
  · intro r hr; simp [way_nodes, init] at hr
  · intro r hr; simp [way_nodes, init] at hr
  · intro j
    simp only [way_nodes, init, List.map_nil, List.flatten_nil, List.not_mem_nil, iff_false]
    exact NodeIdTable.not_marked_new _ j
  · intro j
    simp only [way_nodes, init, List.map_nil, List.flatten_nil, List.count_nil, IsEndpoint,
      List.not_mem_nil, false_and, exists_false, false_or]
    constructor
    · intro h; exact absurd h (NodeIdTable.not_marked_new _ j)
    · intro h; omega

theorem read_ways_spec {env : Env} (ways : List WayInput) : ∀ {g g1 : GraphBuilder},
    WaysMarked g → read_ways env g ways = .ok g1 →
    WaysMarked g1 ∧ SameTables g g1 ∧ g1.shape_.maxosmid_ = g.shape_.maxosmid_ ∧
    g1.way_nodes = g.way_nodes ++ routable_refs env ways ∧
    g1.ways_.map (fun w => w.osmwayid_) = g.ways_.map (fun w => w.osmwayid_) ++
      (ways.filter (fun w => w.routable env)).map (fun w => w.osmid) := by
  induction ways with
  | nil =>
    intro g g1 hg h
    simp only [read_ways] at h
    cases h
    exact ⟨hg, sameTables_refl g, rfl, by simp [routable_refs], by simp⟩
  | cons w rest ih =>
    intro g g1 hg h
    simp only [read_ways] at h
    cases hw : way_callback env g w.osmid w.tags w.refs with
    | error e => rw [hw] at h; cases h
    | ok g2 =>
      rw [hw] at h
      obtain ⟨a1, a2, a3, added, a4, a5, a6⟩ := way_callback_spec hg hw
      obtain ⟨b1, b2, b3, b4, b5⟩ := ih a1 h
      refine ⟨b1, sameTables_trans a2 b2, b3.trans a3, ?_, ?_⟩
      · rw [b4]
        simp only [way_nodes, a4, List.map_append, a5, routable_refs, List.filter_cons]
        cases hr : WayInput.routable env w <;> simp
      · rw [b5, a4, List.map_append, a6]
        simp only [List.filter_cons]
        cases hr : WayInput.routable env w <;> simp

theorem mark_refs_ok (refs : List Nat) : ∀ (g : GraphBuilder),
    g.shape_.WellSized → g.intersection_.WellSized →
    g.intersection_.maxosmid_ = g.shape_.maxosmid_ →
    (∀ v ∈ refs, v ≤ g.shape_.maxosmid_) → ∃ g1, mark_refs g refs = .ok g1 := by
  induction refs with
  | nil => intro g _ _ _ _; exact ⟨g, rfl⟩
  | cons ref rest ih =>
    intro g hs hi hmax hle
    have hr : ref ≤ g.shape_.maxosmid_ := hle ref (List.mem_cons_self _ _)
    obtain ⟨s1, hs1, hm1, hsz1, -⟩ := NodeIdTable.set_ok hs hr
    obtain ⟨i1, hi1, hm2, hsz2, -⟩ := NodeIdTable.set_ok hi (hmax ▸ hr)
    simp only [mark_refs, NodeIdTable.isUsed_of_le hs hr, hs1, hi1]
    cases g.shape_.bit (ref / 64) (ref % 64)
    · simp only []
      exact ih _ hsz1 hi (by simpa [hm1] using hmax) (fun v hv => by
        simpa [hm1] using hle v (List.mem_cons_of_mem _ hv))
    · simp only []
      exact ih _ hsz1 hsz2 (by simpa [hm1, hm2] using hmax) (fun v hv => by
        simpa [hm1] using hle v (List.mem_cons_of_mem _ hv))

theorem way_callback_ok {env : Env} {g : GraphBuilder} (hg : WaysMarked g) (w : WayInput)
    (hw : w.accepted env g.shape_.maxosmid_ = true) :
    ∃ g1, way_callback env g w.osmid w.tags w.refs = .ok g1 := by
  unfold way_callback
  by_cases hlen : w.refs.length < 2
  · rw [if_pos hlen]; exact ⟨g, rfl⟩
  rw [if_neg hlen]
  simp only []
  by_cases hres : (env.TransformInLua true w.tags).length = 0
  · rw [if_pos hres]; exact ⟨g, rfl⟩
  rw [if_neg hres]
  have hrout : WayInput.routable env w = true := by
    simp [WayInput.routable, Nat.le_of_not_lt hlen, hres]
  simp only [WayInput.accepted, hrout, Bool.not_true, Bool.false_or, Bool.and_eq_true,
    List.all_eq_true, decide_eq_true_eq] at hw
  obtain ⟨hle, htags⟩ := hw
  have hne : w.refs ≠ [] := by
    intro e; rw [e] at hlen; simp at hlen
  obtain ⟨g2, hm⟩ := mark_refs_ok w.refs g hg.shape_sized hg.inter_sized hg.same_max hle
  obtain ⟨a1, a2, a3, a4, -⟩ := mark_refs_spec w.refs g g2 g.way_nodes.flatten
      (IsEndpoint g.way_nodes) hg.shape_sized hg.inter_sized hg.same_max hg.shape_marked
      hg.inter_marked hm
  have hhead : w.refs.headD 0 ≤ g2.intersection_.maxosmid_ := by
    rw [a4, hg.same_max]
    apply hle
    cases hr : w.refs with
    | nil => exact absurd hr hne
    | cons a l => simp
  obtain ⟨i1, hi1, hm1, hsz1, -⟩ := NodeIdTable.set_ok a2 hhead
  have hlast : w.refs.getLastD 0 ≤ i1.maxosmid_ := by
    rw [hm1, a4, hg.same_max]
    apply hle
    rw [List.getLastD_eq_getLast?, List.getLast?_eq_getLast _ hne]
    exact List.getLast_mem hne
  obtain ⟨i2, hi2, -⟩ := NodeIdTable.set_ok hsz1 hlast
  rw [hm]
  simp only [hi1, hi2]
  unfold WayInput.tags_convert at htags
  split at htags
  · rename_i w1 hw1
    rw [hw1]
    exact ⟨_, rfl⟩
  · cases htags

theorem read_ways_ok {env : Env} (ways : List WayInput) : ∀ {g : GraphBuilder},
    WaysMarked g → (∀ w ∈ ways, w.accepted env g.shape_.maxosmid_ = true) →
    ∃ g1, read_ways env g ways = .ok g1 := by
  induction ways with
  | nil => intro g _ _; exact ⟨g, rfl⟩
  | cons w rest ih =>
    intro g hg hacc
    obtain ⟨g2, h2⟩ := way_callback_ok hg w (hacc w (List.mem_cons_self _ _))
    obtain ⟨a1, -, a3, -⟩ := way_callback_spec hg h2
    obtain ⟨g3, h3⟩ := ih a1 (fun x hx => by
      rw [a3]; exact hacc x (List.mem_cons_of_mem _ hx))
    exact ⟨g3, by simp [read_ways, h2, h3]⟩

theorem isEndpoint_routable_refs (env : Env) (ways : List WayInput) (j : Nat) :
    IsEndpoint (routable_refs env ways) j ↔
      ∃ w ∈ ways, w.routable env = true ∧ (w.refs.head? = some j ∨ w.refs.getLast? = some j) := by
  unfold IsEndpoint routable_refs
  constructor
  · rintro ⟨r, hr, h⟩
    obtain ⟨w, hw, rfl⟩ := List.mem_map.mp hr
    obtain ⟨h1, h2⟩ := List.mem_filter.mp hw
    exact ⟨w, h1, h2, h⟩
  · rintro ⟨w, h1, h2, h⟩
    exact ⟨w.refs, List.mem_map.mpr ⟨w, List.mem_filter.mpr ⟨h1, h2⟩, rfl⟩, h⟩

end GraphBuilder

/-- C4 as stated fails: after pass 1 over the single way `[1, 2, 3, 2, 4]`, node 2 is
marked in the intersection bitmap although it is neither the first nor the last ref of a
routable way and only one routable way references it. -/
theorem GraphBuilder.intersection_of_single_way :
    ∃ g, GraphBuilder.read_ways sampleEnv GraphBuilder.init selfCrossingDump = .ok g ∧
      g.intersection_.IsUsed 2 = .ok true ∧
      ¬ ((∃ w ∈ selfCrossingDump, w.routable sampleEnv = true ∧
            (w.refs.head? = some 2 ∨ w.refs.getLast? = some 2)) ∨
         2 ≤ (selfCrossingDump.filter
                (fun w => w.routable sampleEnv && w.refs.contains 2)).length) :=
  ⟨_, rfl, by decide, by decide⟩

/-- C4 (amended): starting from the empty builder, after `way_callback` has processed a
sequence of ways, a node id is marked in the intersection bitmap if and only if it is the
first or last ref of some routable way (at least two refs, non-empty transform result) or
it occurs at least twice among the refs of the routable ways, occurrences within one way
included. -/
theorem GraphBuilder.intersection_after_ways (env : Env) (ways : List WayInput)
    (g : GraphBuilder) (h : GraphBuilder.read_ways env GraphBuilder.init ways = .ok g)
    (j : Nat) :
    g.intersection_.IsUsed j = .ok true ↔
      ((∃ w ∈ ways, w.routable env = true ∧
          (w.refs.head? = some j ∨ w.refs.getLast? = some j)) ∨
        2 ≤ (routable_refs env ways).flatten.count j) := by
  obtain ⟨a1, -, -, a4, -⟩ := GraphBuilder.read_ways_spec ways GraphBuilder.waysMarked_init h
  have hnil : GraphBuilder.init.way_nodes = [] := rfl
  rw [hnil, List.nil_append] at a4
  have := a1.inter_marked j
  rw [a4, GraphBuilder.isEndpoint_routable_refs] at this
  exact this

/-- Witness for C4: the ways `[1, 2, 3]` and `[3, 4, 5]`; the marked ids are 1, 3, 5. -/
theorem GraphBuilder.intersection_after_ways_witness :
    ∃ g, GraphBuilder.read_ways sampleEnv GraphBuilder.init twoWaysDump = .ok g ∧
      (∀ j, g.intersection_.IsUsed j = .ok true ↔
        ((∃ w ∈ twoWaysDump, w.routable sampleEnv = true ∧
            (w.refs.head? = some j ∨ w.refs.getLast? = some j)) ∨
          2 ≤ (routable_refs sampleEnv twoWaysDump).flatten.count j)) ∧
      [1, 2, 3, 4, 5].map (fun j => g.intersection_.IsUsed j) =
        [.ok true, .ok false, .ok true, .ok false, .ok true] :=
  ⟨_, rfl, fun j => GraphBuilder.intersection_after_ways sampleEnv twoWaysDump _ rfl j,
    by decide⟩

/-! ## The node table -/

namespace NodeMap

theorem find_append_of_none {m : NodeMap} {id : Nat} (h : find m id = none) (n : OSMNode)
    (v : Nat) : find (m ++ [(id, n)]) v = if v = id then some n else find m v := by
  induction m with
  | nil =>
    by_cases hv : v = id
    · simp [find, hv]
    · have : ¬ id = v := fun e => hv e.symm
      simp [find, hv, this]
  | cons p rest ih =>
    obtain ⟨k, x⟩ := p
    simp only [find] at h
    by_cases hk : k = id
    · simp [hk] at h
    · simp only [hk, if_false] at h
      simp only [List.cons_append, find]
      by_cases hkv : k = v
      · have : ¬ v = id := fun e => hk (hkv.trans e)
        simp [hkv, this]
      · simp only [hkv, if_false]
        exact ih h

theorem mem_keys_iff_find (m : NodeMap) (id : Nat) : id ∈ keys m ↔ find m id ≠ none := by
  induction m with
  | nil => simp [keys, find]
  | cons p rest ih =>
    obtain ⟨k, x⟩ := p
    simp only [keys, List.map_cons, List.mem_cons, find]
    by_cases hk : k = id
    · simp [hk]
    · have : ¬ id = k := fun e => hk e.symm
      simp only [this, false_or, hk, if_false]
      exact ih

theorem get_touch (m : NodeMap) (id v : Nat) : get (touch m id) v = get m v := by
  unfold touch emplace get
  cases h : find m id with
  | some n => simp
  | none =>
    simp only [find_append_of_none h]
    by_cases hv : v = id
    · subst hv; simp [h]
    · simp [hv]

theorem mem_keys_touch (m : NodeMap) (id v : Nat) :
    v ∈ keys (touch m id) ↔ v = id ∨ v ∈ keys m := by
  unfold touch emplace
  cases h : find m id with
  | some n =>
    simp only []
    constructor
    · intro hv; exact Or.inr hv
    · rintro (hv | hv)
      · rw [hv, mem_keys_iff_find, h]; simp
      · exact hv
  | none =>
    simp only [keys, List.map_append, List.mem_append, List.map_cons, List.map_nil,
      List.mem_singleton]
    tauto

theorem nodup_keys_touch {m : NodeMap} (h : (keys m).Nodup) (id : Nat) :
    (keys (touch m id)).Nodup := by
  unfold touch emplace
  cases hf : find m id with
  | some n => exact h
  | none =>
    have hnot : ¬ id ∈ keys m := by rw [mem_keys_iff_find, hf]; simp
    simp only [keys, List.map_append, List.map_cons, List.map_nil]
    rw [List.nodup_append]
    refine ⟨h, List.nodup_singleton _, ?_⟩
    intro a ha hb
    rw [List.mem_singleton] at hb
    exact hnot (hb ▸ ha)

theorem keys_modify (m : NodeMap) (id : Nat) (f : OSMNode → OSMNode) :
    keys (modify m id f) = keys m := by
  induction m with
  | nil => rfl
  | cons p rest ih =>
    obtain ⟨k, x⟩ := p
    simp only [modify]
    by_cases hk : k = id
    · simp [hk, keys]
    · simp only [hk, if_false, keys, List.map_cons]
      simp only [keys] at ih
      rw [ih]

theorem find_modify (m : NodeMap) (id : Nat) (f : OSMNode → OSMNode) (v : Nat) :
    find (modify m id f) v = if v = id then (find m v).map f else find m v := by
  induction m with
  | nil => simp [modify, find]
  | cons p rest ih =>
    obtain ⟨k, x⟩ := p
    simp only [modify]
    by_cases hk : k = id
    · subst hk
      by_cases hv : k = v
      · subst hv; simp [find]
      · have : ¬ v = k := fun e => hv e.symm
        simp [find, hv, this]
    · simp only [hk, if_false, find]
      by_cases hv : k = v
      · subst hv
        simp [hk]
      · simp only [hv, if_false]
        exact ih

theorem get_modify {m : NodeMap} {id : Nat} (h : id ∈ keys m) (f : OSMNode → OSMNode)
    (v : Nat) : get (modify m id f) v = if v = id then f (get m v) else get m v := by
  unfold get
  rw [find_modify]
  by_cases hv : v = id
  · subst hv
    rw [mem_keys_iff_find] at h
    cases hf : find m v with
    | none => exact absurd hf h
    | some n => simp
  · simp [hv]

theorem mem_keys_touch_self (m : NodeMap) (id : Nat) : id ∈ keys (touch m id) :=
  (mem_keys_touch m id id).mpr (Or.inl rfl)

end NodeMap

/-! ## The edge constructor -/

theorem OSMNode.withEdges_nil (n : OSMNode) : n.withEdges [] = n := by
  simp [OSMNode.withEdges]

theorem OSMNode.withEdges_withEdges (n : OSMNode) (a b : List Nat) :
    (n.withEdges a).withEdges b = n.withEdges (a ++ b) := by
  simp [OSMNode.withEdges, List.append_assoc]

theorem OSMNode.addEdge_eq (n : OSMNode) (i : Nat) : n.AddEdge i = n.withEdges [i] := rfl

theorem registered_nil (v : Nat) : registered [] v = [] := rfl

theorem registered_cons (p : Nat × Nat) (events : List (Nat × Nat)) (v : Nat) :
    registered (p :: events) v = (if p.1 = v then [p.2] else []) ++ registered events v := by
  unfold registered
  by_cases h : p.1 = v <;> simp [List.filter_cons, h]

theorem registered_append (a b : List (Nat × Nat)) (v : Nat) :
    registered (a ++ b) v = registered a v ++ registered b v := by
  simp [registered, List.filter_append]

namespace GraphBuilder

theorem way_loop_spec (inter : NodeIdTable) (wi first : Nat) (P : Nat → PointLL)
    (rest : List Nat) : ∀ (s s1 : EdgeLoop),
    (∀ v, (s.nodes_.get v).latlng_ = P v) → s.edgeindex < 2 ^ 32 →
    way_loop inter wi first s rest = .ok s1 →
    s1.edges_ = s.edges_ ++
      split_way (fun v => decide (inter.Marked v)) P wi first s.edge rest ∧
    (∀ v, s1.nodes_.get v = (s.nodes_.get v).withEdges
      (registered (split_events (fun v => decide (inter.Marked v)) s.edgeindex rest) v)) ∧
    (∀ v, v ∈ s1.nodes_.keys ↔ v ∈ s.nodes_.keys ∨ v ∈ rest) ∧
    s1.edgeindex =
      (s.edgeindex + marked_count (fun v => decide (inter.Marked v)) rest) % 2 ^ 32 ∧
    ((s.nodes_.keys).Nodup → (s1.nodes_.keys).Nodup) ∧
    (∀ v ∈ rest, ∃ b, inter.IsUsed v = .ok b) := by
  induction rest with
  | nil =>
    intro s s1 hP hlt h
    simp only [way_loop] at h
    cases h
    refine ⟨by simp [split_way], fun v => ?_, fun v => by simp, ?_, fun h => h, by simp⟩
    · simp [split_events, registered_nil, OSMNode.withEdges_nil]
    · simp only [marked_count, List.filter_nil, List.length_nil, Nat.add_zero]
      exact (Nat.mod_eq_of_lt hlt).symm
  | cons v tl ih =>
    intro s s1 hP hlt h
    simp only [way_loop] at h
    have hPt : ∀ u, ((s.nodes_.touch v).get u).latlng_ = P u := fun u => by
      rw [NodeMap.get_touch]; exact hP u
    cases hu : inter.IsUsed v with
    | error e => rw [hu] at h; cases h
    | ok b =>
      rw [hu] at h
      have hb := NodeIdTable.isUsed_ok_iff_marked hu
      cases b with
      | false =>
        simp only at h
        have hm : decide (inter.Marked v) = false := by
          simpa using fun hc => by have := hb.mpr hc; cases this
        obtain ⟨a1, a2, a3, a4, a5, a6⟩ := ih { s with nodes_ := s.nodes_.touch v, edge := s.edge.AddLL ((s.nodes_.touch v).get v).latlng_ } s1 hPt hlt h
        simp only at a1 a2 a3 a4 a5
        refine ⟨?_, ?_, ?_, ?_, ?_, ?_⟩
        · rw [a1]
          simp only [split_way, hm, Bool.false_eq_true, if_false, hPt v]
        · intro u
          rw [a2 u, NodeMap.get_touch]
          simp only [split_events, hm, Bool.false_eq_true, if_false]
        · intro u
          rw [a3 u, NodeMap.mem_keys_touch, List.mem_cons]
          tauto
        · rw [a4]
          simp [marked_count, List.filter_cons, hm]
        · intro hnd
          exact a5 (NodeMap.nodup_keys_touch hnd v)
        · intro u hu2
          rcases List.mem_cons.mp hu2 with h1 | h1
          · exact ⟨false, h1 ▸ hu⟩
          · exact a6 u h1
      | true =>
        simp only at h
        have hm : decide (inter.Marked v) = true := by
          simpa using hb.mp rfl
        have hmem : v ∈ NodeMap.keys (s.nodes_.touch v) := NodeMap.mem_keys_touch_self _ _
        have hlt2 : (s.edgeindex + 1) % 2 ^ 32 < 2 ^ 32 := Nat.mod_lt _ (by decide)
        by_cases htl : tl.length = 0
        · rw [if_pos htl] at h
          have htl2 : tl = [] := List.length_eq_zero.mp htl
          subst htl2
          simp only [way_loop] at h
          cases h
          refine ⟨?_, ?_, ?_, ?_, ?_, ?_⟩
          · simp only [split_way, hm, if_true, hPt v]
          · intro u
            simp only []
            rw [NodeMap.get_modify hmem, NodeMap.get_touch]
            simp only [split_events, hm, if_true, List.length_nil, registered_cons,
              registered_nil, List.append_nil]
            by_cases hu2 : u = v
            · subst hu2; simp [OSMNode.addEdge_eq]
            · have : ¬ v = u := fun e => hu2 e.symm
              simp [hu2, this, OSMNode.withEdges_nil]
          · intro u
            simp only []
            rw [NodeMap.keys_modify, NodeMap.mem_keys_touch, List.mem_singleton]
            tauto
          · simp [marked_count, List.filter_cons, hm]
          · intro hnd
            simp only []
            rw [NodeMap.keys_modify]
            exact NodeMap.nodup_keys_touch hnd v
          · intro u hu2
            rw [List.mem_singleton.mp hu2]
            exact ⟨true, hu⟩
        · rw [if_neg htl] at h
          have hmem2 : v ∈ NodeMap.keys ((s.nodes_.touch v).modify v
              (fun nd => nd.AddEdge s.edgeindex)) := by
            rw [NodeMap.keys_modify]; exact hmem
          have hP3 : ∀ u, ((((s.nodes_.touch v).modify v
              (fun nd => nd.AddEdge s.edgeindex)).modify v
              (fun nd => nd.AddEdge ((s.edgeindex + 1) % 2 ^ 32))).get u).latlng_ = P u := by
            intro u
            rw [NodeMap.get_modify hmem2, NodeMap.get_modify hmem, NodeMap.get_touch]
            by_cases hu2 : u = v
            · simp only [hu2, if_true, OSMNode.AddEdge]; exact hP v
            · simp only [hu2, if_false]; exact hP u
          obtain ⟨a1, a2, a3, a4, a5, a6⟩ := ih { nodes_ := ((s.nodes_.touch v).modify v (fun nd => nd.AddEdge s.edgeindex)).modify v (fun nd => nd.AddEdge ((s.edgeindex + 1) % 2 ^ 32)), edges_ := s.edges_ ++ [{ s.edge.AddLL ((s.nodes_.touch v).get v).latlng_ with targetnode_ := v }], edgeindex := (s.edgeindex + 1) % 2 ^ 32, edge := Edge.new v wi (((s.nodes_.touch v).modify v (fun nd => nd.AddEdge s.edgeindex)).get first).latlng_ } s1 hP3 hlt2 h
          simp only at a1 a2 a3 a4 a5
          have hfirst : (((s.nodes_.touch v).modify v
              (fun nd => nd.AddEdge s.edgeindex)).get first).latlng_ = P first := by
            rw [NodeMap.get_modify hmem, NodeMap.get_touch]
            by_cases hu2 : first = v
            · simp only [hu2, if_true, OSMNode.AddEdge]; exact hP v
            · simp only [hu2, if_false]; exact hP first
          refine ⟨?_, ?_, ?_, ?_, ?_, ?_⟩
          · rw [a1]
            simp only [split_way, hm, if_true, hPt v, hfirst, List.append_assoc,
              List.singleton_append]
          · intro u
            rw [a2 u, NodeMap.get_modify hmem2, NodeMap.get_modify hmem, NodeMap.get_touch]
            simp only [split_events, hm, if_true, htl, if_false, registered_cons]
            by_cases hu2 : u = v
            · subst hu2
              simp [OSMNode.addEdge_eq, OSMNode.withEdges_withEdges]
            · have : ¬ v = u := fun e => hu2 e.symm
              simp [hu2, this]
          · intro u
            rw [a3 u, NodeMap.keys_modify, NodeMap.keys_modify, NodeMap.mem_keys_touch,
              List.mem_cons]
            tauto
          · rw [a4]
            simp only [marked_count, List.filter_cons, hm, if_true, List.length_cons]
            omega
          · intro hnd
            apply a5
            rw [NodeMap.keys_modify, NodeMap.keys_modify]
            exact NodeMap.nodup_keys_touch hnd v
          · intro u hu2
            rcases List.mem_cons.mp hu2 with h1 | h1
            · exact ⟨true, h1 ▸ hu⟩
            · exact a6 u h1

end GraphBuilder

namespace GraphBuilder

theorem construct_way_spec (inter : NodeIdTable) (wi : Nat) (P : Nat → PointLL)
    {nodes : NodeMap} {edges : List Edge} {ei : Nat} {way : OSMWay} {s1 : EdgeLoop}
    (hP : ∀ v, (nodes.get v).latlng_ = P v) (hlt : ei < 2 ^ 32)
    (h : construct_way inter wi nodes edges ei way = .ok s1) :
    s1.edges_ = edges ++ way_edges (fun v => decide (inter.Marked v)) P wi way.nodes_ ∧
    (∀ v, s1.nodes_.get v = (nodes.get v).withEdges
      (registered (way_events (fun v => decide (inter.Marked v)) ei way.nodes_) v)) ∧
    (∀ v, v ∈ s1.nodes_.keys ↔ v ∈ nodes.keys ∨ v ∈ way.nodes_) ∧
    s1.edgeindex =
      (ei + marked_count (fun v => decide (inter.Marked v)) way.nodes_.tail) % 2 ^ 32 ∧
    ((nodes.keys).Nodup → (s1.nodes_.keys).Nodup) ∧
    way.nodes_ ≠ [] ∧
    (∀ v ∈ way.nodes_.tail, ∃ b, inter.IsUsed v = .ok b) := by
  unfold construct_way at h
  cases hn : way.nodes_ with
  | nil => rw [hn] at h; cases h
  | cons first rest =>
    rw [hn] at h
    simp only at h
    have hmem : first ∈ NodeMap.keys (nodes.touch first) := NodeMap.mem_keys_touch_self _ _
    have hP2 : ∀ u, (((nodes.touch first).modify first
        (fun nd => nd.AddEdge ei)).get u).latlng_ = P u := by
      intro u
      rw [NodeMap.get_modify hmem, NodeMap.get_touch]
      by_cases hu2 : u = first
      · simp only [hu2, if_true, OSMNode.AddEdge]; exact hP first
      · simp only [hu2, if_false]; exact hP u
    obtain ⟨a1, a2, a3, a4, a5, a6⟩ := way_loop_spec inter wi first P rest _ s1 hP2 hlt h
    simp only at a1 a2 a3 a4 a5
    refine ⟨?_, ?_, ?_, ?_, ?_, by simp, ?_⟩
    · rw [a1]
      simp only [way_edges, NodeMap.get_touch, hP first]
    · intro u
      rw [a2 u, NodeMap.get_modify hmem, NodeMap.get_touch]
      simp only [way_events, registered_cons]
      by_cases hu2 : u = first
      · subst hu2
        simp [OSMNode.addEdge_eq, OSMNode.withEdges_withEdges]
      · have : ¬ first = u := fun e => hu2 e.symm
        simp [hu2, this]
    · intro u
      rw [a3 u, NodeMap.keys_modify, NodeMap.mem_keys_touch, List.mem_cons]
      tauto
    · rw [a4]; simp
    · intro hnd
      apply a5
      rw [NodeMap.keys_modify]
      exact NodeMap.nodup_keys_touch hnd first
    · simpa using a6

theorem construct_ways_spec (inter : NodeIdTable) (P : Nat → PointLL) (ways : List OSMWay) :
    ∀ (wi : Nat) (nodes : NodeMap) (edges : List Edge) (ei : Nat) (nodes1 : NodeMap)
      (edges1 : List Edge),
    (∀ v, (nodes.get v).latlng_ = P v) → ei < 2 ^ 32 →
    construct_ways inter wi nodes edges ei ways = .ok (nodes1, edges1) →
    edges1 = edges ++ all_edges (fun v => decide (inter.Marked v)) P wi
      (ways.map (fun w => w.nodes_)) ∧
    (∀ v, nodes1.get v = (nodes.get v).withEdges
      (registered (all_events (fun v => decide (inter.Marked v)) ei
        (ways.map (fun w => w.nodes_))) v)) ∧
    (∀ v, v ∈ nodes1.keys ↔ v ∈ nodes.keys ∨ ∃ w ∈ ways, v ∈ w.nodes_) ∧
    ((nodes.keys).Nodup → (nodes1.keys).Nodup) ∧
    (∀ w ∈ ways, w.nodes_ ≠ [] ∧ ∀ v ∈ w.nodes_.tail, ∃ b, inter.IsUsed v = .ok b) := by
  induction ways with
  | nil =>
    intro wi nodes edges ei nodes1 edges1 hP hlt h
    simp only [construct_ways] at h
    cases h
    refine ⟨by simp [all_edges], fun v => ?_, fun v => by simp, fun h => h, by simp⟩
    simp [all_events, registered_nil, OSMNode.withEdges_nil]
  | cons way rest ih =>
    intro wi nodes edges ei nodes1 edges1 hP hlt h
    simp only [construct_ways] at h
    cases hw : construct_way inter wi nodes edges ei way with
    | error e => rw [hw] at h; cases h
    | ok s =>
      rw [hw] at h
      simp only at h
      obtain ⟨a1, a2, a3, a4, a5, a6, a7⟩ := construct_way_spec inter wi P hP hlt hw
      have hP2 : ∀ v, (s.nodes_.get v).latlng_ = P v := fun v => by
        rw [a2 v]; exact hP v
      have hlt2 : s.edgeindex < 2 ^ 32 := by
        rw [a4]; exact Nat.mod_lt _ (by decide)
      obtain ⟨b1, b2, b3, b4, b5⟩ := ih _ _ _ _ nodes1 edges1 hP2 hlt2 h
      refine ⟨?_, ?_, ?_, fun hnd => b4 (a5 hnd), ?_⟩
      · rw [b1, a1]
        simp only [List.map_cons, all_edges, List.append_assoc]
      · intro v
        rw [b2 v, a2 v, a4]
        simp only [List.map_cons, all_events, registered_append,
          OSMNode.withEdges_withEdges]
      · intro v
        rw [b3 v, a3 v]
        simp only [List.mem_cons, exists_eq_or_imp]
        tauto
      · intro w hw2
        rcases List.mem_cons.mp hw2 with h1 | h1
        · rw [h1]; exact ⟨a6, a7⟩
        · exact b5 w h1

theorem constructEdges_spec {g g1 : GraphBuilder} (h : ConstructEdges g = .ok g1) :
    g1.edges_ = g.edges_ ++ all_edges (fun v => decide (g.intersection_.Marked v))
      (fun v => (g.nodes_.get v).latlng_) 0 g.way_nodes ∧
    (∀ v, g1.nodes_.get v = (g.nodes_.get v).withEdges
      (registered (all_events (fun v => decide (g.intersection_.Marked v)) 0 g.way_nodes) v)) ∧
    (∀ v, v ∈ g1.nodes_.keys ↔ v ∈ g.nodes_.keys ∨ ∃ w ∈ g.ways_, v ∈ w.nodes_) ∧
    ((g.nodes_.keys).Nodup → (g1.nodes_.keys).Nodup) ∧
    (∀ w ∈ g.ways_, w.nodes_ ≠ [] ∧
      ∀ v ∈ w.nodes_.tail, ∃ b, g.intersection_.IsUsed v = .ok b) ∧
    g1.ways_ = g.ways_ ∧ g1.intersection_ = g.intersection_ ∧ g1.shape_ = g.shape_ ∧
    g1.tasks_ = g.tasks_ := by
  unfold ConstructEdges at h
  cases hc : construct_ways g.intersection_ 0 g.nodes_ g.edges_ 0 g.ways_ with
  | error e => rw [hc] at h; cases h
  | ok r =>
    obtain ⟨nodes1, edges1⟩ := r
    rw [hc] at h
    simp only at h
    cases h
    obtain ⟨a1, a2, a3, a4, a5⟩ := construct_ways_spec g.intersection_
      (fun v => (g.nodes_.get v).latlng_) g.ways_ 0 g.nodes_ g.edges_ 0 nodes1 edges1
      (fun _ => rfl) (by decide) hc
    exact ⟨a1, a2, a3, a4, a5, rfl, rfl, rfl, rfl⟩

end GraphBuilder

namespace GraphBuilder

theorem split_way_wayindex (marked : Nat → Bool) (P : Nat → PointLL) (wi first : Nat)
    (rest : List Nat) : ∀ (edge : Edge), edge.wayindex_ = wi →
    ∀ e ∈ split_way marked P wi first edge rest, e.wayindex_ = wi := by
  induction rest with
  | nil => intro edge _ e he; simp [split_way] at he
  | cons v tl ih =>
    intro edge hedge e he
    simp only [split_way] at he
    by_cases hm : marked v = true
    · rw [if_pos hm] at he
      rcases List.mem_cons.mp he with h1 | h1
      · rw [h1]; exact hedge
      · exact ih _ rfl e h1
    · rw [if_neg hm] at he
      exact ih (edge.AddLL (P v)) hedge e he

theorem way_edges_wayindex (marked : Nat → Bool) (P : Nat → PointLL) (wi : Nat)
    (nodes : List Nat) : ∀ e ∈ way_edges marked P wi nodes, e.wayindex_ = wi := by
  cases nodes with
  | nil => intro e he; simp [way_edges] at he
  | cons first rest =>
    intro e he
    exact split_way_wayindex marked P wi first rest _ rfl e he

theorem all_edges_mem (marked : Nat → Bool) (P : Nat → PointLL) (seqs : List (List Nat)) :
    ∀ (wi : Nat), wi < 2 ^ 32 → ∀ e ∈ all_edges marked P wi seqs,
      ∃ i nodes, seqs[i]? = some nodes ∧
        e ∈ way_edges marked P ((wi + i) % 2 ^ 32) nodes := by
  induction seqs with
  | nil => intro wi _ e he; simp [all_edges] at he
  | cons nodes rest ih =>
    intro wi hlt e he
    simp only [all_edges] at he
    rcases List.mem_append.mp he with h1 | h1
    · refine ⟨0, nodes, by simp, ?_⟩
      rw [Nat.add_zero, Nat.mod_eq_of_lt hlt]; exact h1
    · obtain ⟨i, ns, hi, hmem⟩ := ih _ (Nat.mod_lt _ (by decide)) e h1
      refine ⟨i + 1, ns, by simpa using hi, ?_⟩
      have : ((wi + 1) % 2 ^ 32 + i) % 2 ^ 32 = (wi + (i + 1)) % 2 ^ 32 := by omega
      rw [← this]; exact hmem

theorem all_edges_wayindex_ge (marked : Nat → Bool) (P : Nat → PointLL)
    (seqs : List (List Nat)) : ∀ (wi : Nat), wi + seqs.length ≤ 2 ^ 32 →
    ∀ e ∈ all_edges marked P wi seqs, wi ≤ e.wayindex_ := by
  induction seqs with
  | nil => intro wi _ e he; simp [all_edges] at he
  | cons nodes rest ih =>
    intro wi hlen e he
    simp only [all_edges] at he
    rcases List.mem_append.mp he with h1 | h1
    · rw [way_edges_wayindex marked P wi nodes e h1]
    · cases rest with
      | nil => simp [all_edges] at h1
      | cons n2 r2 =>
        simp only [List.length_cons] at hlen
        have hmod : (wi + 1) % 2 ^ 32 = wi + 1 := Nat.mod_eq_of_lt (by omega)
        rw [hmod] at h1
        have := ih (wi + 1) (by simp only [List.length_cons]; omega) e h1
        omega

theorem filter_all_edges (marked : Nat → Bool) (P : Nat → PointLL) (seqs : List (List Nat)) :
    ∀ (wi k : Nat), wi + seqs.length ≤ 2 ^ 32 →
    (all_edges marked P wi seqs).filter (fun e => decide (e.wayindex_ = wi + k)) =
      way_edges marked P (wi + k) (seqs.getD k []) := by
  induction seqs with
  | nil => intro wi k _; simp [all_edges, way_edges]
  | cons nodes rest ih =>
    intro wi k hlen
    simp only [all_edges, List.filter_append]
    have hrest : ∀ e ∈ all_edges marked P ((wi + 1) % 2 ^ 32) rest, wi + 1 ≤ e.wayindex_ := by
      intro e he
      cases rest with
      | nil => simp [all_edges] at he
      | cons n2 r2 =>
        simp only [List.length_cons] at hlen
        have hmod : (wi + 1) % 2 ^ 32 = wi + 1 := Nat.mod_eq_of_lt (by omega)
        rw [hmod] at he
        exact all_edges_wayindex_ge marked P _ (wi + 1)
          (by simp only [List.length_cons]; omega) e he
    cases k with
    | zero =>
      have h1 : (way_edges marked P wi nodes).filter (fun e => decide (e.wayindex_ = wi + 0))
          = way_edges marked P wi nodes := by
        rw [List.filter_eq_self]
        intro e he
        simpa using way_edges_wayindex marked P wi nodes e he
      have h2 : (all_edges marked P ((wi + 1) % 2 ^ 32) rest).filter
          (fun e => decide (e.wayindex_ = wi + 0)) = [] := by
        rw [List.filter_eq_nil_iff]
        intro e he
        have := hrest e he
        simp only [Nat.add_zero, decide_eq_true_eq]
        omega
      rw [h1, h2]
      simp
    | succ k =>
      have h1 : (way_edges marked P wi nodes).filter
          (fun e => decide (e.wayindex_ = wi + (k + 1))) = [] := by
        rw [List.filter_eq_nil_iff]
        intro e he
        rw [way_edges_wayindex marked P wi nodes e he]
        simp
      rw [h1, List.nil_append]
      cases rest with
      | nil => simp [all_edges, way_edges]
      | cons n2 r2 =>
        simp only [List.length_cons] at hlen
        have hmod : (wi + 1) % 2 ^ 32 = wi + 1 := Nat.mod_eq_of_lt (by omega)
        rw [hmod]
        have := ih (wi + 1) k (by simp only [List.length_cons]; omega)
        have e1 : wi + 1 + k = wi + (k + 1) := by omega
        rw [e1] at this
        rw [this]
        simp

theorem split_way_unmarked (marked : Nat → Bool) (P : Nat → PointLL) (wi first : Nat)
    (mid : List Nat) : ∀ (edge : Edge) (tl : List Nat), (∀ v ∈ mid, marked v = false) →
    split_way marked P wi first edge (mid ++ tl) =
      split_way marked P wi first { edge with latlngs_ := edge.latlngs_ ++ mid.map P } tl := by
  induction mid with
  | nil => intro edge tl _; simp
  | cons v rest ih =>
    intro edge tl h
    have hv : marked v = false := h v (List.mem_cons_self _ _)
    rw [List.cons_append, split_way]
    simp only [hv, Bool.false_eq_true, if_false]
    rw [ih (edge.AddLL (P v)) tl (fun u hu => h u (List.mem_cons_of_mem _ hu))]
    simp [Edge.AddLL]

theorem split_way_targets (marked : Nat → Bool) (P : Nat → PointLL) (wi first : Nat)
    (rest : List Nat) : ∀ (edge : Edge),
    (split_way marked P wi first edge rest).map (fun e => e.targetnode_) = rest.filter marked ∧
    (split_way marked P wi first edge rest).map (fun e => e.sourcenode_) =
      (edge.sourcenode_ :: rest.filter marked).dropLast := by
  induction rest with
  | nil => intro edge; simp [split_way]
  | cons v tl ih =>
    intro edge
    by_cases hm : marked v = true
    · rw [split_way, if_pos hm]
      obtain ⟨a1, a2⟩ := ih (Edge.new v wi (P first))
      simp only [List.map_cons, a1, a2, List.filter_cons, hm, if_true]
      simp [Edge.AddLL, Edge.new]
    · rw [split_way, if_neg hm]
      obtain ⟨a1, a2⟩ := ih (edge.AddLL (P v))
      simp only [a1, a2, List.filter_cons, hm, if_false]
      simp [Edge.AddLL]

end GraphBuilder

theorem GraphBuilder.way_nodes_getD {g : GraphBuilder} {k : Nat} {w : OSMWay}
    (hk : g.ways_[k]? = some w) : g.way_nodes.getD k [] = w.nodes_ := by
  simp [GraphBuilder.way_nodes, List.getD_eq_getElem?_getD, List.getElem?_map, hk]

theorem GraphBuilder.edges_of_way {g g1 : GraphBuilder} (h : GraphBuilder.ConstructEdges g = .ok g1)
    (hempty : g.edges_ = []) (hlen : g.ways_.length ≤ 2 ^ 32) {k : Nat} {w : OSMWay}
    (hk : g.ways_[k]? = some w) :
    g1.edges_.filter (fun e => decide (e.wayindex_ = k)) =
      GraphBuilder.way_edges (fun v => decide (g.intersection_.Marked v))
        (fun v => (g1.nodes_.get v).latlng_) k w.nodes_ := by
  obtain ⟨a1, a2, -⟩ := GraphBuilder.constructEdges_spec h
  have hP : (fun v => (g1.nodes_.get v).latlng_) = (fun v => (g.nodes_.get v).latlng_) := by
    funext v
    rw [a2 v]
    rfl
  rw [hP, a1, hempty, List.nil_append]
  have := GraphBuilder.filter_all_edges (fun v => decide (g.intersection_.Marked v))
    (fun v => (g.nodes_.get v).latlng_) g.way_nodes 0 k
    (by simpa [GraphBuilder.way_nodes] using hlen)
  simp only [Nat.zero_add] at this
  rw [this, GraphBuilder.way_nodes_getD hk]

/-- C5: when `ConstructEdges` runs on an empty edge table and a way table of at most 2^32
ways, a way `v0, mid..., vlast` whose last node is marked in the intersection bitmap and
none of whose nodes between the first and the last position is marked yields exactly one
edge (one entry of the edge table with that way's index): its source is `v0`, its target
`vlast`, its way index the position of the way, its shape the positions of all the nodes
of the way in order.  The mark on `v0` is not needed for this. -/
theorem GraphBuilder.constructEdges_single_edge (g g1 : GraphBuilder)
    (h : GraphBuilder.ConstructEdges g = .ok g1) (hempty : g.edges_ = [])
    (hlen : g.ways_.length ≤ 2 ^ 32) (k : Nat) (w : OSMWay) (hk : g.ways_[k]? = some w)
    (v0 vlast : Nat) (mid : List Nat) (hnodes : w.nodes_ = v0 :: (mid ++ [vlast]))
    (hlast : g.intersection_.IsUsed vlast = .ok true)
    (hmid : ∀ v ∈ mid, ¬ g.intersection_.IsUsed v = .ok true) :
    g1.edges_.filter (fun e => decide (e.wayindex_ = k)) =
      [{ sourcenode_ := v0, targetnode_ := vlast, wayindex_ := k,
         latlngs_ := w.nodes_.map (fun v => (g1.nodes_.get v).latlng_) }] := by
  rw [GraphBuilder.edges_of_way h hempty hlen hk, hnodes]
  have hm : ∀ v ∈ mid, (fun v => decide (g.intersection_.Marked v)) v = false := by
    intro v hv
    simpa [NodeIdTable.Marked] using hmid v hv
  have hl : decide (g.intersection_.Marked vlast) = true := by
    simpa [NodeIdTable.Marked] using hlast
  simp only [GraphBuilder.way_edges]
  rw [GraphBuilder.split_way_unmarked _ _ _ _ mid _ [vlast] hm]
  simp [GraphBuilder.split_way, hl, Edge.AddLL, Edge.new]

/-- C6: when `ConstructEdges` runs on an empty edge table and a way table of at most 2^32
ways, the edges of a way `v0, rest...` (the entries of the edge table with that way's
index, in order) are one per position `i ≥ 1` whose node is marked in the intersection
bitmap: their targets are those nodes in order, the first source is `v0`, and each later
source is the target of the edge before it.  This holds whether or not the last node is
marked. -/
theorem GraphBuilder.constructEdges_edges_of_way (g g1 : GraphBuilder)
    (h : GraphBuilder.ConstructEdges g = .ok g1) (hempty : g.edges_ = [])
    (hlen : g.ways_.length ≤ 2 ^ 32) (k : Nat) (w : OSMWay) (hk : g.ways_[k]? = some w)
    (v0 : Nat) (rest : List Nat) (hnodes : w.nodes_ = v0 :: rest) :
    (g1.edges_.filter (fun e => decide (e.wayindex_ = k))).map (fun e => e.targetnode_) =
      rest.filter (fun v => decide (g.intersection_.IsUsed v = .ok true)) ∧
    (g1.edges_.filter (fun e => decide (e.wayindex_ = k))).map (fun e => e.sourcenode_) =
      (v0 :: (g1.edges_.filter (fun e => decide (e.wayindex_ = k))).map
        (fun e => e.targetnode_)).dropLast := by
  rw [GraphBuilder.edges_of_way h hempty hlen hk, hnodes]
  simp only [GraphBuilder.way_edges]
  obtain ⟨a1, a2⟩ := GraphBuilder.split_way_targets
    (fun v => decide (g.intersection_.Marked v)) (fun v => (g1.nodes_.get v).latlng_) k v0 rest
    (Edge.new v0 k (g1.nodes_.get v0).latlng_)
  rw [a1, a2]
  exact ⟨rfl, rfl⟩

/-- Witness for C5: the way `[1, 2, 3, 4]` alone, so that only 1 and 4 are marked. -/
theorem GraphBuilder.constructEdges_single_edge_witness :
    ∃ g1 w, GraphBuilder.ConstructEdges
        (GraphBuilder.after_passes sampleEnv oneWayDump fiveNodes) = .ok g1 ∧
      (GraphBuilder.after_passes sampleEnv oneWayDump fiveNodes).ways_[0]? = some w ∧
      w.nodes_ = [1, 2, 3, 4] ∧
      g1.edges_.filter (fun e => decide (e.wayindex_ = 0)) =
        [{ sourcenode_ := 1, targetnode_ := 4, wayindex_ := 0, latlngs_ :=
            w.nodes_.map (fun v => (g1.nodes_.get v).latlng_) }] ∧
      g1.edges_ = [{ sourcenode_ := 1, targetnode_ := 4, wayindex_ := 0, latlngs_ :=
            [⟨50, 10⟩, ⟨50, 11⟩, ⟨50, 12⟩, ⟨50, 13⟩] }] :=
  ⟨_, _, rfl, rfl, rfl,
    GraphBuilder.constructEdges_single_edge
      (GraphBuilder.after_passes sampleEnv oneWayDump fiveNodes) _ rfl (by decide) (by decide)
      0 _ rfl 1 4 [2, 3]
      rfl (by decide) (by decide),
    by decide⟩

/-- Witness for C6: the way `[1, 2, 3, 4]` crossed at 3 by the way `[3, 5]`, so that 1, 3
and 4 are marked: the two edges 1 to 3 and 3 to 4. -/
theorem GraphBuilder.constructEdges_edges_of_way_witness :
    ∃ g1 w, GraphBuilder.ConstructEdges
        (GraphBuilder.after_passes sampleEnv forkDump fiveNodes) = .ok g1 ∧
      (GraphBuilder.after_passes sampleEnv forkDump fiveNodes).ways_[0]? = some w ∧
      w.nodes_ = [1, 2, 3, 4] ∧
      ((g1.edges_.filter (fun e => decide (e.wayindex_ = 0))).map (fun e => e.targetnode_) =
        [2, 3, 4].filter (fun v => decide
          ((GraphBuilder.after_passes sampleEnv forkDump fiveNodes).intersection_.IsUsed v
            = .ok true)) ∧
      (g1.edges_.filter (fun e => decide (e.wayindex_ = 0))).map (fun e => e.sourcenode_) =
        (1 :: (g1.edges_.filter (fun e => decide (e.wayindex_ = 0))).map
          (fun e => e.targetnode_)).dropLast) ∧
      (g1.edges_.filter (fun e => decide (e.wayindex_ = 0))).map
        (fun e => (e.sourcenode_, e.targetnode_)) = [(1, 3), (3, 4)] :=
  ⟨_, _, rfl, rfl, rfl,
    GraphBuilder.constructEdges_edges_of_way
      (GraphBuilder.after_passes sampleEnv forkDump fiveNodes) _ rfl (by decide) (by decide)
      0 _ rfl 1 [2, 3, 4] rfl,
    by decide⟩

/-- C7 fails on the code: in the dump of the ways `[10, 11, 12]` and `[20, 11, 22]`, the
edge that `ConstructEdges` opens at the intersection node 11 of the first way (source 11,
target 12) has the shape `[pos 10, pos 12]`: its first point is the position of the way's
first node 10, not the position of its source 11. -/
theorem GraphBuilder.constructEdges_shape_of_second_edge :
    ∃ g, GraphBuilder.Build sampleEnv crossingDump crossingNodes 0 = .ok g ∧
      g.edges_[1]? = some { sourcenode_ := 11, targetnode_ := 12, wayindex_ := 0, latlngs_ :=
                            [⟨0, 0⟩, ⟨0, 2⟩] } ∧
      (g.nodes_.get 10).latlng_ = ⟨0, 0⟩ ∧ (g.nodes_.get 11).latlng_ = ⟨0, 1⟩ ∧
      (g.nodes_.get 12).latlng_ = ⟨0, 2⟩ :=
  ⟨_, rfl, by decide, by decide, by decide, by decide⟩

namespace GraphBuilder

theorem node_tag_keeps {env : Env} {osmid : Nat} {acc acc1 : NodeAcc} {tag : String × String}
    (h : node_tag env osmid acc tag = .ok acc1) :
    acc1.n.edges_ = acc.n.edges_ ∧ acc1.n.graphid_ = acc.n.graphid_ ∧
    acc1.n.latlng_ = acc.n.latlng_ := by
  unfold node_tag at h
  by_cases c : tag.1 = "exit_to"
  · rw [if_pos c] at h
    cases h; exact ⟨rfl, rfl, rfl⟩
  rw [if_neg c] at h
  clear c
  by_cases c : tag.1 = "ref"
  · rw [if_pos c] at h
    cases h; exact ⟨rfl, rfl, rfl⟩
  rw [if_neg c] at h
  clear c
  by_cases c : tag.1 = "gate"
  · rw [if_pos c] at h
    cases h; exact ⟨rfl, rfl, rfl⟩
  rw [if_neg c] at h
  clear c
  by_cases c : tag.1 = "bollard"
  · rw [if_pos c] at h
    cases h; exact ⟨rfl, rfl, rfl⟩
  rw [if_neg c] at h
  clear c
  by_cases c : tag.1 = "modes_mask"
  · rw [if_pos c] at h
    split at h
    · cases h
    · cases h; exact ⟨rfl, rfl, rfl⟩
  rw [if_neg c] at h
  cases h; exact ⟨rfl, rfl, rfl⟩

theorem node_tags_keeps {env : Env} {osmid : Nat} (tags : Tags) : ∀ {acc acc1 : NodeAcc},
    node_tags env osmid acc tags = .ok acc1 →
    acc1.n.edges_ = acc.n.edges_ ∧ acc1.n.graphid_ = acc.n.graphid_ ∧
    acc1.n.latlng_ = acc.n.latlng_ := by
  induction tags with
  | nil =>
    intro acc acc1 h
    simp only [node_tags] at h
    cases h
    exact ⟨rfl, rfl, rfl⟩
  | cons tag rest ih =>
    intro acc acc1 h
    simp only [node_tags] at h
    cases ht : node_tag env osmid acc tag with
    | error e => rw [ht] at h; cases h
    | ok acc2 =>
      rw [ht] at h
      obtain ⟨a1, a2, a3⟩ := node_tag_keeps ht
      obtain ⟨b1, b2, b3⟩ := ih h
      exact ⟨b1.trans a1, b2.trans a2, b3.trans a3⟩

theorem node_callback_spec {env : Env} {g g1 : GraphBuilder} {osmid : Nat} {lng lat : Coord}
    {tags : Tags} (hf : FreshNodes g) (h : node_callback env g osmid lng lat tags = .ok g1) :
    FreshNodes g1 ∧ g1.ways_ = g.ways_ ∧ g1.shape_ = g.shape_ ∧
    g1.intersection_ = g.intersection_ ∧ g1.edges_ = g.edges_ ∧ g1.tasks_ = g.tasks_ ∧
    g1.node_count_ = g.node_count_ ∧ g1.edge_count_ = g.edge_count_ := by
  unfold node_callback at h
  cases hu : g.shape_.IsUsed osmid with
  | error e => rw [hu] at h; cases h
  | ok b =>
    rw [hu] at h
    cases b with
    | false =>
      simp only at h
      cases h
      exact ⟨hf, rfl, rfl, rfl, rfl, rfl, rfl, rfl⟩
    | true =>
      simp only at h
      by_cases hres : (env.TransformInLua false tags).length = 0
      · rw [if_pos hres] at h
        cases h
        exact ⟨hf, rfl, rfl, rfl, rfl, rfl, rfl, rfl⟩
      rw [if_neg hres] at h
      cases ht : node_tags env osmid
          { n := OSMNode.new lat lng, map_exit_to_ := g.map_exit_to_, map_ref_ := g.map_ref_ }
          (env.TransformInLua false tags) with
      | error e => rw [ht] at h; cases h
      | ok acc =>
        rw [ht] at h
        simp only at h
        cases h
        obtain ⟨a1, a2, -⟩ := node_tags_keeps _ ht
        refine ⟨⟨?_, ?_, ?_⟩, rfl, rfl, rfl, rfl, rfl, rfl, rfl⟩
        · simp only [NodeMap.emplace]
          cases hfind : NodeMap.find g.nodes_ osmid with
          | some n => exact hf.nodup
          | none =>
            have hnot : ¬ osmid ∈ NodeMap.keys g.nodes_ := by
              rw [NodeMap.mem_keys_iff_find, hfind]; simp
            simp only [NodeMap.keys, List.map_append, List.map_cons, List.map_nil]
            rw [List.nodup_append]
            refine ⟨hf.nodup, List.nodup_singleton _, ?_⟩
            intro a ha hb
            rw [List.mem_singleton] at hb
            exact hnot (hb ▸ ha)
        · intro k hk
          simp only [NodeMap.emplace] at hk
          cases hfind : NodeMap.find g.nodes_ osmid with
          | some n => rw [hfind] at hk; exact hf.seen k hk
          | none =>
            rw [hfind] at hk
            simp only [NodeMap.keys, List.map_append, List.map_cons, List.map_nil,
              List.mem_append, List.mem_singleton] at hk
            rcases hk with h1 | h1
            · exact hf.seen k h1
            · rw [h1]; exact hu
        · intro p hp
          simp only [NodeMap.emplace] at hp
          cases hfind : NodeMap.find g.nodes_ osmid with
          | some n => rw [hfind] at hp; exact hf.no_edges p hp
          | none =>
            rw [hfind] at hp
            rcases List.mem_append.mp hp with h1 | h1
            · exact hf.no_edges p h1
            · rw [List.mem_singleton.mp h1]
              exact ⟨a1, a2⟩

theorem read_nodes_spec {env : Env} (nodes : List NodeInput) : ∀ {g g1 : GraphBuilder},
    FreshNodes g → read_nodes env g nodes = .ok g1 →
    FreshNodes g1 ∧ g1.ways_ = g.ways_ ∧ g1.shape_ = g.shape_ ∧
    g1.intersection_ = g.intersection_ ∧ g1.edges_ = g.edges_ ∧ g1.tasks_ = g.tasks_ ∧
    g1.node_count_ = g.node_count_ ∧ g1.edge_count_ = g.edge_count_ := by
  induction nodes with
  | nil =>
    intro g g1 hf h
    simp only [read_nodes] at h
    cases h
    exact ⟨hf, rfl, rfl, rfl, rfl, rfl, rfl, rfl⟩
  | cons n rest ih =>
    intro g g1 hf h
    simp only [read_nodes] at h
    cases hn : node_callback env g n.osmid n.lng n.lat n.tags with
    | error e => rw [hn] at h; cases h
    | ok g2 =>
      rw [hn] at h
      obtain ⟨a0, a1, a2, a3, a4, a5, a6, a7⟩ := node_callback_spec hf hn
      obtain ⟨b0, b1, b2, b3, b4, b5, b6, b7⟩ := ih a0 h
      exact ⟨b0, b1.trans a1, b2.trans a2, b3.trans a3, b4.trans a4, b5.trans a5,
        b6.trans a6, b7.trans a7⟩

theorem waysMarked_of_eq {g g1 : GraphBuilder} (hg : WaysMarked g) (hw : g1.ways_ = g.ways_)
    (hs : g1.shape_ = g.shape_) (hi : g1.intersection_ = g.intersection_) : WaysMarked g1 := by
  have hwn : g1.way_nodes = g.way_nodes := by simp [way_nodes, hw]
  refine ⟨?_, ?_, ?_, ?_, ?_, ?_, ?_⟩
  · rw [hs]; exact hg.shape_sized
  · rw [hi]; exact hg.inter_sized
  · rw [hs, hi]; exact hg.same_max
  · rw [hwn]; exact hg.two_nodes
  · rw [hwn, hs]; exact hg.refs_le
  · rw [hwn, hs]; exact hg.shape_marked
  · rw [hwn, hi]; exact hg.inter_marked

theorem freshNodes_init : FreshNodes init :=
  ⟨List.nodup_nil, fun k hk => by simp [init, NodeMap.keys] at hk,
    fun p hp => by simp [init] at hp⟩

theorem freshNodes_of_eq {g g1 : GraphBuilder} (hf : FreshNodes g) (hn : g1.nodes_ = g.nodes_)
    (hs : ∀ k, g.shape_.Marked k → g1.shape_.Marked k) : FreshNodes g1 := by
  refine ⟨?_, ?_, ?_⟩
  · rw [hn]; exact hf.nodup
  · intro k hk; rw [hn] at hk; exact hs k (hf.seen k hk)
  · intro p hp; rw [hn] at hp; exact hf.no_edges p hp

end GraphBuilder

namespace GraphBuilder

theorem split_way_between (marked : Nat → Bool) (P : Nat → PointLL) (wi first : Nat)
    (rest : List Nat) : ∀ (edge : Edge) (pre done : List Nat) (src : Nat),
    edge.sourcenode_ = src → (∀ v ∈ done, marked v = false) →
    ∀ e ∈ split_way marked P wi first edge rest,
      ∃ pre1 mid post,
        pre ++ src :: (done ++ rest) = pre1 ++ e.sourcenode_ :: (mid ++ e.targetnode_ :: post) ∧
        (∀ v ∈ mid, marked v = false) ∧ marked e.targetnode_ = true ∧
        ((pre1 = pre ∧ e.sourcenode_ = src) ∨ marked e.sourcenode_ = true) := by
  induction rest with
  | nil => intro edge pre done src _ _ e he; simp [split_way] at he
  | cons v tl ih =>
    intro edge pre done src hsrc hdone e he
    rw [split_way] at he
    by_cases hm : marked v = true
    · rw [if_pos hm] at he
      rcases List.mem_cons.mp he with h1 | h1
      · refine ⟨pre, done, tl, ?_, hdone, ?_, Or.inl ⟨rfl, ?_⟩⟩
        · rw [h1]; simp [Edge.AddLL, hsrc]
        · rw [h1]; exact hm
        · rw [h1]; exact hsrc
      · obtain ⟨pre1, mid, post, a1, a2, a3, a4⟩ :=
          ih (Edge.new v wi (P first)) (pre ++ src :: done) [] v rfl (by simp) e h1
        refine ⟨pre1, mid, post, ?_, a2, a3, Or.inr ?_⟩
        · rw [← a1]; simp
        · rcases a4 with ⟨-, h2⟩ | h2
          · rw [h2]; exact hm
          · exact h2
    · rw [if_neg hm] at he
      have hm2 : marked v = false := by simpa using hm
      obtain ⟨pre1, mid, post, a1, a2, a3, a4⟩ :=
        ih (edge.AddLL (P v)) pre (done ++ [v]) src hsrc (by
          intro u hu
          rcases List.mem_append.mp hu with h2 | h2
          · exact hdone u h2
          · rw [List.mem_singleton.mp h2]; exact hm2) e he
      refine ⟨pre1, mid, post, ?_, a2, a3, a4⟩
      rw [← a1]; simp

theorem way_edges_between (marked : Nat → Bool) (P : Nat → PointLL) (wi : Nat) (nodes : List Nat) :
    ∀ e ∈ way_edges marked P wi nodes,
      ∃ pre1 mid post,
        nodes = pre1 ++ e.sourcenode_ :: (mid ++ e.targetnode_ :: post) ∧
        (∀ v ∈ mid, marked v = false) ∧ marked e.targetnode_ = true ∧
        (nodes.head? = some e.sourcenode_ ∨ marked e.sourcenode_ = true) := by
  cases nodes with
  | nil => intro e he; simp [way_edges] at he
  | cons first rest =>
    intro e he
    obtain ⟨pre1, mid, post, a1, a2, a3, a4⟩ :=
      split_way_between marked P wi first rest (Edge.new first wi (P first)) [] [] first rfl
        (by simp) e he
    refine ⟨pre1, mid, post, by simpa using a1, a2, a3, ?_⟩
    rcases a4 with ⟨-, h2⟩ | h2
    · exact Or.inl (by simp [h2])
    · exact Or.inr h2

theorem after_read_ways {env : Env} {ways : List WayInput} {g1 : GraphBuilder}
    (h1 : read_ways env init ways = .ok g1) :
    WaysMarked g1 ∧ FreshNodes g1 ∧ g1.edges_ = [] ∧ g1.tasks_ = [] ∧
    g1.way_nodes = routable_refs env ways := by
  obtain ⟨a1, a2, -, a4, -⟩ := read_ways_spec ways waysMarked_init h1
  obtain ⟨b1, b2, b3, -⟩ := a2
  refine ⟨a1, ⟨?_, ?_, ?_⟩, b2, b3, ?_⟩
  · rw [b1]; exact List.nodup_nil
  · intro k hk; rw [b1] at hk; simp [init, NodeMap.keys] at hk
  · intro p hp; rw [b1] at hp; simp [init] at hp
  · rw [a4]; rfl

theorem after_read_nodes {env : Env} {ways : List WayInput} {nodes : List NodeInput}
    {g1 g2 : GraphBuilder} (h1 : read_ways env init ways = .ok g1)
    (h2 : read_nodes env g1 nodes = .ok g2) :
    WaysMarked g2 ∧ FreshNodes g2 ∧ g2.edges_ = [] ∧ g2.tasks_ = [] ∧
    g2.way_nodes = routable_refs env ways ∧ g2.ways_ = g1.ways_ ∧
    g2.intersection_ = g1.intersection_ ∧ g2.shape_ = g1.shape_ := by
  obtain ⟨a1, a2, a3, a4, a5⟩ := after_read_ways h1
  obtain ⟨b0, b1, b2, b3, b4, b5, -⟩ := read_nodes_spec nodes a2 h2
  refine ⟨waysMarked_of_eq a1 b1 b2 b3, b0, b4.trans a3, b5.trans a4, ?_, b1, b3, b2⟩
  rw [← a5]; simp [way_nodes, b1]

end GraphBuilder

namespace GraphBuilder

theorem way_loop_ok (inter : NodeIdTable) (wi first : Nat) (rest : List Nat) :
    ∀ (s : EdgeLoop), (∀ v ∈ rest, ∃ b, inter.IsUsed v = .ok b) →
    ∃ s1, way_loop inter wi first s rest = .ok s1 := by
  induction rest with
  | nil => intro s _; exact ⟨s, rfl⟩
  | cons v tl ih =>
    intro s h
    obtain ⟨b, hb⟩ := h v (List.mem_cons_self _ _)
    have htl : ∀ u ∈ tl, ∃ b, inter.IsUsed u = .ok b := fun u hu =>
      h u (List.mem_cons_of_mem _ hu)
    simp only [way_loop, hb]
    cases b with
    | false => exact ih _ htl
    | true =>
      simp only []
      by_cases hl : tl.length = 0
      · rw [if_pos hl]; exact ih _ htl
      · rw [if_neg hl]; exact ih _ htl

theorem construct_ways_ok (inter : NodeIdTable) (ways : List OSMWay) :
    ∀ (wi : Nat) (nodes : NodeMap) (edges : List Edge) (ei : Nat),
    (∀ w ∈ ways, w.nodes_ ≠ [] ∧ ∀ v ∈ w.nodes_, ∃ b, inter.IsUsed v = .ok b) →
    ∃ r, construct_ways inter wi nodes edges ei ways = .ok r := by
  induction ways with
  | nil => intro wi nodes edges ei _; exact ⟨_, rfl⟩
  | cons way rest ih =>
    intro wi nodes edges ei h
    obtain ⟨hne, hused⟩ := h way (List.mem_cons_self _ _)
    have hway : ∃ s, construct_way inter wi nodes edges ei way = .ok s := by
      unfold construct_way
      cases hn : way.nodes_ with
      | nil => exact absurd hn hne
      | cons first tl =>
        simp only []
        exact way_loop_ok inter wi first tl _ (fun v hv =>
          hused v (by rw [hn]; exact List.mem_cons_of_mem _ hv))
    obtain ⟨s, hs⟩ := hway
    obtain ⟨r, hr⟩ := ih ((wi + 1) % 2 ^ 32) s.nodes_ s.edges_ s.edgeindex
      (fun w hw => h w (List.mem_cons_of_mem _ hw))
    exact ⟨r, by simp only [construct_ways, hs, hr]⟩

/-- After pass 1, `ConstructEdges` runs to its end: every node of a recorded way is at
most the maximum of the intersection bitmap, so that no `IsUsed` reads past the vector,
and no recorded way is empty. -/
theorem constructEdges_ok {g : GraphBuilder} (hw : WaysMarked g) :
    ∃ g1, ConstructEdges g = .ok g1 := by
  have h : ∀ w ∈ g.ways_, w.nodes_ ≠ [] ∧
      ∀ v ∈ w.nodes_, ∃ b, g.intersection_.IsUsed v = .ok b := by
    intro w hw2
    have hmem : w.nodes_ ∈ g.way_nodes := List.mem_map_of_mem _ hw2
    refine ⟨?_, ?_⟩
    · intro e
      have := hw.two_nodes _ hmem
      rw [e] at this
      simp at this
    · intro v hv
      have hle : v ≤ g.intersection_.maxosmid_ := by
        rw [hw.same_max]; exact hw.refs_le _ hmem v hv
      exact ⟨_, NodeIdTable.isUsed_of_le hw.inter_sized hle⟩
  obtain ⟨r, hr⟩ := construct_ways_ok g.intersection_ g.ways_ 0 g.nodes_ g.edges_ 0 h
  obtain ⟨nodes, edges⟩ := r
  exact ⟨{ g with nodes_ := nodes, edges_ := edges }, by simp only [ConstructEdges, hr]⟩

end GraphBuilder

/-- C8: after pass 1 and pass 2, `ConstructEdges` runs to its end, and every edge of its
edge table has its source node and its target node marked in the intersection bitmap and
is cut from the way `w` at position `k` of the way table, where `k` is the edge's way
index modulo 2^32: the node sequence of `w` is `pre ++ source :: mid ++ target :: post`,
and no node of `mid` (the way nodes strictly between the source position and the target
position) is marked. -/
theorem GraphBuilder.edge_endpoints_marked (env : Env) (ways : List WayInput)
    (nodes : List NodeInput) (g1 g2 : GraphBuilder)
    (h1 : GraphBuilder.read_ways env GraphBuilder.init ways = .ok g1)
    (h2 : GraphBuilder.read_nodes env g1 nodes = .ok g2) :
    ∃ g3, GraphBuilder.ConstructEdges g2 = .ok g3 ∧
      ∀ e ∈ g3.edges_,
        g3.intersection_.IsUsed e.sourcenode_ = .ok true ∧
        g3.intersection_.IsUsed e.targetnode_ = .ok true ∧
        ∃ k w pre mid post, g3.ways_[k]? = some w ∧ e.wayindex_ = k % 2 ^ 32 ∧
          w.nodes_ = pre ++ e.sourcenode_ :: (mid ++ e.targetnode_ :: post) ∧
          ∀ v ∈ mid, ¬ g3.intersection_.IsUsed v = .ok true := by
  obtain ⟨a1, a2, a3, -⟩ := GraphBuilder.after_read_nodes h1 h2
  obtain ⟨g3, h3⟩ := GraphBuilder.constructEdges_ok a1
  refine ⟨g3, h3, ?_⟩
  intro e he
  obtain ⟨b1, -, -, -, -, b6, b7, -⟩ := GraphBuilder.constructEdges_spec h3
  rw [b1, a3, List.nil_append] at he
  obtain ⟨i, ns, hi, hmem⟩ := GraphBuilder.all_edges_mem _ _ _ 0 (by decide) e he
  rw [Nat.zero_add] at hmem
  have hwi := GraphBuilder.way_edges_wayindex _ _ _ _ e hmem
  obtain ⟨pre, mid, post, c1, c2, c3, c4⟩ := GraphBuilder.way_edges_between _ _ _ _ e hmem
  have hw : ∃ w, g2.ways_[i]? = some w ∧ w.nodes_ = ns := by
    simp only [GraphBuilder.way_nodes, List.getElem?_map] at hi
    cases hx : g2.ways_[i]? with
    | none => rw [hx] at hi; simp at hi
    | some w => rw [hx] at hi; exact ⟨w, rfl, by simpa using hi⟩
  obtain ⟨w, hw1, hw2⟩ := hw
  have htarget : g2.intersection_.Marked e.targetnode_ := by simpa using c3
  have hsource : g2.intersection_.Marked e.sourcenode_ := by
    rcases c4 with h4 | h4
    · apply (a1.inter_marked e.sourcenode_).mpr
      refine Or.inl ⟨ns, ?_, Or.inl h4⟩
      exact List.getElem?_mem hi
    · simpa using h4
  rw [b7]
  refine ⟨hsource, htarget, i, w, pre, mid, post, by rw [b6]; exact hw1, hwi, ?_, ?_⟩
  · rw [hw2]; exact c1
  · intro v hv
    have := c2 v hv
    simpa [NodeIdTable.Marked] using this

/-- Witness for C8: the dump of scenario S2, whose four edges are 10 to 11, 11 to 12,
20 to 11 and 11 to 22. -/
theorem GraphBuilder.edge_endpoints_marked_witness :
    (GraphBuilder.after_edges sampleEnv crossingDump crossingNodes).edges_.map
        (fun e => (e.sourcenode_, e.targetnode_)) = [(10, 11), (11, 12), (20, 11), (11, 22)] ∧
    ∃ g1 g2, GraphBuilder.read_ways sampleEnv GraphBuilder.init crossingDump = .ok g1 ∧
      GraphBuilder.read_nodes sampleEnv g1 crossingNodes = .ok g2 ∧
      ∃ g3, GraphBuilder.ConstructEdges g2 = .ok g3 ∧
        ∀ e ∈ g3.edges_,
          g3.intersection_.IsUsed e.sourcenode_ = .ok true ∧
          g3.intersection_.IsUsed e.targetnode_ = .ok true ∧
          ∃ k w pre mid post, g3.ways_[k]? = some w ∧ e.wayindex_ = k % 2 ^ 32 ∧
            w.nodes_ = pre ++ e.sourcenode_ :: (mid ++ e.targetnode_ :: post) ∧
            ∀ v ∈ mid, ¬ g3.intersection_.IsUsed v = .ok true :=
  ⟨by decide, _, _, rfl, rfl,
    GraphBuilder.edge_endpoints_marked sampleEnv crossingDump crossingNodes _ _ rfl rfl⟩

/-! ## The tile partitioner -/

theorem getD_set_eq (l : List (List (List Nat))) (i j : Nat) (v : List (List Nat)) :
    (l.set i v).getD j [] = if i = j ∧ i < l.length then v else l.getD j [] := by
  simp only [List.getD_eq_getElem?_getD, List.getElem?_set]
  by_cases hij : i = j
  · subst hij
    by_cases hi : i < l.length
    · simp [hi]
    · simp [hi, List.getElem?_eq_none (Nat.le_of_not_lt hi)]
  · simp [hij]

theorem count_flatten_set (l : List (List Nat)) : ∀ (i : Nat) (v : List Nat) (x : Nat),
    i < l.length →
    (l.set i v).flatten.count x + (l.getD i []).count x = l.flatten.count x + v.count x := by
  induction l with
  | nil => intro i v x h; simp at h
  | cons a rest ih =>
    intro i v x h
    cases i with
    | zero =>
      simp only [List.set_cons_zero, List.flatten_cons, List.count_append, List.getD_cons_zero]
      omega
    | succ i =>
      have := ih i v x (by simpa using h)
      simp only [List.set_cons_succ, List.flatten_cons, List.count_append, List.getD_cons_succ]
      omega

theorem count_placed_set (tasks : List (List (List Nat))) (t : Nat) (T1 : List (List Nat))
    (x k : Nat) (ht : t < tasks.length)
    (h : T1.flatten.count x = (tasks.getD t []).flatten.count x + k) :
    (placed (tasks.set t T1)).count x = (placed tasks).count x + k := by
  unfold placed
  rw [List.flatten_flatten, List.flatten_flatten, List.map_set]
  have h1 := count_flatten_set (tasks.map List.flatten) t T1.flatten x (by simpa using ht)
  have h2 : (tasks.map List.flatten).getD t [] = (tasks.getD t []).flatten := by
    have := List.getD_map tasks [] (n := t) List.flatten
    simpa using this
  rw [h2] at h1
  omega

namespace GraphBuilder

theorem find_tile_append (tiles : List (GraphId × (Nat × Nat))) (id : GraphId) (h : Nat × Nat)
    (id1 : GraphId) (h1 : Nat × Nat) (hf : find_tile (tiles ++ [(id, h)]) id1 = some h1) :
    find_tile tiles id1 = some h1 ∨ h1 = h := by
  induction tiles with
  | nil =>
    simp only [List.nil_append, find_tile] at hf
    by_cases c : id = id1
    · rw [if_pos c] at hf
      exact Or.inr (Option.some.inj hf).symm
    · rw [if_neg c] at hf
      cases hf
  | cons p rest ih =>
    obtain ⟨k, hk⟩ := p
    simp only [List.cons_append, find_tile] at hf ⊢
    by_cases c : k = id1
    · rw [if_pos c] at hf ⊢
      exact Or.inl hf
    · rw [if_neg c] at hf ⊢
      exact ih hf

theorem tile_node_eq {env : Env} {level : Nat} {s s1 : TileLoop} {node : Nat × OSMNode}
    (h : tile_node env level s node = .ok s1) : s1 = place_node env level s node := by
  unfold tile_node at h
  unfold place_node
  by_cases hz : node.2.edge_count = 0
  · rw [if_pos hz] at h ⊢
    exact (Except.ok.inj h).symm
  · rw [if_neg hz] at h ⊢
    simp only [] at h ⊢
    cases hf : find_tile s.tiles (GetGraphId env node.2.latlng_ level) with
    | none =>
      rw [hf] at h
      simp only [] at h ⊢
      exact (Except.ok.inj h).symm
    | some hd =>
      rw [hf] at h
      simp only [] at h ⊢
      by_cases hv : (s.tasks_.getD hd.1 []).length ≤ max (env.tiles_per_task level) (hd.2 + 1)
      · rw [if_pos hv] at h
        exact (Except.ok.inj h).symm
      · rw [if_neg hv] at h
        cases h

theorem tile_nodes_eq {env : Env} {level : Nat} (todo : List (Nat × OSMNode)) :
    ∀ {s s1 : TileLoop}, tile_nodes env level s todo = .ok s1 →
      s1 = place_nodes env level s todo := by
  induction todo with
  | nil =>
    intro s s1 h
    simp only [tile_nodes, Except.ok.injEq] at h
    rw [← h]; rfl
  | cons node rest ih =>
    intro s s1 h
    simp only [tile_nodes] at h
    cases h1 : tile_node env level s node with
    | error e => rw [h1] at h; cases h
    | ok s2 =>
      rw [h1] at h
      simp only [] at h
      rw [ih h, tile_node_eq h1]
      rfl

/-- When `TileNodes` returns, it leaves the builder that the loop with valid iterators
gives. -/
theorem tileNodes_eq {env : Env} {g g1 : GraphBuilder} {level : Nat}
    (h : TileNodes env g level = .ok g1) : g1 = tiled env g level := by
  unfold TileNodes at h
  simp only [] at h
  cases h1 : tile_nodes env level
      { nodes_ := g.nodes_, tasks_ := resize_tasks g.tasks_ (max 1 env.hardware_concurrency),
        tiles := [], current_thread := 0 } (env.traversal g.nodes_) with
  | error e => rw [h1] at h; cases h
  | ok s =>
    rw [h1] at h
    simp only [Except.ok.injEq] at h
    rw [← h, tile_nodes_eq _ h1]
    rfl

theorem tile_node_spec (env : Env) (level : Nat) (s : TileLoop) (node : Nat × OSMNode)
    (hv : s.Valid) (hkey : node.1 ∈ s.nodes_.keys) :
    (place_node env level s node).Valid ∧
    (place_node env level s node).nodes_.keys = s.nodes_.keys ∧
    (∀ x, (placed (place_node env level s node).tasks_).count x =
      (placed s.tasks_).count x + if node.2.edge_count ≠ 0 ∧ x = node.1 then 1 else 0) ∧
    (∀ x, x ≠ node.1 → (place_node env level s node).nodes_.get x = s.nodes_.get x) ∧
    (node.2.edge_count = 0 → place_node env level s node = s) ∧
    (node.2.edge_count ≠ 0 → ∃ idx, (place_node env level s node).nodes_.get node.1 =
      (s.nodes_.get node.1).set_graphid
        { tileid := env.TileId node.2.latlng_ level, level := level, id := idx }) := by
  obtain ⟨hcur, hh⟩ := hv
  unfold place_node
  by_cases hz : node.2.edge_count = 0
  · rw [if_pos hz]
    exact ⟨⟨hcur, hh⟩, rfl, fun x => by simp [hz], fun _ _ => rfl, fun _ => rfl,
      fun h => absurd hz h⟩
  rw [if_neg hz]
  simp only []
  cases hf : find_tile s.tiles (GetGraphId env node.2.latlng_ level) with
  | some h =>
    simp only []
    obtain ⟨h1, h2⟩ := hh _ h hf
    refine ⟨⟨?_, ?_⟩, ?_, ?_, ?_, fun h => absurd h hz, fun _ => ?_⟩
    · simpa using hcur
    · intro id h3 hf3
      obtain ⟨b1, b2⟩ := hh id h3 hf3
      refine ⟨by simpa using b1, ?_⟩
      rw [getD_set_eq]
      by_cases c : h.1 = h3.1 ∧ h.1 < s.tasks_.length
      · rw [if_pos c, List.length_set, c.1]; exact b2
      · rw [if_neg c]; exact b2
    · exact NodeMap.keys_modify _ _ _
    · intro x
      apply count_placed_set _ _ _ _ _ h1
      have := count_flatten_set (s.tasks_.getD h.1 []) h.2 (bucket s.tasks_ h ++ [node.1]) x h2
      simp only [bucket, List.count_append, List.count_cons, List.count_nil] at this ⊢
      by_cases c : x = node.1
      · subst c
        simp [hz] at this ⊢
        omega
      · have c2 : ¬ (node.1 == x) = true := by simpa using fun e => c e.symm
        simp [c, c2] at this ⊢
        omega
    · intro x hx
      rw [NodeMap.get_modify hkey]
      simp [hx]
    · refine ⟨?_, ?_⟩
      rotate_left
      · rw [NodeMap.get_modify hkey, if_pos rfl]
        exact rfl
  | none =>
    simp only []
    refine ⟨⟨?_, ?_⟩, ?_, ?_, ?_, fun h => absurd h hz, fun _ => ?_⟩
    · simp only [List.length_set]
      exact Nat.mod_lt _ (Nat.lt_of_le_of_lt (Nat.zero_le _) hcur)
    · intro id h3 hf3
      rcases find_tile_append _ _ _ _ _ hf3 with h4 | h4
      · obtain ⟨b1, b2⟩ := hh id h3 h4
        refine ⟨by simpa using b1, ?_⟩
        rw [getD_set_eq]
        by_cases c : s.current_thread = h3.1 ∧ s.current_thread < s.tasks_.length
        · rw [if_pos c, List.length_append, c.1]
          exact Nat.lt_of_lt_of_le b2 (Nat.le_add_right _ _)
        · rw [if_neg c]; exact b2
      · rw [h4]
        refine ⟨by simpa using hcur, ?_⟩
        simp only [getD_set_eq, hcur, and_self, if_true, List.length_append,
          List.length_singleton]
        omega
    · exact NodeMap.keys_modify _ _ _
    · intro x
      apply count_placed_set _ _ _ _ _ hcur
      simp only [List.flatten_append, List.flatten_cons, List.flatten_nil, List.append_nil,
        List.count_append, List.count_cons, List.count_nil]
      by_cases c : x = node.1
      · subst c; simp [hz]
      · have c2 : ¬ (node.1 == x) = true := by simpa using fun e => c e.symm
        simp [c, c2]
    · intro x hx
      rw [NodeMap.get_modify hkey]
      simp [hx]
    · refine ⟨?_, ?_⟩
      rotate_left
      · rw [NodeMap.get_modify hkey, if_pos rfl]
        exact rfl

theorem tile_nodes_spec (env : Env) (level : Nat) (todo : List (Nat × OSMNode)) :
    ∀ (s : TileLoop), s.Valid → (∀ p ∈ todo, p.1 ∈ s.nodes_.keys) →
    (todo.map Prod.fst).Nodup →
    (place_nodes env level s todo).Valid ∧
    (place_nodes env level s todo).nodes_.keys = s.nodes_.keys ∧
    (∀ x, (placed (place_nodes env level s todo).tasks_).count x =
      (placed s.tasks_).count x +
        ((todo.filter (fun p => decide (p.2.edge_count ≠ 0))).map Prod.fst).count x) ∧
    (∀ x, x ∉ todo.map Prod.fst → (place_nodes env level s todo).nodes_.get x = s.nodes_.get x) ∧
    (∀ p ∈ todo, p.2.edge_count = 0 →
      (place_nodes env level s todo).nodes_.get p.1 = s.nodes_.get p.1) ∧
    (∀ p ∈ todo, p.2.edge_count ≠ 0 → ∃ idx,
      (place_nodes env level s todo).nodes_.get p.1 = (s.nodes_.get p.1).set_graphid
        { tileid := env.TileId p.2.latlng_ level, level := level, id := idx }) := by
  induction todo with
  | nil =>
    intro s hv _ _
    exact ⟨hv, rfl, fun x => by simp [place_nodes], fun _ _ => rfl, fun p hp => by simp at hp,
      fun p hp => by simp at hp⟩
  | cons node rest ih =>
    intro s hv hkeys hnd
    simp only [place_nodes]
    obtain ⟨a1, a2, a3, a4, a5, a6⟩ :=
      tile_node_spec env level s node hv (hkeys node (List.mem_cons_self _ _))
    rw [List.map_cons, List.nodup_cons] at hnd
    obtain ⟨hnot, hnd2⟩ := hnd
    obtain ⟨b1, b2, b3, b4, b5, b6⟩ := ih (place_node env level s node) a1
      (fun p hp => by rw [a2]; exact hkeys p (List.mem_cons_of_mem _ hp)) hnd2
    have hne : ∀ p ∈ rest, p.1 ≠ node.1 := fun p hp e =>
      hnot (e ▸ List.mem_map_of_mem Prod.fst hp)
    refine ⟨b1, b2.trans a2, ?_, ?_, ?_, ?_⟩
    · intro x
      rw [b3 x, a3 x, List.filter_cons]
      by_cases hz : node.2.edge_count = 0
      · simp [hz]
      · simp only [ne_eq, hz, not_false_eq_true, true_and, decide_True, if_true,
          List.map_cons, List.count_cons, beq_iff_eq]
        by_cases hx : x = node.1
        · subst hx; simp; omega
        · have : ¬ node.1 = x := fun e => hx e.symm
          simp [hx, this]
    · intro x hx
      rw [List.map_cons, List.mem_cons, not_or] at hx
      rw [b4 x hx.2, a4 x hx.1]
    · intro p hp hz
      rcases List.mem_cons.mp hp with h1 | h1
      · rw [h1] at hz ⊢
        rw [b4 node.1 hnot, a5 hz]
      · rw [b5 p h1 hz, a4 p.1 (hne p h1)]
    · intro p hp hz
      rcases List.mem_cons.mp hp with h1 | h1
      · obtain ⟨idx, hidx⟩ := a6 (h1 ▸ hz)
        refine ⟨idx, ?_⟩
        rw [h1, b4 node.1 hnot, hidx]
      · obtain ⟨idx, hidx⟩ := b6 p h1 hz
        refine ⟨idx, ?_⟩
        rw [hidx, a4 p.1 (hne p h1)]

end GraphBuilder

theorem NodeMap.get_of_mem {m : NodeMap} (hnd : (NodeMap.keys m).Nodup) {n : Nat}
    {node : OSMNode} (h : (n, node) ∈ m) : NodeMap.get m n = node := by
  induction m with
  | nil => simp at h
  | cons p rest ih =>
    obtain ⟨k, x⟩ := p
    simp only [NodeMap.keys, List.map_cons, List.nodup_cons] at hnd
    rcases List.mem_cons.mp h with h1 | h1
    · cases h1
      simp [NodeMap.get, NodeMap.find]
    · have hk : k ≠ n := fun e => hnd.1 (e ▸ List.mem_map_of_mem Prod.fst h1)
      have := ih hnd.2 h1
      simp only [NodeMap.get, NodeMap.find, hk, if_false] at this ⊢
      exact this

namespace GraphBuilder

theorem tileNodes_spec (env : Env) (g : GraphBuilder) (level : Nat)
    (hperm : (env.traversal g.nodes_).Perm g.nodes_) (hnodup : (g.nodes_.keys).Nodup)
    (htasks : g.tasks_ = []) :
    (tiled env g level).nodes_.keys = g.nodes_.keys ∧
    (∀ n node, (n, node) ∈ g.nodes_ →
      (node.edge_count ≠ 0 → (placed (tiled env g level).tasks_).count n = 1 ∧
        ∃ idx, (tiled env g level).nodes_.get n = node.set_graphid
          { tileid := env.TileId node.latlng_ level, level := level, id := idx }) ∧
      (node.edge_count = 0 → (placed (tiled env g level).tasks_).count n = 0 ∧
        (tiled env g level).nodes_.get n = node)) ∧
    (∀ x, x ∉ g.nodes_.keys → (placed (tiled env g level).tasks_).count x = 0) ∧
    (tiled env g level).ways_ = g.ways_ ∧
    (tiled env g level).intersection_ = g.intersection_ ∧
    (tiled env g level).edges_ = g.edges_ := by
  have hkeys : ((env.traversal g.nodes_).map Prod.fst).Nodup :=
    (List.Perm.nodup_iff (hperm.map Prod.fst)).mpr hnodup
  have hv : TileLoop.Valid
      { nodes_ := g.nodes_,
        tasks_ := resize_tasks g.tasks_ (max 1 env.hardware_concurrency),
        tiles := [],
        current_thread := 0 } := by
    refine ⟨?_, ?_⟩
    · simp only [resize_tasks, htasks, List.take_nil, List.nil_append, List.length_replicate,
        List.length_nil, Nat.sub_zero]
      omega
    · intro id h hf
      simp [find_tile] at hf
  obtain ⟨a1, a2, a3, a4, a5, a6⟩ := tile_nodes_spec env level (env.traversal g.nodes_) _ hv
    (fun p hp => List.mem_map_of_mem Prod.fst (hperm.mem_iff.mp hp)) hkeys
  have hrep : ∀ n : Nat, placed (List.replicate n []) = [] := by
    intro n
    induction n with
    | zero => rfl
    | succ n ih =>
      simp only [placed, List.replicate_succ, List.flatten_cons, List.nil_append] at ih ⊢
      exact ih
  have hplaced0 : ∀ x, (placed (resize_tasks g.tasks_ (max 1 env.hardware_concurrency))).count x
      = 0 := by
    intro x
    simp only [resize_tasks, htasks, List.take_nil, List.nil_append, List.length_nil,
      Nat.sub_zero, hrep, List.count_nil]
  simp only at a2 a3 a4 a5 a6
  refine ⟨a2, ?_, ?_, rfl, rfl, rfl⟩
  · intro n node hmem
    have hmem2 : (n, node) ∈ env.traversal g.nodes_ := hperm.mem_iff.mpr hmem
    have hget : g.nodes_.get n = node := NodeMap.get_of_mem hnodup hmem
    refine ⟨fun hz => ⟨?_, ?_⟩, fun hz => ⟨?_, ?_⟩⟩
    · show (placed (place_nodes env level _ (env.traversal g.nodes_)).tasks_).count n = 1
      rw [a3 n, hplaced0 n, Nat.zero_add]
      apply List.count_eq_one_of_mem
      · exact List.Nodup.sublist ((List.filter_sublist _).map Prod.fst) hkeys
      · exact List.mem_map_of_mem Prod.fst
          (List.mem_filter.mpr ⟨hmem2, by simpa using hz⟩)
    · obtain ⟨idx, hidx⟩ := a6 (n, node) hmem2 hz
      refine ⟨idx, ?_⟩
      show (place_nodes env level _ (env.traversal g.nodes_)).nodes_.get n = _
      rw [hidx, hget]
    · show (placed (place_nodes env level _ (env.traversal g.nodes_)).tasks_).count n = 0
      rw [a3 n, hplaced0 n, Nat.zero_add, List.count_eq_zero]
      intro hc
      obtain ⟨p, hp, hp1⟩ := List.mem_map.mp hc
      obtain ⟨hp2, hp3⟩ := List.mem_filter.mp hp
      have hp4 : p ∈ g.nodes_ := hperm.mem_iff.mp hp2
      have : g.nodes_.get p.1 = p.2 := NodeMap.get_of_mem hnodup hp4
      rw [hp1, hget] at this
      rw [← this] at hp3
      simp [hz] at hp3
    · show (place_nodes env level _ (env.traversal g.nodes_)).nodes_.get n = _
      rw [a5 (n, node) hmem2 hz, hget]
  · intro x hx
    show (placed (place_nodes env level _ (env.traversal g.nodes_)).tasks_).count x = 0
    rw [a3 x, hplaced0 x, Nat.zero_add, List.count_eq_zero]
    intro hc
    obtain ⟨p, hp, hp1⟩ := List.mem_map.mp hc
    obtain ⟨hp2, -⟩ := List.mem_filter.mp hp
    have hp4 : p ∈ g.nodes_ := hperm.mem_iff.mp hp2
    exact hx (hp1 ▸ List.mem_map_of_mem Prod.fst hp4)

end GraphBuilder

theorem registered_ne_nil (events : List (Nat × Nat)) (v : Nat) :
    registered events v ≠ [] ↔ ∃ i, (v, i) ∈ events := by
  induction events with
  | nil => simp [registered_nil]
  | cons p rest ih =>
    obtain ⟨a, b⟩ := p
    rw [registered_cons]
    by_cases h : a = v
    · subst h
      simp only [if_true, List.singleton_append, ne_eq, not_false_eq_true, true_iff, reduceCtorEq]
      exact ⟨b, List.mem_cons_self _ _⟩
    · simp only [h, if_false, List.nil_append, ih, List.mem_cons, Prod.mk.injEq]
      constructor
      · rintro ⟨i, hi⟩; exact ⟨i, Or.inr hi⟩
      · rintro ⟨i, hi | hi⟩
        · exact absurd hi.1.symm h
        · exact ⟨i, hi⟩

theorem NodeMap.mem_of_mem_keys {m : NodeMap} {n : Nat} (h : n ∈ NodeMap.keys m) :
    (n, NodeMap.get m n) ∈ m := by
  induction m with
  | nil => simp [NodeMap.keys] at h
  | cons p rest ih =>
    obtain ⟨k, x⟩ := p
    by_cases hk : k = n
    · subst hk
      simp [NodeMap.get, NodeMap.find]
    · have h2 : n ∈ NodeMap.keys rest := by
        simp only [NodeMap.keys, List.map_cons, List.mem_cons] at h
        rcases h with h1 | h1
        · exact absurd h1.symm hk
        · exact h1
      have := ih h2
      simp only [NodeMap.get, NodeMap.find, hk, if_false] at this ⊢
      exact List.mem_cons_of_mem _ this

theorem NodeMap.get_of_not_mem_keys {m : NodeMap} {n : Nat} (h : n ∉ NodeMap.keys m) :
    NodeMap.get m n = OSMNode.default := by
  have : NodeMap.find m n = none := by
    by_contra hc
    exact h ((NodeMap.mem_keys_iff_find m n).mpr hc)
  simp [NodeMap.get, this]

namespace GraphBuilder

theorem split_events_mem (marked : Nat → Bool) (rest : List Nat) (v : Nat) :
    ∀ (ei : Nat), (∃ i, (v, i) ∈ split_events marked ei rest) ↔ v ∈ rest ∧ marked v = true := by
  induction rest with
  | nil => intro ei; simp [split_events]
  | cons u tl ih =>
    intro ei
    rw [split_events]
    by_cases hm : marked u = true
    · rw [if_pos hm]
      by_cases htl : tl.length = 0
      · rw [if_pos htl]
        have : tl = [] := List.length_eq_zero.mp htl
        subst this
        simp only [List.mem_singleton, Prod.mk.injEq, exists_eq_right]
        constructor
        · intro h; rw [h]; exact ⟨rfl, hm⟩
        · intro h; exact h.1
      · rw [if_neg htl]
        simp only [List.mem_cons, Prod.mk.injEq]
        constructor
        · rintro ⟨i, h | h | h⟩
          · rw [h.1]; exact ⟨Or.inl rfl, hm⟩
          · rw [h.1]; exact ⟨Or.inl rfl, hm⟩
          · obtain ⟨h1, h2⟩ := (ih _).mp ⟨i, h⟩
            exact ⟨Or.inr h1, h2⟩
        · rintro ⟨h1 | h1, h2⟩
          · exact ⟨ei, Or.inl ⟨h1, rfl⟩⟩
          · obtain ⟨i, hi⟩ := (ih ((ei + 1) % 2 ^ 32)).mpr ⟨h1, h2⟩
            exact ⟨i, Or.inr (Or.inr hi)⟩
    · rw [if_neg hm]
      rw [ih ei, List.mem_cons]
      constructor
      · rintro ⟨h1, h2⟩; exact ⟨Or.inr h1, h2⟩
      · rintro ⟨h1 | h1, h2⟩
        · rw [h1] at h2; exact absurd h2 hm
        · exact ⟨h1, h2⟩

theorem way_events_mem (marked : Nat → Bool) (ei : Nat) (nodes : List Nat) (v : Nat) :
    (∃ i, (v, i) ∈ way_events marked ei nodes) ↔
      nodes.head? = some v ∨ (v ∈ nodes.tail ∧ marked v = true) := by
  cases nodes with
  | nil => simp [way_events]
  | cons first rest =>
    simp only [way_events, List.mem_cons, Prod.mk.injEq, List.head?_cons, Option.some.injEq,
      List.tail_cons]
    rw [← split_events_mem marked rest v ei]
    constructor
    · rintro ⟨i, h | h⟩
      · exact Or.inl h.1.symm
      · exact Or.inr ⟨i, h⟩
    · rintro (h | ⟨i, h⟩)
      · exact ⟨ei, Or.inl ⟨h.symm, rfl⟩⟩
      · exact ⟨i, Or.inr h⟩

theorem all_events_mem (marked : Nat → Bool) (seqs : List (List Nat)) (v : Nat) :
    ∀ (ei : Nat), (∃ i, (v, i) ∈ all_events marked ei seqs) ↔
      ∃ nodes ∈ seqs, nodes.head? = some v ∨ (v ∈ nodes.tail ∧ marked v = true) := by
  induction seqs with
  | nil => intro ei; simp [all_events]
  | cons nodes rest ih =>
    intro ei
    simp only [all_events, List.mem_append, List.mem_cons, exists_eq_or_imp]
    rw [← way_events_mem marked ei nodes v, ← ih]
    constructor
    · rintro ⟨i, h | h⟩
      · exact Or.inl ⟨i, h⟩
      · exact Or.inr ⟨i, h⟩
    · rintro (⟨i, h⟩ | ⟨i, h⟩)
      · exact ⟨i, Or.inl h⟩
      · exact ⟨i, Or.inr h⟩

/-- After the two passes and `ConstructEdges`, a key of the node table has incident edges
exactly when it is marked in the intersection bitmap, and every node of a recorded way is
a key. -/
theorem edge_count_iff_marked {g2 g3 : GraphBuilder} (hw : WaysMarked g2) (hf : FreshNodes g2)
    (h3 : ConstructEdges g2 = .ok g3) :
    (∀ n ∈ g3.nodes_.keys, ((g3.nodes_.get n).edge_count ≠ 0 ↔ g2.intersection_.Marked n)) ∧
    (∀ w ∈ g2.ways_, ∀ v ∈ w.nodes_, v ∈ g3.nodes_.keys) ∧
    (g3.nodes_.keys).Nodup := by
  obtain ⟨-, b2, b3, b4, -⟩ := constructEdges_spec h3
  refine ⟨?_, fun w hw2 v hv => (b3 v).mpr (Or.inr ⟨w, hw2, hv⟩), b4 hf.nodup⟩
  intro n hn
  have hfresh : (g2.nodes_.get n).edges_ = [] := by
    by_cases hk : n ∈ g2.nodes_.keys
    · exact (hf.no_edges _ (NodeMap.mem_of_mem_keys hk)).1
    · rw [NodeMap.get_of_not_mem_keys hk]; rfl
  have hcount : (g3.nodes_.get n).edge_count ≠ 0 ↔
      registered (all_events (fun v => decide (g2.intersection_.Marked v)) 0 g2.way_nodes) n
        ≠ [] := by
    rw [b2 n]
    simp only [OSMNode.edge_count, OSMNode.withEdges, hfresh, List.nil_append, ne_eq,
      List.length_eq_zero]
  rw [hcount, registered_ne_nil, all_events_mem]
  constructor
  · rintro ⟨ns, hns, h | h⟩
    · exact (hw.inter_marked n).mpr (Or.inl ⟨ns, hns, Or.inl h⟩)
    · simpa using h.2
  · intro hm
    have hin : ∃ ns ∈ g2.way_nodes, n ∈ ns := by
      rcases (b3 n).mp hn with h | ⟨w, hw2, hv⟩
      · have := (hw.shape_marked n).mp (hf.seen n h)
        exact List.mem_flatten.mp this
      · exact ⟨w.nodes_, List.mem_map_of_mem _ hw2, hv⟩
    obtain ⟨ns, hns, hmem⟩ := hin
    refine ⟨ns, hns, ?_⟩
    cases ns with
    | nil => simp at hmem
    | cons first rest =>
      rcases List.mem_cons.mp hmem with h | h
      · exact Or.inl (by simp [h])
      · exact Or.inr ⟨by simpa using h, by simpa using hm⟩

end GraphBuilder

theorem mem_placed (tasks : List (List (List Nat))) (n : Nat) :
    n ∈ placed tasks ↔ ∃ task ∈ tasks, ∃ b ∈ task, n ∈ b := by
  simp only [placed, List.mem_flatten]
  constructor
  · rintro ⟨b, ⟨task, ht, hb⟩, hn⟩
    exact ⟨task, ht, b, hb, hn⟩
  · rintro ⟨task, ht, b, hb, hn⟩
    exact ⟨b, ⟨task, ht, hb⟩, hn⟩

theorem div_of_between (W x k : Nat) (h1 : W * k ≤ x) (h2 : x < W * k + W) : x / W = k := by
  apply Nat.div_eq_of_lt_le
  · rw [Nat.mul_comm]; exact h1
  · rw [Nat.succ_mul, Nat.mul_comm]; exact h2

theorem div_round_robin (W t N : Nat) (ht : t < W) :
    (N + 1 + W - 1 - t) / W = (N + W - 1 - t) / W + if t = N % W then 1 else 0 := by
  have hdm := Nat.div_add_mod N W
  have hr : N % W < W := Nat.mod_lt _ (by omega)
  generalize N % W = r at hdm hr
  generalize hm : W * (N / W) = m at hdm
  have e1 : W * (N / W + 1) = m + W := by rw [Nat.mul_succ, hm]
  by_cases c : t = r
  · rw [if_pos c]
    rw [div_of_between W (N + W - 1 - t) (N / W) (by omega) (by omega)]
    exact div_of_between W _ (N / W + 1) (by omega) (by omega)
  · rw [if_neg c, Nat.add_zero]
    by_cases c2 : t < r
    · rw [div_of_between W (N + W - 1 - t) (N / W + 1) (by omega) (by omega)]
      exact div_of_between W _ (N / W + 1) (by omega) (by omega)
    · rw [div_of_between W (N + W - 1 - t) (N / W) (by omega) (by omega)]
      exact div_of_between W _ (N / W) (by omega) (by omega)

theorem div_current (W N : Nat) (hW : 0 < W) : (N + W - 1 - N % W) / W = N / W := by
  have hdm := Nat.div_add_mod N W
  have hr : N % W < W := Nat.mod_lt _ hW
  generalize N % W = r at hdm hr
  generalize hm : W * (N / W) = m at hdm
  exact div_of_between W _ (N / W) (by omega) (by omega)

theorem mod_div_inj (W k k1 : Nat) (h1 : k % W = k1 % W) (h2 : k / W = k1 / W) : k = k1 := by
  rw [← Nat.div_add_mod k W, ← Nat.div_add_mod k1 W, h1, h2]

theorem lt_of_lt_round (W t j N : Nat) (ht : t < W) (hj : j < (N + W - 1 - t) / W) :
    j * W + t < N := by
  have h := (Nat.le_div_iff_mul_le (by omega : 0 < W)).mp (Nat.succ_le_of_lt hj)
  rw [Nat.succ_mul] at h
  omega

namespace GraphBuilder

theorem find_tile_some (tiles : List (GraphId × (Nat × Nat))) (id : GraphId) (h : Nat × Nat)
    (hf : find_tile tiles id = some h) : ∃ k : Nat, tiles[k]? = some (id, h) := by
  induction tiles with
  | nil => simp [find_tile] at hf
  | cons p rest ih =>
    obtain ⟨k, hk⟩ := p
    simp only [find_tile] at hf
    by_cases c : k = id
    · rw [if_pos c] at hf
      refine ⟨0, ?_⟩
      rw [c, Option.some.inj hf]; simp
    · rw [if_neg c] at hf
      obtain ⟨j, hj⟩ := ih hf
      exact ⟨j + 1, by simpa using hj⟩

theorem find_tile_none (tiles : List (GraphId × (Nat × Nat))) (id : GraphId)
    (hf : find_tile tiles id = none) : id ∉ tiles.map Prod.fst := by
  induction tiles with
  | nil => simp
  | cons p rest ih =>
    obtain ⟨k, hk⟩ := p
    simp only [find_tile] at hf
    by_cases c : k = id
    · rw [if_pos c] at hf; cases hf
    · rw [if_neg c] at hf
      simp only [List.map_cons, List.mem_cons, not_or]
      exact ⟨fun e => c e.symm, ih hf⟩

theorem bucket_set_found (tasks : List (List (List Nat))) (h h1 : Nat × Nat) (v : List Nat)
    (hv1 : h.1 < tasks.length) (hv2 : h.2 < (tasks.getD h.1 []).length) :
    bucket (tasks.set h.1 ((tasks.getD h.1 []).set h.2 v)) h1 =
      if h1 = h then v else bucket tasks h1 := by
  obtain ⟨t, j⟩ := h
  obtain ⟨t1, j1⟩ := h1
  simp only [bucket, getD_set_eq] at hv1 hv2 ⊢
  by_cases c : t = t1
  · subst c
    simp only [hv1, and_self, if_true, Prod.mk.injEq, true_and]
    simp only [List.getD_eq_getElem?_getD, List.getElem?_set]
    by_cases c2 : j = j1
    · subst c2
      simp only [List.getD_eq_getElem?_getD] at hv2
      simp [hv2]
    · have c3 : ¬ j1 = j := fun e => c2 e.symm
      simp [c2, c3]
  · have c3 : ¬ t1 = t := fun e => c e.symm
    simp [c, c3]

theorem bucket_set_new (tasks : List (List (List Nat))) (t : Nat) (h1 : Nat × Nat)
    (v : List Nat) (ht : t < tasks.length) :
    bucket (tasks.set t (tasks.getD t [] ++ [v])) h1 =
      if h1 = (t, (tasks.getD t []).length) then v else bucket tasks h1 := by
  obtain ⟨t1, j1⟩ := h1
  simp only [bucket, getD_set_eq]
  by_cases c : t = t1
  · subst c
    simp only [ht, and_self, if_true, Prod.mk.injEq, true_and]
    simp only [List.getD_eq_getElem?_getD, List.getElem?_append]
    by_cases c2 : j1 < (tasks[t]?.getD []).length
    · have c3 : ¬ j1 = (tasks[t]?.getD []).length := by omega
      simp [c2, c3]
    · by_cases c4 : j1 = (tasks[t]?.getD []).length
      · simp [c4]
      · have c5 : (tasks[t]?.getD [])[j1]? = none :=
          List.getElem?_eq_none (by omega)
        have c6 : ([v] : List (List Nat))[j1 - (tasks[t]?.getD []).length]? = none :=
          List.getElem?_eq_none (by simp; omega)
        simp [c2, c4, c5, c6]
  · have c3 : ¬ t1 = t := fun e => c e.symm
    simp [c, c3]

theorem bucket_subset_placed (tasks : List (List (List Nat))) (h : Nat × Nat) (n : Nat)
    (hn : n ∈ bucket tasks h) : n ∈ placed tasks := by
  simp only [bucket, List.getD_eq_getElem?_getD] at hn
  cases h1 : tasks[h.1]? with
  | none => simp [h1] at hn
  | some task =>
    rw [h1] at hn
    simp only [Option.getD_some] at hn
    cases h2 : task[h.2]? with
    | none => simp [h2] at hn
    | some b =>
      rw [h2] at hn
      exact (mem_placed tasks n).mpr
        ⟨task, List.getElem?_mem h1, b, List.getElem?_mem h2, hn⟩

end GraphBuilder

namespace GraphBuilder

theorem tile_node_sound (env : Env) (level W : Nat) (seen : List Nat) (s : TileLoop)
    (node : Nat × OSMNode) (hs : s.Sound W level seen) (hW : 0 < W)
    (hkey : node.1 ∈ s.nodes_.keys) (hnew : node.1 ∉ placed s.tasks_) :
    (place_node env level s node).Sound W level (seen ++ [node.1]) := by
  have hv1 := (tile_node_spec env level s node hs.valid hkey).1
  obtain ⟨hcur, hh⟩ := hs.valid
  have hne : ∀ h n, n ∈ bucket s.tasks_ h → ¬ n = node.1 := fun h n hn e =>
    hnew (e ▸ bucket_subset_placed _ h n hn)
  revert hv1
  unfold place_node
  by_cases hz : node.2.edge_count = 0
  · rw [if_pos hz]
    intro _
    exact { hs with ordered := fun h => (hs.ordered h).trans (List.sublist_append_left _ _) }
  rw [if_neg hz]
  simp only []
  cases hf : find_tile s.tiles (GetGraphId env node.2.latlng_ level) with
  | some h =>
    simp only []
    intro hv1
    obtain ⟨h1, h2⟩ := hh _ h hf
    obtain ⟨k0, hk0⟩ := find_tile_some _ _ _ hf
    have hb : ∀ h3, bucket (s.tasks_.set h.1 ((s.tasks_.getD h.1 []).set h.2
        (bucket s.tasks_ h ++ [node.1]))) h3 =
        if h3 = h then bucket s.tasks_ h ++ [node.1] else bucket s.tasks_ h3 :=
      fun h3 => bucket_set_found _ _ _ _ h1 h2
    refine { valid := hv1, workers := ?_, cur := hs.cur, handle := hs.handle, lens := ?_,
             key_form := hs.key_form, keys_nodup := hs.keys_nodup, indexed := ?_,
             ordered := ?_ }
    · simp only [List.length_set]; exact hs.workers
    · intro t ht
      simp only []
      rw [getD_set_eq]
      by_cases c : h.1 = t ∧ h.1 < s.tasks_.length
      · rw [if_pos c, List.length_set, c.1]; exact hs.lens t ht
      · rw [if_neg c]; exact hs.lens t ht
    · intro k p hp
      obtain ⟨i1, i2⟩ := hs.indexed k p hp
      simp only []
      rw [hb, hb]
      by_cases c : p.2 = h
      · rw [if_pos c, if_pos rfl]
        refine ⟨by simp, ?_⟩
        intro i n hin
        have e1 := hs.handle k p hp
        have e2 := hs.handle k0 _ hk0
        rw [c] at e1
        simp only [] at e2
        rw [e1] at e2
        have hk : k = k0 := mod_div_inj W k k0 (congrArg Prod.fst e2) (congrArg Prod.snd e2)
        subst hk
        have hp1 : p = (GetGraphId env node.2.latlng_ level, h) :=
          Option.some.inj (hp.symm.trans hk0)
        rw [c] at i2
        rw [NodeMap.get_modify hkey]
        by_cases ci : i < (bucket s.tasks_ h).length
        · rw [List.getElem?_append_left ci] at hin
          rw [if_neg (hne h n (List.getElem?_mem hin))]
          exact i2 i n hin
        · rw [List.getElem?_append_right (Nat.le_of_not_lt ci)] at hin
          have hi0 : i - (bucket s.tasks_ h).length = 0 := by
            by_contra hc
            rw [List.getElem?_eq_none (by simp; omega)] at hin
            cases hin
          rw [hi0] at hin
          have hn : node.1 = n := by simpa using hin
          rw [if_pos hn.symm, hp1]
          simp only [OSMNode.set_graphid, List.length_append, List.length_singleton]
          have : (bucket s.tasks_ h).length + 1 - 1 = i := by omega
          rw [this]
      · rw [if_neg c]
        refine ⟨i1, fun i n hin => ?_⟩
        rw [NodeMap.get_modify hkey, if_neg (hne p.2 n (List.getElem?_mem hin))]
        exact i2 i n hin
    · intro h3
      simp only []
      rw [hb]
      by_cases c : h3 = h
      · rw [if_pos c]
        exact List.Sublist.append (hs.ordered h) (List.Sublist.refl _)
      · rw [if_neg c]
        exact (hs.ordered h3).trans (List.sublist_append_left _ _)
  | none =>
    simp only []
    intro hv1
    have hlen := hs.lens s.current_thread (hs.workers ▸ hcur)
    rw [hs.cur, div_current W _ hW] at hlen
    rw [← hs.cur] at hlen
    have hb : ∀ h3, bucket (s.tasks_.set s.current_thread
        (s.tasks_.getD s.current_thread [] ++ [[node.1]])) h3 =
        if h3 = (s.current_thread, (s.tasks_.getD s.current_thread []).length) then [node.1]
        else bucket s.tasks_ h3 :=
      fun h3 => bucket_set_new _ _ _ _ hcur
    have hg : (List.set s.tasks_ s.current_thread
        (s.tasks_.getD s.current_thread [] ++ [[node.1]])).getD s.current_thread [] =
        s.tasks_.getD s.current_thread [] ++ [[node.1]] := by
      rw [getD_set_eq, if_pos ⟨rfl, hcur⟩]
    refine { valid := hv1, workers := ?_, cur := ?_, handle := ?_, lens := ?_,
             key_form := ?_, keys_nodup := ?_, indexed := ?_, ordered := ?_ }
    · simp only [List.length_set]; exact hs.workers
    · simp only [List.length_set, List.length_append, List.length_singleton]
      rw [hs.workers, hs.cur, Nat.mod_add_mod]
    · intro k p hp
      simp only [] at hp
      by_cases ck : k < s.tiles.length
      · rw [List.getElem?_append_left ck] at hp
        exact hs.handle k p hp
      · rw [List.getElem?_append_right (Nat.le_of_not_lt ck)] at hp
        have hk0 : k - s.tiles.length = 0 := by
          by_contra hc
          rw [List.getElem?_eq_none (by simp; omega)] at hp
          cases hp
        rw [hk0] at hp
        have hk : k = s.tiles.length := by omega
        simp only [List.getElem?_cons_zero, Option.some.injEq] at hp
        rw [← hp]
        show (s.current_thread, _ - 1) = _
        rw [hg, List.length_append, List.length_singleton, Nat.add_sub_cancel, hlen, hs.cur,
          hk]
    · intro t ht
      simp only [List.length_append, List.length_singleton]
      rw [div_round_robin W t s.tiles.length ht, getD_set_eq, ← hs.cur]
      by_cases c : s.current_thread = t
      · rw [if_pos ⟨c, hcur⟩, if_pos c.symm, List.length_append, List.length_singleton,
          c, hs.lens t ht]
      · rw [if_neg (fun hc => c hc.1), if_neg (fun hc => c hc.symm), hs.lens t ht]
        rfl
    · intro p hp
      simp only [List.mem_append, List.mem_singleton] at hp
      rcases hp with hp | hp
      · exact hs.key_form p hp
      · rw [hp]; exact ⟨rfl, rfl⟩
    · simp only [List.map_append, List.map_cons, List.map_nil]
      rw [List.nodup_append]
      refine ⟨hs.keys_nodup, List.nodup_singleton _, ?_⟩
      intro a ha hb2
      rw [List.mem_singleton] at hb2
      exact find_tile_none _ _ hf (hb2 ▸ ha)
    · intro k p hp
      simp only [] at hp ⊢
      rw [hb, hb]
      by_cases ck : k < s.tiles.length
      · rw [List.getElem?_append_left ck] at hp
        obtain ⟨i1, i2⟩ := hs.indexed k p hp
        have e1 := hs.handle k p hp
        have c : ¬ p.2 = (s.current_thread, (s.tasks_.getD s.current_thread []).length) := by
          intro hc
          rw [e1, hlen, hs.cur] at hc
          have := mod_div_inj W k s.tiles.length (congrArg Prod.fst hc) (congrArg Prod.snd hc)
          omega
        rw [if_neg c]
        refine ⟨i1, fun i n hin => ?_⟩
        rw [NodeMap.get_modify hkey, if_neg (hne p.2 n (List.getElem?_mem hin))]
        exact i2 i n hin
      · rw [List.getElem?_append_right (Nat.le_of_not_lt ck)] at hp
        have hk0 : k - s.tiles.length = 0 := by
          by_contra hc
          rw [List.getElem?_eq_none (by simp; omega)] at hp
          cases hp
        rw [hk0] at hp
        simp only [List.getElem?_cons_zero, Option.some.injEq] at hp
        rw [← hp]
        simp only [hg, List.length_append, List.length_singleton, Nat.add_sub_cancel, if_true]
        refine ⟨by simp, fun i n hin => ?_⟩
        cases i with
        | zero =>
          have hn : node.1 = n := by simpa using hin
          rw [NodeMap.get_modify hkey, if_pos hn.symm]
          rfl
        | succ i => simp at hin
    · intro h3
      simp only []
      rw [hb]
      by_cases c : h3 = (s.current_thread, (s.tasks_.getD s.current_thread []).length)
      · rw [if_pos c]
        exact List.sublist_append_right _ _
      · rw [if_neg c]
        exact (hs.ordered h3).trans (List.sublist_append_left _ _)

theorem tile_nodes_sound (env : Env) (level W : Nat) (hW : 0 < W)
    (todo : List (Nat × OSMNode)) :
    ∀ (seen : List Nat) (s : TileLoop), s.Sound W level seen →
    (∀ p ∈ todo, p.1 ∈ s.nodes_.keys) → (todo.map Prod.fst).Nodup →
    (∀ p ∈ todo, p.1 ∉ placed s.tasks_) →
    (place_nodes env level s todo).Sound W level (seen ++ todo.map Prod.fst) := by
  induction todo with
  | nil =>
    intro seen s hs _ _ _
    simpa [place_nodes] using hs
  | cons node rest ih =>
    intro seen s hs hkeys hnd hnew
    simp only [place_nodes]
    have hk := hkeys node (List.mem_cons_self _ _)
    obtain ⟨-, a2, a3, -⟩ := tile_node_spec env level s node hs.valid hk
    rw [List.map_cons, List.nodup_cons] at hnd
    have h1 := tile_node_sound env level W seen s node hs hW hk
      (hnew node (List.mem_cons_self _ _))
    have h2 := ih (seen ++ [node.1]) (place_node env level s node) h1
      (fun p hp => by rw [a2]; exact hkeys p (List.mem_cons_of_mem _ hp)) hnd.2
      (fun p hp hc => by
        have hne : ¬ p.1 = node.1 := fun e => hnd.1 (e ▸ List.mem_map_of_mem Prod.fst hp)
        rw [← List.count_pos_iff, a3 p.1, if_neg (fun h => hne h.2), Nat.add_zero,
          List.count_pos_iff] at hc
        exact hnew p (List.mem_cons_of_mem _ hp) hc)
    rw [List.map_cons]
    rw [List.append_assoc] at h2
    exact h2

theorem placed_replicate (n : Nat) : placed (List.replicate n []) = [] := by
  induction n with
  | zero => rfl
  | succ n ih =>
    simp only [placed, List.replicate_succ, List.flatten_cons, List.nil_append] at ih ⊢
    exact ih

theorem getD_replicate_nil (n t : Nat) :
    (List.replicate n ([] : List (List Nat))).getD t [] = [] := by
  rw [List.getD_eq_getElem?_getD]
  cases h : (List.replicate n ([] : List (List Nat)))[t]? with
  | none => rfl
  | some x =>
    have := List.eq_of_mem_replicate (List.getElem?_mem h)
    rw [this]; rfl

theorem tile_state_sound (env : Env) (g : GraphBuilder) (level : Nat)
    (hperm : (env.traversal g.nodes_).Perm g.nodes_) (hnodup : (g.nodes_.keys).Nodup)
    (htasks : g.tasks_ = []) :
    (tile_state env g level).Sound (max 1 env.hardware_concurrency) level
      ((env.traversal g.nodes_).map Prod.fst) := by
  have hW : 0 < max 1 env.hardware_concurrency := by omega
  have hkeys : ((env.traversal g.nodes_).map Prod.fst).Nodup :=
    (List.Perm.nodup_iff (hperm.map Prod.fst)).mpr hnodup
  have hres : resize_tasks g.tasks_ (max 1 env.hardware_concurrency) =
      List.replicate (max 1 env.hardware_concurrency) [] := by
    simp only [resize_tasks, htasks, List.take_nil, List.nil_append, List.length_nil,
      Nat.sub_zero]
  have h0 : TileLoop.Sound (max 1 env.hardware_concurrency) level []
      { nodes_ := g.nodes_,
        tasks_ := resize_tasks g.tasks_ (max 1 env.hardware_concurrency),
        tiles := [],
        current_thread := 0 } := by
    rw [hres]
    refine { valid := ⟨?_, ?_⟩, workers := ?_, cur := ?_, handle := ?_, lens := ?_,
             key_form := ?_, keys_nodup := ?_, indexed := ?_, ordered := ?_ }
    · simp only [List.length_replicate]; exact hW
    · intro id h hf; simp [find_tile] at hf
    · simp only [List.length_replicate]
    · simp
    · intro k p hp; simp at hp
    · intro t ht
      simp only [getD_replicate_nil, List.length_nil, Nat.zero_add]
      exact (Nat.div_eq_of_lt (by omega)).symm
    · intro p hp; simp at hp
    · simp
    · intro k p hp; simp at hp
    · intro h
      simp only [bucket, getD_replicate_nil, List.getD_nil]
      exact List.Sublist.refl _
  have := tile_nodes_sound env level _ hW (env.traversal g.nodes_) [] _ h0
    (fun p hp => List.mem_map_of_mem Prod.fst (hperm.mem_iff.mp hp)) hkeys
    (fun p _ hc => by
      simp only [hres, placed_replicate] at hc
      simp at hc)
  simpa [tile_state] using this

theorem tileNodes_eq_tile_state (env : Env) (g : GraphBuilder) (level : Nat) :
    (tiled env g level).tasks_ = (tile_state env g level).tasks_ ∧
    (tiled env g level).nodes_ = (tile_state env g level).nodes_ := ⟨rfl, rfl⟩

theorem TileLoop.Sound.covered {W level : Nat} {seen : List Nat} {s : TileLoop}
    (hs : s.Sound W level seen) (t j : Nat) (ht : t < W)
    (hj : j < (s.tasks_.getD t []).length) :
    ∃ p, s.tiles[j * W + t]? = some p ∧ p.2 = (t, j) := by
  rw [hs.lens t ht] at hj
  have hlt := lt_of_lt_round W t j _ ht hj
  refine ⟨s.tiles[j * W + t], List.getElem?_eq_getElem hlt, ?_⟩
  rw [hs.handle _ _ (List.getElem?_eq_getElem hlt)]
  have e1 : (j * W + t) % W = t := by
    rw [Nat.mul_comm, Nat.mul_add_mod]; exact Nat.mod_eq_of_lt ht
  have e2 : (j * W + t) / W = j := by
    apply div_of_between
    · rw [Nat.mul_comm]; omega
    · rw [Nat.mul_comm]; omega
  rw [e1, e2]

theorem TileLoop.Sound.of_mem {W level : Nat} {seen : List Nat} {s : TileLoop}
    (hs : s.Sound W level seen) (h : Nat × Nat) (i n : Nat)
    (hn : (bucket s.tasks_ h)[i]? = some n) :
    ∃ (k : Nat) (id : GraphId), s.tiles[k]? = some (id, h) ∧ id.level = level ∧
      (s.nodes_.get n).graphid_ = some { tileid := id.tileid, level := level, id := i } := by
  have hmem : n ∈ bucket s.tasks_ h := List.getElem?_mem hn
  have h1 : h.1 < W := by
    by_contra hc
    simp only [bucket, List.getD_eq_getElem?_getD] at hmem
    have e0 : s.tasks_[h.1]? = none := List.getElem?_eq_none (by rw [hs.workers]; omega)
    rw [e0] at hmem
    simp at hmem
  have h2 : h.2 < (s.tasks_.getD h.1 []).length := by
    by_contra hc
    simp only [bucket] at hmem
    rw [List.getD_eq_getElem?_getD _ h.2, List.getElem?_eq_none (by omega)] at hmem
    simp at hmem
  obtain ⟨p, hp, hp2⟩ := hs.covered h.1 h.2 h1 h2
  obtain ⟨-, hi⟩ := hs.indexed _ p hp
  have e : p = (p.1, h) := Prod.ext rfl hp2
  rw [hp2] at hi
  refine ⟨_, p.1, by rw [hp]; exact congrArg some e, (hs.key_form p (List.getElem?_mem hp)).1,
    ?_⟩
  rw [hi i n hn, (hs.key_form p (List.getElem?_mem hp)).1]

end GraphBuilder

theorem bucket_of_getElem? (tasks : List (List (List Nat))) (task : List (List Nat))
    (b : List Nat) (t j : Nat) (ht : tasks[t]? = some task) (hb : task[j]? = some b) :
    GraphBuilder.bucket tasks (t, j) = b := by
  simp only [GraphBuilder.bucket, List.getD_eq_getElem?_getD, ht, Option.getD_some, hb]

theorem find_offset_append {κ : Type} [DecidableEq κ] (m : List (κ × Nat)) (k key : κ)
    (v : Nat) :
    find_offset (m ++ [(k, v)]) key =
      match find_offset m key with
      | some x => some x
      | none => if k = key then some v else none := by
  induction m with
  | nil => simp [find_offset]
  | cons q rest ih =>
    obtain ⟨k1, v1⟩ := q
    simp only [List.cons_append, find_offset]
    by_cases c : k1 = key
    · simp [c]
    · simp only [c, if_false]
      exact ih

theorem find_offset_append_some {κ : Type} [DecidableEq κ] (m : List (κ × Nat)) (k key : κ)
    (v x : Nat) (h : find_offset m key = some x) :
    find_offset (m ++ [(k, v)]) key = some x := by
  rw [find_offset_append, h]

theorem find_offset_append_self {κ : Type} [DecidableEq κ] (m : List (κ × Nat)) (k : κ)
    (v : Nat) (h : find_offset m k = none) :
    find_offset (m ++ [(k, v)]) k = some v := by
  rw [find_offset_append, h]
  simp

theorem find_offset_none_iff {κ : Type} [DecidableEq κ] (m : List (κ × Nat)) (key : κ) :
    find_offset m key = none ↔ key ∉ m.map Prod.fst := by
  induction m with
  | nil => simp [find_offset]
  | cons q rest ih =>
    obtain ⟨k1, v1⟩ := q
    simp only [find_offset, List.map_cons, List.mem_cons, not_or]
    by_cases c : k1 = key
    · simp [c]
    · simp only [c, if_false, ih]
      constructor
      · intro h; exact ⟨fun e => c e.symm, h⟩
      · intro h; exact h.2

theorem find_offset_some_iff {κ : Type} [DecidableEq κ] (m : List (κ × Nat)) (key : κ) :
    (∃ x, find_offset m key = some x) ↔ key ∈ m.map Prod.fst := by
  have h := find_offset_none_iff m key
  cases hf : find_offset m key with
  | none =>
    rw [hf] at h
    simp only [true_iff] at h
    simp [h]
  | some x =>
    rw [hf] at h
    simp only [false_iff, not_not, reduceCtorEq] at h
    simp [h]

/-! ## The tile writer: the loops -/

theorem edge_data_frame (tenv : TileEnv) (u ei : Nat) (data data1 : EdgeData) (p : EdgeParts)
    (off : Nat) (h : edge_data tenv u ei data p = .ok (data1, off)) :
    (tenv.find_key u ei data.edge_offset_map (ComputeNodePair tenv p.nodea p.nodeb) =
        .found off ∧ data1 = data) ∨
    (tenv.find_key u ei data.edge_offset_map (ComputeNodePair tenv p.nodea p.nodeb) =
        .absent ∧ off = data.edge_info_offset ∧
      data1 =
        { text := (write_names data.text [] (tenv.GetNames p.w)).1,
          edge_offset_map := data.edge_offset_map ++
            [(ComputeNodePair tenv p.nodea p.nodeb, data.edge_info_offset)],
          edgeinfo_list := data.edgeinfo_list ++
            [{ nodea := p.nodea, nodeb := p.nodeb, shape := p.edge.latlngs_,
               street_name_offset_list :=
                 (write_names data.text [] (tenv.GetNames p.w)).2 }],
          edge_info_offset := data.edge_info_offset + tenv.SizeOf
            { nodea := p.nodea, nodeb := p.nodeb, shape := p.edge.latlngs_,
              street_name_offset_list :=
                (write_names data.text [] (tenv.GetNames p.w)).2 } }) := by
  unfold edge_data at h
  simp only [] at h
  cases hf : tenv.find_key u ei data.edge_offset_map (ComputeNodePair tenv p.nodea p.nodeb) with
  | fault => rw [hf] at h; cases h
  | absent =>
    rw [hf] at h
    simp only [Except.ok.injEq, Prod.mk.injEq] at h
    exact Or.inr ⟨rfl, h.2.symm, h.1.symm⟩
  | found x =>
    rw [hf] at h
    simp only [Except.ok.injEq, Prod.mk.injEq] at h
    exact Or.inl ⟨by rw [h.2], h.1.symm⟩

theorem write_edge_spec (tenv : TileEnv) (nodes : NodeMap) (ways : List OSMWay)
    (edges : List Edge) (u : Nat) (node : OSMNode) (st : TileBuild) (des : List DirectedEdge)
    (ei : Nat) (r : TileBuild × List DirectedEdge) (hnode : nodes.find u = some node)
    (h : write_edge tenv nodes ways edges u node st des ei = .ok r) :
    ∃ p d data1 off, edge_parts nodes ways edges ei = .ok p ∧
      edge_data tenv u ei st.data p = .ok (data1, off) ∧
      r.1 = { st with data := data1 } ∧
      r.2 = des ++ [d] ∧ d.edgedataoffset = off ∧ Answers tenv nodes ways edges u ei d := by
  unfold write_edge at h
  cases hp : edge_parts nodes ways edges ei with
  | error e => rw [hp] at h; cases h
  | ok p =>
    rw [hp] at h
    simp only [] at h
    cases ho : orient nodes edges (set_attributes tenv node p.edge p.w) p.w p.edge u
        p.nodea p.nodeb with
    | error e => rw [ho] at h; cases h
    | ok d =>
      rw [ho] at h
      simp only [] at h
      cases hd : edge_data tenv u ei st.data p with
      | error e => rw [hd] at h; cases h
      | ok x =>
        obtain ⟨x1, x2⟩ := x
        rw [hd] at h
        simp only [Except.ok.injEq] at h
        refine ⟨p, d.set_edgedataoffset x2, x1, x2, rfl, hd, ?_, ?_, rfl, ?_⟩
        · rw [← h]
        · rw [← h]
        · refine ⟨p, d, x2, hp, ?_, rfl⟩
          simp only [directed_edge, hnode, hp, ho]

theorem write_edges_spec (tenv : TileEnv) (nodes : NodeMap) (ways : List OSMWay)
    (edges : List Edge) (u : Nat) (node : OSMNode) (hnode : nodes.find u = some node)
    (eis : List Nat) :
    ∀ (st : TileBuild) (des : List DirectedEdge) (r : TileBuild × List DirectedEdge),
    write_edges tenv nodes ways edges u node st des eis = .ok r →
    ∃ ds, r.1.graphtile = st.graphtile ∧ r.1.directededgecount = st.directededgecount ∧
      r.2 = des ++ ds ∧
      List.Forall₂ (Answers tenv nodes ways edges u) eis ds := by
  induction eis with
  | nil =>
    intro st des r h
    simp only [write_edges, Except.ok.injEq] at h
    refine ⟨[], ?_, ?_, ?_, List.Forall₂.nil⟩
    · rw [← h]
    · rw [← h]
    · rw [← h]; simp
  | cons ei rest ih =>
    intro st des r h
    simp only [write_edges] at h
    cases h1 : write_edge tenv nodes ways edges u node st des ei with
    | error e => rw [h1] at h; cases h
    | ok r1 =>
      rw [h1] at h
      simp only [] at h
      obtain ⟨p, d, data1, off, -, -, a2, a3, -, a4⟩ :=
        write_edge_spec tenv nodes ways edges u node st des ei r1 hnode h1
      obtain ⟨ds, b1, b2, b3, b4⟩ := ih r1.1 r1.2 r h
      refine ⟨d :: ds, ?_, ?_, ?_, List.Forall₂.cons a4 b4⟩
      · rw [b1, a2]
      · rw [b2, a2]
      · rw [b3, a3]; simp

theorem write_node_spec (tenv : TileEnv) (nodes : NodeMap) (ways : List OSMWay)
    (edges : List Edge) (st st1 : TileBuild) (u : Nat)
    (h : write_node tenv nodes ways edges st u = .ok st1) :
    ∃ node des, nodes.find u = some node ∧
      st1.graphtile = st.graphtile ++
        [({ latlng := node.latlng_, edge_index := st.directededgecount,
            edge_count := node.edge_count }, des)] ∧
      st1.directededgecount = (st.directededgecount + node.edge_count) % 2 ^ 32 ∧
      List.Forall₂ (Answers tenv nodes ways edges u) node.edges_ des := by
  unfold write_node at h
  cases hn : nodes.find u with
  | none => rw [hn] at h; cases h
  | some node =>
    rw [hn] at h
    simp only [] at h
    cases hw : write_edges tenv nodes ways edges u node
        { st with directededgecount := (st.directededgecount + node.edge_count) % 2 ^ 32 }
        [] node.edges_ with
    | error e => rw [hw] at h; cases h
    | ok r =>
      rw [hw] at h
      simp only [Except.ok.injEq] at h
      obtain ⟨ds, b1, b2, b3, b4⟩ := write_edges_spec tenv nodes ways edges u node hn
        node.edges_ _ _ r hw
      simp only [List.nil_append] at b3
      refine ⟨node, ds, rfl, ?_, ?_, b4⟩
      · rw [← h]
        simp only [b1, b3]
      · rw [← h]
        simp only [b2]

theorem write_nodes_spec (tenv : TileEnv) (nodes : NodeMap) (ways : List OSMWay)
    (edges : List Edge) (tile : List Nat) :
    ∀ (st st1 : TileBuild), write_nodes tenv nodes ways edges st tile = .ok st1 →
    ∃ new, st1.graphtile = st.graphtile ++ new ∧
      List.Forall₂ (fun u (entry : NodeInfo × List DirectedEdge) =>
        ∃ node, nodes.find u = some node ∧
          List.Forall₂ (Answers tenv nodes ways edges u) node.edges_ entry.2)
        tile new := by
  induction tile with
  | nil =>
    intro st st1 h
    simp only [write_nodes, Except.ok.injEq] at h
    refine ⟨[], ?_, List.Forall₂.nil⟩
    rw [← h]; simp
  | cons u rest ih =>
    intro st st1 h
    simp only [write_nodes] at h
    cases h1 : write_node tenv nodes ways edges st u with
    | error e => rw [h1] at h; cases h
    | ok st2 =>
      rw [h1] at h
      simp only [] at h
      obtain ⟨node, des, a1, a4, -, a6⟩ := write_node_spec tenv nodes ways edges st st2 u h1
      obtain ⟨new, b3, b4⟩ := ih st2 st1 h
      refine ⟨(⟨node.latlng_, st.directededgecount, node.edge_count⟩, des) :: new,
        ?_, List.Forall₂.cons ⟨node, a1, a6⟩ b4⟩
      rw [b3, a4]; simp

theorem emitted_answers (tenv : TileEnv) (nodes : NodeMap) (ways : List OSMWay)
    (edges : List Edge) (tile : List Nat) (st : TileBuild)
    (hb : build_tile tenv nodes ways edges tile = .ok st) (u ei : Nat) (d : DirectedEdge)
    (hd : (u, ei, d) ∈ emitted nodes tile st) :
    u ∈ tile ∧ ei ∈ (nodes.get u).edges_ ∧ Answers tenv nodes ways edges u ei d := by
  obtain ⟨new, b3, b4⟩ := write_nodes_spec tenv nodes ways edges tile _ st hb
  simp only [TileBuild.new, List.nil_append] at b3
  rw [← b3] at b4
  simp only [emitted, List.mem_flatMap, List.mem_map] at hd
  obtain ⟨x, hx, y, hy, hxy⟩ := hd
  obtain ⟨x1, x2⟩ := x
  obtain ⟨y1, y2⟩ := y
  simp only [Prod.mk.injEq] at hxy
  obtain ⟨e1, e2, e3⟩ := hxy
  subst e1 e2 e3
  obtain ⟨node, c1, c2⟩ := (List.forall₂_iff_zip.mp b4).2 hx
  have hget : nodes.get x1 = node := by simp [NodeMap.get, c1]
  rw [hget] at hy ⊢
  exact ⟨(List.of_mem_zip hx).1, (List.of_mem_zip hy).1, (List.forall₂_iff_zip.mp c2).2 hy⟩

/-! ## The tile writer: orientation -/

theorem orient_forward (nodes : NodeMap) (edges : List Edge) (d d1 : DirectedEdge)
    (w : OSMWay) (edge : Edge) (u : Nat) (a b : Option GraphId)
    (hu : edge.sourcenode_ = u) (h : orient nodes edges d w edge u a b = .ok d1) :
    (∃ n, GetOpposingIndex edge.targetnode_ edge.sourcenode_ nodes edges = .ok n ∧
      d1.opp_index = n % 32) ∧
    d1.endnode = b ∧
    d1.caraccess_forward = w.auto_forward_ ∧ d1.caraccess_reverse = w.auto_backward_ ∧
    d1.bicycleaccess_forward = w.bike_forward_ ∧ d1.bicycleaccess_reverse = w.bike_backward_ ∧
    d1.pedestrianaccess_forward = w.pedestrian_ ∧
    d1.pedestrianaccess_reverse = w.pedestrian_ := by
  unfold orient at h
  rw [if_pos hu] at h
  cases hg : GetOpposingIndex edge.targetnode_ edge.sourcenode_ nodes edges with
  | error e => rw [hg] at h; cases h
  | ok n =>
    rw [hg] at h
    simp only [Except.ok.injEq] at h
    rw [← h]
    refine ⟨⟨n, rfl, ?_⟩, ?_⟩ <;>
      simp [DirectedEdge.set_opp_index, DirectedEdge.set_endnode, DirectedEdge.set_caraccess,
        DirectedEdge.set_pedestrianaccess, DirectedEdge.set_bicycleaccess]

theorem orient_reverse (nodes : NodeMap) (edges : List Edge) (d d1 : DirectedEdge)
    (w : OSMWay) (edge : Edge) (u : Nat) (a b : Option GraphId)
    (hs : ¬ edge.sourcenode_ = u) (hu : edge.targetnode_ = u)
    (h : orient nodes edges d w edge u a b = .ok d1) :
    (∃ n, GetOpposingIndex edge.sourcenode_ edge.targetnode_ nodes edges = .ok n ∧
      d1.opp_index = n % 32) ∧
    d1.endnode = a ∧
    d1.caraccess_forward = w.auto_backward_ ∧ d1.caraccess_reverse = w.auto_forward_ ∧
    d1.bicycleaccess_forward = w.bike_backward_ ∧ d1.bicycleaccess_reverse = w.bike_forward_ ∧
    d1.pedestrianaccess_forward = w.pedestrian_ ∧
    d1.pedestrianaccess_reverse = w.pedestrian_ := by
  unfold orient at h
  rw [if_neg hs, if_pos hu] at h
  cases hg : GetOpposingIndex edge.sourcenode_ edge.targetnode_ nodes edges with
  | error e => rw [hg] at h; cases h
  | ok n =>
    rw [hg] at h
    simp only [Except.ok.injEq] at h
    rw [← h]
    refine ⟨⟨n, rfl, ?_⟩, ?_⟩ <;>
      simp [DirectedEdge.set_opp_index, DirectedEdge.set_endnode, DirectedEdge.set_caraccess,
        DirectedEdge.set_pedestrianaccess, DirectedEdge.set_bicycleaccess]

theorem edge_parts_spec (nodes : NodeMap) (ways : List OSMWay) (edges : List Edge) (ei : Nat)
    (p : EdgeParts) (h : edge_parts nodes ways edges ei = .ok p) :
    edges[ei]? = some p.edge ∧ ways[p.edge.wayindex_]? = some p.w ∧
    (∃ a, nodes.find p.edge.sourcenode_ = some a ∧ p.nodea = a.graphid_) ∧
    (∃ b, nodes.find p.edge.targetnode_ = some b ∧ p.nodeb = b.graphid_) := by
  unfold edge_parts at h
  cases h1 : edges[ei]? with
  | none => rw [h1] at h; cases h
  | some edge =>
    rw [h1] at h
    simp only [] at h
    cases h2 : ways[edge.wayindex_]? with
    | none => rw [h2] at h; cases h
    | some w =>
      rw [h2] at h
      simp only [] at h
      cases h3 : nodes.find edge.sourcenode_ with
      | none => rw [h3] at h; cases h
      | some a =>
        rw [h3] at h
        simp only [] at h
        cases h4 : nodes.find edge.targetnode_ with
        | none => rw [h4] at h; cases h
        | some b =>
          rw [h4] at h
          simp only [Except.ok.injEq] at h
          rw [← h]
          exact ⟨rfl, h2, ⟨a, h3, rfl⟩, ⟨b, h4, rfl⟩⟩

theorem directed_edge_spec (tenv : TileEnv) (nodes : NodeMap) (ways : List OSMWay)
    (edges : List Edge) (u ei : Nat) (d : DirectedEdge)
    (h : directed_edge tenv nodes ways edges u ei = .ok d) :
    ∃ node p, nodes.find u = some node ∧ edge_parts nodes ways edges ei = .ok p ∧
      orient nodes edges (set_attributes tenv node p.edge p.w) p.w p.edge u p.nodea p.nodeb =
        .ok d := by
  unfold directed_edge at h
  cases h1 : nodes.find u with
  | none => rw [h1] at h; cases h
  | some node =>
    rw [h1] at h
    simp only [] at h
    cases h2 : edge_parts nodes ways edges ei with
    | error e => rw [h2] at h; cases h
    | ok p =>
      rw [h2] at h
      exact ⟨node, p, rfl, rfl, h⟩

/-- C20: every directed edge of a tile that `BuildTileSet` builds, built at the node `u`
from the incident edge `E = edges[ei]` on the way `w = ways[E.wayindex_]`: when
`E.sourcenode_ = u`, its forward car and bicycle access are `w.auto_forward` and
`w.bike_forward` and its reverse car and bicycle access are `w.auto_backward` and
`w.bike_backward`; otherwise, when `E.targetnode_ = u`, these are swapped; in both cases
the forward and the reverse pedestrian access are `w.pedestrian`. -/
theorem directed_edge_access (tenv : TileEnv) (nodes : NodeMap) (ways : List OSMWay)
    (edges : List Edge) (tile : List Nat) (st : TileBuild) (u ei : Nat) (d : DirectedEdge)
    (hb : build_tile tenv nodes ways edges tile = .ok st)
    (hd : (u, ei, d) ∈ emitted nodes tile st) :
    ∃ E w, edges[ei]? = some E ∧ ways[E.wayindex_]? = some w ∧
      (E.sourcenode_ = u →
        d.caraccess_forward = w.auto_forward_ ∧ d.bicycleaccess_forward = w.bike_forward_ ∧
        d.caraccess_reverse = w.auto_backward_ ∧ d.bicycleaccess_reverse = w.bike_backward_) ∧
      (¬ E.sourcenode_ = u → E.targetnode_ = u →
        d.caraccess_forward = w.auto_backward_ ∧ d.bicycleaccess_forward = w.bike_backward_ ∧
        d.caraccess_reverse = w.auto_forward_ ∧ d.bicycleaccess_reverse = w.bike_forward_) ∧
      (E.sourcenode_ = u ∨ E.targetnode_ = u →
        d.pedestrianaccess_forward = w.pedestrian_ ∧
        d.pedestrianaccess_reverse = w.pedestrian_) := by
  obtain ⟨-, -, p, d0, off, h1, h2, h3⟩ :=
    emitted_answers tenv nodes ways edges tile st hb u ei d hd
  obtain ⟨node, p1, -, e1, ho⟩ := directed_edge_spec tenv nodes ways edges u ei d0 h2
  rw [h1] at e1
  cases e1
  obtain ⟨g1, g2, -, -⟩ := edge_parts_spec nodes ways edges ei p h1
  have hf : ∀ x : DirectedEdge, (x.set_edgedataoffset off).caraccess_forward =
      x.caraccess_forward ∧ (x.set_edgedataoffset off).caraccess_reverse =
      x.caraccess_reverse ∧ (x.set_edgedataoffset off).bicycleaccess_forward =
      x.bicycleaccess_forward ∧ (x.set_edgedataoffset off).bicycleaccess_reverse =
      x.bicycleaccess_reverse ∧ (x.set_edgedataoffset off).pedestrianaccess_forward =
      x.pedestrianaccess_forward ∧ (x.set_edgedataoffset off).pedestrianaccess_reverse =
      x.pedestrianaccess_reverse := fun x => ⟨rfl, rfl, rfl, rfl, rfl, rfl⟩
  obtain ⟨f1, f2, f3, f4, f5, f6⟩ := hf d0
  refine ⟨p.edge, p.w, g1, g2, ?_, ?_, ?_⟩
  · intro hu
    obtain ⟨-, -, a1, a2, a3, a4, -, -⟩ := orient_forward _ _ _ _ _ _ _ _ _ hu ho
    rw [h3, f1, f2, f3, f4]
    exact ⟨a1, a3, a2, a4⟩
  · intro hs hu
    obtain ⟨-, -, a1, a2, a3, a4, -, -⟩ := orient_reverse _ _ _ _ _ _ _ _ _ hs hu ho
    rw [h3, f1, f2, f3, f4]
    exact ⟨a1, a3, a2, a4⟩
  · intro hu
    rw [h3, f5, f6]
    by_cases hs : p.edge.sourcenode_ = u
    · obtain ⟨-, -, -, -, -, -, a5, a6⟩ := orient_forward _ _ _ _ _ _ _ _ _ hs ho
      exact ⟨a5, a6⟩
    · obtain ⟨-, -, -, -, -, -, a5, a6⟩ :=
        orient_reverse _ _ _ _ _ _ _ _ _ hs (hu.resolve_left hs) ho
      exact ⟨a5, a6⟩

/-- Witness for C20: scenario S4, the one-way street `[1, 2]`.  The directed edge built at
node 1 is open to cars forward and closed to them in reverse; the one built at node 2 is
closed forward and open in reverse. -/
theorem directed_edge_access_witness :
    build_tile sampleTileEnv onewayBuilder.nodes_ onewayBuilder.ways_ onewayBuilder.edges_
      [1, 2] = .ok (built_tile sampleTileEnv onewayBuilder [1, 2]) ∧
    (1, 0, onewayForward) ∈
      emitted onewayBuilder.nodes_ [1, 2] (built_tile sampleTileEnv onewayBuilder [1, 2]) ∧
    (emitted onewayBuilder.nodes_ [1, 2] (built_tile sampleTileEnv onewayBuilder [1, 2])).map
      (fun x => (x.1, x.2.1, x.2.2.caraccess_forward, x.2.2.caraccess_reverse,
        x.2.2.pedestrianaccess_forward, x.2.2.pedestrianaccess_reverse)) =
      [(1, 0, true, false, true, true), (2, 0, false, true, true, true)] ∧
    ∃ E w, onewayBuilder.edges_[0]? = some E ∧ onewayBuilder.ways_[E.wayindex_]? = some w ∧
      (E.sourcenode_ = 1 →
        onewayForward.caraccess_forward = w.auto_forward_ ∧
        onewayForward.bicycleaccess_forward = w.bike_forward_ ∧
        onewayForward.caraccess_reverse = w.auto_backward_ ∧
        onewayForward.bicycleaccess_reverse = w.bike_backward_) ∧
      (¬ E.sourcenode_ = 1 → E.targetnode_ = 1 →
        onewayForward.caraccess_forward = w.auto_backward_ ∧
        onewayForward.bicycleaccess_forward = w.bike_backward_ ∧
        onewayForward.caraccess_reverse = w.auto_forward_ ∧
        onewayForward.bicycleaccess_reverse = w.bike_forward_) ∧
      (E.sourcenode_ = 1 ∨ E.targetnode_ = 1 →
        onewayForward.pedestrianaccess_forward = w.pedestrian_ ∧
        onewayForward.pedestrianaccess_reverse = w.pedestrian_) :=
  ⟨by decide, by decide, by decide,
    directed_edge_access sampleTileEnv onewayBuilder.nodes_ onewayBuilder.ways_
      onewayBuilder.edges_ [1, 2] (built_tile sampleTileEnv onewayBuilder [1, 2]) 1 0
      onewayForward (by decide) (by decide)⟩

/-! ## The tile writer: the text pool -/

theorem pool_size_append (l : List String) (s : String) :
    pool_size (l ++ [s]) = pool_size l + (s.utf8ByteSize + 1) := by
  simp [pool_size]

theorem write_name_spec (pool : TextPool) (offsets : List Nat) (name : String) :
    (pool.Sound → (write_name pool offsets name).1.Sound) ∧
    (∀ s x, find_offset pool.text_offset_map s = some x →
      find_offset (write_name pool offsets name).1.text_offset_map s = some x) ∧
    (¬ name = "" → ∃ x, find_offset (write_name pool offsets name).1.text_offset_map name =
      some x) ∧
    (write_name pool offsets name).2 = offsets ++
      (if name = "" then []
       else [(find_offset (write_name pool offsets name).1.text_offset_map name).getD 0]) := by
  unfold write_name
  by_cases hn : name = ""
  · refine ⟨?_, ?_, fun h => absurd hn h, ?_⟩
    · rw [if_pos hn]; exact fun h => h
    · rw [if_pos hn]; exact fun s x h => h
    · rw [if_pos hn, if_pos hn, List.append_nil]
  · simp only [hn, if_false]
    cases hf : find_offset pool.text_offset_map name with
    | some x =>
      simp only []
      refine ⟨fun h => h, fun s x h => h, fun _ => ⟨x, hf⟩, ?_⟩
      rw [hf]; rfl
    | none =>
      simp only []
      refine ⟨fun hs => ?_, fun s x h => find_offset_append_some _ _ _ _ _ h,
        fun _ => ⟨_, find_offset_append_self _ _ _ hf⟩, ?_⟩
      · have hnot : name ∉ pool.text_list := by
          rw [← hs.names]
          exact (find_offset_none_iff _ _).mp hf
        refine { nodup := ?_, nonempty := ?_, names := ?_, offsets := ?_, size := ?_ }
        · simp only []
          rw [List.nodup_append]
          refine ⟨hs.nodup, List.nodup_singleton _, ?_⟩
          intro a ha hb
          rw [List.mem_singleton] at hb
          exact hnot (hb ▸ ha)
        · simp only [List.mem_append, List.mem_singleton, not_or]
          exact ⟨hs.nonempty, fun e => hn e.symm⟩
        · simp only [List.map_append, List.map_cons, List.map_nil, hs.names]
        · simp only [List.map_append, List.map_cons, List.map_nil, hs.offsets,
            List.length_append, List.length_singleton, List.range_succ]
          congr 1
          · apply List.map_congr_left
            intro i hi
            rw [List.mem_range] at hi
            rw [List.take_append_of_le_length (Nat.le_of_lt hi)]
          · rw [List.take_left', hs.size]
            rfl
        · simp only []
          rw [pool_size_append, hs.size]
      · rw [find_offset_append_self _ _ _ hf]
        rfl

theorem write_names_spec (names : List String) :
    ∀ (pool : TextPool) (offsets : List Nat),
    (pool.Sound → (write_names pool offsets names).1.Sound) ∧
    (∀ s x, find_offset pool.text_offset_map s = some x →
      find_offset (write_names pool offsets names).1.text_offset_map s = some x) ∧
    (∀ s ∈ names, ¬ s = "" →
      ∃ x, find_offset (write_names pool offsets names).1.text_offset_map s = some x) ∧
    (write_names pool offsets names).2 = offsets ++
      (names.filter (fun s => decide (s ≠ ""))).map
        (fun s => (find_offset (write_names pool offsets names).1.text_offset_map s).getD 0) := by
  induction names with
  | nil =>
    intro pool offsets
    simp only [write_names, List.filter_nil, List.map_nil, List.append_nil]
    exact ⟨fun h => h, fun s x h => h, fun s hs => by simp at hs, trivial⟩
  | cons name rest ih =>
    intro pool offsets
    simp only [write_names]
    obtain ⟨a1, a2, a3, a4⟩ := write_name_spec pool offsets name
    obtain ⟨b1, b2, b3, b4⟩ := ih (write_name pool offsets name).1 (write_name pool offsets name).2
    refine ⟨fun h => b1 (a1 h), fun s x h => b2 s x (a2 s x h), ?_, ?_⟩
    · intro s hs hne
      rcases List.mem_cons.mp hs with h1 | h1
      · obtain ⟨x, hx⟩ := a3 (h1 ▸ hne)
        exact ⟨x, h1 ▸ b2 name x hx⟩
      · exact b3 s h1 hne
    · rw [b4]
      conv_lhs => arg 1; rw [a4]
      rw [List.append_assoc]
      congr 1
      by_cases hn : name = ""
      · rw [if_pos hn]
        have hfil : List.filter (fun s => decide (s ≠ "")) (name :: rest) =
            List.filter (fun s => decide (s ≠ "")) rest := by simp [hn]
        rw [hfil]
        rfl
      · rw [if_neg hn]
        obtain ⟨x, hx⟩ := a3 hn
        have hfil : List.filter (fun s => decide (s ≠ "")) (name :: rest) =
            name :: List.filter (fun s => decide (s ≠ "")) rest := by simp [hn]
        rw [hfil, List.map_cons, hx, b2 name x hx]
        rfl

theorem TextPool.Sound.entry {pool : TextPool} (hs : pool.Sound) (i : Nat) (s : String)
    (hi : pool.text_list[i]? = some s) :
    pool.text_offset_map[i]? = some (s, pool_size (pool.text_list.take i)) ∧
    find_offset pool.text_offset_map s = some (pool_size (pool.text_list.take i)) := by
  have hlt : i < pool.text_list.length := by
    by_contra hc
    rw [List.getElem?_eq_none (Nat.le_of_not_lt hc)] at hi
    cases hi
  have h1 : (pool.text_offset_map.map Prod.fst)[i]? = some s := by rw [hs.names]; exact hi
  have h2 : (pool.text_offset_map.map Prod.snd)[i]? =
      some (pool_size (pool.text_list.take i)) := by
    rw [hs.offsets, List.getElem?_map, List.getElem?_range hlt]
    rfl
  rw [List.getElem?_map] at h1 h2
  cases hq : pool.text_offset_map[i]? with
  | none => rw [hq] at h1; cases h1
  | some q =>
    rw [hq] at h1 h2
    simp only [Option.map_some', Option.some.injEq] at h1 h2
    have hq2 : q = (s, pool_size (pool.text_list.take i)) := Prod.ext h1 h2
    refine ⟨by rw [hq2], ?_⟩
    have hnd : (pool.text_offset_map.map Prod.fst).Nodup := by rw [hs.names]; exact hs.nodup
    rw [hq2] at hq
    clear h1 h2 hq2 hi hlt
    generalize pool_size (pool.text_list.take i) = v at hq
    generalize pool.text_offset_map = m at hq hnd
    induction m generalizing i with
    | nil => simp at hq
    | cons e rest ih =>
      obtain ⟨k1, v1⟩ := e
      rw [List.map_cons, List.nodup_cons] at hnd
      cases i with
      | zero =>
        simp only [List.getElem?_cons_zero, Option.some.injEq, Prod.mk.injEq] at hq
        simp [find_offset, hq.1, hq.2]
      | succ i =>
        simp only [List.getElem?_cons_succ] at hq
        have hne : ¬ k1 = s := by
          intro e
          apply hnd.1
          rw [e]
          exact List.mem_map.mpr ⟨(s, v), List.getElem?_mem hq, rfl⟩
        simp only [find_offset, hne, if_false]
        exact ih i hq hnd.2

/-! ## The tile writer: the edge data of a tile -/

theorem info_of_congr (tenv : TileEnv) (pool pool1 : TextPool) (p : EdgeParts)
    (hmono : ∀ s x, find_offset pool.text_offset_map s = some x →
      find_offset pool1.text_offset_map s = some x)
    (hall : ∀ s ∈ tenv.GetNames p.w, ¬ s = "" →
      ∃ x, find_offset pool.text_offset_map s = some x) :
    info_of tenv pool p = info_of tenv pool1 p := by
  simp only [info_of, EdgeInfo.mk.injEq, true_and]
  apply List.map_congr_left
  intro s hs
  obtain ⟨h1, h2⟩ := List.mem_filter.mp hs
  obtain ⟨x, hx⟩ := hall s h1 (by simpa using h2)
  rw [hx, hmono s x hx]

theorem edgeData_sound_new (tenv : TileEnv) : EdgeData.Sound tenv [] TileBuild.new.data :=
  { text := { nodup := List.nodup_nil, nonempty := by simp [TileBuild.new],
              names := rfl, offsets := rfl, size := rfl },
    records := rfl,
    named := fun p hp => by simp at hp }

theorem edge_data_sound (tenv : TileEnv) (u ei : Nat) (data data1 : EdgeData) (p : EdgeParts)
    (off : Nat) (made : List EdgeParts)
    (h : edge_data tenv u ei data p = .ok (data1, off)) (hs : EdgeData.Sound tenv made data) :
    ∃ more, more.Sublist [p] ∧ EdgeData.Sound tenv (made ++ more) data1 := by
  rcases edge_data_frame tenv u ei data data1 p off h with ⟨-, e⟩ | ⟨-, -, e⟩
  · refine ⟨[], List.nil_sublist _, ?_⟩
    rw [e, List.append_nil]
    exact hs
  · obtain ⟨b1, b2, b3, b4⟩ := write_names_spec (tenv.GetNames p.w) data.text []
    refine ⟨[p], List.Sublist.refl _, ?_⟩
    rw [e]
    refine { text := b1 hs.text, records := ?_, named := ?_ }
    · simp only [List.map_append, List.map_cons, List.map_nil]
      rw [hs.records]
      congr 1
      · apply List.map_congr_left
        intro q hq
        exact info_of_congr tenv _ _ q b2 (hs.named q hq)
      · simp only [info_of]
        rw [b4]
        rfl
    · intro q hq s hsn hne
      rcases List.mem_append.mp hq with h1 | h1
      · obtain ⟨x, hx⟩ := hs.named q h1 s hsn hne
        exact ⟨x, b2 s x hx⟩
      · rw [List.mem_singleton] at h1
        rw [h1] at hsn
        exact b3 s hsn hne

theorem write_edges_sound (tenv : TileEnv) (nodes : NodeMap) (ways : List OSMWay)
    (edges : List Edge) (u : Nat) (node : OSMNode) (hnode : nodes.find u = some node)
    (eis : List Nat) :
    ∀ (st : TileBuild) (des : List DirectedEdge) (r : TileBuild × List DirectedEdge)
      (made : List EdgeParts),
    write_edges tenv nodes ways edges u node st des eis = .ok r →
    EdgeData.Sound tenv made st.data →
    ∃ ps more, List.Forall₂ (fun ei p => edge_parts nodes ways edges ei = .ok p) eis ps ∧
      more.Sublist ps ∧ EdgeData.Sound tenv (made ++ more) r.1.data := by
  induction eis with
  | nil =>
    intro st des r made h hs
    simp only [write_edges, Except.ok.injEq] at h
    refine ⟨[], [], List.Forall₂.nil, List.Sublist.refl _, ?_⟩
    rw [← h, List.append_nil]
    exact hs
  | cons ei rest ih =>
    intro st des r made h hs
    simp only [write_edges] at h
    cases h1 : write_edge tenv nodes ways edges u node st des ei with
    | error e => rw [h1] at h; cases h
    | ok r1 =>
      rw [h1] at h
      simp only [] at h
      obtain ⟨p, d, data1, off, a1, a2, a3, -, -, -⟩ :=
        write_edge_spec tenv nodes ways edges u node st des ei r1 hnode h1
      obtain ⟨m1, c1, c2⟩ := edge_data_sound tenv u ei st.data data1 p off made a2 hs
      have hs1 : EdgeData.Sound tenv (made ++ m1) r1.1.data := by rw [a3]; exact c2
      obtain ⟨ps, m2, b1, b2, b3⟩ := ih r1.1 r1.2 r (made ++ m1) h hs1
      refine ⟨p :: ps, m1 ++ m2, List.Forall₂.cons a1 b1, ?_, ?_⟩
      · exact List.Sublist.append c1 b2
      · rw [← List.append_assoc]
        exact b3

theorem write_node_sound (tenv : TileEnv) (nodes : NodeMap) (ways : List OSMWay)
    (edges : List Edge) (st st1 : TileBuild) (u : Nat) (made : List EdgeParts)
    (h : write_node tenv nodes ways edges st u = .ok st1)
    (hs : EdgeData.Sound tenv made st.data) :
    ∃ ps more, List.Forall₂ (fun ei p => edge_parts nodes ways edges ei = .ok p)
        (nodes.get u).edges_ ps ∧
      more.Sublist ps ∧ EdgeData.Sound tenv (made ++ more) st1.data := by
  unfold write_node at h
  cases hn : nodes.find u with
  | none => rw [hn] at h; cases h
  | some node =>
    rw [hn] at h
    simp only [] at h
    cases hw : write_edges tenv nodes ways edges u node
        { st with directededgecount := (st.directededgecount + node.edge_count) % 2 ^ 32 }
        [] node.edges_ with
    | error e => rw [hw] at h; cases h
    | ok r =>
      rw [hw] at h
      simp only [Except.ok.injEq] at h
      obtain ⟨ps, more, b1, b2, b3⟩ := write_edges_sound tenv nodes ways edges u node hn
        node.edges_ _ _ r made hw hs
      have hget : nodes.get u = node := by simp [NodeMap.get, hn]
      refine ⟨ps, more, by rw [hget]; exact b1, b2, ?_⟩
      rw [← h]
      exact b3

theorem write_nodes_sound (tenv : TileEnv) (nodes : NodeMap) (ways : List OSMWay)
    (edges : List Edge) (tile : List Nat) :
    ∀ (st st1 : TileBuild) (made : List EdgeParts),
    write_nodes tenv nodes ways edges st tile = .ok st1 →
    EdgeData.Sound tenv made st.data →
    ∃ ps more, List.Forall₂ (fun ei p => edge_parts nodes ways edges ei = .ok p)
        (visits nodes tile) ps ∧
      more.Sublist ps ∧ EdgeData.Sound tenv (made ++ more) st1.data := by
  induction tile with
  | nil =>
    intro st st1 made h hs
    simp only [write_nodes, Except.ok.injEq] at h
    refine ⟨[], [], by simp [visits], List.Sublist.refl _, ?_⟩
    rw [← h, List.append_nil]
    exact hs
  | cons u rest ih =>
    intro st st1 made h hs
    simp only [write_nodes] at h
    cases h1 : write_node tenv nodes ways edges st u with
    | error e => rw [h1] at h; cases h
    | ok st2 =>
      rw [h1] at h
      simp only [] at h
      obtain ⟨ps, m1, a1, a2, a3⟩ := write_node_sound tenv nodes ways edges st st2 u made h1 hs
      obtain ⟨qs, m2, b1, b2, b3⟩ := ih st2 st1 (made ++ m1) h a3
      refine ⟨ps ++ qs, m1 ++ m2, ?_, List.Sublist.append a2 b2, ?_⟩
      · have hv : visits nodes (u :: rest) = (nodes.get u).edges_ ++ visits nodes rest := by
          simp [visits]
        rw [hv]
        exact List.rel_append a1 b1
      · rw [← List.append_assoc]
        exact b3

/-- What the edge data of a built tile are: the records belong to incident edges that the
bucket visits, in the order of the visit, and the text pool is sound. -/
theorem build_tile_sound (tenv : TileEnv) (nodes : NodeMap) (ways : List OSMWay)
    (edges : List Edge) (tile : List Nat) (st : TileBuild)
    (hb : build_tile tenv nodes ways edges tile = .ok st) :
    ∃ (ps made : List EdgeParts), List.Forall₂ (fun ei p => edge_parts nodes ways edges ei = .ok p)
        (visits nodes tile) ps ∧
      made.Sublist ps ∧ EdgeData.Sound tenv made st.data := by
  obtain ⟨ps, more, b1, b2, b3⟩ := write_nodes_sound tenv nodes ways edges tile _ st []
    hb (edgeData_sound_new tenv)
  exact ⟨ps, more, b1, b2, by simpa using b3⟩

/-- C19: in the text pool of a tile that `BuildTileSet` builds, no name occurs twice and
the empty name does not occur; the name at position `i` of the pool is recorded in
`text_offset_map` with the sum of `length + 1` over the names at the positions before `i`
(so the first name has offset 0), and a lookup of the name gives that offset; the size
`text_list_offset` handed to the tile with the pool is the sum of `length + 1` over all
names of the pool.  The length of a name is its number of bytes.  This holds whatever the
lookups of the edge keys come to. -/
theorem text_pool_offsets (tenv : TileEnv) (nodes : NodeMap) (ways : List OSMWay)
    (edges : List Edge) (tile : List Nat) (st : TileBuild)
    (hb : build_tile tenv nodes ways edges tile = .ok st) :
    st.data.text.text_list.Nodup ∧ "" ∉ st.data.text.text_list ∧
    st.data.text.text_offset_map.length = st.data.text.text_list.length ∧
    (∀ (i : Nat) (s : String), st.data.text.text_list[i]? = some s →
      st.data.text.text_offset_map[i]? =
        some (s, pool_size (st.data.text.text_list.take i)) ∧
      find_offset st.data.text.text_offset_map s =
        some (pool_size (st.data.text.text_list.take i))) ∧
    st.data.text.text_list_offset = pool_size st.data.text.text_list := by
  obtain ⟨ps, made, -, -, hd⟩ := build_tile_sound tenv nodes ways edges tile st hb
  have hs := hd.text
  refine ⟨hs.nodup, hs.nonempty, ?_, fun i s hi => hs.entry i s hi, hs.size⟩
  rw [← hs.names, List.length_map]

/-- Witness for C19: scenario S3, two ways named `Main St`; the pool holds the name once,
at offset 0, and its size is 8 bytes, both when the key lookups find what a key of ids
would find (two `EdgeInfo` records) and when they all come back with `end()` (four
records); every record refers to offset 0. -/
theorem text_pool_offsets_witness :
    build_tile sampleTileEnv namedBuilder.nodes_ namedBuilder.ways_ namedBuilder.edges_
      [1, 2, 3] = .ok (built_tile sampleTileEnv namedBuilder [1, 2, 3]) ∧
    (built_tile sampleTileEnv namedBuilder [1, 2, 3]).data.text =
      { text_list_offset := 8, text_offset_map := [("Main St", 0)],
        text_list := ["Main St"] } ∧
    (built_tile sampleTileEnv namedBuilder [1, 2, 3]).data.edgeinfo_list.map
      (fun r => r.street_name_offset_list) = [[0], [0]] ∧
    build_tile unsharedTileEnv namedBuilder.nodes_ namedBuilder.ways_ namedBuilder.edges_
      [1, 2, 3] = .ok (built_tile unsharedTileEnv namedBuilder [1, 2, 3]) ∧
    (built_tile unsharedTileEnv namedBuilder [1, 2, 3]).data.text =
      { text_list_offset := 8, text_offset_map := [("Main St", 0)],
        text_list := ["Main St"] } ∧
    (built_tile unsharedTileEnv namedBuilder [1, 2, 3]).data.edgeinfo_list.map
      (fun r => r.street_name_offset_list) = [[0], [0], [0], [0]] ∧
    (built_tile sampleTileEnv namedBuilder [1, 2, 3]).data.text.text_list_offset =
      pool_size (built_tile sampleTileEnv namedBuilder [1, 2, 3]).data.text.text_list ∧
    (built_tile unsharedTileEnv namedBuilder [1, 2, 3]).data.text.text_list_offset =
      pool_size (built_tile unsharedTileEnv namedBuilder [1, 2, 3]).data.text.text_list :=
  ⟨by decide, by decide, by decide, by decide, by decide, by decide,
    (text_pool_offsets sampleTileEnv namedBuilder.nodes_ namedBuilder.ways_
      namedBuilder.edges_ [1, 2, 3] (built_tile sampleTileEnv namedBuilder [1, 2, 3])
      (by decide)).2.2.2.2,
    (text_pool_offsets unsharedTileEnv namedBuilder.nodes_ namedBuilder.ways_
      namedBuilder.edges_ [1, 2, 3] (built_tile unsharedTileEnv namedBuilder [1, 2, 3])
      (by decide)).2.2.2.2⟩

/-- C18: in a tile that `BuildTileSet` builds, every `EdgeInfo` record belongs to an
incident edge that the bucket visits (the records stand in the order of the visit;
which visits make a record depends on the lookups of the edge keys), and the street-name
offset list of a record holds, for the non-empty names of the way of its edge in order,
the offsets that the text pool of the tile records for them; so when the ways of two
records share a non-empty name `s`, the pool has one offset for `s` and both lists contain
it. -/
theorem edgeinfo_name_offsets (tenv : TileEnv) (nodes : NodeMap) (ways : List OSMWay)
    (edges : List Edge) (tile : List Nat) (st : TileBuild)
    (hb : build_tile tenv nodes ways edges tile = .ok st) :
    ∃ (ps made : List EdgeParts), List.Forall₂ (fun ei p => edge_parts nodes ways edges ei = .ok p)
        (visits nodes tile) ps ∧
      made.Sublist ps ∧
      st.data.edgeinfo_list = made.map (info_of tenv st.data.text) ∧
      ∀ (i j : Nat) (p p1 : EdgeParts) (r r1 : EdgeInfo) (s : String),
        made[i]? = some p → made[j]? = some p1 →
        st.data.edgeinfo_list[i]? = some r → st.data.edgeinfo_list[j]? = some r1 →
        ¬ s = "" → s ∈ tenv.GetNames p.w → s ∈ tenv.GetNames p1.w →
        ∃ x, find_offset st.data.text.text_offset_map s = some x ∧
          x ∈ r.street_name_offset_list ∧ x ∈ r1.street_name_offset_list := by
  obtain ⟨ps, made, h1, h2, hd⟩ := build_tile_sound tenv nodes ways edges tile st hb
  have h4 := hd.records
  refine ⟨ps, made, h1, h2, h4, ?_⟩
  intro i j p p1 r r1 s hi hj hr hr1 hne hs hs1
  obtain ⟨x, hx⟩ := hd.named p (List.getElem?_mem hi) s hs hne
  have key : ∀ (k : Nat) (q : EdgeParts) (t : EdgeInfo), made[k]? = some q →
      st.data.edgeinfo_list[k]? = some t → s ∈ tenv.GetNames q.w →
      x ∈ t.street_name_offset_list := by
    intro k q t hk ht hq
    rw [h4, List.getElem?_map, hk] at ht
    simp only [Option.map_some', Option.some.injEq] at ht
    rw [← ht]
    simp only [info_of, List.mem_map, List.mem_filter]
    exact ⟨s, ⟨hq, by simpa using hne⟩, by rw [hx]; rfl⟩
  exact ⟨x, hx, key i p r hi hr hs, key j p1 r1 hj hr1 hs1⟩

/-- Witness for C18: scenario S3; the records come from the ways 0 and 1, both named
`Main St`, and all offset lists are `[0]`, both when the key lookups find what a key of
ids would find and when they all come back with `end()`. -/
theorem edgeinfo_name_offsets_witness :
    build_tile sampleTileEnv namedBuilder.nodes_ namedBuilder.ways_ namedBuilder.edges_
      [1, 2, 3] = .ok (built_tile sampleTileEnv namedBuilder [1, 2, 3]) ∧
    (built_tile sampleTileEnv namedBuilder [1, 2, 3]).data.edgeinfo_list.map
      (fun r => r.street_name_offset_list) = [[0], [0]] ∧
    (built_tile unsharedTileEnv namedBuilder [1, 2, 3]).data.edgeinfo_list.map
      (fun r => r.street_name_offset_list) = [[0], [0], [0], [0]] ∧
    namedBuilder.ways_.map (fun w => sampleTileEnv.GetNames w) =
      [["", "Main St", "", "", ""], ["", "Main St", "", "", ""]] ∧
    (∃ (ps made : List EdgeParts), List.Forall₂
        (fun ei p => edge_parts namedBuilder.nodes_ namedBuilder.ways_ namedBuilder.edges_ ei =
          .ok p) (visits namedBuilder.nodes_ [1, 2, 3]) ps ∧
      made.Sublist ps ∧
      (built_tile sampleTileEnv namedBuilder [1, 2, 3]).data.edgeinfo_list =
        made.map
          (info_of sampleTileEnv (built_tile sampleTileEnv namedBuilder [1, 2, 3]).data.text)) ∧
    ∃ (ps made : List EdgeParts), List.Forall₂
        (fun ei p => edge_parts namedBuilder.nodes_ namedBuilder.ways_ namedBuilder.edges_ ei =
          .ok p) (visits namedBuilder.nodes_ [1, 2, 3]) ps ∧
      made.Sublist ps ∧
      (built_tile unsharedTileEnv namedBuilder [1, 2, 3]).data.edgeinfo_list =
        made.map
          (info_of unsharedTileEnv
            (built_tile unsharedTileEnv namedBuilder [1, 2, 3]).data.text) :=
  ⟨by decide, by decide, by decide, by decide,
    (edgeinfo_name_offsets sampleTileEnv namedBuilder.nodes_ namedBuilder.ways_
      namedBuilder.edges_ [1, 2, 3] (built_tile sampleTileEnv namedBuilder [1, 2, 3])
      (by decide)).elim (fun ps h => h.elim (fun made h1 => ⟨ps, made, h1.1, h1.2.1, h1.2.2.1⟩)),
    (edgeinfo_name_offsets unsharedTileEnv namedBuilder.nodes_ namedBuilder.ways_
      namedBuilder.edges_ [1, 2, 3] (built_tile unsharedTileEnv namedBuilder [1, 2, 3])
      (by decide)).elim (fun ps h => h.elim (fun made h1 => ⟨ps, made, h1.1, h1.2.1, h1.2.2.1⟩))⟩

/-! ## The tile writer: the lookup key -/

theorem computeNodePair_comm (tenv : TileEnv) (hord : tenv.Ordered) (a b : Option GraphId) :
    ComputeNodePair tenv a b = ComputeNodePair tenv b a := by
  unfold ComputeNodePair
  by_cases h : tenv.less a b = true
  · rw [if_pos h, if_neg (by rw [hord.asymm a b h]; simp)]
  · rw [if_neg h]
    by_cases h1 : tenv.less b a = true
    · rw [if_pos h1]
    · rw [if_neg h1]
      by_cases hab : a = b
      · rw [hab]
      · rcases hord.total a b hab with h2 | h2
        · exact absurd h2 h
        · exact absurd h2 h1

theorem sampleTileEnv_ordered : sampleTileEnv.Ordered := by
  refine ⟨?_, ?_, ?_⟩
  · intro a
    cases a with
    | none => rfl
    | some x => simp [sampleTileEnv]
  · intro a b h
    cases a with
    | none => simp [sampleTileEnv] at h
    | some x =>
      cases b with
      | none => rfl
      | some y =>
        simp only [sampleTileEnv, decide_eq_true_eq] at h
        simp only [sampleTileEnv, decide_eq_false_iff_not]
        omega
  · intro a b hab
    cases a with
    | none =>
      cases b with
      | none => exact absurd rfl hab
      | some y => right; rfl
    | some x =>
      cases b with
      | none => left; rfl
      | some y =>
        have hne : x ≠ y := fun h => hab (by rw [h])
        have hne1 : ¬ (x.tileid = y.tileid ∧ x.level = y.level ∧ x.id = y.id) := by
          intro h
          apply hne
          cases x; cases y
          simp only [GraphId.mk.injEq]
          simpa using h
        simp only [sampleTileEnv, decide_eq_true_eq]
        omega

theorem nodeMap_get_of_find {m : NodeMap} {v : Nat} {n : OSMNode} (h : m.find v = some n) :
    m.get v = n := by
  unfold NodeMap.get
  rw [h]; rfl

/-- The key of an incident edge is made from the ids that its two end nodes carry. -/
theorem edge_parts_pair (tenv : TileEnv) (nodes : NodeMap) (ways : List OSMWay)
    (edges : List Edge) (ei : Nat) (p : EdgeParts) (E : Edge)
    (h : edge_parts nodes ways edges ei = .ok p) (hE : edges[ei]? = some E) :
    p.edge = E ∧ p.nodea = (nodes.get E.sourcenode_).graphid_ ∧
    p.nodeb = (nodes.get E.targetnode_).graphid_ ∧
    p.pair tenv = ComputeNodePair tenv (nodes.get E.sourcenode_).graphid_
      (nodes.get E.targetnode_).graphid_ := by
  obtain ⟨h1, -, ⟨a, ha, ha1⟩, ⟨b, hb, hb1⟩⟩ := edge_parts_spec nodes ways edges ei p h
  have hpe : p.edge = E := by
    rw [h1] at hE
    exact Option.some.inj hE
  rw [hpe] at ha hb
  have e1 : p.nodea = (nodes.get E.sourcenode_).graphid_ := by
    rw [nodeMap_get_of_find ha]; exact ha1
  have e2 : p.nodeb = (nodes.get E.targetnode_).graphid_ := by
    rw [nodeMap_get_of_find hb]; exact hb1
  refine ⟨hpe, e1, e2, ?_⟩
  unfold EdgeParts.pair
  rw [e1, e2]

/-- The offset that a directed edge gets and whether an `EdgeInfo` is made for it are what
the lookup of its key comes to: an entry found gives its offset and leaves the edge data
as they are, `end()` gives the running offset and appends one record. -/
theorem write_edge_offset (tenv : TileEnv) (nodes : NodeMap) (ways : List OSMWay)
    (edges : List Edge) (u : Nat) (node : OSMNode) (st : TileBuild) (des : List DirectedEdge)
    (ei : Nat) (r : TileBuild × List DirectedEdge) (hnode : nodes.find u = some node)
    (h : write_edge tenv nodes ways edges u node st des ei = .ok r) :
    ∃ p d, edge_parts nodes ways edges ei = .ok p ∧ r.2 = des ++ [d] ∧
      ((tenv.find_key u ei st.data.edge_offset_map (ComputeNodePair tenv p.nodea p.nodeb) =
          .found d.edgedataoffset ∧ r.1.data = st.data) ∨
       (tenv.find_key u ei st.data.edge_offset_map (ComputeNodePair tenv p.nodea p.nodeb) =
          .absent ∧ d.edgedataoffset = st.data.edge_info_offset ∧
        r.1.data.edgeinfo_list.length = st.data.edgeinfo_list.length + 1)) := by
  obtain ⟨p, d, data1, off, a1, a2, a3, a4, a5, -⟩ :=
    write_edge_spec tenv nodes ways edges u node st des ei r hnode h
  refine ⟨p, d, a1, a4, ?_⟩
  rw [a3, a5]
  rcases edge_data_frame tenv u ei st.data data1 p off a2 with ⟨e1, e2⟩ | ⟨e1, e2, e3⟩
  · exact Or.inl ⟨e1, e2⟩
  · refine Or.inr ⟨e1, e2, ?_⟩
    rw [e3]
    simp

/-- Claim C17 (the code misses it): the key that `ComputeNodePair` hands to
`BuildTileSet` is a pair of dangling references, so the source does not fix what a lookup
of the key finds, and the directed edges of one pair of end nodes share an offset and a
record only when the lookups happen to find the inserted keys.  In scenario S4 (one edge
between the nodes 1 and 2, both in the tile), when every lookup comes back with `end()`
the tile gets two `EdgeInfo` records and the two directed edges of the edge get the offsets
0 and 32; when the lookups find what a key of ids would find, both get the offset 0 and the
tile has one record.  The pair of ids that `ComputeNodePair` makes is the same for `(a, b)`
and `(b, a)` when the order of the ids is strict and total. -/
theorem edge_data_offset_not_shared :
    build_tile unsharedTileEnv onewayBuilder.nodes_ onewayBuilder.ways_ onewayBuilder.edges_
      [1, 2] = .ok (built_tile unsharedTileEnv onewayBuilder [1, 2]) ∧
    onewayBuilder.edges_ = [onewayEdge] ∧
    (emitted onewayBuilder.nodes_ [1, 2] (built_tile unsharedTileEnv onewayBuilder [1, 2])).map
      (fun x => (x.1, x.2.1, x.2.2.edgedataoffset)) = [(1, 0, 0), (2, 0, 32)] ∧
    (built_tile unsharedTileEnv onewayBuilder [1, 2]).data.edgeinfo_list.length = 2 ∧
    build_tile sampleTileEnv onewayBuilder.nodes_ onewayBuilder.ways_ onewayBuilder.edges_
      [1, 2] = .ok (built_tile sampleTileEnv onewayBuilder [1, 2]) ∧
    (emitted onewayBuilder.nodes_ [1, 2] (built_tile sampleTileEnv onewayBuilder [1, 2])).map
      (fun x => (x.1, x.2.1, x.2.2.edgedataoffset)) = [(1, 0, 0), (2, 0, 0)] ∧
    (built_tile sampleTileEnv onewayBuilder [1, 2]).data.edgeinfo_list.length = 1 ∧
    (∀ (tenv : TileEnv), tenv.Ordered → ∀ a b,
      ComputeNodePair tenv a b = ComputeNodePair tenv b a ∧
      tenv.less (ComputeNodePair tenv a b).2 (ComputeNodePair tenv a b).1 = false) := by
  refine ⟨by decide, by decide, by decide, by decide, by decide, by decide, by decide, ?_⟩
  intro tenv hord a b
  refine ⟨computeNodePair_comm tenv hord a b, ?_⟩
  unfold ComputeNodePair
  by_cases h : tenv.less a b = true
  · rw [if_pos h]; exact hord.asymm a b h
  · rw [if_neg h]; simpa using h

/-! ## The edge table and the incident-edge lists -/

theorem edge_events_append (a b : List Edge) : ∀ (i : Nat),
    edge_events i (a ++ b) = edge_events i a ++ edge_events (i + a.length) b := by
  induction a with
  | nil => intro i; rfl
  | cons e rest ih =>
    intro i
    have h1 := ih (i + 1)
    have : i + 1 + rest.length = i + (rest.length + 1) := by omega
    rw [this] at h1
    show (e.sourcenode_, i) :: (e.targetnode_, i) :: edge_events (i + 1) (rest ++ b) = _
    rw [h1]
    rfl

theorem edge_events_length (l : List Edge) : ∀ (i : Nat),
    (edge_events i l).length = 2 * l.length := by
  induction l with
  | nil => intro i; rfl
  | cons e rest ih =>
    intro i
    simp only [edge_events, List.length_cons, ih (i + 1)]
    omega

namespace GraphBuilder

theorem split_way_length (marked : Nat → Bool) (P : Nat → PointLL) (wi first : Nat)
    (rest : List Nat) : ∀ (edge : Edge),
    (split_way marked P wi first edge rest).length = marked_count marked rest := by
  induction rest with
  | nil => intro edge; rfl
  | cons v r ih =>
    intro edge
    unfold split_way marked_count
    by_cases hv : marked v = true
    · rw [if_pos hv, List.filter_cons_of_pos hv, List.length_cons, List.length_cons, ih]
      rfl
    · rw [if_neg hv, List.filter_cons_of_neg hv, ih]
      rfl

theorem way_edges_length (marked : Nat → Bool) (P : Nat → PointLL) (wi : Nat)
    (nodes : List Nat) :
    (way_edges marked P wi nodes).length = marked_count marked nodes.tail := by
  cases nodes with
  | nil => rfl
  | cons first rest => exact split_way_length marked P wi first rest _

theorem marked_count_pos (marked : Nat → Bool) (rest : List Nat) (l : Nat)
    (hl : rest.getLast? = some l) (hm : marked l = true) : 0 < marked_count marked rest := by
  unfold marked_count
  apply List.length_pos_of_mem (a := l)
  exact List.mem_filter.mpr ⟨List.mem_of_getLast?_eq_some hl, hm⟩

theorem split_events_eq (marked : Nat → Bool) (P : Nat → PointLL) (wi first : Nat)
    (rest : List Nat) : ∀ (edge : Edge) (ei l : Nat), rest.getLast? = some l →
    marked l = true → ei + marked_count marked rest ≤ 2 ^ 32 →
    (edge.sourcenode_, ei) :: split_events marked ei rest =
      edge_events ei (split_way marked P wi first edge rest) := by
  induction rest with
  | nil => intro edge ei l hl; simp at hl
  | cons v r ih =>
    intro edge ei l hl hm hle
    cases r with
    | nil =>
      have hv : v = l := by simpa using hl
      rw [← hv] at hm
      simp [split_events, split_way, hm, edge_events, Edge.AddLL]
    | cons v2 r2 =>
      have hl2 : (v2 :: r2).getLast? = some l := by
        rw [List.getLast?_cons_cons] at hl; exact hl
      have hpos := marked_count_pos marked (v2 :: r2) l hl2 hm
      by_cases hv : marked v = true
      · have hc : marked_count marked (v :: v2 :: r2) = marked_count marked (v2 :: r2) + 1 := by
          unfold marked_count
          rw [List.filter_cons_of_pos hv, List.length_cons]
        have hlt : (ei + 1) % 2 ^ 32 = ei + 1 := Nat.mod_eq_of_lt (by omega)
        have h1 := ih (Edge.new v wi (P first)) (ei + 1) l hl2 hm (by omega)
        unfold split_events split_way
        rw [if_pos hv, if_pos hv, if_neg (by simp), hlt]
        simp only [edge_events]
        rw [← h1]
        rfl
      · have hc : marked_count marked (v :: v2 :: r2) = marked_count marked (v2 :: r2) := by
          unfold marked_count
          rw [List.filter_cons_of_neg hv]
        have h1 := ih (edge.AddLL (P v)) ei l hl2 hm (by omega)
        unfold split_events split_way
        rw [if_neg hv, if_neg hv]
        exact h1

theorem way_events_eq (marked : Nat → Bool) (P : Nat → PointLL) (wi ei : Nat)
    (nodes : List Nat) (l : Nat) (h2 : 2 ≤ nodes.length) (hl : nodes.getLast? = some l)
    (hm : marked l = true) (hle : ei + marked_count marked nodes.tail ≤ 2 ^ 32) :
    way_events marked ei nodes = edge_events ei (way_edges marked P wi nodes) := by
  cases nodes with
  | nil => simp at h2
  | cons first rest =>
    cases rest with
    | nil => simp at h2
    | cons v r =>
      rw [List.getLast?_cons_cons] at hl
      exact split_events_eq marked P wi first (v :: r) (Edge.new first wi (P first)) ei l hl hm
        hle

theorem all_events_eq (marked : Nat → Bool) (P : Nat → PointLL) (seqs : List (List Nat)) :
    ∀ (wi ei : Nat),
    (∀ nodes ∈ seqs, 2 ≤ nodes.length ∧ ∃ l, nodes.getLast? = some l ∧ marked l = true) →
    ei + (all_edges marked P wi seqs).length < 2 ^ 32 →
    all_events marked ei seqs = edge_events ei (all_edges marked P wi seqs) := by
  induction seqs with
  | nil => intro wi ei _ _; rfl
  | cons nodes rest ih =>
    intro wi ei hall hlt
    obtain ⟨h2, l, hl, hm⟩ := hall nodes (List.mem_cons_self _ _)
    unfold all_events all_edges
    unfold all_edges at hlt
    rw [List.length_append, way_edges_length] at hlt
    rw [edge_events_append, way_edges_length,
      way_events_eq marked P wi ei nodes l h2 hl hm (by omega),
      Nat.mod_eq_of_lt (by omega)]
    rw [ih ((wi + 1) % 2 ^ 32) (ei + marked_count marked nodes.tail)
      (fun n hn => hall n (List.mem_cons_of_mem _ hn)) (by omega)]

end GraphBuilder

theorem mem_registered_edge_events (edges : List Edge) : ∀ (i0 i v : Nat),
    i ∈ registered (edge_events i0 edges) v ↔
      ∃ e, i0 ≤ i ∧ edges[i - i0]? = some e ∧ (e.sourcenode_ = v ∨ e.targetnode_ = v) := by
  induction edges with
  | nil =>
    intro i0 i v
    simp [edge_events, registered]
  | cons e rest ih =>
    intro i0 i v
    unfold edge_events
    rw [registered_cons, registered_cons, List.mem_append, List.mem_append, ih (i0 + 1) i v]
    constructor
    · rintro (h | h | ⟨e1, h1, h2, h3⟩)
      · by_cases hs : e.sourcenode_ = v
        · simp only [hs, if_true, List.mem_singleton] at h
          exact ⟨e, by omega, by rw [h, Nat.sub_self]; simp, Or.inl hs⟩
        · simp [hs] at h
      · by_cases ht : e.targetnode_ = v
        · simp only [ht, if_true, List.mem_singleton] at h
          exact ⟨e, by omega, by rw [h, Nat.sub_self]; simp, Or.inr ht⟩
        · simp [ht] at h
      · refine ⟨e1, by omega, ?_, h3⟩
        have : i - i0 = (i - (i0 + 1)) + 1 := by omega
        rw [this, List.getElem?_cons_succ]
        exact h2
    · rintro ⟨e1, h1, h2, h3⟩
      by_cases hi : i = i0
      · rw [hi, Nat.sub_self] at h2
        have he : e = e1 := by simpa using h2
        rw [← he] at h3
        rcases h3 with h3 | h3
        · left; simp [h3, hi]
        · right; left; simp [h3, hi]
      · right; right
        refine ⟨e1, by omega, ?_, h3⟩
        have : i - i0 = (i - (i0 + 1)) + 1 := by omega
        rw [this, List.getElem?_cons_succ] at h2
        exact h2

theorem Linked.edge_of_incident {nodes : NodeMap} {ways : List OSMWay} {edges : List Edge}
    (h : Linked nodes ways edges) {v ei : Nat} (hei : ei ∈ (nodes.get v).edges_) :
    ∃ e, edges[ei]? = some e ∧ (e.sourcenode_ = v ∨ e.targetnode_ = v) := by
  rw [h.incident v, mem_registered_edge_events] at hei
  obtain ⟨e, -, h2, h3⟩ := hei
  exact ⟨e, h2, h3⟩

theorem Linked.incident_of_edge {nodes : NodeMap} {ways : List OSMWay} {edges : List Edge}
    (h : Linked nodes ways edges) {i : Nat} {e : Edge} (he : edges[i]? = some e) :
    i ∈ (nodes.get e.sourcenode_).edges_ ∧ i ∈ (nodes.get e.targetnode_).edges_ := by
  rw [h.incident, h.incident, mem_registered_edge_events, mem_registered_edge_events]
  exact ⟨⟨e, Nat.zero_le _, he, Or.inl rfl⟩, ⟨e, Nat.zero_le _, he, Or.inr rfl⟩⟩

theorem Linked.mem_edges {edges : List Edge} {i : Nat} {e : Edge} (he : edges[i]? = some e) :
    e ∈ edges := List.getElem?_mem he

namespace GraphBuilder

theorem build_stages {env : Env} {ways : List WayInput} {nodes : List NodeInput} {level : Nat}
    {g : GraphBuilder} (h : Build env ways nodes level = .ok g) :
    ∃ g1 g2 g3, read_ways env init ways = .ok g1 ∧ read_nodes env g1 nodes = .ok g2 ∧
      ConstructEdges g2 = .ok g3 ∧ g = tiled env g3 level := by
  unfold Build at h
  cases h1 : read_ways env init ways with
  | error e => rw [h1] at h; cases h
  | ok g1 =>
    rw [h1] at h
    simp only at h
    cases h2 : read_nodes env g1 nodes with
    | error e => rw [h2] at h; cases h
    | ok g2 =>
      rw [h2] at h
      simp only at h
      cases h3 : ConstructEdges g2 with
      | error e => rw [h3] at h; cases h
      | ok g3 =>
        rw [h3] at h
        simp only [] at h
        exact ⟨g1, g2, g3, rfl, h2, h3, tileNodes_eq h⟩

theorem freshNodes_get_edges {g : GraphBuilder} (hf : FreshNodes g) (v : Nat) :
    (g.nodes_.get v).edges_ = [] := by
  by_cases hv : v ∈ g.nodes_.keys
  · exact (hf.no_edges _ (NodeMap.mem_of_mem_keys hv)).1
  · rw [NodeMap.get_of_not_mem_keys hv]; rfl

/-- After `ConstructEdges` on the state that the two passes leave, the three tables fit
together. -/
theorem constructEdges_linked {g2 g3 : GraphBuilder} (hw : WaysMarked g2) (hf : FreshNodes g2)
    (hempty : g2.edges_ = []) (h3 : ConstructEdges g2 = .ok g3)
    (hsmall : g3.edges_.length < 2 ^ 32) : Linked g3.nodes_ g3.ways_ g3.edges_ := by
  obtain ⟨b1, b2, b3, -, -, b6, -, -, -⟩ := constructEdges_spec h3
  rw [hempty, List.nil_append] at b1
  have hall : ∀ ns ∈ g2.way_nodes, 2 ≤ ns.length ∧
      ∃ l, ns.getLast? = some l ∧ (fun v => decide (g2.intersection_.Marked v)) l = true := by
    intro ns hns
    have h2 := hw.two_nodes ns hns
    refine ⟨h2, ?_⟩
    cases hl : ns.getLast? with
    | none =>
      rw [List.getLast?_eq_none_iff] at hl
      rw [hl] at h2; simp at h2
    | some l =>
      refine ⟨l, rfl, ?_⟩
      simp only [decide_eq_true_eq]
      exact (hw.inter_marked l).mpr (Or.inl ⟨ns, hns, Or.inr hl⟩)
  refine ⟨?_, ?_, ?_⟩
  · intro v
    rw [b2 v, b1]
    rw [all_events_eq _ (fun v => (g2.nodes_.get v).latlng_) g2.way_nodes 0 0 hall
      (by rw [← b1]; omega)]
    show (g2.nodes_.get v).edges_ ++ _ = _
    rw [freshNodes_get_edges hf v, List.nil_append]
  · intro e he
    rw [b1] at he
    obtain ⟨i, ns, hi, hmem⟩ := all_edges_mem _ _ _ 0 (by decide) e he
    obtain ⟨pre, mid, post, c1, -, -, -⟩ := way_edges_between _ _ _ _ e hmem
    have hns : ns ∈ g2.way_nodes := List.getElem?_mem hi
    obtain ⟨w, hw1, hw2⟩ := List.mem_map.mp hns
    have hkey : ∀ v ∈ ns, ∃ a, g3.nodes_.find v = some a := by
      intro v hv
      have hk : v ∈ g3.nodes_.keys := (b3 v).mpr (Or.inr ⟨w, hw1, by rw [hw2]; exact hv⟩)
      have := (NodeMap.mem_keys_iff_find _ _).mp hk
      cases hx : g3.nodes_.find v with
      | none => exact absurd hx this
      | some a => exact ⟨a, rfl⟩
    refine ⟨hkey _ ?_, hkey _ ?_⟩
    · rw [c1]; simp
    · rw [c1]; simp
  · intro e he
    rw [b1] at he
    obtain ⟨i, ns, hi, hmem⟩ := all_edges_mem _ _ _ 0 (by decide) e he
    have hwi := way_edges_wayindex _ _ _ _ e hmem
    have hlt : i < g2.way_nodes.length := by
      by_contra hc
      rw [List.getElem?_eq_none (by omega)] at hi
      cases hi
    rw [hwi, b6]
    unfold way_nodes at hlt
    rw [List.length_map] at hlt
    calc (0 + i) % 2 ^ 32 ≤ 0 + i := Nat.mod_le _ _
      _ < g2.ways_.length := by omega

/-- The incident-edge lists and the keys of the node table are the same before and after
`TileNodes`. -/
theorem tileNodes_keeps {env : Env} {g3 : GraphBuilder} {level : Nat}
    (hperm : (env.traversal g3.nodes_).Perm g3.nodes_) (hnodup : (g3.nodes_.keys).Nodup)
    (htasks : g3.tasks_ = []) (v : Nat) :
    ((tiled env g3 level).nodes_.get v).edges_ = (g3.nodes_.get v).edges_ ∧
    ((tiled env g3 level).nodes_.get v).latlng_ = (g3.nodes_.get v).latlng_ ∧
    ((∃ a, g3.nodes_.find v = some a) → ∃ a, (tiled env g3 level).nodes_.find v = some a) := by
  obtain ⟨d1, d2, -, -, -, -⟩ := tileNodes_spec env g3 level hperm hnodup htasks
  have hfind : (∃ a, g3.nodes_.find v = some a) →
      ∃ a, (tiled env g3 level).nodes_.find v = some a := by
    rintro ⟨a, ha⟩
    have hk : v ∈ (tiled env g3 level).nodes_.keys := by
      rw [d1]
      exact (NodeMap.mem_keys_iff_find _ _).mpr (by rw [ha]; simp)
    have := (NodeMap.mem_keys_iff_find _ _).mp hk
    cases hx : (tiled env g3 level).nodes_.find v with
    | none => exact absurd hx this
    | some a => exact ⟨a, rfl⟩
  by_cases hv : v ∈ g3.nodes_.keys
  · obtain ⟨e1, e2⟩ := d2 v _ (NodeMap.mem_of_mem_keys hv)
    by_cases hz : (g3.nodes_.get v).edge_count = 0
    · rw [(e2 hz).2]; exact ⟨rfl, rfl, hfind⟩
    · obtain ⟨-, idx, hidx⟩ := e1 hz
      rw [hidx]; exact ⟨rfl, rfl, hfind⟩
  · have hv1 : v ∉ (tiled env g3 level).nodes_.keys := by rw [d1]; exact hv
    rw [NodeMap.get_of_not_mem_keys hv, NodeMap.get_of_not_mem_keys hv1]
    exact ⟨rfl, rfl, hfind⟩

/-- After `Build`, the node table, the way table and the edge table fit together, as long
as the `uint32_t` edge counter of `ConstructEdges` has not wrapped around. -/
theorem build_linked {env : Env} {ways : List WayInput} {nodes : List NodeInput} {level : Nat}
    {g : GraphBuilder} (hperm : ∀ m, (env.traversal m).Perm m)
    (h : Build env ways nodes level = .ok g) (hsmall : g.edges_.length < 2 ^ 32) :
    Linked g.nodes_ g.ways_ g.edges_ := by
  obtain ⟨g1, g2, g3, h1, h2, h3, hg⟩ := build_stages h
  obtain ⟨a1, a2, a3, a4, -⟩ := after_read_nodes h1 h2
  obtain ⟨-, -, c3⟩ := edge_count_iff_marked a1 a2 h3
  obtain ⟨-, -, -, -, -, -, -, -, b9⟩ := constructEdges_spec h3
  obtain ⟨-, -, -, d4, -, d6⟩ := tileNodes_spec env g3 level (hperm _) c3 (b9.trans a4)
  rw [hg] at hsmall ⊢
  rw [d6] at hsmall
  have hl := constructEdges_linked a1 a2 a3 h3 hsmall
  rw [d4, d6]
  refine ⟨?_, ?_, hl.way⟩
  · intro v
    rw [(tileNodes_keeps (hperm _) c3 (b9.trans a4) v).1]
    exact hl.incident v
  · intro e he
    obtain ⟨x, y⟩ := hl.ends e he
    exact ⟨(tileNodes_keeps (hperm _) c3 (b9.trans a4) _).2.2 x,
      (tileNodes_keeps (hperm _) c3 (b9.trans a4) _).2.2 y⟩

end GraphBuilder

/-! ## The tile writer: the opposing index -/

theorem opposing_loop_found (endnode startnode : Nat) (edges : List Edge) (pre : List Nat) :
    ∀ (n ei : Nat) (post : List Nat) (e : Edge),
    (∀ ej ∈ pre, ∃ e1, edges[ej]? = some e1 ∧ ¬ e1.joins endnode startnode) →
    edges[ei]? = some e → e.joins endnode startnode →
    opposing_loop endnode startnode edges n (pre ++ ei :: post) =
      .ok ((n + pre.length) % 2 ^ 32) ∨
    (pre = [] ∧ opposing_loop endnode startnode edges n (pre ++ ei :: post) = .ok n) := by
  induction pre with
  | nil =>
    intro n ei post e _ he hj
    right
    refine ⟨rfl, ?_⟩
    unfold Edge.joins at hj
    simp only [List.nil_append, opposing_loop, he]
    rw [if_pos hj]
  | cons ej rest ih =>
    intro n ei post e hpre he hj
    left
    obtain ⟨e1, h1, h2⟩ := hpre ej (List.mem_cons_self _ _)
    unfold Edge.joins at h2
    simp only [List.cons_append, opposing_loop, h1]
    rw [if_neg h2]
    rcases ih ((n + 1) % 2 ^ 32) ei post e
      (fun x hx => hpre x (List.mem_cons_of_mem _ hx)) he hj with h | ⟨h, h3⟩
    · refine Eq.trans h ?_
      rw [List.length_cons, Nat.mod_add_mod]
      congr 2
      omega
    · refine Eq.trans h3 ?_
      rw [h]
      rfl

theorem opposing_loop_none (endnode startnode : Nat) (edges : List Edge) (l : List Nat) :
    ∀ (n : Nat),
    (∀ ej ∈ l, ∃ e1, edges[ej]? = some e1 ∧ ¬ e1.joins endnode startnode) →
    opposing_loop endnode startnode edges n l = .ok 31 := by
  induction l with
  | nil => intro n _; rfl
  | cons ej rest ih =>
    intro n hl
    obtain ⟨e1, h1, h2⟩ := hl ej (List.mem_cons_self _ _)
    unfold Edge.joins at h2
    simp only [opposing_loop, h1]
    rw [if_neg h2]
    exact ih _ (fun x hx => hl x (List.mem_cons_of_mem _ hx))

theorem opposing_loop_ok (endnode startnode : Nat) (edges : List Edge) (l : List Nat) :
    ∀ (n : Nat), (∀ ej ∈ l, ej < edges.length) →
    ∃ r, opposing_loop endnode startnode edges n l = .ok r := by
  induction l with
  | nil => intro n _; exact ⟨31, rfl⟩
  | cons ej rest ih =>
    intro n hl
    have hlt := hl ej (List.mem_cons_self _ _)
    simp only [opposing_loop, List.getElem?_eq_getElem hlt]
    by_cases hj : (edges[ej].sourcenode_ = endnode ∧ edges[ej].targetnode_ = startnode) ∨
        (edges[ej].targetnode_ = endnode ∧ edges[ej].sourcenode_ = startnode)
    · rw [if_pos hj]; exact ⟨n, rfl⟩
    · rw [if_neg hj]
      exact ih _ (fun x hx => hl x (List.mem_cons_of_mem _ hx))

/-- A list whose entries all denote edges, one of them an edge that connects `a` and `b`,
splits at the first such entry. -/
theorem first_joining (edges : List Edge) (a b : Nat) (l : List Nat) :
    (∀ ej ∈ l, ej < edges.length) →
    (∃ ei ∈ l, ∃ e, edges[ei]? = some e ∧ e.joins a b) →
    ∃ pre ei post e, l = pre ++ ei :: post ∧
      (∀ ej ∈ pre, ∃ e1, edges[ej]? = some e1 ∧ ¬ e1.joins a b) ∧
      edges[ei]? = some e ∧ e.joins a b := by
  induction l with
  | nil => rintro - ⟨ei, hei, -⟩; simp at hei
  | cons x rest ih =>
    intro hl hex
    have hlt := hl x (List.mem_cons_self _ _)
    by_cases hj : (edges[x]).joins a b
    · exact ⟨[], x, rest, edges[x], rfl, by simp, List.getElem?_eq_getElem hlt, hj⟩
    · have hex1 : ∃ ei ∈ rest, ∃ e, edges[ei]? = some e ∧ e.joins a b := by
        obtain ⟨ei, hei, e, he, hje⟩ := hex
        rcases List.mem_cons.mp hei with h | h
        · rw [h, List.getElem?_eq_getElem hlt] at he
          rw [← Option.some.inj he] at hje
          exact absurd hje hj
        · exact ⟨ei, h, e, he, hje⟩
      obtain ⟨pre, ei, post, e, h1, h2, h3, h4⟩ :=
        ih (fun y hy => hl y (List.mem_cons_of_mem _ hy)) hex1
      refine ⟨x :: pre, ei, post, e, by rw [h1]; rfl, ?_, h3, h4⟩
      intro ej hej
      rcases List.mem_cons.mp hej with h | h
      · rw [h]; exact ⟨edges[x], List.getElem?_eq_getElem hlt, hj⟩
      · exact h2 ej h

theorem getOpposingIndex_found (endnode startnode : Nat) (nodes : NodeMap) (edges : List Edge)
    (node : OSMNode) (pre post : List Nat) (ei : Nat) (e : Edge)
    (hfind : nodes.find endnode = some node) (hsplit : node.edges_ = pre ++ ei :: post)
    (hpre : ∀ ej ∈ pre, ∃ e1, edges[ej]? = some e1 ∧ ¬ e1.joins endnode startnode)
    (he : edges[ei]? = some e) (hj : e.joins endnode startnode) :
    GetOpposingIndex endnode startnode nodes edges = .ok (pre.length % 2 ^ 32) := by
  unfold GetOpposingIndex
  rw [hfind]
  simp only
  rw [hsplit]
  rcases opposing_loop_found endnode startnode edges pre 0 ei post e hpre he hj with
    h | ⟨h1, h2⟩
  · rw [h, Nat.zero_add]
  · rw [h2, h1]; rfl

/-- Claim C29: `GetOpposingIndex(end, start, nodes, edges)` returns 31 when node `end` is
not in the node table; when the incident-edge list of `end` is `pre ++ ei :: post`, no
entry of `pre` denotes an edge that connects `end` and `start` and `ei` denotes one that
does, it returns the position of `ei` (the length of `pre`, which the `uint32_t` counter
holds modulo 2^32); and it returns 31 when no entry denotes an edge that connects `end`
and `start`.  Every entry that the loop inspects is taken to be an index of the edge
table, which the loop does not check. -/
theorem getOpposingIndex_spec (endnode startnode : Nat) (nodes : NodeMap) (edges : List Edge) :
    (nodes.find endnode = none → GetOpposingIndex endnode startnode nodes edges = .ok 31) ∧
    (∀ (node : OSMNode) (pre post : List Nat) (ei : Nat) (e : Edge),
      nodes.find endnode = some node → node.edges_ = pre ++ ei :: post →
      (∀ ej ∈ pre, ∃ e1, edges[ej]? = some e1 ∧ ¬ e1.joins endnode startnode) →
      edges[ei]? = some e → e.joins endnode startnode →
      GetOpposingIndex endnode startnode nodes edges = .ok (pre.length % 2 ^ 32) ∧
      (pre.length < 2 ^ 32 →
        GetOpposingIndex endnode startnode nodes edges = .ok pre.length)) ∧
    (∀ (node : OSMNode), nodes.find endnode = some node →
      (∀ ej ∈ node.edges_, ∃ e1, edges[ej]? = some e1 ∧ ¬ e1.joins endnode startnode) →
      GetOpposingIndex endnode startnode nodes edges = .ok 31) := by
  refine ⟨?_, ?_, ?_⟩
  · intro h
    unfold GetOpposingIndex
    rw [h]
  · intro node pre post ei e hfind hsplit hpre he hj
    have key : GetOpposingIndex endnode startnode nodes edges = .ok (pre.length % 2 ^ 32) := by
      unfold GetOpposingIndex
      rw [hfind]
      simp only
      rw [hsplit]
      rcases opposing_loop_found endnode startnode edges pre 0 ei post e hpre he hj with
        h | ⟨h1, h2⟩
      · rw [h, Nat.zero_add]
      · rw [h2, h1]; rfl
    refine ⟨key, fun hlt => ?_⟩
    rw [key, Nat.mod_eq_of_lt hlt]
  · intro node hfind hall
    unfold GetOpposingIndex
    rw [hfind]
    exact opposing_loop_none endnode startnode edges node.edges_ 0 hall

theorem getOpposingIndex_spec_witness :
    parallelBuilder.nodes_.find 2 = some (parallelBuilder.nodes_.get 2) ∧
    (parallelBuilder.nodes_.get 2).edges_ = [] ++ 0 :: [1] ∧
    GetOpposingIndex 2 1 parallelBuilder.nodes_ parallelBuilder.edges_ = .ok 0 ∧
    GetOpposingIndex 2 3 parallelBuilder.nodes_ parallelBuilder.edges_ = .ok 31 ∧
    GetOpposingIndex 7 1 parallelBuilder.nodes_ parallelBuilder.edges_ = .ok 31 :=
  ⟨by decide, by decide,
    ((getOpposingIndex_spec 2 1 parallelBuilder.nodes_ parallelBuilder.edges_).2.1
      (parallelBuilder.nodes_.get 2) [] [1] 0
      { sourcenode_ := 1, targetnode_ := 2, wayindex_ := 0,
        latlngs_ := [{ lat := 0, lng := 0 }, { lat := 0, lng := 1 }] }
      (by decide) (by decide) (by decide) (by decide) (by decide)).2 (by decide),
    (getOpposingIndex_spec 2 3 parallelBuilder.nodes_ parallelBuilder.edges_).2.2
      (parallelBuilder.nodes_.get 2) (by decide) (by decide),
    (getOpposingIndex_spec 7 1 parallelBuilder.nodes_ parallelBuilder.edges_).1 (by decide)⟩

/-! ## The tile writer: the unchecked reads of a directed edge -/

theorem lt_of_getElem? {α : Type} {l : List α} {i : Nat} {a : α} (h : l[i]? = some a) :
    i < l.length := by
  by_contra hc
  rw [List.getElem?_eq_none (by omega)] at h
  cases h

theorem Linked.getOpposingIndex_ok {nodes : NodeMap} {ways : List OSMWay} {edges : List Edge}
    (h : Linked nodes ways edges) (a b : Nat) :
    ∃ n, GetOpposingIndex a b nodes edges = .ok n := by
  unfold GetOpposingIndex
  cases hf : nodes.find a with
  | none => exact ⟨31, rfl⟩
  | some node =>
    apply opposing_loop_ok
    intro ej hej
    rw [← nodeMap_get_of_find hf] at hej
    obtain ⟨e, he, -⟩ := h.edge_of_incident hej
    exact lt_of_getElem? he

theorem Linked.edge_parts_ok {nodes : NodeMap} {ways : List OSMWay} {edges : List Edge}
    (h : Linked nodes ways edges) {ei : Nat} {e : Edge} (he : edges[ei]? = some e) :
    ∃ p, edge_parts nodes ways edges ei = .ok p := by
  have hmem : e ∈ edges := List.getElem?_mem he
  obtain ⟨⟨a, ha⟩, ⟨b, hb⟩⟩ := h.ends e hmem
  have hw := h.way e hmem
  unfold edge_parts
  rw [he]
  simp only
  rw [List.getElem?_eq_getElem hw]
  simp only
  rw [ha, hb]
  exact ⟨_, rfl⟩

theorem Linked.orient_ok {nodes : NodeMap} {ways : List OSMWay} {edges : List Edge}
    (h : Linked nodes ways edges) (d : DirectedEdge) (w : OSMWay) (edge : Edge) (u : Nat)
    (a b : Option GraphId) : ∃ d1, orient nodes edges d w edge u a b = .ok d1 := by
  unfold orient
  by_cases hs : edge.sourcenode_ = u
  · rw [if_pos hs]
    obtain ⟨n, hn⟩ := h.getOpposingIndex_ok edge.targetnode_ edge.sourcenode_
    rw [hn]
    exact ⟨_, rfl⟩
  · rw [if_neg hs]
    by_cases ht : edge.targetnode_ = u
    · rw [if_pos ht]
      obtain ⟨n, hn⟩ := h.getOpposingIndex_ok edge.sourcenode_ edge.targetnode_
      rw [hn]
      exact ⟨_, rfl⟩
    · rw [if_neg ht]
      exact ⟨_, rfl⟩

theorem Linked.directed_edge_ok {nodes : NodeMap} {ways : List OSMWay} {edges : List Edge}
    (h : Linked nodes ways edges) (tenv : TileEnv) {u ei : Nat} {node : OSMNode} {e : Edge}
    (hu : nodes.find u = some node) (he : edges[ei]? = some e) :
    ∃ d, directed_edge tenv nodes ways edges u ei = .ok d := by
  obtain ⟨p, hp⟩ := h.edge_parts_ok he
  unfold directed_edge
  rw [hu]
  simp only
  rw [hp]
  exact h.orient_ok _ _ _ _ _ _

theorem edge_data_ok (tenv : TileEnv) (hkey : ∀ a b c d, ¬ tenv.find_key a b c d = .fault)
    (u ei : Nat) (data : EdgeData) (p : EdgeParts) :
    ∃ r, edge_data tenv u ei data p = .ok r := by
  unfold edge_data
  simp only
  cases hf : tenv.find_key u ei data.edge_offset_map (ComputeNodePair tenv p.nodea p.nodeb) with
  | fault => exact absurd hf (hkey _ _ _ _)
  | absent => exact ⟨_, rfl⟩
  | found offset => exact ⟨_, rfl⟩

theorem Linked.write_edge_ok {nodes : NodeMap} {ways : List OSMWay} {edges : List Edge}
    (h : Linked nodes ways edges) (tenv : TileEnv)
    (hkey : ∀ a b c d, ¬ tenv.find_key a b c d = .fault) (u : Nat) (node : OSMNode)
    (st : TileBuild) (des : List DirectedEdge) {ei : Nat} {e : Edge}
    (he : edges[ei]? = some e) :
    ∃ r, write_edge tenv nodes ways edges u node st des ei = .ok r := by
  obtain ⟨p, hp⟩ := h.edge_parts_ok he
  unfold write_edge
  rw [hp]
  simp only
  obtain ⟨d, hd⟩ := h.orient_ok (set_attributes tenv node p.edge p.w) p.w p.edge u p.nodea
    p.nodeb
  rw [hd]
  simp only
  obtain ⟨r, hr⟩ := edge_data_ok tenv hkey u ei st.data p
  rw [hr]
  exact ⟨_, rfl⟩

theorem Linked.write_edges_ok {nodes : NodeMap} {ways : List OSMWay} {edges : List Edge}
    (h : Linked nodes ways edges) (tenv : TileEnv)
    (hkey : ∀ a b c d, ¬ tenv.find_key a b c d = .fault) (u : Nat) (node : OSMNode)
    (eis : List Nat) : ∀ (st : TileBuild) (des : List DirectedEdge),
    (∀ ei ∈ eis, ∃ e, edges[ei]? = some e) →
    ∃ r, write_edges tenv nodes ways edges u node st des eis = .ok r := by
  induction eis with
  | nil => intro st des _; exact ⟨_, rfl⟩
  | cons ei rest ih =>
    intro st des hall
    obtain ⟨e, he⟩ := hall ei (List.mem_cons_self _ _)
    obtain ⟨r, hr⟩ := h.write_edge_ok tenv hkey u node st des he
    unfold write_edges
    rw [hr]
    exact ih r.1 r.2 (fun x hx => hall x (List.mem_cons_of_mem _ hx))

theorem Linked.write_node_ok {nodes : NodeMap} {ways : List OSMWay} {edges : List Edge}
    (h : Linked nodes ways edges) (tenv : TileEnv)
    (hkey : ∀ a b c d, ¬ tenv.find_key a b c d = .fault) (st : TileBuild) {u : Nat}
    {node : OSMNode} (hu : nodes.find u = some node) :
    ∃ st1, write_node tenv nodes ways edges st u = .ok st1 := by
  unfold write_node
  rw [hu]
  simp only
  have hall : ∀ ei ∈ node.edges_, ∃ e, edges[ei]? = some e := by
    intro ei hei
    rw [← nodeMap_get_of_find hu] at hei
    obtain ⟨e, he, -⟩ := h.edge_of_incident hei
    exact ⟨e, he⟩
  obtain ⟨r, hr⟩ := h.write_edges_ok tenv hkey u node node.edges_
    { st with directededgecount := (st.directededgecount + node.edge_count) % 2 ^ 32 } [] hall
  rw [hr]
  exact ⟨_, rfl⟩

theorem Linked.write_nodes_ok {nodes : NodeMap} {ways : List OSMWay} {edges : List Edge}
    (h : Linked nodes ways edges) (tenv : TileEnv)
    (hkey : ∀ a b c d, ¬ tenv.find_key a b c d = .fault) (tile : List Nat) :
    ∀ (st : TileBuild), (∀ u ∈ tile, ∃ node, nodes.find u = some node) →
    ∃ st1, write_nodes tenv nodes ways edges st tile = .ok st1 := by
  induction tile with
  | nil => intro st _; exact ⟨_, rfl⟩
  | cons u rest ih =>
    intro st hall
    obtain ⟨node, hu⟩ := hall u (List.mem_cons_self _ _)
    obtain ⟨st1, h1⟩ := h.write_node_ok tenv hkey st hu
    unfold write_nodes
    rw [h1]
    exact ih st1 (fun x hx => hall x (List.mem_cons_of_mem _ hx))

/-- On tables that fit together, the `try` block of `BuildTileSet` builds the tile of a
bucket of nodes of the node table whenever no lookup of an edge key ends the run: no
subscript leaves its vector and no other lookup fails. -/
theorem Linked.build_tile_ok {nodes : NodeMap} {ways : List OSMWay} {edges : List Edge}
    (h : Linked nodes ways edges) (tenv : TileEnv)
    (hkey : ∀ a b c d, ¬ tenv.find_key a b c d = .fault) (tile : List Nat)
    (hall : ∀ u ∈ tile, ∃ node, nodes.find u = some node) :
    ∃ st, build_tile tenv nodes ways edges tile = .ok st :=
  h.write_nodes_ok tenv hkey tile TileBuild.new hall

/-! ## The tile writer: opposing directed edges -/

theorem Edge.joins_comm {e : Edge} {a b : Nat} (h : e.joins a b) : e.joins b a := by
  unfold Edge.joins at h ⊢
  rcases h with ⟨h1, h2⟩ | ⟨h1, h2⟩
  · exact Or.inr ⟨h2, h1⟩
  · exact Or.inl ⟨h2, h1⟩

/-- The directed edge that the loop body builds at `v` from an entry that denotes an edge
between `v` and `u` ends at `u`, and its opposing index holds the five low bits of the
result of `GetOpposingIndex(u, v)`. -/
theorem directed_edge_endnode (tenv : TileEnv) (nodes : NodeMap) (ways : List OSMWay)
    (edges : List Edge) (v u ej : Nat) (E1 : Edge) (d1 : DirectedEdge)
    (hE1 : edges[ej]? = some E1) (hj : E1.joins v u)
    (hd : directed_edge tenv nodes ways edges v ej = .ok d1) :
    d1.endnode = (nodes.get u).graphid_ ∧
    ∃ n, GetOpposingIndex u v nodes edges = .ok n ∧ d1.opp_index = n % 32 := by
  obtain ⟨node, p, -, hp, ho⟩ := directed_edge_spec tenv nodes ways edges v ej d1 hd
  obtain ⟨k1, k2, k3, -⟩ := edge_parts_pair tenv nodes ways edges ej p E1 hp hE1
  rw [k1] at ho
  by_cases hs : E1.sourcenode_ = v
  · obtain ⟨o1, o2, -⟩ := orient_forward nodes edges _ d1 p.w E1 v p.nodea p.nodeb hs ho
    have ht : E1.targetnode_ = u := by
      rcases hj with ⟨-, h2⟩ | ⟨h1, h2⟩
      · exact h2
      · rw [h1, ← hs, h2]
    rw [ht, hs] at o1
    rw [o2, k3, ht]
    exact ⟨rfl, o1⟩
  · have ht : E1.targetnode_ = v ∧ E1.sourcenode_ = u := by
      rcases hj with ⟨h1, -⟩ | h
      · exact absurd h1 hs
      · exact h
    obtain ⟨o1, o2, -⟩ := orient_reverse nodes edges _ d1 p.w E1 v p.nodea p.nodeb hs ht.1 ho
    rw [ht.1, ht.2] at o1
    rw [o2, k2, ht.2]
    exact ⟨rfl, o1⟩

/-- Claim C15 (refuted for parallel edges): the dump with the ways `[1, 2]` and
`[1, 3, 2]` gives the edges 0 and 1, both from node 1 to node 2, and node 2 lists them
as `[0, 1]`.  The directed edge that `BuildTileSet` builds at node 1 from edge 1 gets the
opposing index 0, the position of edge 0 in the list of node 2, although edge 1 itself
stands at position 1: `GetOpposingIndex` stops at the first incident edge with the same
two end nodes. -/
theorem opp_index_of_parallel_edge :
    parallelBuilder.edges_.map (fun e => (e.sourcenode_, e.targetnode_, e.wayindex_)) =
      [(1, 2, 0), (1, 2, 1)] ∧
    (parallelBuilder.nodes_.get 1).edges_ = [0, 1] ∧
    (parallelBuilder.nodes_.get 2).edges_ = [0, 1] ∧
    GetOpposingIndex 2 1 parallelBuilder.nodes_ parallelBuilder.edges_ = .ok 0 ∧
    build_tile sampleTileEnv parallelBuilder.nodes_ parallelBuilder.ways_
      parallelBuilder.edges_ [1, 2] = .ok (built_tile sampleTileEnv parallelBuilder [1, 2]) ∧
    (emitted parallelBuilder.nodes_ [1, 2] (built_tile sampleTileEnv parallelBuilder [1, 2])).map
      (fun x => (x.1, x.2.1, x.2.2.opp_index)) =
      [(1, 0, 0), (1, 1, 0), (2, 0, 0), (2, 1, 0)] := by
  refine ⟨by decide, by decide, by decide, by decide, by decide, by decide⟩

/-! ## The ids of the end nodes -/

namespace GraphBuilder

/-- After `TileNodes`, a node with incident edges stands in a bucket, and its `GraphId` is
made of the grid tile of its position, the level and its position in the bucket. -/
theorem tileNodes_placed (env : Env) (g3 : GraphBuilder) (level : Nat)
    (hperm : (env.traversal g3.nodes_).Perm g3.nodes_) (hnodup : (g3.nodes_.keys).Nodup)
    (htasks : g3.tasks_ = []) (v : Nat) (hv : v ∈ g3.nodes_.keys)
    (hne : (g3.nodes_.get v).edge_count ≠ 0) :
    ∃ (t j i : Nat) (task : List (List Nat)) (b : List Nat),
      (tiled env g3 level).tasks_[t]? = some task ∧ task[j]? = some b ∧
      b[i]? = some v ∧
      ((tiled env g3 level).nodes_.get v).graphid_ =
        some { tileid := env.TileId (g3.nodes_.get v).latlng_ level, level := level,
               id := i } := by
  obtain ⟨-, d2, -⟩ := tileNodes_spec env g3 level hperm hnodup htasks
  obtain ⟨e1, -⟩ := d2 v _ (NodeMap.mem_of_mem_keys hv)
  obtain ⟨hc, idx, hidx⟩ := e1 hne
  have hp : v ∈ placed (tiled env g3 level).tasks_ := by
    rw [← List.count_pos_iff, hc]; exact Nat.one_pos
  obtain ⟨task, htask, b, hb, hvb⟩ := (mem_placed _ _).mp hp
  obtain ⟨t, ht⟩ := List.getElem?_of_mem htask
  obtain ⟨j, hj⟩ := List.getElem?_of_mem hb
  obtain ⟨i, hi⟩ := List.getElem?_of_mem hvb
  have hs := tile_state_sound env g3 level hperm hnodup htasks
  have hbk := bucket_of_getElem? (tiled env g3 level).tasks_ task b t j ht hj
  have hi1 : (bucket (tile_state env g3 level).tasks_ (t, j))[i]? = some v := by
    have : bucket (tile_state env g3 level).tasks_ (t, j) = b := hbk
    rw [this]; exact hi
  obtain ⟨k, id, -, -, hg⟩ := hs.of_mem (t, j) i v hi1
  have hg1 : ((tiled env g3 level).nodes_.get v).graphid_ =
      some { tileid := id.tileid, level := level, id := i } := hg
  refine ⟨t, j, i, task, b, ht, hj, hi, ?_⟩
  have hg2 : ((tiled env g3 level).nodes_.get v).graphid_ =
      some { tileid := env.TileId (g3.nodes_.get v).latlng_ level, level := level,
             id := idx } := by
    rw [hidx]; rfl
  rw [hg1] at hg2
  have hid : i = idx := by
    injection hg2 with hg2
    injection hg2
  rw [hg1, hg2, hid]

/-- After `Build`, each end node of an edge of the edge table stands in a bucket, and its
`GraphId` is made of the grid tile of its position, the level and its position in the
bucket. -/
theorem build_placed {env : Env} {ways : List WayInput} {nodes : List NodeInput} {level : Nat}
    {g : GraphBuilder} (hperm : ∀ m, (env.traversal m).Perm m)
    (h : Build env ways nodes level = .ok g) (hsmall : g.edges_.length < 2 ^ 32)
    {E : Edge} (hE : E ∈ g.edges_) (v : Nat) (hv : v = E.sourcenode_ ∨ v = E.targetnode_) :
    ∃ (t j i : Nat) (task : List (List Nat)) (b : List Nat),
      g.tasks_[t]? = some task ∧ task[j]? = some b ∧ b[i]? = some v ∧
      (g.nodes_.get v).graphid_ =
        some { tileid := env.TileId (g.nodes_.get v).latlng_ level, level := level,
               id := i } := by
  obtain ⟨g1, g2, g3, h1, h2, h3, hg⟩ := build_stages h
  obtain ⟨a1, a2, a3, a4, -⟩ := after_read_nodes h1 h2
  obtain ⟨-, -, c3⟩ := edge_count_iff_marked a1 a2 h3
  obtain ⟨-, -, -, -, -, -, -, -, b9⟩ := constructEdges_spec h3
  obtain ⟨-, -, -, -, -, d6⟩ := tileNodes_spec env g3 level (hperm _) c3 (b9.trans a4)
  rw [hg] at hsmall hE ⊢
  rw [d6] at hsmall hE
  have hl := constructEdges_linked a1 a2 a3 h3 hsmall
  obtain ⟨ei, hei⟩ := List.getElem?_of_mem hE
  obtain ⟨i1, i2⟩ := hl.incident_of_edge hei
  obtain ⟨⟨x, hx⟩, ⟨y, hy⟩⟩ := hl.ends E hE
  have hkey : v ∈ g3.nodes_.keys ∧ ei ∈ (g3.nodes_.get v).edges_ := by
    rcases hv with hv | hv
    · rw [hv]
      exact ⟨(NodeMap.mem_keys_iff_find _ _).mpr (by rw [hx]; simp), i1⟩
    · rw [hv]
      exact ⟨(NodeMap.mem_keys_iff_find _ _).mpr (by rw [hy]; simp), i2⟩
  have hne : (g3.nodes_.get v).edge_count ≠ 0 := by
    intro h0
    have : (g3.nodes_.get v).edges_ = [] := List.length_eq_zero.mp h0
    rw [this] at hkey
    exact absurd hkey.2 (List.not_mem_nil _)
  obtain ⟨t, j, i, task, b, p1, p2, p3, p4⟩ :=
    tileNodes_placed env g3 level (hperm _) c3 (b9.trans a4) v hkey.1 hne
  refine ⟨t, j, i, task, b, p1, p2, p3, ?_⟩
  rw [p4, (tileNodes_keeps (hperm _) c3 (b9.trans a4) v).2.1]

end GraphBuilder

/-- Claim C21: after `Build`, a directed edge that `BuildTileSet` builds at the node `u`
from the edge `E` has as its end node the `GraphId` of `E.target` when `E.source = u`, and
otherwise (then `E.target = u`) the `GraphId` of `E.source`.  Each end node of `E` stands
in a bucket, and its `GraphId` is made of the grid tile of its own position, the level and
its own position in that bucket, whether or not the two end nodes share a tile. -/
theorem directed_edge_endnode_id (env : Env) (tenv : TileEnv) (ways : List WayInput)
    (nodes : List NodeInput) (level : Nat) (g : GraphBuilder) (tile : List Nat)
    (st : TileBuild) (u ei : Nat) (d : DirectedEdge)
    (hperm : ∀ m, (env.traversal m).Perm m)
    (hbuild : GraphBuilder.Build env ways nodes level = .ok g)
    (hsmall : g.edges_.length < 2 ^ 32)
    (hb : build_tile tenv g.nodes_ g.ways_ g.edges_ tile = .ok st)
    (hd : (u, ei, d) ∈ emitted g.nodes_ tile st) :
    ∃ E, g.edges_[ei]? = some E ∧ (E.sourcenode_ = u ∨ E.targetnode_ = u) ∧
      (E.sourcenode_ = u → d.endnode = (g.nodes_.get E.targetnode_).graphid_) ∧
      (¬ E.sourcenode_ = u → d.endnode = (g.nodes_.get E.sourcenode_).graphid_) ∧
      ∀ v, v = E.sourcenode_ ∨ v = E.targetnode_ →
        ∃ (t j i : Nat) (task : List (List Nat)) (b : List Nat),
          g.tasks_[t]? = some task ∧ task[j]? = some b ∧ b[i]? = some v ∧
          (g.nodes_.get v).graphid_ =
            some { tileid := env.TileId (g.nodes_.get v).latlng_ level, level := level,
                   id := i } := by
  have hl : Linked g.nodes_ g.ways_ g.edges_ := GraphBuilder.build_linked hperm hbuild hsmall
  obtain ⟨-, hin, p, d0, off, -, h2, h3⟩ :=
    emitted_answers tenv g.nodes_ g.ways_ g.edges_ tile st hb u ei d hd
  obtain ⟨E, hE, hor⟩ := hl.edge_of_incident hin
  have hend : d.endnode = d0.endnode := by rw [h3]; rfl
  refine ⟨E, hE, hor, ?_, ?_, ?_⟩
  · intro hs
    rw [hend]
    exact (directed_edge_endnode tenv g.nodes_ g.ways_ g.edges_ u E.targetnode_ ei E d0 hE
      (Or.inl ⟨hs, rfl⟩) h2).1
  · intro hs
    have ht : E.targetnode_ = u := by
      rcases hor with h | h
      · exact absurd h hs
      · exact h
    rw [hend]
    exact (directed_edge_endnode tenv g.nodes_ g.ways_ g.edges_ u E.sourcenode_ ei E d0 hE
      (Or.inr ⟨ht, rfl⟩) h2).1
  · intro v hv
    exact GraphBuilder.build_placed hperm hbuild hsmall (List.getElem?_mem hE) v hv

theorem directed_edge_endnode_id_witness :
    (∀ m, (tiledEnv.traversal m).Perm m) ∧
    GraphBuilder.Build tiledEnv crossingDump crossingNodes 2 = .ok crossingTiled ∧
    crossingTiled.tasks_ = [[[10], [12]], [[11, 20, 22]]] ∧
    build_tile sampleTileEnv crossingTiled.nodes_ crossingTiled.ways_ crossingTiled.edges_
      [12] = .ok (built_tile sampleTileEnv crossingTiled [12]) ∧
    (emitted crossingTiled.nodes_ [12] (built_tile sampleTileEnv crossingTiled [12])).map
      (fun x => (x.1, x.2.1, x.2.2.endnode)) =
      [(12, 1, some { tileid := 1, level := 2, id := 0 })] ∧
    (emitted crossingTiled.nodes_ [11, 20, 22]
      (built_tile sampleTileEnv crossingTiled [11, 20, 22])).map
      (fun x => (x.1, x.2.1, x.2.2.endnode)) =
      [(11, 0, some { tileid := 0, level := 2, id := 0 }),
       (11, 1, some { tileid := 2, level := 2, id := 0 }),
       (11, 2, some { tileid := 1, level := 2, id := 1 }),
       (11, 3, some { tileid := 1, level := 2, id := 2 }),
       (20, 2, some { tileid := 1, level := 2, id := 0 }),
       (22, 3, some { tileid := 1, level := 2, id := 0 })] ∧
    ∃ E, crossingTiled.edges_[1]? = some E ∧ (E.sourcenode_ = 12 ∨ E.targetnode_ = 12) ∧
      (E.sourcenode_ = 12 →
        { crossingWest with opp_index := 1 }.endnode =
          (crossingTiled.nodes_.get E.targetnode_).graphid_) ∧
      (¬ E.sourcenode_ = 12 →
        { crossingWest with opp_index := 1 }.endnode =
          (crossingTiled.nodes_.get E.sourcenode_).graphid_) ∧
      ∀ v, v = E.sourcenode_ ∨ v = E.targetnode_ →
        ∃ (t j i : Nat) (task : List (List Nat)) (b : List Nat),
          crossingTiled.tasks_[t]? = some task ∧ task[j]? = some b ∧ b[i]? = some v ∧
          (crossingTiled.nodes_.get v).graphid_ =
            some { tileid := tiledEnv.TileId (crossingTiled.nodes_.get v).latlng_ 2,
                   level := 2, id := i } :=
  ⟨fun m => List.Perm.refl m, rfl, by decide, by decide, by decide, by decide,
    directed_edge_endnode_id tiledEnv sampleTileEnv crossingDump crossingNodes 2 crossingTiled
      [12] (built_tile sampleTileEnv crossingTiled [12]) 12 1
      { crossingWest with opp_index := 1 }
      (fun m => List.Perm.refl m) rfl (by decide) (by decide) (by decide)⟩

/-! ## The tile writer: two directed edges for every edge -/

theorem flatMap_filter_perm (P : List Nat) : ∀ (events : List (Nat × Nat)), P.Nodup →
    (∀ p ∈ events, p.1 ∈ P) →
    (P.flatMap (fun u => events.filter (fun p => decide (p.1 = u)))).Perm events := by
  induction P with
  | nil =>
    intro events _ hcov
    cases events with
    | nil => exact List.Perm.refl _
    | cons p rest => exact absurd (hcov p (List.mem_cons_self _ _)) (List.not_mem_nil _)
  | cons u rest ih =>
    intro events hnd hcov
    rw [List.nodup_cons] at hnd
    have hrest : rest.flatMap (fun u1 => events.filter (fun p => decide (p.1 = u1))) =
        rest.flatMap (fun u1 => (events.filter (fun p => !decide (p.1 = u))).filter
          (fun p => decide (p.1 = u1))) := by
      apply List.flatMap_congr
      intro u1 hu1
      rw [List.filter_filter]
      apply List.filter_congr
      intro p _
      have hne : u1 ≠ u := fun h => hnd.1 (h ▸ hu1)
      by_cases hp : p.1 = u1
      · have : ¬ p.1 = u := fun h => hne (hp.symm.trans h)
        simp [hp, hne]
      · simp [hp]
    rw [List.flatMap_cons, hrest]
    have h1 := ih (events.filter (fun p => !decide (p.1 = u))) hnd.2 (by
      intro p hp
      rw [List.mem_filter] at hp
      have hne : ¬ p.1 = u := by simpa using hp.2
      rcases List.mem_cons.mp (hcov p hp.1) with h | h
      · exact absurd h hne
      · exact h)
    exact (List.Perm.append_left _ h1).trans (List.filter_append_perm _ _)

theorem registered_pairs (events : List (Nat × Nat)) (u : Nat) :
    (registered events u).map (fun ei => (u, ei)) =
      events.filter (fun p => decide (p.1 = u)) := by
  unfold registered
  rw [List.map_map]
  have : ∀ p ∈ events.filter (fun p => decide (p.1 = u)),
      ((fun ei => (u, ei)) ∘ fun p => p.2) p = id p := by
    intro p hp
    rw [List.mem_filter] at hp
    have h1 : p.1 = u := by simpa using hp.2
    show (u, p.2) = p
    rw [← h1]
  rw [List.map_congr_left this, List.map_id]

theorem filter_edge_events (edges : List Edge) : ∀ (i0 i : Nat) (E : Edge), i0 ≤ i →
    edges[i - i0]? = some E →
    (edge_events i0 edges).filter (fun p => decide (p.2 = i)) =
      [(E.sourcenode_, i), (E.targetnode_, i)] := by
  induction edges with
  | nil => intro i0 i E _ h; simp at h
  | cons e rest ih =>
    intro i0 i E hle h
    have hnone : ∀ (j : Nat) (l : List Edge), i < j →
        (edge_events j l).filter (fun p => decide (p.2 = i)) = [] := by
      intro j l
      induction l generalizing j with
      | nil => intro _; rfl
      | cons x xs ihx =>
        intro hj
        unfold edge_events
        have hne : ¬ j = i := by omega
        rw [List.filter_cons_of_neg (by simpa using hne),
          List.filter_cons_of_neg (by simpa using hne)]
        exact ihx (j + 1) (by omega)
    by_cases hi : i = i0
    · rw [hi, Nat.sub_self] at h
      have he : e = E := by simpa using h
      unfold edge_events
      rw [List.filter_cons_of_pos (by simp [hi]), List.filter_cons_of_pos (by simp [hi]),
        hnone (i0 + 1) rest (by omega), he, hi]
    · have hne : ¬ i0 = i := fun x => hi x.symm
      have hsub : i - i0 = (i - (i0 + 1)) + 1 := by omega
      rw [hsub, List.getElem?_cons_succ] at h
      unfold edge_events
      rw [List.filter_cons_of_neg (by simpa using hne),
        List.filter_cons_of_neg (by simpa using hne)]
      exact ih (i0 + 1) i E (by omega) h

/-- The directed edges of a built tile belong, in order, to the incident-edge entries of
the nodes of the bucket. -/
theorem emitted_indices (tenv : TileEnv) (nodes : NodeMap) (ways : List OSMWay)
    (edges : List Edge) (tile : List Nat) (st : TileBuild)
    (hb : build_tile tenv nodes ways edges tile = .ok st) :
    (emitted nodes tile st).map (fun x => (x.1, x.2.1)) =
      tile.flatMap (fun u => (nodes.get u).edges_.map (fun ei => (u, ei))) := by
  obtain ⟨new, hg, hall⟩ := write_nodes_spec tenv nodes ways edges tile TileBuild.new st hb
  have hg1 : st.graphtile = new := by rw [hg]; rfl
  unfold emitted
  rw [hg1]
  clear hg hg1 hb
  induction hall with
  | nil => rfl
  | @cons u entry tile1 new1 h1 _ ih =>
    obtain ⟨node, hnode, hf⟩ := h1
    rw [List.zip_cons_cons, List.flatMap_cons, List.map_append, ih, List.flatMap_cons]
    congr 1
    rw [List.map_map]
    have hget : nodes.get u = node := nodeMap_get_of_find hnode
    have hlen : (nodes.get u).edges_.length ≤ entry.2.length := by
      rw [hget, hf.length_eq]
    have : ((fun x : Nat × Nat × DirectedEdge => (x.1, x.2.1)) ∘
        fun y : Nat × DirectedEdge => (u, y.1, y.2)) = (fun ei => (u, ei)) ∘ Prod.fst := by
      funext y; rfl
    show List.map ((fun x : Nat × Nat × DirectedEdge => (x.1, x.2.1)) ∘
        fun y : Nat × DirectedEdge => (u, y.1, y.2)) ((nodes.get u).edges_.zip entry.2) = _
    rw [this, ← List.map_map, List.map_fst_zip _ _ hlen]

theorem flatMap_flatten {α β : Type} (l : List (List α)) (f : α → List β) :
    l.flatten.flatMap f = l.flatMap (fun x => x.flatMap f) := by
  induction l with
  | nil => rfl
  | cons x rest ih =>
    rw [List.flatten_cons, List.flatMap_append, List.flatMap_cons, ih]

namespace GraphBuilder

/-- After `Build`, no node stands in two buckets or twice in one, every node of a bucket
is in the node table, and every node with an incident edge stands in a bucket. -/
theorem build_buckets {env : Env} {ways : List WayInput} {nodes : List NodeInput}
    {level : Nat} {g : GraphBuilder} (hperm : ∀ m, (env.traversal m).Perm m)
    (h : Build env ways nodes level = .ok g) :
    (placed g.tasks_).Nodup ∧
    (∀ u ∈ placed g.tasks_, ∃ node, g.nodes_.find u = some node) ∧
    (∀ v, (g.nodes_.get v).edges_ ≠ [] → v ∈ placed g.tasks_) := by
  obtain ⟨g1, g2, g3, h1, h2, h3, hg⟩ := build_stages h
  obtain ⟨a1, a2, a3, a4, -⟩ := after_read_nodes h1 h2
  obtain ⟨-, -, c3⟩ := edge_count_iff_marked a1 a2 h3
  obtain ⟨-, -, -, -, -, -, -, -, b9⟩ := constructEdges_spec h3
  obtain ⟨d1, d2, d3, -, -, -⟩ := tileNodes_spec env g3 level (hperm _) c3 (b9.trans a4)
  rw [hg]
  have hcount : ∀ a, (placed (tiled env g3 level).tasks_).count a ≤ 1 := by
    intro a
    by_cases ha : a ∈ g3.nodes_.keys
    · obtain ⟨e1, e2⟩ := d2 a _ (NodeMap.mem_of_mem_keys ha)
      by_cases hz : (g3.nodes_.get a).edge_count = 0
      · rw [(e2 hz).1]; exact Nat.zero_le _
      · rw [(e1 hz).1]
    · rw [d3 a ha]; exact Nat.zero_le _
  refine ⟨List.nodup_iff_count_le_one.mpr hcount, ?_, ?_⟩
  · intro u hu
    have hk : u ∈ g3.nodes_.keys := by
      by_contra hc
      have := d3 u hc
      rw [← List.count_pos_iff, this] at hu
      exact absurd hu (by decide)
    have hk1 : u ∈ (tiled env g3 level).nodes_.keys := by rw [d1]; exact hk
    have := (NodeMap.mem_keys_iff_find _ _).mp hk1
    cases hx : (tiled env g3 level).nodes_.find u with
    | none => exact absurd hx this
    | some a => exact ⟨a, rfl⟩
  · intro v hv
    rw [(tileNodes_keeps (hperm _) c3 (b9.trans a4) v).1] at hv
    have hk : v ∈ g3.nodes_.keys := by
      by_contra hc
      rw [NodeMap.get_of_not_mem_keys hc] at hv
      exact hv rfl
    obtain ⟨e1, -⟩ := d2 v _ (NodeMap.mem_of_mem_keys hk)
    have hz : (g3.nodes_.get v).edge_count ≠ 0 := by
      intro h0
      exact hv (List.length_eq_zero.mp h0)
    rw [← List.count_pos_iff, (e1 hz).1]
    exact Nat.one_pos

end GraphBuilder

theorem built_tile_eq {tenv : TileEnv} {g : GraphBuilder} {tile : List Nat} {st : TileBuild}
    (h : build_tile tenv g.nodes_ g.ways_ g.edges_ tile = .ok st) :
    built_tile tenv g tile = st := by
  unfold built_tile
  rw [h]

theorem mem_placed_of_mem_flatten {tasks : List (List (List Nat))} {tile : List Nat} {u : Nat}
    (ht : tile ∈ tasks.flatten) (hu : u ∈ tile) : u ∈ placed tasks := by
  unfold placed
  exact List.mem_flatten.mpr ⟨tile, ht, hu⟩

/-- No lookup of `unsharedTileEnv` ends the run. -/
theorem unsharedTileEnv_no_fault (a b : Nat)
    (c : List ((Option GraphId × Option GraphId) × Nat)) (d : Option GraphId × Option GraphId) :
    ¬ unsharedTileEnv.find_key a b c d = .fault :=
  fun h => KeyFind.noConfusion (show KeyFind.absent = KeyFind.fault from h)

/-- Claim C22: after `Build` (with fewer than 2^32 edges), the `try` block of
`BuildTileSet` builds the tile of every bucket whenever no lookup of an edge key ends the
run; and whenever the tile of every bucket is built, the tiles of all buckets together
hold twice as many directed edges as the edge table has edges, and the directed edges
built from the edge with index `i` are exactly two, one at its source node and one at its
target node. -/
theorem two_directed_edges (env : Env) (tenv : TileEnv) (ways : List WayInput)
    (nodes : List NodeInput) (level : Nat) (g : GraphBuilder)
    (hperm : ∀ m, (env.traversal m).Perm m)
    (hbuild : GraphBuilder.Build env ways nodes level = .ok g)
    (hsmall : g.edges_.length < 2 ^ 32) :
    ((∀ a b c d, ¬ tenv.find_key a b c d = .fault) →
      ∀ tile ∈ g.tasks_.flatten, ∃ st, build_tile tenv g.nodes_ g.ways_ g.edges_ tile = .ok st) ∧
    ((∀ tile ∈ g.tasks_.flatten,
        ∃ st, build_tile tenv g.nodes_ g.ways_ g.edges_ tile = .ok st) →
      (all_emitted tenv g).length = 2 * g.edges_.length ∧
      ∀ (i : Nat) (E : Edge), g.edges_[i]? = some E →
        (((all_emitted tenv g).filter (fun x => decide (x.2.1 = i))).map (fun x => x.1)).Perm
          [E.sourcenode_, E.targetnode_]) := by
  have hl : Linked g.nodes_ g.ways_ g.edges_ := GraphBuilder.build_linked hperm hbuild hsmall
  obtain ⟨hnd, hkeys, hcov⟩ := GraphBuilder.build_buckets hperm hbuild
  refine ⟨fun hkey tile ht => hl.build_tile_ok tenv hkey tile
    (fun u hu => hkeys u (mem_placed_of_mem_flatten ht hu)), ?_⟩
  intro hall
  have hok : ∀ tile ∈ g.tasks_.flatten,
      build_tile tenv g.nodes_ g.ways_ g.edges_ tile = .ok (built_tile tenv g tile) := by
    intro tile ht
    obtain ⟨st, hst⟩ := hall tile ht
    rw [built_tile_eq hst]; exact hst
  have hidx : (all_emitted tenv g).map (fun x => (x.1, x.2.1)) =
      (placed g.tasks_).flatMap (fun u =>
        (edge_events 0 g.edges_).filter (fun p => decide (p.1 = u))) := by
    unfold all_emitted placed
    rw [List.map_flatMap]
    conv_rhs => rw [flatMap_flatten]
    apply List.flatMap_congr
    intro tile ht
    rw [emitted_indices tenv g.nodes_ g.ways_ g.edges_ tile _ (hok tile ht)]
    apply List.flatMap_congr
    intro u _
    rw [hl.incident u, registered_pairs]
  have hperm1 : ((all_emitted tenv g).map (fun x => (x.1, x.2.1))).Perm
      (edge_events 0 g.edges_) := by
    rw [hidx]
    apply flatMap_filter_perm _ _ hnd
    intro p hp
    apply hcov
    rw [hl.incident p.1]
    intro hnil
    have : p.2 ∈ registered (edge_events 0 g.edges_) p.1 := by
      unfold registered
      exact List.mem_map.mpr ⟨p, List.mem_filter.mpr ⟨hp, by simp⟩, rfl⟩
    rw [hnil] at this
    exact absurd this (List.not_mem_nil _)
  refine ⟨?_, ?_⟩
  · have := hperm1.length_eq
    rw [List.length_map, edge_events_length] at this
    exact this
  · intro i E hE
    have h1 : ((all_emitted tenv g).filter (fun x => decide (x.2.1 = i))).map (fun x => x.1) =
        ((((all_emitted tenv g).map (fun x => (x.1, x.2.1))).filter
          (fun p => decide (p.2 = i))).map (fun p => p.1)) := by
      rw [List.filter_map, List.map_map]
      rfl
    rw [h1]
    have h2 := ((hperm1.filter (fun p => decide (p.2 = i))).map (fun p => p.1))
    rw [filter_edge_events g.edges_ 0 i E (Nat.zero_le _) hE] at h2
    exact h2

theorem two_directed_edges_witness :
    (∀ m, (sampleEnv.traversal m).Perm m) ∧
    GraphBuilder.Build sampleEnv crossingDump crossingNodes 2 = .ok crossingBuilder ∧
    crossingBuilder.edges_.length = 4 ∧
    crossingBuilder.tasks_ = [[[10, 11, 12, 20, 22]], []] ∧
    (∀ tile ∈ crossingBuilder.tasks_.flatten, ∃ st,
      build_tile unsharedTileEnv crossingBuilder.nodes_ crossingBuilder.ways_
        crossingBuilder.edges_ tile = .ok st) ∧
    (all_emitted unsharedTileEnv crossingBuilder).map (fun x => (x.1, x.2.1)) =
      [(10, 0), (11, 0), (11, 1), (11, 2), (11, 3), (12, 1), (20, 2), (22, 3)] ∧
    (all_emitted unsharedTileEnv crossingBuilder).length = 2 * crossingBuilder.edges_.length ∧
    (all_emitted unsharedTileEnv crossingBuilder).length = 8 :=
  ⟨fun m => List.Perm.refl m, rfl, by decide, by decide,
    (two_directed_edges sampleEnv unsharedTileEnv crossingDump crossingNodes 2 crossingBuilder
      (fun m => List.Perm.refl m) rfl (by decide)).1 unsharedTileEnv_no_fault,
    by decide,
    ((two_directed_edges sampleEnv unsharedTileEnv crossingDump crossingNodes 2 crossingBuilder
      (fun m => List.Perm.refl m) rfl (by decide)).2
      ((two_directed_edges sampleEnv unsharedTileEnv crossingDump crossingNodes 2
        crossingBuilder (fun m => List.Perm.refl m) rfl (by decide)).1
        unsharedTileEnv_no_fault)).1,
    by decide⟩

/-! ## The tile writer: the number of edge data records -/

/-- Claim C16, a defect of the code: the tile writer makes a new `EdgeInfo` record at
every incident edge for which the lookup of the edge key in `edge_offset_map` comes back
with `end()`, and the key is a pair of references into an object that no longer exists.
Scenario S2 in one tile has four edges with four distinct unordered pairs of end nodes,
all in the tile.  When no lookup finds its key the tile gets eight records, one for each
directed edge; when the lookups go by the values of the two ids it gets four.  With one
tile for each unit of longitude and lookups by value, the tile of the nodes 11, 20 and 22
gets four records, while two edges have both end nodes in the tile. -/
theorem edgeinfo_count_not_shared :
    crossingBuilder.tasks_ = [[[10, 11, 12, 20, 22]], []] ∧
    crossingBuilder.edges_.map (fun E => (E.sourcenode_, E.targetnode_)) =
      [(10, 11), (11, 12), (20, 11), (11, 22)] ∧
    ((crossingBuilder.edges_.filter (fun E =>
        decide (E.sourcenode_ ∈ [10, 11, 12, 20, 22] ∧
          E.targetnode_ ∈ [10, 11, 12, 20, 22]))).map
      (fun E => unordered E.sourcenode_ E.targetnode_)).dedup.length = 4 ∧
    build_tile unsharedTileEnv crossingBuilder.nodes_ crossingBuilder.ways_
      crossingBuilder.edges_ [10, 11, 12, 20, 22] =
      .ok (built_tile unsharedTileEnv crossingBuilder [10, 11, 12, 20, 22]) ∧
    (built_tile unsharedTileEnv crossingBuilder
      [10, 11, 12, 20, 22]).data.edgeinfo_list.length = 8 ∧
    build_tile sampleTileEnv crossingBuilder.nodes_ crossingBuilder.ways_
      crossingBuilder.edges_ [10, 11, 12, 20, 22] =
      .ok (built_tile sampleTileEnv crossingBuilder [10, 11, 12, 20, 22]) ∧
    (built_tile sampleTileEnv crossingBuilder
      [10, 11, 12, 20, 22]).data.edgeinfo_list.length = 4 ∧
    crossingTiled.tasks_ = [[[10], [12]], [[11, 20, 22]]] ∧
    build_tile sampleTileEnv crossingTiled.nodes_ crossingTiled.ways_ crossingTiled.edges_
      [11, 20, 22] = .ok (built_tile sampleTileEnv crossingTiled [11, 20, 22]) ∧
    (built_tile sampleTileEnv crossingTiled [11, 20, 22]).data.edgeinfo_list.length = 4 ∧
    ((crossingTiled.edges_.filter (fun E =>
        decide (E.sourcenode_ ∈ [11, 20, 22] ∧ E.targetnode_ ∈ [11, 20, 22]))).map
      (fun E => unordered E.sourcenode_ E.targetnode_)).dedup.length = 2 := by
  refine ⟨by decide, by decide, by decide, by decide, by decide, by decide, by decide,
    by decide, by decide, by decide, by decide⟩

/-! ## Pass 1: a ref beyond the largest id -/

namespace GraphBuilder

theorem mark_refs_first_bad (r : Nat) (post : List Nat) (pre : List Nat) :
    ∀ (g : GraphBuilder), g.shape_.WellSized → g.intersection_.WellSized →
    g.intersection_.maxosmid_ = g.shape_.maxosmid_ →
    (∀ v ∈ pre, v ≤ g.shape_.maxosmid_) → g.shape_.maxosmid_ < r →
    mark_refs g (pre ++ r :: post) =
      if r / 64 < g.shape_.bitmarkers_.size then
        .error (.runtime_error "NodeIDTable - OSM Id exceeds max specified")
      else .error .out_of_bounds := by
  induction pre with
  | nil =>
    intro g hs hi hmax _ hr
    by_cases hin : r / 64 < g.shape_.bitmarkers_.size
    · rw [if_pos hin]
      simp only [List.nil_append, mark_refs, NodeIdTable.isUsed_eq_bit hin,
        NodeIdTable.set_throws hr, NodeIdTable.set_throws (hmax ▸ hr)]
      cases g.shape_.bit (r / 64) (r % 64) <;> rfl
    · rw [if_neg hin]
      simp only [List.nil_append, mark_refs,
        NodeIdTable.isUsed_out_of_bounds (Nat.le_of_not_lt hin)]
  | cons x rest ih =>
    intro g hs hi hmax hle hr
    have hx : x ≤ g.shape_.maxosmid_ := hle x (List.mem_cons_self _ _)
    obtain ⟨s1, hs1, hm1, hsz1, -⟩ := NodeIdTable.set_ok hs hx
    obtain ⟨i1, hi1, hm2, hsz2, -⟩ := NodeIdTable.set_ok hi (hmax ▸ hx)
    have hsize : s1.bitmarkers_.size = g.shape_.bitmarkers_.size := by
      have e1 : s1.bitmarkers_.size = s1.maxosmid_ / 64 + 1 := hsz1
      have e2 : g.shape_.bitmarkers_.size = g.shape_.maxosmid_ / 64 + 1 := hs
      rw [e1, e2, hm1]
    simp only [List.cons_append, mark_refs, NodeIdTable.isUsed_of_le hs hx, hs1, hi1]
    cases g.shape_.bit (x / 64) (x % 64)
    · simp only []
      refine Eq.trans (ih { g with node_count_ := g.node_count_ + 1, shape_ := s1 } hsz1 hi
        (by simpa [hm1] using hmax)
        (fun v hv => by simpa [hm1] using hle v (List.mem_cons_of_mem _ hv))
        (by simpa [hm1] using hr)) ?_
      simp only [hsize]
    · simp only []
      refine Eq.trans (ih
        { g with intersection_ := i1, edge_count_ := g.edge_count_ + 1, shape_ := s1 }
        hsz1 hsz2 (by simpa [hm1, hm2] using hmax)
        (fun v hv => by simpa [hm1] using hle v (List.mem_cons_of_mem _ hv))
        (by simpa [hm1] using hr)) ?_
      simp only [hsize]

theorem way_callback_of_mark_error {env : Env} {g : GraphBuilder} {osmid : Nat} {tags : Tags}
    {refs : List Nat} {e : Failure} (h2 : 2 ≤ refs.length)
    (hres : (env.TransformInLua true tags).length ≠ 0) (hm : mark_refs g refs = .error e) :
    way_callback env g osmid tags refs = .error e := by
  unfold way_callback
  rw [if_neg (by omega)]
  simp only []
  rw [if_neg hres, hm]

end GraphBuilder

/-- Claim C23: `way_callback` on a way with at least two refs and a non-empty transform
result, on bitmaps of their constructor's size with the common maximum `m`.  Let `r` be
the first ref that exceeds `m`.  If `r` still falls into the last word of the bitmap
(`r / 64` is below the number of words), the marking loop throws the error of
`NodeIdTable::set`, before the way is appended; the ref 4,000,000,001 of scenario S6 is
such a ref.  If `r` lies beyond the last word (from 4,000,000,064 on), the loop first
evaluates `shape_.IsUsed(r)`, which subscripts the word vector past its end. -/
theorem way_callback_id_out_of_range (env : Env) (g : GraphBuilder) (osmid : Nat) (tags : Tags)
    (refs pre post : List Nat) (r : Nat) (hg : g.WaysMarked) (h2 : 2 ≤ refs.length)
    (hres : (env.TransformInLua true tags).length ≠ 0) (hsplit : refs = pre ++ r :: post)
    (hpre : ∀ v ∈ pre, v ≤ g.shape_.maxosmid_) (hr : g.shape_.maxosmid_ < r) :
    (r / 64 < g.shape_.bitmarkers_.size →
      GraphBuilder.mark_refs g refs =
        .error (.runtime_error "NodeIDTable - OSM Id exceeds max specified") ∧
      GraphBuilder.way_callback env g osmid tags refs =
        .error (.runtime_error "NodeIDTable - OSM Id exceeds max specified")) ∧
    (g.shape_.bitmarkers_.size ≤ r / 64 →
      GraphBuilder.mark_refs g refs = .error .out_of_bounds ∧
      GraphBuilder.way_callback env g osmid tags refs = .error .out_of_bounds) := by
  have key := GraphBuilder.mark_refs_first_bad r post pre g hg.shape_sized hg.inter_sized
    hg.same_max hpre hr
  rw [← hsplit] at key
  constructor
  · intro hin
    rw [if_pos hin] at key
    exact ⟨key, GraphBuilder.way_callback_of_mark_error h2 hres key⟩
  · intro hout
    rw [if_neg (by omega)] at key
    exact ⟨key, GraphBuilder.way_callback_of_mark_error h2 hres key⟩

theorem way_callback_id_out_of_range_witness :
    GraphBuilder.init.shape_.maxosmid_ = 4000000000 ∧
    GraphBuilder.init.shape_.bitmarkers_.size = 62500001 ∧
    GraphBuilder.way_callback sampleEnv GraphBuilder.init 1 [("highway", "residential")]
      [1, 4000000001] =
        .error (.runtime_error "NodeIDTable - OSM Id exceeds max specified") ∧
    GraphBuilder.way_callback sampleEnv GraphBuilder.init 1 [("highway", "residential")]
      [1, 4000000064] = .error .out_of_bounds :=
  ⟨rfl, rfl,
    ((way_callback_id_out_of_range sampleEnv GraphBuilder.init 1 [("highway", "residential")]
      [1, 4000000001] [1] [] 4000000001 GraphBuilder.waysMarked_init (by decide) (by decide)
      rfl (by decide) (by decide)).1 (by decide)).2,
    ((way_callback_id_out_of_range sampleEnv GraphBuilder.init 1 [("highway", "residential")]
      [1, 4000000064] [1] [] 4000000064 GraphBuilder.waysMarked_init (by decide) (by decide)
      rfl (by decide) (by decide)).2 (by decide)).2⟩

/-! ## The driver of the tile writers -/

theorem check_results_no_throw (results : List (Except Failure Nat)) :
    check_results results = .ok () ∨ check_results results = .error .out_of_bounds := by
  induction results with
  | nil => exact Or.inl rfl
  | cons r rest ih =>
    cases r with
    | ok n => exact ih
    | error e =>
      cases e with
      | runtime_error what => exact ih
      | invalid_argument what => exact ih
      | out_of_bounds => exact Or.inr rfl

/-- Claim C24 (refuted): `BuildLocalTiles` never hands a worker's exception to its caller.
Whatever the workers store in their promises, it returns normally unless a worker ran
into undefined behaviour; with tile writes that fail, the worker of scenario S4 ends with
the exception of `StoreTileData`, and `BuildLocalTiles` still returns normally. -/
theorem buildLocalTiles_drops_exception :
    (∀ (tenv : TileEnv) (g : GraphBuilder) (what : String),
      GraphBuilder.BuildLocalTiles tenv g ≠ .error (.runtime_error what) ∧
      GraphBuilder.BuildLocalTiles tenv g ≠ .error (.invalid_argument what)) ∧
    onewayBuilder.tasks_ = [[[1, 2]], []] ∧
    BuildTileSet failingTileEnv [[1, 2]] onewayBuilder.nodes_ onewayBuilder.ways_
      onewayBuilder.edges_ = .error (.runtime_error "cannot write tile") ∧
    GraphBuilder.BuildLocalTiles failingTileEnv onewayBuilder = .ok () := by
  refine ⟨?_, by decide, by decide, by decide⟩
  intro tenv g what
  unfold GraphBuilder.BuildLocalTiles
  rcases check_results_no_throw
    (g.tasks_.map (fun task => BuildTileSet tenv task g.nodes_ g.ways_ g.edges_)) with h | h
  · rw [h]; exact ⟨by simp, by simp⟩
  · rw [h]; exact ⟨by simp, by simp⟩

/-! ## The node table and the bitmap of referenced nodes -/

/-- Claim C25: after pass 1, pass 2 and `ConstructEdges` (which then runs to its end),
every key of the node table is marked in `shape_`: every key that `node_callback` stored
is marked, and every key that `ConstructEdges` adds is a node of a recorded way. -/
theorem GraphBuilder.node_keys_seen_on_way (env : Env) (ways : List WayInput)
    (nodes : List NodeInput) (g1 g2 : GraphBuilder)
    (h1 : GraphBuilder.read_ways env GraphBuilder.init ways = .ok g1)
    (h2 : GraphBuilder.read_nodes env g1 nodes = .ok g2) :
    ∃ g3, GraphBuilder.ConstructEdges g2 = .ok g3 ∧
      (∀ k ∈ g2.nodes_.keys, g2.shape_.IsUsed k = .ok true) ∧
      (∀ k ∈ g3.nodes_.keys, g3.shape_.IsUsed k = .ok true) ∧
      (∀ k ∈ g3.nodes_.keys, k ∉ g2.nodes_.keys → ∃ w ∈ g3.ways_, k ∈ w.nodes_) := by
  obtain ⟨a1, a2, -⟩ := GraphBuilder.after_read_nodes h1 h2
  obtain ⟨g3, h3⟩ := GraphBuilder.constructEdges_ok a1
  obtain ⟨-, -, b3, -, -, b6, -, b8, -⟩ := GraphBuilder.constructEdges_spec h3
  have hway : ∀ k, (∃ w ∈ g2.ways_, k ∈ w.nodes_) → g2.shape_.IsUsed k = .ok true := by
    rintro k ⟨w, hw, hk⟩
    apply (a1.shape_marked k).mpr
    exact List.mem_flatten.mpr ⟨w.nodes_, List.mem_map_of_mem _ hw, hk⟩
  refine ⟨g3, h3, fun k hk => a2.seen k hk, ?_, ?_⟩
  · intro k hk
    rw [b8]
    rcases (b3 k).mp hk with h | h
    · exact a2.seen k h
    · exact hway k h
  · intro k hk hnot
    rw [b6]
    rcases (b3 k).mp hk with h | h
    · exact absurd h hnot
    · exact h

theorem GraphBuilder.node_keys_seen_on_way_witness :
    (GraphBuilder.after_edges sampleEnv singleWayDump singleWayNodes).nodes_.keys =
      [10, 11, 12] ∧
    [10, 11, 12].map (fun k =>
      (GraphBuilder.after_edges sampleEnv singleWayDump singleWayNodes).shape_.IsUsed k) =
      [.ok true, .ok true, .ok true] ∧
    ∃ g1 g2, GraphBuilder.read_ways sampleEnv GraphBuilder.init singleWayDump = .ok g1 ∧
      GraphBuilder.read_nodes sampleEnv g1 singleWayNodes = .ok g2 ∧
      ∃ g3, GraphBuilder.ConstructEdges g2 = .ok g3 ∧
        (∀ k ∈ g2.nodes_.keys, g2.shape_.IsUsed k = .ok true) ∧
        (∀ k ∈ g3.nodes_.keys, g3.shape_.IsUsed k = .ok true) ∧
        (∀ k ∈ g3.nodes_.keys, k ∉ g2.nodes_.keys → ∃ w ∈ g3.ways_, k ∈ w.nodes_) :=
  ⟨by decide, by decide, _, _, rfl, rfl,
    GraphBuilder.node_keys_seen_on_way sampleEnv singleWayDump singleWayNodes _ _ rfl rfl⟩

/-! ## The way of an edge -/

/-- Claim C27: after pass 1, pass 2 and `ConstructEdges`, the way index of every edge is
the index of a way of the way table whose node sequence holds the source of the edge at a
position `p` and the target at a position `q > p`.  The way table is taken to hold at most
2^32 ways, so that the `uint32_t` counter `wayindex` has not wrapped around. -/
theorem GraphBuilder.edge_way_holds_endpoints (env : Env) (ways : List WayInput)
    (nodes : List NodeInput) (g1 g2 : GraphBuilder)
    (h1 : GraphBuilder.read_ways env GraphBuilder.init ways = .ok g1)
    (h2 : GraphBuilder.read_nodes env g1 nodes = .ok g2)
    (hlen : g1.ways_.length ≤ 2 ^ 32) :
    ∃ g3, GraphBuilder.ConstructEdges g2 = .ok g3 ∧
      ∀ e ∈ g3.edges_, ∃ (w : OSMWay) (p q : Nat),
        g3.ways_[e.wayindex_]? = some w ∧ w.nodes_[p]? = some e.sourcenode_ ∧
        w.nodes_[q]? = some e.targetnode_ ∧ p < q := by
  obtain ⟨a1, a2, a3, -, -, a6, -⟩ := GraphBuilder.after_read_nodes h1 h2
  obtain ⟨g3, h3⟩ := GraphBuilder.constructEdges_ok a1
  refine ⟨g3, h3, ?_⟩
  intro e he
  obtain ⟨b1, -, -, -, -, b6, -⟩ := GraphBuilder.constructEdges_spec h3
  rw [b1, a3, List.nil_append] at he
  obtain ⟨i, ns, hi, hmem⟩ := GraphBuilder.all_edges_mem _ _ _ 0 (by decide) e he
  rw [Nat.zero_add] at hmem
  have hwi := GraphBuilder.way_edges_wayindex _ _ _ _ e hmem
  obtain ⟨pre, mid, post, c1, -⟩ := GraphBuilder.way_edges_between _ _ _ _ e hmem
  have hw : ∃ w, g2.ways_[i]? = some w ∧ w.nodes_ = ns := by
    simp only [GraphBuilder.way_nodes, List.getElem?_map] at hi
    cases hx : g2.ways_[i]? with
    | none => rw [hx] at hi; simp at hi
    | some w => rw [hx] at hi; exact ⟨w, rfl, by simpa using hi⟩
  obtain ⟨w, hw1, hw2⟩ := hw
  have hilt : i < g2.ways_.length := lt_of_getElem? hw1
  have hmod : i % 2 ^ 32 = i := Nat.mod_eq_of_lt (by rw [a6] at hilt; omega)
  refine ⟨w, pre.length, pre.length + 1 + mid.length, ?_, ?_, ?_, by omega⟩
  · rw [hwi, hmod, b6]; exact hw1
  · rw [hw2, c1, List.getElem?_append_right (Nat.le_refl _), Nat.sub_self]
    simp
  · rw [hw2, c1]
    have e1 : pre ++ e.sourcenode_ :: (mid ++ e.targetnode_ :: post) =
        (pre ++ e.sourcenode_ :: mid) ++ e.targetnode_ :: post := by simp
    have e2 : (pre ++ e.sourcenode_ :: mid).length = pre.length + 1 + mid.length := by
      simp; omega
    rw [e1, ← e2, List.getElem?_append_right (Nat.le_refl _), Nat.sub_self]
    simp

theorem GraphBuilder.edge_way_holds_endpoints_witness :
    (GraphBuilder.after_edges sampleEnv crossingDump crossingNodes).edges_.map
        (fun e => (e.sourcenode_, e.targetnode_, e.wayindex_)) =
      [(10, 11, 0), (11, 12, 0), (20, 11, 1), (11, 22, 1)] ∧
    (GraphBuilder.after_edges sampleEnv crossingDump crossingNodes).ways_.map
        (fun w => w.nodes_) = [[10, 11, 12], [20, 11, 22]] ∧
    ∃ g1 g2, GraphBuilder.read_ways sampleEnv GraphBuilder.init crossingDump = .ok g1 ∧
      GraphBuilder.read_nodes sampleEnv g1 crossingNodes = .ok g2 ∧
      g1.ways_.length ≤ 2 ^ 32 ∧
      ∃ g3, GraphBuilder.ConstructEdges g2 = .ok g3 ∧
        ∀ e ∈ g3.edges_, ∃ (w : OSMWay) (p q : Nat),
          g3.ways_[e.wayindex_]? = some w ∧ w.nodes_[p]? = some e.sourcenode_ ∧
          w.nodes_[q]? = some e.targetnode_ ∧ p < q :=
  ⟨by decide, by decide, _, _, rfl, rfl, by decide,
    GraphBuilder.edge_way_holds_endpoints sampleEnv crossingDump crossingNodes _ _ rfl rfl
      (by decide)⟩

/-! ## The size of the bitmap -/

/-- Claim C33 as stated fails: a table for the maximum id 4,000,000,000 (a multiple of 64)
holds 62,500,001 words, one more than the rounded-up quotient of the maximum by 64. -/
theorem NodeIdTable.new_size_not_ceil :
    (NodeIdTable.new kMaxOSMNodeId).bitmarkers_.size = 62500001 ∧
    (kMaxOSMNodeId + 63) / 64 = 62500000 ∧
    (NodeIdTable.new 64).bitmarkers_.size = 2 ∧ (64 + 63) / 64 = 1 := by
  refine ⟨by decide, by decide, by decide, by decide⟩

/-- Claim C33, amended: a table constructed with the maximum id `m` holds `m / 64 + 1`
words (the quotient rounded down, plus one: the rounded-up quotient of the `m + 1` ids
`0..m` by 64), every word is zero, and no id is marked. -/
theorem NodeIdTable.new_size (m : Nat) :
    (NodeIdTable.new m).bitmarkers_.size = m / 64 + 1 ∧
    (NodeIdTable.new m).bitmarkers_.size = (m + 1 + 63) / 64 ∧
    (NodeIdTable.new m).maxosmid_ = m ∧
    (∀ i, (NodeIdTable.new m).bitmarkers_.get? i = if i < m / 64 + 1 then some 0 else none) ∧
    (∀ id, (NodeIdTable.new m).IsUsed id =
      if id / 64 < m / 64 + 1 then .ok false else .error .out_of_bounds) := by
  refine ⟨rfl, ?_, rfl, ?_, ?_⟩
  · show m / 64 + 1 = (m + 1 + 63) / 64
    omega
  · intro i
    rfl
  · intro id
    unfold NodeIdTable.IsUsed
    have hget : (NodeIdTable.new m).bitmarkers_.get? (id / 64) =
        if id / 64 < m / 64 + 1 then some 0 else none := rfl
    rw [hget]
    by_cases h : id / 64 < m / 64 + 1
    · rw [if_pos h, if_pos h]
      simp
    · rw [if_neg h, if_neg h]

/-! ## A node id that the dump holds twice -/

namespace NodeMap

theorem find_emplace_self (m : NodeMap) (id : Nat) (n : OSMNode) :
    ∃ a, find (emplace m id n) id = some a ∧ (find m id = none → a = n) ∧
      (∀ b, find m id = some b → a = b) := by
  unfold emplace
  cases h : find m id with
  | some b => exact ⟨b, h, (fun x => by cases x), (fun c hc => (Option.some.inj hc))⟩
  | none =>
    refine ⟨n, ?_, (fun _ => rfl), (fun c hc => by cases hc)⟩
    show find (m ++ [(id, n)]) id = some n
    rw [find_append_of_none h]
    simp

theorem emplace_of_find {m : NodeMap} {id : Nat} {a : OSMNode} (h : find m id = some a)
    (n : OSMNode) : emplace m id n = m := by
  unfold emplace
  rw [h]

end NodeMap

namespace GraphBuilder

theorem node_callback_nodes {env : Env} {g g1 : GraphBuilder} {osmid : Nat} {lng lat : Coord}
    {tags : Tags} (hseen : g.shape_.IsUsed osmid = .ok true)
    (hres : (env.TransformInLua false tags).length ≠ 0)
    (h : node_callback env g osmid lng lat tags = .ok g1) :
    ∃ acc, node_tags env osmid
        { n := OSMNode.new lat lng, map_exit_to_ := g.map_exit_to_, map_ref_ := g.map_ref_ }
        (env.TransformInLua false tags) = .ok acc ∧
      g1.nodes_ = g.nodes_.emplace osmid acc.n ∧ g1.shape_ = g.shape_ ∧
      g1.map_exit_to_ = acc.map_exit_to_ ∧ g1.map_ref_ = acc.map_ref_ := by
  unfold node_callback at h
  rw [hseen] at h
  simp only at h
  rw [if_neg hres] at h
  cases hn : node_tags env osmid
      { n := OSMNode.new lat lng, map_exit_to_ := g.map_exit_to_, map_ref_ := g.map_ref_ }
      (env.TransformInLua false tags) with
  | error e => rw [hn] at h; cases h
  | ok acc =>
    rw [hn] at h
    simp only at h
    cases h
    exact ⟨acc, rfl, rfl, rfl, rfl, rfl⟩

end GraphBuilder

/-- The dump of scenario S1 followed by a second node with the id 10, at another position
and with the tag `ref`: node 10 stays at the position of its first occurrence, with `ref_`
unset, while `map_ref_` holds the `ref` of the second occurrence. -/
theorem GraphBuilder.node_callback_keeps_first :
    ((GraphBuilder.after_passes sampleEnv singleWayDump
        (singleWayNodes ++ [{ osmid := 10, lng := 7, lat := 9, tags := [("ref", "B")] }])
      ).nodes_.find 10).map (fun n => (n.latlng_, n.ref_)) =
      some ({ lat := 0, lng := 0 }, false) ∧
    (GraphBuilder.after_passes sampleEnv singleWayDump
        (singleWayNodes ++ [{ osmid := 10, lng := 7, lat := 9, tags := [("ref", "B")] }])
      ).map_ref_ = [(10, "B")] ∧
    (GraphBuilder.after_passes sampleEnv singleWayDump
        (singleWayNodes ++ [{ osmid := 10, lng := 7, lat := 9, tags := [("ref", "B")] }])
      ).nodes_.keys = [10, 11, 12] := by
  refine ⟨by decide, by decide, by decide⟩

/-- Claim C34, a defect of the code: when `node_callback` runs twice for the same node id,
both times past the `shape_` check and with a non-empty transform result, the second
invocation does not overwrite the node.  It leaves the node table as the first one left
it, since `emplace` does not replace the entry of a key that is in the table, so the table
holds the node that the first invocation built (when the id was new then); yet the side
maps `map_exit_to_` and `map_ref_` of the same callback take what the tag loop of the
second invocation assigns, so the node and its side entries come from different
invocations. -/
theorem GraphBuilder.node_callback_twice (env : Env) (g g1 g2 : GraphBuilder) (osmid : Nat)
    (lng lat lng1 lat1 : Coord) (tags tags1 : Tags)
    (hseen : g.shape_.IsUsed osmid = .ok true)
    (hres : (env.TransformInLua false tags).length ≠ 0)
    (hres1 : (env.TransformInLua false tags1).length ≠ 0)
    (h1 : GraphBuilder.node_callback env g osmid lng lat tags = .ok g1)
    (h2 : GraphBuilder.node_callback env g1 osmid lng1 lat1 tags1 = .ok g2) :
    g2.nodes_ = g1.nodes_ ∧
    (g.nodes_.find osmid = none →
      ∃ acc, GraphBuilder.node_tags env osmid
          { n := OSMNode.new lat lng, map_exit_to_ := g.map_exit_to_,
            map_ref_ := g.map_ref_ }
          (env.TransformInLua false tags) = .ok acc ∧
        g2.nodes_.find osmid = some acc.n ∧ acc.n.latlng_ = { lat := lat, lng := lng }) ∧
    (∃ acc1, GraphBuilder.node_tags env osmid
        { n := OSMNode.new lat1 lng1, map_exit_to_ := g1.map_exit_to_,
          map_ref_ := g1.map_ref_ }
        (env.TransformInLua false tags1) = .ok acc1 ∧
      g2.map_exit_to_ = acc1.map_exit_to_ ∧ g2.map_ref_ = acc1.map_ref_) := by
  obtain ⟨acc, a1, a2, a3, -, -⟩ := GraphBuilder.node_callback_nodes hseen hres h1
  obtain ⟨acc1, b1, b2, -, b4, b5⟩ :=
    GraphBuilder.node_callback_nodes (by rw [a3]; exact hseen) hres1 h2
  obtain ⟨x, hx, hx1, -⟩ := NodeMap.find_emplace_self g.nodes_ osmid acc.n
  rw [← a2] at hx
  have hsame : g2.nodes_ = g1.nodes_ := by
    rw [b2]; exact NodeMap.emplace_of_find hx _
  refine ⟨hsame, ?_, acc1, b1, b4, b5⟩
  intro hnew
  refine ⟨acc, a1, ?_, ?_⟩
  · rw [hsame, hx, hx1 hnew]
  · exact (GraphBuilder.node_tags_keeps _ a1).2.2

theorem GraphBuilder.node_callback_twice_witness :
    ∃ g1 g2, g1.shape_.IsUsed 10 = .ok true ∧ g1.nodes_.find 10 = none ∧
      GraphBuilder.node_callback sampleEnv g1 10 0 0 [("highway", "crossing")] = .ok g2 ∧
      ∃ g3, GraphBuilder.node_callback sampleEnv g2 10 7 9 [("ref", "B")] = .ok g3 ∧
        g3.nodes_ = g2.nodes_ ∧
        (g3.nodes_.find 10).map (fun n => n.latlng_) = some { lat := 0, lng := 0 } ∧
        ∃ acc, GraphBuilder.node_tags sampleEnv 10
            { n := OSMNode.new 0 0, map_exit_to_ := g1.map_exit_to_,
              map_ref_ := g1.map_ref_ }
            (sampleEnv.TransformInLua false [("highway", "crossing")]) = .ok acc ∧
          g3.nodes_.find 10 = some acc.n ∧ acc.n.latlng_ = { lat := 0, lng := 0 } :=
  ⟨GraphBuilder.after_passes sampleEnv singleWayDump [], _, by decide, by decide, rfl, _, rfl,
    (GraphBuilder.node_callback_twice sampleEnv
      (GraphBuilder.after_passes sampleEnv singleWayDump []) _ _ 10 0 0 7 9
      [("highway", "crossing")] [("ref", "B")] (by decide) (by decide) (by decide) rfl rfl).1,
    by decide,
    (GraphBuilder.node_callback_twice sampleEnv
      (GraphBuilder.after_passes sampleEnv singleWayDump []) _ _ 10 0 0 7 9
      [("highway", "crossing")] [("ref", "B")] (by decide) (by decide) (by decide) rfl
      rfl).2.1 (by decide)⟩

/-! ## The counters of pass 1 -/

theorem dedup_length_append_of_mem (R : List Nat) (ref : Nat) (h : ref ∈ R) :
    (R ++ [ref]).dedup.length = R.dedup.length := by
  rw [← List.card_toFinset, ← List.card_toFinset]
  congr 1
  ext a
  simp only [List.mem_toFinset, List.mem_append, List.mem_singleton]
  constructor
  · rintro (h1 | h1)
    · exact h1
    · rw [h1]; exact h
  · intro h1; exact Or.inl h1

theorem dedup_length_append_of_not_mem (R : List Nat) (ref : Nat) (h : ref ∉ R) :
    (R ++ [ref]).dedup.length = R.dedup.length + 1 := by
  rw [← List.card_toFinset, ← List.card_toFinset]
  have : (R ++ [ref]).toFinset = insert ref R.toFinset := by
    ext a
    simp only [List.mem_toFinset, List.mem_append, List.mem_singleton, Finset.mem_insert]
    tauto
  rw [this, Finset.card_insert_of_not_mem (by simpa using h)]

namespace GraphBuilder

theorem mark_refs_counts (refs : List Nat) : ∀ (g g1 : GraphBuilder) (R : List Nat),
    g.shape_.WellSized → (∀ j, g.shape_.Marked j ↔ j ∈ R) →
    mark_refs g refs = .ok g1 →
    g1.node_count_ + R.dedup.length = g.node_count_ + (R ++ refs).dedup.length ∧
    g1.edge_count_ + g1.node_count_ = g.edge_count_ + g.node_count_ + refs.length := by
  induction refs with
  | nil =>
    intro g g1 R hs hsh h
    simp only [mark_refs] at h
    cases h
    simp
  | cons ref rest ih =>
    intro g g1 R hs hsh h
    simp only [mark_refs] at h
    cases hu : g.shape_.IsUsed ref with
    | error e => rw [hu] at h; cases h
    | ok b =>
      rw [hu] at h
      have hb := NodeIdTable.isUsed_ok_iff_marked hu
      cases b with
      | true =>
        simp only at h
        cases hi1 : g.intersection_.set ref with
        | error e => rw [hi1] at h; cases h
        | ok i1 =>
          rw [hi1] at h
          simp only at h
          cases hs1 : g.shape_.set ref with
          | error e => rw [hs1] at h; cases h
          | ok s1 =>
            rw [hs1] at h
            simp only at h
            obtain ⟨-, hsz1, hmk1⟩ := NodeIdTable.marked_of_set hs hs1
            have hrefR : ref ∈ R := (hsh ref).mp (hb.mp rfl)
            obtain ⟨a1, a2⟩ := ih
              { g with intersection_ := i1, edge_count_ := g.edge_count_ + 1, shape_ := s1 }
              g1 (R ++ [ref]) hsz1
              (fun j => by
                simp only []
                rw [hmk1 j, hsh j, List.mem_append, List.mem_singleton]
                tauto) h
            simp only [List.append_assoc, List.singleton_append] at a1
            rw [dedup_length_append_of_mem R ref hrefR] at a1
            simp only [List.length_cons] at a2 ⊢
            exact ⟨a1, by omega⟩
      | false =>
        simp only at h
        cases hs1 : g.shape_.set ref with
        | error e => rw [hs1] at h; cases h
        | ok s1 =>
          rw [hs1] at h
          simp only at h
          obtain ⟨-, hsz1, hmk1⟩ := NodeIdTable.marked_of_set hs hs1
          have hrefR : ¬ ref ∈ R := fun hc => by
            have := hb.mpr ((hsh ref).mpr hc)
            cases this
          obtain ⟨a1, a2⟩ := ih { g with node_count_ := g.node_count_ + 1, shape_ := s1 }
            g1 (R ++ [ref]) hsz1
            (fun j => by
              simp only []
              rw [hmk1 j, hsh j, List.mem_append, List.mem_singleton]
              tauto) h
          simp only [List.append_assoc, List.singleton_append] at a1
          rw [dedup_length_append_of_not_mem R ref hrefR] at a1
          simp only [List.length_cons] at a2 ⊢
          exact ⟨by omega, by omega⟩

theorem way_callback_counts {env : Env} {g g1 : GraphBuilder} {osmid : Nat} {tags : Tags}
    {refs : List Nat} (hg : WaysMarked g) (hc : Counted g)
    (h : way_callback env g osmid tags refs = .ok g1) : Counted g1 := by
  unfold way_callback at h
  by_cases hlen : refs.length < 2
  · rw [if_pos hlen] at h
    cases h
    exact hc
  rw [if_neg hlen] at h
  simp only at h
  by_cases hres : (env.TransformInLua true tags).length = 0
  · rw [if_pos hres] at h
    cases h
    exact hc
  rw [if_neg hres] at h
  cases hm : mark_refs g refs with
  | error e => rw [hm] at h; cases h
  | ok g2 =>
    rw [hm] at h
    simp only at h
    obtain ⟨-, -, -, -, -, -, -, a8, -⟩ := mark_refs_spec refs g g2 g.way_nodes.flatten
      (IsEndpoint g.way_nodes) hg.shape_sized hg.inter_sized hg.same_max hg.shape_marked
      hg.inter_marked hm
    obtain ⟨c1, c2⟩ := mark_refs_counts refs g g2 g.way_nodes.flatten hg.shape_sized
      hg.shape_marked hm
    cases hi1 : g2.intersection_.set (refs.headD 0) with
    | error e => rw [hi1] at h; cases h
    | ok i1 =>
      rw [hi1] at h
      simp only at h
      cases hi2 : i1.set (refs.getLastD 0) with
      | error e => rw [hi2] at h; cases h
      | ok i2 =>
        rw [hi2] at h
        simp only at h
        cases ht : way_tags env { OSMWay.new osmid with nodes_ := refs }
            (env.TransformInLua true tags) with
        | error e => rw [ht] at h; cases h
        | ok w1 =>
          rw [ht] at h
          simp only at h
          cases h
          obtain ⟨d1, -⟩ := way_tags_keeps _ ht
          have hwn : ∀ gx : GraphBuilder, gx.ways_ = g2.ways_ ++ [w1] →
              gx.way_nodes.flatten = g.way_nodes.flatten ++ refs := by
            intro gx hx
            simp [way_nodes, hx, a8, d1]
          have hwn := hwn
            { g2 with intersection_ := i2, edge_count_ := g2.edge_count_ + 2,
                      ways_ := g2.ways_ ++ [w1] } rfl
          have hn := hc.node
          have ht := hc.total
          refine ⟨?_, ?_⟩
          · rw [hwn]
            show g2.node_count_ = _
            omega
          · rw [hwn]
            show g2.edge_count_ + 2 + g2.node_count_ = _ + 2 * (g2.ways_ ++ [w1]).length
            rw [List.length_append, List.length_append, List.length_singleton, a8]
            omega

theorem counted_init : Counted init := ⟨rfl, rfl⟩

theorem read_ways_counts {env : Env} (ways : List WayInput) : ∀ {g g1 : GraphBuilder},
    WaysMarked g → Counted g → read_ways env g ways = .ok g1 → Counted g1 := by
  induction ways with
  | nil =>
    intro g g1 _ hc h
    simp only [read_ways] at h
    cases h
    exact hc
  | cons w rest ih =>
    intro g g1 hg hc h
    simp only [read_ways] at h
    cases hw : way_callback env g w.osmid w.tags w.refs with
    | error e => rw [hw] at h; cases h
    | ok g2 =>
      rw [hw] at h
      exact ih (way_callback_spec hg hw).1 (way_callback_counts hg hc hw) h

end GraphBuilder

/-- Claim C38: starting from the empty builder, when pass 1 has run over a sequence of
ways without an exception, `node_count_` is the number of different node ids in the node
sequences of the recorded ways, and these are exactly the ids that `shape_` marks. -/
theorem GraphBuilder.node_count_distinct (env : Env) (ways : List WayInput) (g : GraphBuilder)
    (h : GraphBuilder.read_ways env GraphBuilder.init ways = .ok g) :
    g.node_count_ = g.way_nodes.flatten.dedup.length ∧
    g.way_nodes = routable_refs env ways ∧
    (g.way_nodes.flatten.dedup).Nodup ∧
    ∀ j, g.shape_.IsUsed j = .ok true ↔ j ∈ g.way_nodes.flatten.dedup := by
  obtain ⟨a1, -, -, -, a5⟩ := GraphBuilder.after_read_ways h
  have hc := GraphBuilder.read_ways_counts ways GraphBuilder.waysMarked_init
    GraphBuilder.counted_init h
  refine ⟨hc.node, a5, List.nodup_dedup _, ?_⟩
  intro j
  rw [List.mem_dedup]
  exact a1.shape_marked j

theorem GraphBuilder.node_count_distinct_witness :
    (routable_refs sampleEnv selfCrossingDump).flatten = [1, 2, 3, 2, 4] ∧
    (GraphBuilder.after_passes sampleEnv selfCrossingDump []).node_count_ = 4 ∧
    ∃ g, GraphBuilder.read_ways sampleEnv GraphBuilder.init selfCrossingDump = .ok g ∧
      g.node_count_ = g.way_nodes.flatten.dedup.length ∧
      g.way_nodes = routable_refs sampleEnv selfCrossingDump ∧
      (g.way_nodes.flatten.dedup).Nodup ∧
      ∀ j, g.shape_.IsUsed j = .ok true ↔ j ∈ g.way_nodes.flatten.dedup :=
  ⟨by decide, by decide, _, rfl,
    GraphBuilder.node_count_distinct sampleEnv selfCrossingDump _ rfl⟩

/-- Claim C32 as stated fails: for two ways that share their three inner nodes pass 1
leaves `edge_count_` 7, and `ConstructEdges` makes 8 edges. -/
theorem GraphBuilder.edge_count_below_edges :
    (GraphBuilder.after_passes sampleEnv sharedDump []).edge_count_ = 7 ∧
    (GraphBuilder.after_edges sampleEnv sharedDump []).edges_.length = 8 ∧
    (GraphBuilder.after_edges sampleEnv sharedDump []).edges_.map
        (fun e => (e.sourcenode_, e.targetnode_)) =
      [(1, 2), (2, 3), (3, 4), (4, 5), (6, 2), (2, 3), (3, 4), (4, 7)] := by
  refine ⟨by decide, by decide, by decide⟩

/-- Claim C32, amended: starting from the empty builder, when pass 1 has run over a
sequence of ways without an exception, `edge_count_` is twice the number of recorded ways
plus the number of refs of the recorded ways that repeat a node id seen before (all refs
less the different ones). -/
theorem GraphBuilder.edge_count_estimate (env : Env) (ways : List WayInput) (g : GraphBuilder)
    (h : GraphBuilder.read_ways env GraphBuilder.init ways = .ok g) :
    g.edge_count_ + g.way_nodes.flatten.dedup.length =
      2 * g.ways_.length + g.way_nodes.flatten.length ∧
    g.edge_count_ =
      2 * g.ways_.length + (g.way_nodes.flatten.length - g.way_nodes.flatten.dedup.length) := by
  have hc := GraphBuilder.read_ways_counts ways GraphBuilder.waysMarked_init
    GraphBuilder.counted_init h
  have hn := hc.node
  have ht := hc.total
  have hle : g.way_nodes.flatten.dedup.length ≤ g.way_nodes.flatten.length :=
    (List.dedup_sublist _).length_le
  constructor <;> omega

theorem GraphBuilder.edge_count_estimate_witness :
    (GraphBuilder.after_passes sampleEnv sharedDump []).edge_count_ = 7 ∧
    (routable_refs sampleEnv sharedDump).flatten.length = 10 ∧
    (routable_refs sampleEnv sharedDump).flatten.dedup.length = 7 ∧
    ∃ g, GraphBuilder.read_ways sampleEnv GraphBuilder.init sharedDump = .ok g ∧
      g.edge_count_ + g.way_nodes.flatten.dedup.length =
        2 * g.ways_.length + g.way_nodes.flatten.length ∧
      g.edge_count_ =
        2 * g.ways_.length +
          (g.way_nodes.flatten.length - g.way_nodes.flatten.dedup.length) :=
  ⟨by decide, by decide, by decide, _, rfl,
    GraphBuilder.edge_count_estimate sampleEnv sharedDump _ rfl⟩

/-! ## The incident-edge lists after `ConstructEdges` -/

theorem registered_edge_events_length (edges : List Edge) (v : Nat) : ∀ (i0 : Nat),
    (registered (edge_events i0 edges) v).length =
      (edges.filter (fun e => decide (e.sourcenode_ = v))).length +
        (edges.filter (fun e => decide (e.targetnode_ = v))).length := by
  induction edges with
  | nil => intro i0; rfl
  | cons e rest ih =>
    intro i0
    unfold edge_events
    rw [registered_cons, registered_cons, List.length_append, List.length_append, ih (i0 + 1)]
    by_cases hs : e.sourcenode_ = v <;> by_cases ht : e.targetnode_ = v <;>
      simp [hs, ht] <;> omega

theorem registered_edge_events_sorted (edges : List Edge) (v : Nat) : ∀ (i0 : Nat),
    (registered (edge_events i0 edges) v).Pairwise (fun a b => a ≤ b) := by
  induction edges with
  | nil => intro i0; exact List.Pairwise.nil
  | cons e rest ih =>
    intro i0
    unfold edge_events
    rw [registered_cons, registered_cons]
    have htail : ∀ b ∈ registered (edge_events (i0 + 1) rest) v, i0 ≤ b := by
      intro b hb
      obtain ⟨_, h1, -⟩ := (mem_registered_edge_events rest (i0 + 1) b v).mp hb
      omega
    have hhead : ∀ (c : Prop) [Decidable c], ∀ a ∈ (if c then [i0] else []), a = i0 := by
      intro c _ a ha
      by_cases hc : c
      · rw [if_pos hc] at ha; simpa using ha
      · rw [if_neg hc] at ha; simp at ha
    have hp : ∀ (c : Prop) [Decidable c],
        (if c then [i0] else ([] : List Nat)).Pairwise (fun a b => a ≤ b) := by
      intro c _
      by_cases hc : c
      · rw [if_pos hc]; exact List.pairwise_singleton _ _
      · rw [if_neg hc]; exact List.Pairwise.nil
    rw [List.pairwise_append]
    refine ⟨hp _, ?_, ?_⟩
    · rw [List.pairwise_append]
      refine ⟨hp _, ih (i0 + 1), ?_⟩
      intro a ha b hb
      rw [hhead _ a ha]
      exact htail b hb
    · intro a ha b hb
      rw [hhead _ a ha]
      rcases List.mem_append.mp hb with h | h
      · rw [hhead _ b h]
      · exact htail b h

/-- Claim C35: after pass 1, pass 2 and `ConstructEdges`, if the edge table holds fewer
than 2^32 edges, the `edge_count` of every node is the number of edges that start at the
node plus the number of edges that end at it (a loop edge counts in both), and its
incident-edge list holds the indices of exactly those edges, in ascending order: the index
of an edge is its position in the edge table, which grows by `push_back`. -/
theorem GraphBuilder.incident_edge_lists (env : Env) (ways : List WayInput)
    (nodes : List NodeInput) (g1 g2 g3 : GraphBuilder)
    (h1 : GraphBuilder.read_ways env GraphBuilder.init ways = .ok g1)
    (h2 : GraphBuilder.read_nodes env g1 nodes = .ok g2)
    (h3 : GraphBuilder.ConstructEdges g2 = .ok g3)
    (hsmall : g3.edges_.length < 2 ^ 32) (v : Nat) :
    (g3.nodes_.get v).edge_count =
      (g3.edges_.filter (fun e => decide (e.sourcenode_ = v))).length +
        (g3.edges_.filter (fun e => decide (e.targetnode_ = v))).length ∧
    (g3.nodes_.get v).edges_.Pairwise (fun a b => a ≤ b) ∧
    ∀ i, i ∈ (g3.nodes_.get v).edges_ ↔
      ∃ e, g3.edges_[i]? = some e ∧ (e.sourcenode_ = v ∨ e.targetnode_ = v) := by
  obtain ⟨a1, a2, a3, -⟩ := GraphBuilder.after_read_nodes h1 h2
  have hl := GraphBuilder.constructEdges_linked a1 a2 a3 h3 hsmall
  refine ⟨?_, ?_, ?_⟩
  · unfold OSMNode.edge_count
    rw [hl.incident v]
    exact registered_edge_events_length _ v 0
  · rw [hl.incident v]
    exact registered_edge_events_sorted _ v 0
  · intro i
    rw [hl.incident v, mem_registered_edge_events]
    constructor
    · rintro ⟨e, -, he, hor⟩
      exact ⟨e, he, hor⟩
    · rintro ⟨e, he, hor⟩
      exact ⟨e, Nat.zero_le _, he, hor⟩

theorem GraphBuilder.incident_edge_lists_witness :
    (GraphBuilder.after_edges sampleEnv crossingDump crossingNodes).edges_.map
        (fun e => (e.sourcenode_, e.targetnode_)) = [(10, 11), (11, 12), (20, 11), (11, 22)] ∧
    ((GraphBuilder.after_edges sampleEnv crossingDump crossingNodes).nodes_.get 11).edges_
      = [0, 1, 2, 3] ∧
    ((GraphBuilder.after_edges sampleEnv crossingDump crossingNodes).nodes_.get 11).edge_count
      = 4 ∧
    ((GraphBuilder.after_edges sampleEnv crossingDump crossingNodes).nodes_.get 11).edge_count =
      ((GraphBuilder.after_edges sampleEnv crossingDump crossingNodes).edges_.filter
          (fun e => decide (e.sourcenode_ = 11))).length +
        ((GraphBuilder.after_edges sampleEnv crossingDump crossingNodes).edges_.filter
          (fun e => decide (e.targetnode_ = 11))).length :=
  ⟨by decide, by decide, by decide,
    (GraphBuilder.incident_edge_lists sampleEnv crossingDump crossingNodes _
      (GraphBuilder.after_passes sampleEnv crossingDump crossingNodes)
      (GraphBuilder.after_edges sampleEnv crossingDump crossingNodes) rfl rfl rfl (by decide)
      11).1⟩

/-! ## The tile writer: the unchecked reads -/

/-- Claim C37: after `Build` (with fewer than 2^32 edges), every entry `ei` of the
incident-edge list of a node `n` is an index of the edge table and `n` is the source or
the target of that edge, so that the loop body of `BuildTileSet` reads `edges[edgeindex]`
inside the vector and takes one of its two orientation branches; at every incident edge
of every node of a bucket, the reads that the loop body makes to build the directed edge
(the edge, its way, the two end nodes and the opposing index) all succeed; and for the
other end `v` of the edge, `GetOpposingIndex(v, n)` returns from inside its loop, at the
first entry of the list of `v` that denotes an edge between `v` and `n`. -/
theorem tile_writer_reads_in_range (env : Env) (tenv : TileEnv) (ways : List WayInput)
    (nodes : List NodeInput) (level : Nat) (g : GraphBuilder)
    (hperm : ∀ m, (env.traversal m).Perm m)
    (hbuild : GraphBuilder.Build env ways nodes level = .ok g)
    (hsmall : g.edges_.length < 2 ^ 32) :
    (∀ n ei, ei ∈ (g.nodes_.get n).edges_ →
      ei < g.edges_.length ∧
      ∃ E, g.edges_[ei]? = some E ∧ (E.sourcenode_ = n ∨ E.targetnode_ = n)) ∧
    (∀ tile ∈ g.tasks_.flatten, ∀ u ∈ tile, ∀ ei ∈ (g.nodes_.get u).edges_,
      ∃ d, directed_edge tenv g.nodes_ g.ways_ g.edges_ u ei = .ok d) ∧
    (∀ (n ei v : Nat) (E : Edge), ei ∈ (g.nodes_.get n).edges_ → g.edges_[ei]? = some E →
      E.joins n v →
      ∃ (pre : List Nat) (ej : Nat) (post : List Nat) (E1 : Edge),
        (g.nodes_.get v).edges_ = pre ++ ej :: post ∧
        (∀ x ∈ pre, ∃ e1, g.edges_[x]? = some e1 ∧ ¬ e1.joins v n) ∧
        g.edges_[ej]? = some E1 ∧ E1.joins v n ∧
        GetOpposingIndex v n g.nodes_ g.edges_ = .ok (pre.length % 2 ^ 32)) := by
  have hl : Linked g.nodes_ g.ways_ g.edges_ := GraphBuilder.build_linked hperm hbuild hsmall
  obtain ⟨-, hkeys, -⟩ := GraphBuilder.build_buckets hperm hbuild
  refine ⟨?_, ?_, ?_⟩
  · intro n ei hei
    obtain ⟨E, hE, hor⟩ := hl.edge_of_incident hei
    exact ⟨lt_of_getElem? hE, E, hE, hor⟩
  · intro tile ht u hu ei hei
    obtain ⟨node, hnode⟩ := hkeys u (mem_placed_of_mem_flatten ht hu)
    obtain ⟨E, hE, -⟩ := hl.edge_of_incident hei
    exact hl.directed_edge_ok tenv hnode hE
  · intro n ei v E _ hE hj
    obtain ⟨i1, i2⟩ := hl.incident_of_edge hE
    obtain ⟨⟨a, ha⟩, ⟨b, hb⟩⟩ := hl.ends E (List.getElem?_mem hE)
    have hv : ∃ node, g.nodes_.find v = some node ∧ ei ∈ (g.nodes_.get v).edges_ := by
      rcases hj with ⟨-, h⟩ | ⟨-, h⟩
      · rw [← h]; exact ⟨b, hb, i2⟩
      · rw [← h]; exact ⟨a, ha, i1⟩
    obtain ⟨node, hfind, hin⟩ := hv
    have hget := nodeMap_get_of_find hfind
    have hrange : ∀ ej ∈ node.edges_, ej < g.edges_.length := by
      intro ej hej
      rw [← hget] at hej
      obtain ⟨e, he, -⟩ := hl.edge_of_incident hej
      exact lt_of_getElem? he
    rw [hget] at hin
    obtain ⟨pre, ej, post, E1, c1, c2, c3, c4⟩ :=
      first_joining g.edges_ v n node.edges_ hrange ⟨ei, hin, E, hE, Edge.joins_comm hj⟩
    exact ⟨pre, ej, post, E1, by rw [hget]; exact c1, c2, c3, c4,
      getOpposingIndex_found v n g.nodes_ g.edges_ node pre post ej E1 hfind c1 c2 c3 c4⟩

theorem tile_writer_reads_in_range_witness :
    (∀ m, (sampleEnv.traversal m).Perm m) ∧
    GraphBuilder.Build sampleEnv crossingDump crossingNodes 2 = .ok crossingBuilder ∧
    crossingBuilder.edges_.length = 4 ∧
    crossingBuilder.nodes_.map (fun x => (x.1, x.2.edges_)) =
      [(10, [0]), (11, [0, 1, 2, 3]), (12, [1]), (20, [2]), (22, [3])] ∧
    GetOpposingIndex 11 22 crossingBuilder.nodes_ crossingBuilder.edges_ = .ok 3 ∧
    crossingBuilder.tasks_ = [[[10, 11, 12, 20, 22]], []] ∧
    ∀ tile ∈ crossingBuilder.tasks_.flatten, ∀ u ∈ tile,
      ∀ ei ∈ (crossingBuilder.nodes_.get u).edges_, ∃ d,
        directed_edge sampleTileEnv crossingBuilder.nodes_ crossingBuilder.ways_
          crossingBuilder.edges_ u ei = .ok d :=
  ⟨fun m => List.Perm.refl m, rfl, by decide, by decide, by decide, by decide,
    (tile_writer_reads_in_range sampleEnv sampleTileEnv crossingDump crossingNodes 2
      crossingBuilder (fun m => List.Perm.refl m) rfl (by decide)).2.1⟩

/-! ## The edge that follows a closed edge -/

namespace GraphBuilder

theorem split_way_head (marked : Nat → Bool) (P : Nat → PointLL) (wi first : Nat)
    (rest : List Nat) : ∀ (edge e : Edge),
    (split_way marked P wi first edge rest)[0]? = some e →
    e.sourcenode_ = edge.sourcenode_ ∧ e.wayindex_ = edge.wayindex_ ∧
    marked e.targetnode_ = true ∧
    ∃ mid, (∀ v ∈ mid, marked v = false) ∧
      e.latlngs_ = edge.latlngs_ ++ (mid ++ [e.targetnode_]).map P := by
  induction rest with
  | nil => intro edge e h; simp [split_way] at h
  | cons v r ih =>
    intro edge e h
    unfold split_way at h
    by_cases hv : marked v = true
    · rw [if_pos hv] at h
      simp only [List.getElem?_cons_zero, Option.some.injEq] at h
      rw [← h]
      exact ⟨rfl, rfl, hv, [], by simp, by simp [Edge.AddLL]⟩
    · rw [if_neg hv] at h
      obtain ⟨a1, a2, a3, mid, a4, a5⟩ := ih (edge.AddLL (P v)) e h
      refine ⟨a1, a2, a3, v :: mid, ?_, ?_⟩
      · intro x hx
        rcases List.mem_cons.mp hx with h1 | h1
        · rw [h1]; simpa using hv
        · exact a4 x h1
      · rw [a5]
        simp [Edge.AddLL]

theorem split_way_consecutive (marked : Nat → Bool) (P : Nat → PointLL) (wi first : Nat)
    (rest : List Nat) : ∀ (edge : Edge) (j : Nat) (e e1 : Edge),
    (split_way marked P wi first edge rest)[j]? = some e →
    (split_way marked P wi first edge rest)[j + 1]? = some e1 →
    e1.sourcenode_ = e.targetnode_ ∧ e1.wayindex_ = wi ∧ marked e.targetnode_ = true ∧
    ∃ mid, (∀ v ∈ mid, marked v = false) ∧
      e1.latlngs_ = P first :: (mid ++ [e1.targetnode_]).map P := by
  induction rest with
  | nil => intro edge j e e1 h; simp [split_way] at h
  | cons v r ih =>
    intro edge j e e1 h h1
    unfold split_way at h h1
    by_cases hv : marked v = true
    · rw [if_pos hv] at h h1
      rw [List.getElem?_cons_succ] at h1
      cases j with
      | zero =>
        simp only [List.getElem?_cons_zero, Option.some.injEq] at h
        obtain ⟨a1, a2, -, mid, a4, a5⟩ := split_way_head marked P wi first r _ e1 h1
        rw [← h]
        exact ⟨a1, a2, hv, mid, a4, a5⟩
      | succ j1 =>
        rw [List.getElem?_cons_succ] at h
        exact ih _ j1 e e1 h h1
    · rw [if_neg hv] at h h1
      exact ih _ j e e1 h h1

end GraphBuilder

/-- Claim C30: when `ConstructEdges` has closed an edge `e` of a way at a node that is not
the last node of the way, the edge `e1` that it opens next and later appends to the edge
table starts at the target of `e`, which is marked in the intersection bitmap, has the
index of the same way, and its shape begins with the position of the first node `v0` of
the way: the shape is that point followed by the positions of the way nodes after the
source of `e1` up to its target.  The edges of way `k` are the entries of the edge table
with way index `k`, in order. -/
theorem GraphBuilder.constructEdges_next_edge (g g1 : GraphBuilder)
    (h : GraphBuilder.ConstructEdges g = .ok g1) (hempty : g.edges_ = [])
    (hlen : g.ways_.length ≤ 2 ^ 32) (k : Nat) (w : OSMWay) (hk : g.ways_[k]? = some w)
    (v0 : Nat) (rest : List Nat) (hnodes : w.nodes_ = v0 :: rest) (j : Nat) (e e1 : Edge)
    (hj : (g1.edges_.filter (fun x => decide (x.wayindex_ = k)))[j]? = some e)
    (hj1 : (g1.edges_.filter (fun x => decide (x.wayindex_ = k)))[j + 1]? = some e1) :
    e1.sourcenode_ = e.targetnode_ ∧ e1.wayindex_ = k ∧
    g.intersection_.IsUsed e.targetnode_ = .ok true ∧
    ∃ mid, (∀ v ∈ mid, ¬ g.intersection_.IsUsed v = .ok true) ∧
      e1.latlngs_ = (g1.nodes_.get v0).latlng_ ::
        (mid ++ [e1.targetnode_]).map (fun v => (g1.nodes_.get v).latlng_) := by
  have hw := GraphBuilder.edges_of_way h hempty hlen hk
  rw [hw, hnodes] at hj hj1
  unfold GraphBuilder.way_edges at hj hj1
  obtain ⟨a1, a2, a3, mid, a4, a5⟩ :=
    GraphBuilder.split_way_consecutive _ _ k v0 rest _ j e e1 hj hj1
  refine ⟨a1, a2, by simpa [NodeIdTable.Marked] using a3, mid, ?_, a5⟩
  intro v hv
  have := a4 v hv
  simpa [NodeIdTable.Marked] using this

theorem GraphBuilder.constructEdges_next_edge_witness :
    GraphBuilder.ConstructEdges (GraphBuilder.after_passes sampleEnv forkDump fiveNodes) =
      .ok (GraphBuilder.after_edges sampleEnv forkDump fiveNodes) ∧
    (GraphBuilder.after_passes sampleEnv forkDump fiveNodes).ways_.map (fun w => w.nodes_) =
      [[1, 2, 3, 4], [3, 5]] ∧
    ((GraphBuilder.after_edges sampleEnv forkDump fiveNodes).edges_.filter
        (fun x => decide (x.wayindex_ = 0))).map
      (fun x => (x.sourcenode_, x.targetnode_, x.latlngs_.map (fun p => p.lng))) =
      [(1, 3, [10, 11, 12]), (3, 4, [10, 13])] ∧
    ∃ mid, (∀ v ∈ mid,
        ¬ (GraphBuilder.after_passes sampleEnv forkDump fiveNodes).intersection_.IsUsed v
          = .ok true) ∧
      [({ lat := 50, lng := 10 } : PointLL), { lat := 50, lng := 13 }] =
        ((GraphBuilder.after_edges sampleEnv forkDump fiveNodes).nodes_.get 1).latlng_ ::
          (mid ++ [4]).map
            (fun v => ((GraphBuilder.after_edges sampleEnv forkDump fiveNodes).nodes_.get
              v).latlng_) :=
  ⟨rfl, by decide, by decide,
    (GraphBuilder.constructEdges_next_edge
      (GraphBuilder.after_passes sampleEnv forkDump fiveNodes)
      (GraphBuilder.after_edges sampleEnv forkDump fiveNodes) rfl (by decide) (by decide)
      0 ((GraphBuilder.after_passes sampleEnv forkDump fiveNodes).ways_.getD 0 (OSMWay.new 0))
      (by decide) 1 [2, 3, 4] (by decide) 0
      { sourcenode_ := 1, targetnode_ := 3, wayindex_ := 0,
        latlngs_ := [{ lat := 50, lng := 10 }, { lat := 50, lng := 11 },
                     { lat := 50, lng := 12 }] }
      { sourcenode_ := 3, targetnode_ := 4, wayindex_ := 0,
        latlngs_ := [{ lat := 50, lng := 10 }, { lat := 50, lng := 13 }] }
      (by decide) (by decide)).2.2.2⟩

/-! ## The tile writer: the node records -/

theorem write_nodes_index (tenv : TileEnv) (nodes : NodeMap) (ways : List OSMWay)
    (edges : List Edge) (tile : List Nat) :
    ∀ (st st1 : TileBuild), st.directededgecount < 2 ^ 32 →
    write_nodes tenv nodes ways edges st tile = .ok st1 →
    ∃ new, st1.graphtile = st.graphtile ++ new ∧ new.length = tile.length ∧
      ∀ (i u : Nat) (entry : NodeInfo × List DirectedEdge), tile[i]? = some u →
        new[i]? = some entry →
        entry.1.edge_index = (st.directededgecount +
          ((tile.take i).map (fun x => (nodes.get x).edge_count)).sum) % 2 ^ 32 ∧
        entry.1.edge_count = (nodes.get u).edge_count ∧
        entry.1.latlng = (nodes.get u).latlng_ ∧
        List.Forall₂ (fun ei d => ∃ d0 offset,
          directed_edge tenv nodes ways edges u ei = .ok d0 ∧
          d = d0.set_edgedataoffset offset) (nodes.get u).edges_ entry.2 := by
  induction tile with
  | nil =>
    intro st st1 _ h
    simp only [write_nodes] at h
    cases h
    exact ⟨[], by simp, rfl, fun i u entry hi => by simp at hi⟩
  | cons u rest ih =>
    intro st st1 hlt h
    simp only [write_nodes] at h
    cases hn : write_node tenv nodes ways edges st u with
    | error e => rw [hn] at h; cases h
    | ok st2 =>
      rw [hn] at h
      simp only at h
      obtain ⟨node, des, a1, a4, a5, a6⟩ := write_node_spec tenv nodes ways edges st st2 u hn
      have hget := nodeMap_get_of_find a1
      obtain ⟨new, b1, b2, b3⟩ := ih st2 st1 (by rw [a5]; exact Nat.mod_lt _ (by decide)) h
      refine ⟨({ latlng := node.latlng_, edge_index := st.directededgecount,
                 edge_count := node.edge_count }, des) :: new, ?_, ?_, ?_⟩
      · rw [b1, a4, List.append_assoc]; rfl
      · rw [List.length_cons, List.length_cons, b2]
      · intro i x entry hi he
        cases i with
        | zero =>
          simp only [List.getElem?_cons_zero, Option.some.injEq] at hi he
          rw [← he, ← hi, hget]
          refine ⟨?_, rfl, rfl, ?_⟩
          · simp only [List.take_zero, List.map_nil, List.sum_nil, Nat.add_zero]
            exact (Nat.mod_eq_of_lt hlt).symm
          · apply List.Forall₂.imp _ a6
            rintro ei d ⟨p, d0, offset, -, h2, h3⟩
            exact ⟨d0, offset, h2, h3⟩
        | succ j =>
          rw [List.getElem?_cons_succ] at hi he
          obtain ⟨c1, c2, c3, c4⟩ := b3 j x entry hi he
          refine ⟨?_, c2, c3, c4⟩
          rw [c1, a5, List.take_succ_cons, List.map_cons, List.sum_cons, hget, Nat.mod_add_mod,
            Nat.add_assoc]

/-- Claim C31: in a tile that the `try` block of `BuildTileSet` builds for a bucket, the
node record at position `i` belongs to the node at position `i` of the bucket; its
`edge_index` is the sum of the `edge_count` of the nodes at the positions before `i` (held
in a `uint32_t`, that is modulo 2^32; 0 for the first node), its `edge_count` is that of
the node, and its directed edges are, entry by entry and in the order of the
incident-edge list of the node, the directed edges that the loop body builds from the
entries. -/
theorem node_edge_index (tenv : TileEnv) (nodes : NodeMap) (ways : List OSMWay)
    (edges : List Edge) (tile : List Nat) (st : TileBuild)
    (hb : build_tile tenv nodes ways edges tile = .ok st) :
    st.graphtile.length = tile.length ∧
    ∀ (i u : Nat) (entry : NodeInfo × List DirectedEdge), tile[i]? = some u →
      st.graphtile[i]? = some entry →
      entry.1.edge_index =
        ((tile.take i).map (fun x => (nodes.get x).edge_count)).sum % 2 ^ 32 ∧
      (((tile.take i).map (fun x => (nodes.get x).edge_count)).sum < 2 ^ 32 →
        entry.1.edge_index = ((tile.take i).map (fun x => (nodes.get x).edge_count)).sum) ∧
      entry.1.edge_count = (nodes.get u).edge_count ∧
      entry.2.length = (nodes.get u).edge_count ∧
      List.Forall₂ (fun ei d => ∃ d0 offset,
        directed_edge tenv nodes ways edges u ei = .ok d0 ∧
        d = d0.set_edgedataoffset offset) (nodes.get u).edges_ entry.2 := by
  obtain ⟨new, h1, h2, h3⟩ :=
    write_nodes_index tenv nodes ways edges tile TileBuild.new st (by decide) hb
  have hg : st.graphtile = new := by rw [h1]; rfl
  rw [hg]
  refine ⟨h2, ?_⟩
  intro i u entry hi he
  obtain ⟨c1, c2, -, c4⟩ := h3 i u entry hi he
  have c1' : entry.1.edge_index =
      ((tile.take i).map (fun x => (nodes.get x).edge_count)).sum % 2 ^ 32 := by
    rw [c1]
    show (0 + _) % 2 ^ 32 = _
    rw [Nat.zero_add]
  refine ⟨c1', ?_, c2, ?_, c4⟩
  · intro hlt
    rw [c1', Nat.mod_eq_of_lt hlt]
  · rw [← c4.length_eq]
    rfl

theorem node_edge_index_witness :
    build_tile sampleTileEnv crossingBuilder.nodes_ crossingBuilder.ways_
      crossingBuilder.edges_ [10, 11, 12, 20, 22] =
      .ok (built_tile sampleTileEnv crossingBuilder [10, 11, 12, 20, 22]) ∧
    [10, 11, 12, 20, 22].map (fun x => (crossingBuilder.nodes_.get x).edge_count) =
      [1, 4, 1, 1, 1] ∧
    (built_tile sampleTileEnv crossingBuilder [10, 11, 12, 20, 22]).graphtile.map
      (fun x => (x.1.edge_index, x.1.edge_count, x.2.length)) =
      [(0, 1, 1), (1, 4, 4), (5, 1, 1), (6, 1, 1), (7, 1, 1)] ∧
    (built_tile sampleTileEnv crossingBuilder [10, 11, 12, 20, 22]).graphtile.length =
      [10, 11, 12, 20, 22].length ∧
    (((built_tile sampleTileEnv crossingBuilder [10, 11, 12, 20, 22]).graphtile.getD 2
        ({ latlng := OSMNode.defaultLL, edge_index := 0, edge_count := 0 }, [])).1.edge_index =
      (([10, 11, 12, 20, 22].take 2).map
        (fun x => (crossingBuilder.nodes_.get x).edge_count)).sum % 2 ^ 32) :=
  ⟨by decide, by decide, by decide,
    (node_edge_index sampleTileEnv crossingBuilder.nodes_ crossingBuilder.ways_
      crossingBuilder.edges_ [10, 11, 12, 20, 22]
      (built_tile sampleTileEnv crossingBuilder [10, 11, 12, 20, 22]) (by decide)).1,
    ((node_edge_index sampleTileEnv crossingBuilder.nodes_ crossingBuilder.ways_
      crossingBuilder.edges_ [10, 11, 12, 20, 22]
      (built_tile sampleTileEnv crossingBuilder [10, 11, 12, 20, 22]) (by decide)).2 2 12
      ((built_tile sampleTileEnv crossingBuilder [10, 11, 12, 20, 22]).graphtile.getD 2
        ({ latlng := OSMNode.defaultLL, edge_index := 0, edge_count := 0 }, []))
      (by decide) (by decide)).1⟩

/-! ## The outcome of a worker -/

theorem build_tiles_log_skip (tenv : TileEnv) (nodes : NodeMap) (ways : List OSMWay)
    (edges : List Edge) (written : Nat) (log : List (Option GraphId × TileBuild))
    (rest : List (List Nat)) :
    build_tiles_log tenv nodes ways edges written log ([] :: rest) =
      build_tiles_log tenv nodes ways edges written log rest := rfl

theorem build_tiles_log_step (tenv : TileEnv) (nodes : NodeMap) (ways : List OSMWay)
    (edges : List Edge) (written : Nat) (log : List (Option GraphId × TileBuild))
    (front : Nat) (more : List Nat) (rest : List (List Nat)) :
    build_tiles_log tenv nodes ways edges written log ((front :: more) :: rest) =
      match nodes.find front with
      | none => (log, .error .out_of_bounds)
      | some first =>
        match build_tile tenv nodes ways edges (front :: more) with
        | .error e => (log, .error e)
        | .ok st =>
          match tenv.StoreTileData (Tile_Base first.graphid_) st with
          | some what => (log, .error (.runtime_error what))
          | none =>
            build_tiles_log tenv nodes ways edges ((written + tenv.size st) % 2 ^ 64)
              (log ++ [(Tile_Base first.graphid_, st)]) rest := rfl

theorem build_tiles_skip (tenv : TileEnv) (nodes : NodeMap) (ways : List OSMWay)
    (edges : List Edge) (written : Nat) (rest : List (List Nat)) :
    build_tiles tenv nodes ways edges written ([] :: rest) =
      build_tiles tenv nodes ways edges written rest := rfl

theorem build_tiles_step (tenv : TileEnv) (nodes : NodeMap) (ways : List OSMWay)
    (edges : List Edge) (written : Nat) (front : Nat) (more : List Nat)
    (rest : List (List Nat)) :
    build_tiles tenv nodes ways edges written ((front :: more) :: rest) =
      match nodes.find front with
      | none => .error .out_of_bounds
      | some first =>
        match build_tile tenv nodes ways edges (front :: more) with
        | .error e => .error e
        | .ok st =>
          match tenv.StoreTileData (Tile_Base first.graphid_) st with
          | some what => .error (.runtime_error what)
          | none => build_tiles tenv nodes ways edges ((written + tenv.size st) % 2 ^ 64) rest :=
  rfl

theorem build_tiles_log_result (tenv : TileEnv) (nodes : NodeMap) (ways : List OSMWay)
    (edges : List Edge) (task : List (List Nat)) :
    ∀ (written : Nat) (log : List (Option GraphId × TileBuild)),
    (build_tiles_log tenv nodes ways edges written log task).2 =
      build_tiles tenv nodes ways edges written task := by
  induction task with
  | nil => intro written log; rfl
  | cons tile rest ih =>
    intro written log
    cases tile with
    | nil =>
      rw [build_tiles_log_skip, build_tiles_skip]
      exact ih written log
    | cons front more =>
      rw [build_tiles_log_step, build_tiles_step]
      cases hf : nodes.find front with
      | none => simp only [hf]
      | some first =>
        cases hb : build_tile tenv nodes ways edges (front :: more) with
        | error e => simp only [hf, hb]
        | ok st =>
          cases hs : tenv.StoreTileData (Tile_Base first.graphid_) st with
          | some what => simp only [hf, hb, hs]
          | none =>
            simp only [hf, hb, hs]
            exact ih _ _

theorem build_tiles_log_append (tenv : TileEnv) (nodes : NodeMap) (ways : List OSMWay)
    (edges : List Edge) (pre rest : List (List Nat)) :
    ∀ (written : Nat) (log : List (Option GraphId × TileBuild)),
    build_tiles_log tenv nodes ways edges written log (pre ++ rest) =
      match build_tiles_log tenv nodes ways edges written log pre with
      | (log1, .ok written1) => build_tiles_log tenv nodes ways edges written1 log1 rest
      | (log1, .error e) => (log1, .error e) := by
  induction pre with
  | nil => intro written log; rfl
  | cons tile more ih =>
    intro written log
    cases tile with
    | nil =>
      show build_tiles_log tenv nodes ways edges written log ([] :: (more ++ rest)) = _
      rw [build_tiles_log_skip, build_tiles_log_skip]
      exact ih written log
    | cons front tl =>
      show build_tiles_log tenv nodes ways edges written log
        ((front :: tl) :: (more ++ rest)) = _
      rw [build_tiles_log_step, build_tiles_log_step]
      cases hf : nodes.find front with
      | none => simp only [hf]
      | some first =>
        cases hb : build_tile tenv nodes ways edges (front :: tl) with
        | error e => simp only [hf, hb]
        | ok st =>
          cases hs : tenv.StoreTileData (Tile_Base first.graphid_) st with
          | some what => simp only [hf, hb, hs]
          | none =>
            simp only [hf, hb, hs]
            exact ih _ _

theorem build_tiles_log_error (tenv : TileEnv) (nodes : NodeMap) (ways : List OSMWay)
    (edges : List Edge) (tile : List Nat) (written : Nat)
    (log log1 : List (Option GraphId × TileBuild)) (e : Failure)
    (h : build_tiles_log tenv nodes ways edges written log [tile] = (log1, .error e)) :
    log1 = log := by
  cases tile with
  | nil =>
    simp [build_tiles_log] at h
  | cons front more =>
    rw [build_tiles_log_step] at h
    cases hf : nodes.find front with
    | none => simp only [hf, Prod.mk.injEq] at h; exact h.1.symm
    | some first =>
      cases hb : build_tile tenv nodes ways edges (front :: more) with
      | error e1 => simp only [hf, hb, Prod.mk.injEq] at h; exact h.1.symm
      | ok st =>
        cases hs : tenv.StoreTileData (Tile_Base first.graphid_) st with
        | some what => simp only [hf, hb, hs, Prod.mk.injEq] at h; exact h.1.symm
        | none =>
          simp [hf, hb, hs, build_tiles_log] at h

theorem build_tiles_log_ok (tenv : TileEnv) (nodes : NodeMap) (ways : List OSMWay)
    (edges : List Edge) (task : List (List Nat)) :
    ∀ (written n : Nat) (log log1 : List (Option GraphId × TileBuild)),
    written < 2 ^ 64 →
    build_tiles_log tenv nodes ways edges written log task = (log1, .ok n) →
    ∃ new, log1 = log ++ new ∧
      n = (written + (new.map (fun x => tenv.size x.2)).sum) % 2 ^ 64 ∧
      List.Forall₂ (fun tile entry => ∃ front first, tile.head? = some front ∧
          nodes.find front = some first ∧ entry.1 = Tile_Base first.graphid_ ∧
          build_tile tenv nodes ways edges tile = .ok entry.2 ∧
          tenv.StoreTileData entry.1 entry.2 = none)
        (task.filter (fun t => !t.isEmpty)) new := by
  induction task with
  | nil =>
    intro written n log log1 hw h
    unfold build_tiles_log at h
    simp only [Prod.mk.injEq, Except.ok.injEq] at h
    refine ⟨[], by simp [h.1], ?_, by simp⟩
    rw [← h.2, List.map_nil, List.sum_nil, Nat.add_zero, Nat.mod_eq_of_lt hw]
  | cons tile rest ih =>
    intro written n log log1 hw h
    cases tile with
    | nil =>
      rw [build_tiles_log_skip] at h
      obtain ⟨new, h1, h2, h3⟩ := ih written n log log1 hw h
      exact ⟨new, h1, h2, by simpa using h3⟩
    | cons front more =>
      rw [build_tiles_log_step] at h
      cases hf : nodes.find front with
      | none => simp [hf] at h
      | some first =>
        cases hb : build_tile tenv nodes ways edges (front :: more) with
        | error e1 => simp [hf, hb] at h
        | ok st =>
          cases hs : tenv.StoreTileData (Tile_Base first.graphid_) st with
          | some what => simp [hf, hb, hs] at h
          | none =>
            simp only [hf, hb, hs] at h
            obtain ⟨new, h1, h2, h3⟩ := ih _ n _ log1 (Nat.mod_lt _ (by norm_num)) h
            refine ⟨(Tile_Base first.graphid_, st) :: new, by simp [h1], ?_, ?_⟩
            · rw [h2, Nat.mod_add_mod]
              simp [Nat.add_assoc]
            · simp only [List.filter_cons, List.isEmpty_cons, Bool.not_false, if_true]
              exact List.Forall₂.cons ⟨front, first, rfl, hf, rfl, hb, hs⟩ h3

theorem build_tiles_log_cases (tenv : TileEnv) (nodes : NodeMap) (ways : List OSMWay)
    (edges : List Edge) (task : List (List Nat)) :
    ∀ (written : Nat) (log : List (Option GraphId × TileBuild)),
    (∃ log1 n, build_tiles_log tenv nodes ways edges written log task = (log1, .ok n)) ∨
    ∃ pre tile post log1 n e, task = pre ++ tile :: post ∧
      build_tiles_log tenv nodes ways edges written log pre = (log1, .ok n) ∧
      build_tiles_log tenv nodes ways edges n log1 [tile] = (log1, .error e) := by
  induction task with
  | nil => intro written log; exact Or.inl ⟨log, written, rfl⟩
  | cons tile rest ih =>
    intro written log
    have happ := build_tiles_log_append tenv nodes ways edges [tile] rest written log
    rw [List.singleton_append] at happ
    rcases hr : build_tiles_log tenv nodes ways edges written log [tile] with ⟨l1, r⟩
    cases r with
    | error e =>
      have := build_tiles_log_error tenv nodes ways edges tile written log l1 e hr
      subst this
      exact Or.inr ⟨[], tile, rest, l1, written, e, rfl, rfl, hr⟩
    | ok w1 =>
      rw [hr] at happ
      simp only at happ
      rcases ih w1 l1 with ⟨log1, n, h⟩ | ⟨pre, t, post, log1, n, e, h1, h2, h3⟩
      · exact Or.inl ⟨log1, n, happ.trans h⟩
      · refine Or.inr ⟨tile :: pre, t, post, log1, n, e, by rw [h1]; rfl, ?_, h3⟩
        have happ2 := build_tiles_log_append tenv nodes ways edges [tile] pre written log
        rw [List.singleton_append, hr] at happ2
        exact happ2.trans h2

/-- Claim C36: the outcome of `BuildTileSet`.  The loop with the record of the stored
tiles has the result of `BuildTileSet`.  When the tiles before some tile are built and
stored and that tile fails, by an exception while it is built or stored, the result of
the worker is that exception whatever follows in the task list, and the stored tiles are
those stored before the failing tile: no later tile is built or stored.  When the worker
ends with a byte count, that count is the sum of the sizes of the tiles that it stored
(modulo 2^64), and the stored tiles are those of the non-empty buckets, one for each in
order, each stored under the tile id of its first node: an empty bucket stores nothing.
Every run is of one of the two kinds. -/
theorem buildTileSet_outcome (tenv : TileEnv) (nodes : NodeMap) (ways : List OSMWay)
    (edges : List Edge) :
    (∀ task, (build_tiles_log tenv nodes ways edges 0 [] task).2 =
      BuildTileSet tenv task nodes ways edges) ∧
    (∀ (pre post : List (List Nat)) (tile : List Nat)
      (log log1 : List (Option GraphId × TileBuild)) (n : Nat) (e : Failure),
      build_tiles_log tenv nodes ways edges 0 [] pre = (log, .ok n) →
      build_tiles_log tenv nodes ways edges n log [tile] = (log1, .error e) →
      build_tiles_log tenv nodes ways edges 0 [] (pre ++ tile :: post) = (log, .error e) ∧
      BuildTileSet tenv (pre ++ tile :: post) nodes ways edges = .error e) ∧
    (∀ (task : List (List Nat)) (n : Nat), BuildTileSet tenv task nodes ways edges = .ok n →
      ∃ log, build_tiles_log tenv nodes ways edges 0 [] task = (log, .ok n) ∧
        n = (log.map (fun x => tenv.size x.2)).sum % 2 ^ 64 ∧
        List.Forall₂ (fun tile entry => ∃ front first, tile.head? = some front ∧
            nodes.find front = some first ∧ entry.1 = Tile_Base first.graphid_ ∧
            build_tile tenv nodes ways edges tile = .ok entry.2 ∧
            tenv.StoreTileData entry.1 entry.2 = none)
          (task.filter (fun t => !t.isEmpty)) log) ∧
    (∀ task, (∃ n, BuildTileSet tenv task nodes ways edges = .ok n) ∨
      ∃ pre tile post log n e, task = pre ++ tile :: post ∧
        build_tiles_log tenv nodes ways edges 0 [] pre = (log, .ok n) ∧
        build_tiles_log tenv nodes ways edges n log [tile] = (log, .error e)) := by
  have hres : ∀ task, (build_tiles_log tenv nodes ways edges 0 [] task).2 =
      BuildTileSet tenv task nodes ways edges :=
    fun task => build_tiles_log_result tenv nodes ways edges task 0 []
  refine ⟨hres, ?_, ?_, ?_⟩
  · intro pre post tile log log1 n e h1 h2
    have hl := build_tiles_log_error tenv nodes ways edges tile n log log1 e h2
    subst hl
    have h3 : build_tiles_log tenv nodes ways edges 0 [] (pre ++ tile :: post) =
        (log1, .error e) := by
      rw [build_tiles_log_append, h1]
      simp only
      have happ := build_tiles_log_append tenv nodes ways edges [tile] post n log1
      rw [List.singleton_append, h2] at happ
      exact happ
    refine ⟨h3, ?_⟩
    rw [← hres, h3]
  · intro task n h
    rw [← hres] at h
    rcases hr : build_tiles_log tenv nodes ways edges 0 [] task with ⟨log, r⟩
    rw [hr] at h
    simp only at h
    subst h
    obtain ⟨new, h1, h2, h3⟩ :=
      build_tiles_log_ok tenv nodes ways edges task 0 n [] log (by norm_num) hr
    rw [List.nil_append] at h1
    subst h1
    exact ⟨log, rfl, by simpa using h2, h3⟩
  · intro task
    rcases build_tiles_log_cases tenv nodes ways edges task 0 [] with
      ⟨log1, n, h⟩ | ⟨pre, t, post, log1, n, e, h1, h2, h3⟩
    · left
      refine ⟨n, ?_⟩
      rw [← hres, h]
    · exact Or.inr ⟨pre, t, post, log1, n, e, h1, h2, h3⟩

/-- The worker of scenario S2 on the grid of `tiledEnv`, with a store that takes only
tile 0: after the tile of node 10 and an empty bucket, the tile of node 12 fails; the
worker ends with that exception and has stored one tile, although its task list goes on.
With a store that takes every tile, the buckets `[10]`, `[]` and `[12]` give two tiles
and the sum of their sizes. -/
theorem buildTileSet_outcome_witness :
    build_tiles_log partialTileEnv crossingTiled.nodes_ crossingTiled.ways_
      crossingTiled.edges_ 0 [] [[10], []] =
      ([(some { tileid := 0, level := 2, id := 0 },
          built_tile partialTileEnv crossingTiled [10])], .ok 32) ∧
    build_tiles_log partialTileEnv crossingTiled.nodes_ crossingTiled.ways_
      crossingTiled.edges_ 32
      [(some { tileid := 0, level := 2, id := 0 },
          built_tile partialTileEnv crossingTiled [10])] [[12]] =
      ([(some { tileid := 0, level := 2, id := 0 },
          built_tile partialTileEnv crossingTiled [10])],
        .error (.runtime_error "cannot write tile")) ∧
    (build_tiles_log partialTileEnv crossingTiled.nodes_ crossingTiled.ways_
      crossingTiled.edges_ 0 [] ([[10], []] ++ [12] :: [[11, 20, 22]]) =
      ([(some { tileid := 0, level := 2, id := 0 },
          built_tile partialTileEnv crossingTiled [10])],
        .error (.runtime_error "cannot write tile")) ∧
      BuildTileSet partialTileEnv ([[10], []] ++ [12] :: [[11, 20, 22]])
        crossingTiled.nodes_ crossingTiled.ways_ crossingTiled.edges_ =
        .error (.runtime_error "cannot write tile")) ∧
    BuildTileSet sampleTileEnv [[10], [], [12]] crossingTiled.nodes_ crossingTiled.ways_
      crossingTiled.edges_ = .ok 64 ∧
    ∃ log, build_tiles_log sampleTileEnv crossingTiled.nodes_ crossingTiled.ways_
        crossingTiled.edges_ 0 [] [[10], [], [12]] = (log, .ok 64) ∧
      64 = (log.map (fun x => sampleTileEnv.size x.2)).sum % 2 ^ 64 ∧
      List.Forall₂ (fun tile entry => ∃ front first, tile.head? = some front ∧
          crossingTiled.nodes_.find front = some first ∧
          entry.1 = Tile_Base first.graphid_ ∧
          build_tile sampleTileEnv crossingTiled.nodes_ crossingTiled.ways_
            crossingTiled.edges_ tile = .ok entry.2 ∧
          sampleTileEnv.StoreTileData entry.1 entry.2 = none)
        ([[10], [], [12]].filter (fun t => !t.isEmpty)) log :=
  ⟨by decide, by decide,
    (buildTileSet_outcome partialTileEnv crossingTiled.nodes_ crossingTiled.ways_
      crossingTiled.edges_).2.1 [[10], []] [[11, 20, 22]] [12]
      [(some { tileid := 0, level := 2, id := 0 }, built_tile partialTileEnv crossingTiled [10])]
      [(some { tileid := 0, level := 2, id := 0 }, built_tile partialTileEnv crossingTiled [10])]
      32 (.runtime_error "cannot write tile") (by decide) (by decide),
    by decide,
    (buildTileSet_outcome sampleTileEnv crossingTiled.nodes_ crossingTiled.ways_
      crossingTiled.edges_).2.2.1 [[10], [], [12]] 64 (by decide)⟩

/-! ## The frame of `way_callback` -/

/-- Claim C26 (as stated, refuted): a way with two refs in range and a non-empty transform
result whose `road_class` value is not a number makes `std::stoi` throw in the tag loop,
before `ways_.emplace_back`: the call ends with `std::invalid_argument` and appends no
way. -/
theorem GraphBuilder.way_callback_tag_throws :
    WayInput.routable sampleEnv ⟨1, [("road_class", "abc")], [1, 2]⟩ = true ∧
    (∀ v ∈ [1, 2], v ≤ GraphBuilder.init.shape_.maxosmid_) ∧
    GraphBuilder.way_callback sampleEnv GraphBuilder.init 1 [("road_class", "abc")] [1, 2] =
      .error (.invalid_argument "stoi") := by
  refine ⟨by decide, by decide, rfl⟩

/-- Claim C26 (amended): in a state of pass 1, `way_callback` on a way with fewer than two
refs, or whose tag transform result is empty, returns with the builder unchanged; on a way
with at least two refs, all in range, a non-empty transform result and tag values that
convert, it returns with exactly one way appended at the end of the way table, which has
the id of the way and `refs` as its node sequence, the earlier entries unchanged. -/
theorem GraphBuilder.way_callback_frame (env : Env) (g : GraphBuilder) (osmid : Nat)
    (tags : Tags) (refs : List Nat) (hg : g.WaysMarked) :
    ((refs.length < 2 ∨ (env.TransformInLua true tags).length = 0) →
      GraphBuilder.way_callback env g osmid tags refs = .ok g) ∧
    (2 ≤ refs.length → (env.TransformInLua true tags).length ≠ 0 →
      (∀ v ∈ refs, v ≤ g.shape_.maxosmid_) →
      WayInput.tags_convert env ⟨osmid, tags, refs⟩ = true →
      ∃ g1 w, GraphBuilder.way_callback env g osmid tags refs = .ok g1 ∧
        g1.ways_ = g.ways_ ++ [w] ∧ w.osmwayid_ = osmid ∧ w.nodes_ = refs ∧
        g1.ways_.length = g.ways_.length + 1 ∧
        ∀ i, i < g.ways_.length → g1.ways_[i]? = g.ways_[i]?) := by
  constructor
  · intro h
    unfold GraphBuilder.way_callback
    by_cases hlen : refs.length < 2
    · rw [if_pos hlen]
    rw [if_neg hlen]
    simp only []
    rcases h with h | h
    · exact absurd h hlen
    · rw [if_pos h]
  · intro h2 hres hle hconv
    have hrout : WayInput.routable env ⟨osmid, tags, refs⟩ = true := by
      simp [WayInput.routable, h2, hres]
    have hacc : WayInput.accepted env g.shape_.maxosmid_ ⟨osmid, tags, refs⟩ = true := by
      simp only [WayInput.accepted, hrout, Bool.not_true, Bool.false_or, Bool.and_eq_true,
        List.all_eq_true, decide_eq_true_eq]
      exact ⟨hle, hconv⟩
    obtain ⟨g1, hcall⟩ := GraphBuilder.way_callback_ok hg ⟨osmid, tags, refs⟩ hacc
    obtain ⟨-, -, -, added, hways, hnodes, hids⟩ := GraphBuilder.way_callback_spec hg hcall
    rw [if_pos hrout] at hnodes hids
    cases added with
    | nil => simp at hnodes
    | cons w rest =>
      cases rest with
      | cons w2 rest2 => simp at hnodes
      | nil =>
        simp only [List.map_cons, List.map_nil, List.cons.injEq, and_true] at hnodes hids
        refine ⟨g1, w, hcall, hways, hids, hnodes, by simp [hways], ?_⟩
        intro i hi
        rw [hways, List.getElem?_append_left hi]

/-- On the empty builder: the way `[1]` and a way without tags change nothing, and the way
1 over `[1, 2]` becomes the only entry of the way table. -/
theorem GraphBuilder.way_callback_frame_witness :
    GraphBuilder.way_callback sampleEnv GraphBuilder.init 1 [("highway", "residential")] [1] =
      .ok GraphBuilder.init ∧
    GraphBuilder.way_callback sampleEnv GraphBuilder.init 1 [] [1, 2] =
      .ok GraphBuilder.init ∧
    ∃ g1 w, GraphBuilder.way_callback sampleEnv GraphBuilder.init 1
        [("highway", "residential")] [1, 2] = .ok g1 ∧
      g1.ways_ = GraphBuilder.init.ways_ ++ [w] ∧ w.osmwayid_ = 1 ∧ w.nodes_ = [1, 2] ∧
      g1.ways_.length = GraphBuilder.init.ways_.length + 1 ∧
      ∀ i, i < GraphBuilder.init.ways_.length → g1.ways_[i]? = GraphBuilder.init.ways_[i]? :=
  ⟨(GraphBuilder.way_callback_frame sampleEnv GraphBuilder.init 1
      [("highway", "residential")] [1] GraphBuilder.waysMarked_init).1 (Or.inl (by decide)),
    (GraphBuilder.way_callback_frame sampleEnv GraphBuilder.init 1 [] [1, 2]
      GraphBuilder.waysMarked_init).1 (Or.inr (by decide)),
    (GraphBuilder.way_callback_frame sampleEnv GraphBuilder.init 1
      [("highway", "residential")] [1, 2] GraphBuilder.waysMarked_init).2
      (by decide) (by decide) (by decide) (by decide)⟩

/-! ## The attribute filter -/

namespace TripPathController

theorem find_set_all (value : Bool) (c : TripPathController) (key : String) :
    find (set_all value c).attributes key = (find c.attributes key).map (fun _ => value) := by
  unfold set_all
  simp only
  induction c.attributes with
  | nil => rfl
  | cons p rest ih =>
    obtain ⟨k, v⟩ := p
    simp only [List.map_cons, find]
    by_cases h : k = key
    · simp [h]
    · simp [h, ih]

theorem at_assign_ok (key : String) (value : Bool) : ∀ (attrs : List (String × Bool)),
    find attrs key ≠ none →
    ∃ attrs1, at_assign attrs key value = .ok attrs1 ∧
      ∀ k, find attrs1 k = if k = key then some value else find attrs k := by
  intro attrs
  induction attrs with
  | nil => intro h; exact absurd rfl h
  | cons p rest ih =>
    obtain ⟨k0, v0⟩ := p
    intro h
    simp only [find] at h
    simp only [at_assign]
    by_cases hk : k0 = key
    · rw [if_pos hk]
      refine ⟨_, rfl, ?_⟩
      intro k
      simp only [find]
      by_cases hkk : k = key
      · simp [hkk, hk]
      · have : ¬ k0 = k := fun e => hkk (e ▸ hk)
        simp [hkk, this]
    · rw [if_neg hk] at h ⊢
      obtain ⟨r, hr, hfind⟩ := ih h
      rw [hr]
      refine ⟨_, rfl, ?_⟩
      intro k
      simp only [find]
      by_cases hkk : k0 = k
      · have : ¬ k = key := fun e => hk (hkk.trans e)
        simp [hkk, this]
      · simp only [if_neg hkk]
        exact hfind k

theorem at_assign_error (key : String) (value : Bool) : ∀ (attrs : List (String × Bool)),
    find attrs key = none → at_assign attrs key value = .error (.out_of_range key) := by
  intro attrs
  induction attrs with
  | nil => intro _; rfl
  | cons p rest ih =>
    obtain ⟨k0, v0⟩ := p
    intro h
    simp only [find] at h
    simp only [at_assign]
    by_cases hk : k0 = key
    · rw [if_pos hk] at h; cases h
    · rw [if_neg hk] at h ⊢
      rw [ih h]

theorem assign_all_ok (value : Bool) (names : List String) :
    ∀ (attrs : List (String × Bool)), (∀ n ∈ names, find attrs n ≠ none) →
    ∃ attrs1, assign_all value attrs names = .ok attrs1 ∧
      ∀ k, find attrs1 k = if k ∈ names then some value else find attrs k := by
  induction names with
  | nil => intro attrs _; exact ⟨attrs, rfl, fun k => by simp⟩
  | cons n rest ih =>
    intro attrs h
    obtain ⟨a1, ha1, hf1⟩ := at_assign_ok n value attrs (h n (List.mem_cons_self _ _))
    have hrest : ∀ m ∈ rest, find a1 m ≠ none := by
      intro m hm
      rw [hf1 m]
      by_cases e : m = n
      · simp [e]
      · rw [if_neg e]; exact h m (List.mem_cons_of_mem _ hm)
    obtain ⟨a2, ha2, hf2⟩ := ih a1 hrest
    refine ⟨a2, ?_, ?_⟩
    · simp only [assign_all, ha1]
      exact ha2
    · intro k
      rw [hf2 k, hf1 k]
      by_cases e1 : k ∈ rest
      · simp [e1]
      · by_cases e2 : k = n
        · simp [e2]
        · simp [e1, e2]

theorem assign_all_error (value : Bool) (bad : String) (post : List String) :
    ∀ (pre : List String) (attrs : List (String × Bool)),
    (∀ n ∈ pre, find attrs n ≠ none) → find attrs bad = none →
    assign_all value attrs (pre ++ bad :: post) = .error (.out_of_range bad) := by
  intro pre
  induction pre with
  | nil =>
    intro attrs _ hbad
    simp only [List.nil_append, assign_all, at_assign_error bad value attrs hbad]
  | cons n rest ih =>
    intro attrs h hbad
    obtain ⟨a1, ha1, hf1⟩ := at_assign_ok n value attrs (h n (List.mem_cons_self _ _))
    have hne : bad ≠ n := by
      intro e
      exact h n (List.mem_cons_self _ _) (e ▸ hbad)
    have hrest : ∀ m ∈ rest, find a1 m ≠ none := by
      intro m hm
      rw [hf1 m]
      by_cases e : m = n
      · simp [e]
      · rw [if_neg e]; exact h m (List.mem_cons_of_mem _ hm)
    have hbad1 : find a1 bad = none := by rw [hf1 bad, if_neg hne]; exact hbad
    simp only [List.cons_append, assign_all, ha1]
    exact ih a1 hrest hbad1

end TripPathController

/-- Claim C28: `filter_attributes`, for an `enable_all` that sets the flag of every key to
`true` and a `disable_all` that sets it to `false`, both keeping the keys.  With the action
`include` and listed names that are all known keys, the call returns, the keys are those
of before, and a key is enabled exactly when it is listed and disabled otherwise; with
`exclude`, a key is disabled exactly when it is listed and enabled otherwise; with any
other action, or none, the call returns with every key enabled.  With `include` or
`exclude`, the first listed name that is not a known key ends the call with
`std::out_of_range` for that name: no key is added. -/
theorem thor_worker_t.filter_attributes_spec
    (enable_all disable_all : TripPathController → TripPathController)
    (henable : ∀ c key, TripPathController.find (enable_all c).attributes key =
      (TripPathController.find c.attributes key).map (fun _ => true))
    (hdisable : ∀ c key, TripPathController.find (disable_all c).attributes key =
      (TripPathController.find c.attributes key).map (fun _ => false))
    (controller : TripPathController) :
    (∀ names, (∀ n ∈ names, controller.known n) →
      ∃ c1, thor_worker_t.filter_attributes enable_all disable_all
          ⟨some "include", some names⟩ controller = .ok c1 ∧
        ∀ key, (c1.known key ↔ controller.known key) ∧
          (controller.known key → (c1.enabled key ↔ key ∈ names) ∧
            (c1.disabled key ↔ key ∉ names))) ∧
    (∀ names, (∀ n ∈ names, controller.known n) →
      ∃ c1, thor_worker_t.filter_attributes enable_all disable_all
          ⟨some "exclude", some names⟩ controller = .ok c1 ∧
        ∀ key, (c1.known key ↔ controller.known key) ∧
          (controller.known key → (c1.disabled key ↔ key ∈ names) ∧
            (c1.enabled key ↔ key ∉ names))) ∧
    (∀ action names, action ≠ some "include" → action ≠ some "exclude" →
      ∃ c1, thor_worker_t.filter_attributes enable_all disable_all
          ⟨action, names⟩ controller = .ok c1 ∧
        ∀ key, (c1.known key ↔ controller.known key) ∧
          (controller.known key → c1.enabled key)) ∧
    (∀ action pre bad post, action = "include" ∨ action = "exclude" →
      (∀ n ∈ pre, controller.known n) → ¬ controller.known bad →
      thor_worker_t.filter_attributes enable_all disable_all
        ⟨some action, some (pre ++ bad :: post)⟩ controller = .error (.out_of_range bad)) := by
  have hkd : ∀ key, TripPathController.find (disable_all controller).attributes key ≠ none ↔
      TripPathController.find controller.attributes key ≠ none := by
    intro key; rw [hdisable]; cases TripPathController.find controller.attributes key <;> simp
  have hke : ∀ key, TripPathController.find (enable_all controller).attributes key ≠ none ↔
      TripPathController.find controller.attributes key ≠ none := by
    intro key; rw [henable]; cases TripPathController.find controller.attributes key <;> simp
  refine ⟨?_, ?_, ?_, ?_⟩
  · intro names hall
    obtain ⟨a1, ha1, hf⟩ := TripPathController.assign_all_ok true names
      (disable_all controller).attributes (fun n hn => (hkd n).mpr (hall n hn))
    refine ⟨{ disable_all controller with attributes := a1 }, ?_, ?_⟩
    · unfold thor_worker_t.filter_attributes
      simp only [Option.getD_some]
      rw [if_pos (by decide)]
      simp only [ha1]
    · intro key
      have hk := hall key
      simp only [TripPathController.known, TripPathController.enabled,
        TripPathController.disabled, hf key, hdisable] at hk ⊢
      cases hc : TripPathController.find controller.attributes key with
      | none =>
        by_cases hm : key ∈ names
        · exact absurd hc (hk hm)
        · simp [hm]
      | some v => by_cases hm : key ∈ names <;> simp [hm]
  · intro names hall
    obtain ⟨a1, ha1, hf⟩ := TripPathController.assign_all_ok false names
      (enable_all controller).attributes (fun n hn => (hke n).mpr (hall n hn))
    refine ⟨{ enable_all controller with attributes := a1 }, ?_, ?_⟩
    · unfold thor_worker_t.filter_attributes
      simp only [Option.getD_some]
      rw [if_neg (by decide), if_pos (by decide)]
      simp only [ha1]
    · intro key
      have hk := hall key
      simp only [TripPathController.known, TripPathController.enabled,
        TripPathController.disabled, hf key, henable] at hk ⊢
      cases hc : TripPathController.find controller.attributes key with
      | none =>
        by_cases hm : key ∈ names
        · exact absurd hc (hk hm)
        · simp [hm]
      | some v => by_cases hm : key ∈ names <;> simp [hm]
  · intro action names h1 h2
    refine ⟨enable_all controller, ?_, ?_⟩
    · have e1 : ¬ action.getD "" = "include" := by
        cases action with
        | none => decide
        | some a => intro e; exact h1 (by simpa using e)
      have e2 : ¬ action.getD "" = "exclude" := by
        cases action with
        | none => decide
        | some a => intro e; exact h2 (by simpa using e)
      unfold thor_worker_t.filter_attributes
      simp only []
      rw [if_neg (fun h => e1 h.2), if_neg (fun h => e2 h.2)]
    · intro key
      simp only [TripPathController.known, TripPathController.enabled, henable]
      cases hc : TripPathController.find controller.attributes key <;> simp
  · intro action pre bad post hact hpre hbad
    simp only [TripPathController.known, ne_eq, not_not] at hbad
    rcases hact with e | e
    · subst e
      have := TripPathController.assign_all_error true bad post pre
        (disable_all controller).attributes (fun n hn => (hkd n).mpr (hpre n hn))
        (by rw [hdisable, hbad]; rfl)
      unfold thor_worker_t.filter_attributes
      simp only [Option.getD_some]
      rw [if_pos (by decide)]
      simp only [this]
    · subst e
      have := TripPathController.assign_all_error false bad post pre
        (enable_all controller).attributes (fun n hn => (hke n).mpr (hpre n hn))
        (by rw [henable, hbad]; rfl)
      unfold thor_worker_t.filter_attributes
      simp only [Option.getD_some]
      rw [if_neg (by decide), if_pos (by decide)]
      simp only [this]

/-- The controller with the keys `edge.names`, `edge.length` and `node.elapsed_time`:
`include` of `edge.length` leaves only that key enabled, `exclude` of it leaves only that
key disabled, a request without action enables all three, and `include` of the unknown
name `edge.colour` after a known one fails. -/
theorem thor_worker_t.filter_attributes_spec_witness :
    (thor_worker_t.filter_attributes (TripPathController.set_all true)
        (TripPathController.set_all false) ⟨some "include", some ["edge.length"]⟩
        sampleController =
      .ok ⟨[("edge.names", false), ("edge.length", true), ("node.elapsed_time", false)]⟩ ∧
     ∃ c1, thor_worker_t.filter_attributes (TripPathController.set_all true)
          (TripPathController.set_all false) ⟨some "include", some ["edge.length"]⟩
          sampleController = .ok c1 ∧
        ∀ key, (c1.known key ↔ sampleController.known key) ∧
          (sampleController.known key → (c1.enabled key ↔ key ∈ ["edge.length"]) ∧
            (c1.disabled key ↔ key ∉ ["edge.length"]))) ∧
    (thor_worker_t.filter_attributes (TripPathController.set_all true)
        (TripPathController.set_all false) ⟨some "exclude", some ["edge.length"]⟩
        sampleController =
      .ok ⟨[("edge.names", true), ("edge.length", false), ("node.elapsed_time", true)]⟩ ∧
     ∃ c1, thor_worker_t.filter_attributes (TripPathController.set_all true)
          (TripPathController.set_all false) ⟨some "exclude", some ["edge.length"]⟩
          sampleController = .ok c1 ∧
        ∀ key, (c1.known key ↔ sampleController.known key) ∧
          (sampleController.known key → (c1.disabled key ↔ key ∈ ["edge.length"]) ∧
            (c1.enabled key ↔ key ∉ ["edge.length"]))) ∧
    (thor_worker_t.filter_attributes (TripPathController.set_all true)
        (TripPathController.set_all false) ⟨none, none⟩ sampleController =
      .ok ⟨[("edge.names", true), ("edge.length", true), ("node.elapsed_time", true)]⟩ ∧
     ∃ c1, thor_worker_t.filter_attributes (TripPathController.set_all true)
          (TripPathController.set_all false) ⟨none, none⟩ sampleController = .ok c1 ∧
        ∀ key, (c1.known key ↔ sampleController.known key) ∧
          (sampleController.known key → c1.enabled key)) ∧
    thor_worker_t.filter_attributes (TripPathController.set_all true)
      (TripPathController.set_all false)
      ⟨some "include", some (["edge.names"] ++ "edge.colour" :: ["edge.length"])⟩
      sampleController = .error (.out_of_range "edge.colour") :=
  ⟨⟨by decide,
      (thor_worker_t.filter_attributes_spec (TripPathController.set_all true)
        (TripPathController.set_all false) (TripPathController.find_set_all true)
        (TripPathController.find_set_all false) sampleController).1 ["edge.length"]
        (by decide)⟩,
    ⟨by decide,
      (thor_worker_t.filter_attributes_spec (TripPathController.set_all true)
        (TripPathController.set_all false) (TripPathController.find_set_all true)
        (TripPathController.find_set_all false) sampleController).2.1 ["edge.length"]
        (by decide)⟩,
    ⟨by decide,
      (thor_worker_t.filter_attributes_spec (TripPathController.set_all true)
        (TripPathController.set_all false) (TripPathController.find_set_all true)
        (TripPathController.find_set_all false) sampleController).2.2.1 none none
        (by decide) (by decide)⟩,
    (thor_worker_t.filter_attributes_spec (TripPathController.set_all true)
      (TripPathController.set_all false) (TripPathController.find_set_all true)
      (TripPathController.find_set_all false) sampleController).2.2.2 "include"
      ["edge.names"] "edge.colour" ["edge.length"] (Or.inl rfl) (by decide) (by decide)⟩

end valhalla.mjolnir
